import Mathlib

/-! # Time-stepping orchestration of `ProcessLib::TimeLoop`

A shallow embedding of `src/ProcessLib/TimeLoop.cpp`.

* `double` values are rationals (`ℚ`): arithmetic is taken as exact.
* `OGS_FATAL` is `Except.error`; a normal return is `Except.ok`.
* Objects whose classes are not part of the sources (time step algorithms,
  nonlinear solvers, processes, convergence criteria, output sinks) are
  taken as parameters: their value-returning methods are fields of `Env`,
  their `void` methods are recorded in an event log and act on an abstract
  world `ω` through `Env.effect`.
* Logging (`INFO`, `WARN`, `DBUG`, `ERR`), run-time measurement and the
  vector pool (`GlobalVectorProvider`) are left out.
-/

set_option autoImplicit false

namespace MathLib

/-- The norm selector `MathLib::VecNormType` (only `NORM2` is named by the
time loop). -/
inductive VecNormType where
  | NORM1
  | NORM2
  | INFINITY_N
  | INVALID
deriving DecidableEq, Repr

end MathLib

/-- A global solution vector, `GlobalVector`. -/
abbrev GlobalVector := List ℚ

namespace MathLib.LinAlg

/-- The call `MathLib::LinAlg::axpy(y, a, x)`: the new value of `y`, which is
`a * x + y`. -/
def axpy (y : GlobalVector) (a : ℚ) (x : GlobalVector) : GlobalVector :=
  List.zipWith (fun yi xi => a * xi + yi) y x

end MathLib.LinAlg

namespace NumLib

/-- Modelled from the spec: the class `NumLib::TimeStep` (its header is not
part of the sources), a record of time, step number and acceptance flag. -/
structure TimeStep where
  time : ℚ
  timeStepNumber : Nat
  isAccepted : Bool
deriving DecidableEq, Repr

/-- The call `ts.setAccepted(accepted)`. -/
def TimeStep.setAccepted (ts : TimeStep) (accepted : Bool) : TimeStep :=
  { ts with isAccepted := accepted }

/-- The status `NumLib::NonlinearSolverStatus`; the field defaults are those
of the not yet solved status `{false, -1}` used by the staggered scheme. -/
structure NonlinearSolverStatus where
  error_norms_met : Bool := false
  number_iterations : Int := -1
deriving DecidableEq, Repr

/-- What a call of `TimeStepAlgorithm::next` leaves behind: the returned pair
`(accepted, dt)`, the algorithm object after the call and the two time steps
it received by reference. -/
structure NextResult (σ : Type) where
  accepted : Bool
  dt : ℚ
  algorithm : σ
  ts_previous : TimeStep
  ts_current : TimeStep

/-- What a call of `TimeStepAlgorithm::resetCurrentTimeStep` leaves behind. -/
structure ResetResult (σ : Type) where
  algorithm : σ
  ts_previous : TimeStep
  ts_current : TimeStep

/-- The tag `NumLib::NonlinearSolverTag` of a time discretized ODE
system. -/
inductive NonlinearSolverTag where
  | Picard
  | Newton
deriving DecidableEq, Repr

/-- The dynamic type of a nonlinear solver, as the casts of
`setTimeDiscretizedODESystem` tell it: `NonlinearSolver<Picard>`,
`NonlinearSolver<Newton>`, `PETScNonlinearSolver`, or another class derived
from `NonlinearSolverBase`. -/
inductive NonlinearSolverKind where
  | Picard
  | Newton
  | PETScNonlinearSolver
  | other
deriving DecidableEq, Repr

/-- The interface `NumLib::TimeStepAlgorithm` over objects of type `σ`. -/
structure TimeStepAlgorithm (σ : Type) where
  begin : σ → ℚ
  end_ : σ → ℚ
  isSolutionErrorComputationNeeded : σ → Bool
  next : σ → ℚ → Int → TimeStep → TimeStep → NextResult σ
  resetCurrentTimeStep : σ → ℚ → TimeStep → TimeStep → ResetResult σ
  canReduceTimestepSize : σ → TimeStep → TimeStep → Bool

end NumLib

namespace ProcessLib

open NumLib

/-- The value `std::numeric_limits<double>::epsilon()`, which is `2⁻⁵²`. -/
def eps : ℚ := 1 / ((2 ^ 52 : ℕ) : ℚ)

/-- The value `std::numeric_limits<double>::max()`. -/
def DBL_MAX : ℚ := (((2 ^ 53 - 1) * 2 ^ 971 : ℕ) : ℚ)

/-- An output sink, `ProcessLib::Output`, as far as the time loop reads it. -/
structure Output where
  fixed_output_times : List ℚ
deriving DecidableEq, Repr

/-- The members of `ProcessLib::ProcessData` that the time loop owns or
reads; `conv_crit` is the norm type of the process's convergence criterion,
when there is one. The process, its nonlinear solver and its time
discretization are references to objects of the world `ω`; of them the
record keeps what the casts of `TimeLoop.cpp` read: the dynamic type of the
solver, whether the process is a Newton-ready ODE system, and whether the
convergence criterion is a `ConvergenceCriterionPerComponent`. The member
`tdisc_ode_sys` is the tag of the time discretized ODE system that is
installed, if one is. -/
structure ProcessData (σ : Type) where
  process_id : Nat
  timestep_previous : TimeStep
  timestep_current : TimeStep
  nonlinear_solver_status : NonlinearSolverStatus
  timestep_algorithm : σ
  conv_crit : Option MathLib.VecNormType
  nonlinear_solver : NonlinearSolverKind
  process_is_newton_ode : Bool
  conv_crit_per_component : Bool
  tdisc_ode_sys : Option NonlinearSolverTag

/-- A call of a `void` method of an external object, with its arguments. -/
inductive Event where
  | preTimestep (process_id : Nat) (x : List GlobalVector) (t dt : ℚ)
  | setEquationSystem (process_id : Nat)
  | nextTimestep (process_id : Nat) (t dt : ℚ)
  | solve (process_id : Nat) (timestep : Nat) (t : ℚ) (x : List GlobalVector)
      (result : GlobalVector)
  | postNonLinearSolver (process_id : Nat) (x x_dot : GlobalVector) (t dt : ℚ)
  | setCoupledSolutionsForStaggeredScheme (process_id : Nat)
      (x : List GlobalVector)
  | doOutputAlways (output : Nat) (process_id : Nat) (timestep : Nat) (t : ℚ)
      (iterations : Int) (x : List GlobalVector)
  | preFirstIteration (criterion : Nat)
  | reset (criterion : Nat)
  | checkDeltaX (criterion : Nat) (minus_delta_x x : GlobalVector)
  | solveReactionEquation (process_id : Nat) (x x_prev : List GlobalVector)
      (t dt : ℚ)
  | computeSecondaryVariable (process_id : Nat) (t dt : ℚ)
      (x : List GlobalVector) (x_dot : GlobalVector)
  | postTimestep (process_id : Nat) (x x_dots : List GlobalVector) (t dt : ℚ)
  | addProcess (output : Nat) (process_id : Nat)
  | setDOFTable (process_id : Nat)
  | setInitialConditions (process_id : Nat) (t0 : ℚ)
  | setInitialState (process_id : Nat) (t0 : ℚ)
  | updateDeactivatedSubdomains (process_id : Nat) (t : ℚ)
  | calculateNonEquilibriumInitialResiduum (process_id : Nat)
      (x x_prev : List GlobalVector)
  | setCoupledTermForTheStaggeredSchemeToLocalAssemblers (process_id : Nat)
  | doOutput (output : Nat) (process_id : Nat) (timestep : Nat) (t : ℚ)
      (iterations : Int) (x : List GlobalVector)
  | doOutputLastTimestep (output : Nat) (process_id : Nat) (timestep : Nat)
      (t : ℚ) (iterations : Int) (x : List GlobalVector)
deriving DecidableEq, Repr

/-- What `NonlinearSolver::solve` leaves behind: the status, the new value of
the solution `x[process_id]` and the world. -/
structure SolveResult (ω : Type) where
  status : NonlinearSolverStatus
  x : GlobalVector
  world : ω

/-- The external collaborators of the time loop. `σ` is the type of the time
step algorithm objects, `ω` the state of all other external objects. -/
structure Env (σ ω : Type) where
  /-- the virtual methods of the time step algorithms -/
  timestep_algorithm : TimeStepAlgorithm σ
  /-- the call `NumLib::updateTimeSteps(dt, previous, current)`: the new pair -/
  updateTimeSteps : ℚ → TimeStep → TimeStep → TimeStep × TimeStep
  /-- the call `NumLib::computeRelativeChangeFromPreviousTimestep(x, x_prev, norm)` -/
  computeRelativeChangeFromPreviousTimestep :
    GlobalVector → GlobalVector → MathLib.VecNormType → ℚ
  /-- the call `NumLib::possiblyClampDtToNextFixedTime(t, dt, fixed_times)` -/
  possiblyClampDtToNextFixedTime : ℚ → ℚ → List ℚ → ℚ
  /-- the call `nonlinear_solver.solve(x, x_prev, callback, process_id)` at
  time step `timestep` and time `t` (both reach the solver through the
  output callback); of the solutions it changes `x[process_id]` only, as the
  contract of a process demands -/
  solve : ω → Nat → Nat → ℚ → List GlobalVector → List GlobalVector →
    SolveResult ω
  /-- the call `time_disc.getXdot(x, x_prev, x_dot)` of process `process_id`: the
  new `x_dot` -/
  getXdot : ω → Nat → GlobalVector → GlobalVector → GlobalVector
  /-- the call `_global_coupling_conv_crit[i]->isSatisfied()` -/
  isSatisfied : ω → Nat → Bool
  /-- the call `process.solveReactionEquation(x, x_prev, t, dt, ode_sys,
  process_id)`: the solutions `x` after the call -/
  solveReactionEquation : ω → Nat → List GlobalVector → List GlobalVector →
    ℚ → ℚ → List GlobalVector
  /-- the call `process.setInitialConditions(x, x_prev, t0, process_id)`:
  the two solution lists after the call -/
  setInitialConditions : ω → Nat → List GlobalVector → List GlobalVector → ℚ →
    List GlobalVector × List GlobalVector
  /-- the build option `USE_PETSC` -/
  USE_PETSC : Bool
  /-- the call `process.isMonolithicSchemeUsed()` of process `process_id` -/
  isMonolithicSchemeUsed : ω → Nat → Bool
  /-- the effect of a `void` call on the external objects -/
  effect : Event → ω → ω

/-- The data members of `ProcessLib::TimeLoop`, together with the world of
external objects and the log of the calls made on them. -/
structure TimeLoop (σ ω : Type) where
  _outputs : List Output
  _per_process_data : List (ProcessData σ)
  _process_solutions : List GlobalVector
  _process_solutions_prev : List GlobalVector
  _solutions_of_last_cpl_iteration : List GlobalVector
  _start_time : ℚ
  _end_time : ℚ
  _current_time : ℚ
  _accepted_steps : Nat
  _rejected_steps : Nat
  _dt : ℚ
  _repeating_times_of_rejected_step : Nat
  _last_step_rejected : Bool
  _global_coupling_max_iterations : Int
  /-- number of entries of `_global_coupling_conv_crit` -/
  _global_coupling_conv_crit : Nat
  successful_time_step : Bool
  world : ω
  log : List Event

variable {σ ω : Type}

/-- The lambda `computeSolutionError` of `computeTimeStepping`, for the
process at position `i`. -/
def computeSolutionError (E : Env σ ω) (x x_prev : List GlobalVector) (t : ℚ)
    (i : Nat) (ppd : ProcessData σ) : ℚ :=
  if !E.timestep_algorithm.isSolutionErrorComputationNeeded
      ppd.timestep_algorithm then 0
  else if t = E.timestep_algorithm.begin ppd.timestep_algorithm then 0
  else
    let norm_type := match ppd.conv_crit with
      | some n => n
      | none => MathLib.VecNormType.NORM2
    E.computeRelativeChangeFromPreviousTimestep (x.getD i []) (x_prev.getD i [])
      norm_type

/-- The call of `timestep_algorithm->next` made for the process at position
`i` in the first loop of `computeTimeStepping`. -/
def callNext (E : Env σ ω) (x x_prev : List GlobalVector) (t : ℚ)
    (i : Nat) (ppd : ProcessData σ) : NextResult σ :=
  E.timestep_algorithm.next ppd.timestep_algorithm
    (computeSolutionError E x x_prev t i ppd)
    ppd.nonlinear_solver_status.number_iterations
    ppd.timestep_previous
    (ppd.timestep_current.setAccepted ppd.nonlinear_solver_status.error_norms_met)

/-- The local variables `all_process_steps_accepted` and `dt` of
`computeTimeStepping`. -/
structure StepVars where
  all_process_steps_accepted : Bool
  dt : ℚ
deriving DecidableEq, Repr

/-- The body of the first loop of `computeTimeStepping` (lines 347-385) for
the process at position `i`: the process data and the local variables after
the iteration. -/
def firstLoopBody (E : Env σ ω) (x x_prev : List GlobalVector) (t : ℚ)
    (i : Nat) (ppd : ProcessData σ) (v : StepVars) :
    ProcessData σ × StepVars :=
  let r := callNext E x x_prev t i ppd
  let ppd1 : ProcessData σ :=
    { ppd with timestep_algorithm := r.algorithm
               timestep_previous := r.ts_previous
               timestep_current := r.ts_current }
  let a1 : Bool :=
    if !r.accepted ∧ t + eps < E.timestep_algorithm.end_ r.algorithm then false
    else v.all_process_steps_accepted
  let a2 : Bool :=
    if !ppd1.nonlinear_solver_status.error_norms_met then false else a1
  let dt1 : ℚ :=
    if r.dt > eps ∨ |t - E.timestep_algorithm.end_ r.algorithm| < eps
    then min r.dt v.dt else v.dt
  (ppd1, { all_process_steps_accepted := a2, dt := dt1 })

/-- The first loop of `computeTimeStepping`, from position `i` on. -/
def firstLoop (E : Env σ ω) (x x_prev : List GlobalVector) (t : ℚ) :
    Nat → List (ProcessData σ) → StepVars → List (ProcessData σ) × StepVars
  | _, [], v => ([], v)
  | i, ppd :: rest, v =>
    let b := firstLoopBody E x x_prev t i ppd v
    let r := firstLoop E x x_prev t (i + 1) rest b.2
    (b.1 :: r.1, r.2)

/-- The process data and the two solution lists, as the second loop of
`computeTimeStepping` changes them. -/
structure Buffers (σ : Type) where
  per_process_data : List (ProcessData σ)
  x : List GlobalVector
  x_prev : List GlobalVector

/-- The body of the second loop of `computeTimeStepping` (lines 442-476) for
the process at position `i`: the process data and the solution lists after
the iteration. -/
def secondLoopBody (E : Env σ ω) (all_process_steps_accepted : Bool)
    (t end_time dt : ℚ) (i : Nat) (ppd : ProcessData σ)
    (x x_prev : List GlobalVector) :
    ProcessData σ × List GlobalVector × List GlobalVector :=
  let ppd1 : ProcessData σ :=
    if all_process_steps_accepted then
      let u := E.updateTimeSteps dt ppd.timestep_previous ppd.timestep_current
      let r := E.timestep_algorithm.resetCurrentTimeStep ppd.timestep_algorithm
        dt u.1 u.2
      { ppd with timestep_algorithm := r.algorithm
                 timestep_previous := r.ts_previous
                 timestep_current := r.ts_current }
    else ppd
  if t = E.timestep_algorithm.begin ppd1.timestep_algorithm then
    (ppd1, x, x_prev)
  else if all_process_steps_accepted then
    (ppd1, x, x_prev.set i (x.getD i []))
  else if t < end_time ∨ |t - end_time| < eps then
    (ppd1, x.set i (x_prev.getD i []), x_prev)
  else
    (ppd1, x, x_prev)

/-- The second loop of `computeTimeStepping`, from position `i` on. -/
def secondLoop (E : Env σ ω) (all_process_steps_accepted : Bool)
    (t end_time dt : ℚ) :
    Nat → List (ProcessData σ) → List GlobalVector → List GlobalVector →
      Buffers σ
  | _, [], x, x_prev => { per_process_data := [], x := x, x_prev := x_prev }
  | i, ppd :: rest, x, x_prev =>
    let b := secondLoopBody E all_process_steps_accepted t end_time dt i ppd
      x x_prev
    let r := secondLoop E all_process_steps_accepted t end_time dt (i + 1) rest
      b.2.1 b.2.2
    { r with per_process_data := b.1 :: r.per_process_data }

/-- The loop over the external `time_step_constraints` (lines 416-419). -/
def applyTimeStepConstraints (time_step_constraints : List (ℚ → ℚ → ℚ))
    (t dt : ℚ) : ℚ :=
  time_step_constraints.foldl (fun d c => min d (c t d)) dt

/-- What `computeTimeStepping` returns and leaves in its reference
parameters `t`, `accepted_steps` and `rejected_steps`. -/
structure TimeStepping (σ ω : Type) where
  dt : ℚ
  last_step_rejected : Bool
  t : ℚ
  accepted_steps : Nat
  rejected_steps : Nat
  time_loop : TimeLoop σ ω

/-- A fatal termination (`OGS_FATAL`): the message and the time loop as it
stands at the abort. -/
structure Fatal (σ ω : Type) where
  message : String
  time_loop : TimeLoop σ ω

/-- The message of the stalled step size abort. -/
def step_size_stalled : String :=
  "The new step size is the same as that of the previous rejected time step."

/-- The member function `TimeLoop::computeTimeStepping` (lines 303-479).
Both callers bind the reference parameters `t`, `accepted_steps` and
`rejected_steps` to the members `_current_time`, `_accepted_steps` and
`_rejected_steps` (lines 566 and 605): at the abort of line 426 the time
loop holds what lines 403, 408 and 409 have written through them. -/
def computeTimeStepping (E : Env σ ω) (tl : TimeLoop σ ω) (prev_dt t : ℚ)
    (accepted_steps rejected_steps : Nat)
    (time_step_constraints : List (ℚ → ℚ → ℚ)) :
    Except (Fatal σ ω) (TimeStepping σ ω) :=
  let is_initial_step : Bool :=
    tl._per_process_data.any (fun ppd => ppd.timestep_current.timeStepNumber == 0)
  let l1 := firstLoop E tl._process_solutions tl._process_solutions_prev t 0
    tl._per_process_data { all_process_steps_accepted := true, dt := DBL_MAX }
  let all_process_steps_accepted := l1.2.all_process_steps_accepted
  let repeating : Nat :=
    if all_process_steps_accepted then 0
    else tl._repeating_times_of_rejected_step + 1
  let accepted_steps1 : Nat :=
    if !is_initial_step ∧ all_process_steps_accepted then accepted_steps + 1
    else accepted_steps
  let last_step_rejected : Bool :=
    !is_initial_step && !all_process_steps_accepted &&
      decide (t < tl._end_time ∨ |t - tl._end_time| < eps)
  let t1 : ℚ := if last_step_rejected then t - prev_dt else t
  let rejected_steps1 : Nat :=
    if last_step_rejected then rejected_steps + 1 else rejected_steps
  let dt := applyTimeStepConstraints time_step_constraints t1 l1.2.dt
  if |dt - prev_dt| < eps ∧ last_step_rejected then
    Except.error
      { message := step_size_stalled
        time_loop :=
          { tl with _per_process_data := l1.1
                    _repeating_times_of_rejected_step := repeating
                    _current_time := t1
                    _accepted_steps := accepted_steps1
                    _rejected_steps := rejected_steps1 } }
  else
    let l2 := secondLoop E all_process_steps_accepted t1 tl._end_time dt 0
      l1.1 tl._process_solutions tl._process_solutions_prev
    Except.ok
      { dt := dt
        last_step_rejected := last_step_rejected
        t := t1
        accepted_steps := accepted_steps1
        rejected_steps := rejected_steps1
        time_loop :=
          { tl with _per_process_data := l2.per_process_data
                    _process_solutions := l2.x
                    _process_solutions_prev := l2.x_prev
                    _repeating_times_of_rejected_step := repeating } }

/-- The second constraint built by `generateOutputTimeStepConstraints`
(lines 507-514): do not step over the end time. -/
def endTimeConstraint (end_time : ℚ) (t dt : ℚ) : ℚ :=
  if t < end_time ∧ t + dt > end_time then end_time - t else dt

/-- The member function `TimeLoop::generateOutputTimeStepConstraints`
(lines 497-516). -/
def generateOutputTimeStepConstraints (E : Env σ ω) (tl : TimeLoop σ ω)
    (fixed_times : List ℚ) : List (ℚ → ℚ → ℚ) :=
  [fun t dt => E.possiblyClampDtToNextFixedTime t dt fixed_times,
   endTimeConstraint tl._end_time]

/-- A `void` call on an external object: it acts on the world and is
appended to the log. -/
def call (E : Env σ ω) (e : Event) (tl : TimeLoop σ ω) : TimeLoop σ ω :=
  { tl with world := E.effect e tl.world, log := tl.log ++ [e] }

/-- The assignment `process_data->nonlinear_solver_status = status` for the
process at position `i`. -/
def storeStatus (i : Nat) (status : NonlinearSolverStatus)
    (tl : TimeLoop σ ω) : TimeLoop σ ω :=
  let store : ProcessData σ → ProcessData σ :=
    fun process_data => { process_data with nonlinear_solver_status := status }
  { tl with _per_process_data := List.modify store i tl._per_process_data }

/-- The function `solveOneTimeStepOneProcess` (lines 223-271), called on the
solution lists of the time loop. -/
def solveOneTimeStepOneProcess (E : Env σ ω) (tl : TimeLoop σ ω)
    (timestep : Nat) (t delta_t : ℚ) (process_data : ProcessData σ) :
    NonlinearSolverStatus × TimeLoop σ ω :=
  let process_id := process_data.process_id
  let tl1 := call E (Event.setEquationSystem process_id) tl
  let tl2 := call E (Event.nextTimestep process_id t delta_t) tl1
  let r := E.solve tl2.world process_id timestep t tl2._process_solutions
    tl2._process_solutions_prev
  let tl3 : TimeLoop σ ω :=
    { tl2 with world := r.world
               log := tl2.log ++ [Event.solve process_id timestep t
                 tl2._process_solutions r.x]
               _process_solutions := tl2._process_solutions.set process_id r.x }
  if !r.status.error_norms_met then (r.status, tl3)
  else
    let x := tl3._process_solutions.getD process_id []
    let x_prev := tl3._process_solutions_prev.getD process_id []
    let x_dot := E.getXdot tl3.world process_id x x_prev
    (r.status, call E (Event.postNonLinearSolver process_id x x_dot t delta_t) tl3)

/-- The function `solveMonolithicProcess` (lines 684-700). -/
def solveMonolithicProcess (E : Env σ ω) (tl : TimeLoop σ ω) (t dt : ℚ)
    (timestep_id : Nat) (process_data : ProcessData σ) :
    NonlinearSolverStatus × TimeLoop σ ω :=
  solveOneTimeStepOneProcess E tl timestep_id t dt process_data

/-- The constant `timestepper_cannot_reduce_dt`. -/
def timestepper_cannot_reduce_dt : String :=
  "Time stepper cannot reduce the time step size further."

/-- The loop over `_outputs` that saves the unsuccessful solution (lines
733-739), from output number `k` on. -/
def doOutputAlwaysForAll (E : Env σ ω) (process_id timestep_id : Nat) (t : ℚ)
    (iterations : Int) : Nat → List Output → TimeLoop σ ω → TimeLoop σ ω
  | _, [], tl => tl
  | k, _ :: rest, tl =>
    doOutputAlwaysForAll E process_id timestep_id t iterations (k + 1) rest
      (call E (Event.doOutputAlways k process_id timestep_id t iterations
        tl._process_solutions) tl)

/-- The loop of `solveUncoupledEquationSystems` (lines 713-745) from position
`i` on; `status` is the local `nonlinear_solver_status`. -/
def solveUncoupledLoop (E : Env σ ω) (t dt : ℚ) (timestep_id : Nat) :
    Nat → List (ProcessData σ) → NonlinearSolverStatus → TimeLoop σ ω →
      Except (Fatal σ ω) (NonlinearSolverStatus × TimeLoop σ ω)
  | _, [], status, tl => Except.ok (status, tl)
  | i, process_data :: rest, _, tl =>
    let r := solveMonolithicProcess E tl t dt timestep_id process_data
    let tl1 := storeStatus i r.1 r.2
    if !r.1.error_norms_met then
      if !E.timestep_algorithm.canReduceTimestepSize
          process_data.timestep_algorithm process_data.timestep_current
          process_data.timestep_previous then
        Except.error
          { message := timestepper_cannot_reduce_dt
            time_loop := doOutputAlwaysForAll E process_data.process_id
              timestep_id t r.1.number_iterations 0 tl1._outputs tl1 }
      else Except.ok (r.1, tl1)
    else solveUncoupledLoop E t dt timestep_id (i + 1) rest r.1 tl1

/-- The member function `TimeLoop::solveUncoupledEquationSystems` (lines
705-748). -/
def solveUncoupledEquationSystems (E : Env σ ω) (tl : TimeLoop σ ω)
    (t dt : ℚ) (timestep_id : Nat) :
    Except (Fatal σ ω) (NonlinearSolverStatus × TimeLoop σ ω) :=
  solveUncoupledLoop E t dt timestep_id 0 tl._per_process_data {} tl

/-- A loop over the global coupling convergence criteria that makes the same
call on each of them, from criterion `k` on, `n` criteria. -/
def forAllCriteria (E : Env σ ω) (e : Nat → Event) :
    Nat → Nat → TimeLoop σ ω → TimeLoop σ ω
  | _, 0, tl => tl
  | k, n + 1, tl => forAllCriteria E e (k + 1) n (call E (e k) tl)

/-- The lambda `resetCouplingConvergenceCriteria`. -/
def resetCouplingConvergenceCriteria (E : Env σ ω) (tl : TimeLoop σ ω) :
    TimeLoop σ ω :=
  forAllCriteria E Event.reset 0 tl._global_coupling_conv_crit tl

/-- How a loop of the staggered scheme is left: `returned` tells that the
function returned from inside the loop. -/
structure Coupling (σ ω : Type) where
  returned : Bool
  coupling_iteration_converged : Bool
  nonlinear_solver_status : NonlinearSolverStatus
  time_loop : TimeLoop σ ω

/-- The loop over the processes in one coupling iteration (lines 781-835),
from position `i` on. -/
def couplingIterationLoop (E : Env σ ω) (t dt : ℚ) (timestep_id : Nat)
    (global_coupling_iteration : Nat) :
    Nat → List (ProcessData σ) → Bool → NonlinearSolverStatus → TimeLoop σ ω →
      Coupling σ ω
  | _, [], converged, status, tl =>
    { returned := false, coupling_iteration_converged := converged,
      nonlinear_solver_status := status, time_loop := tl }
  | i, process_data :: rest, converged, _, tl =>
    let process_id := process_data.process_id
    let tl1 := call E (Event.setCoupledSolutionsForStaggeredScheme process_id
      tl._process_solutions) tl
    let r := solveOneTimeStepOneProcess E tl1 timestep_id t dt process_data
    let tl2 := storeStatus i r.1 r.2
    if !r.1.error_norms_met then
      { returned := true, coupling_iteration_converged := converged,
        nonlinear_solver_status := r.1,
        time_loop := { tl2 with _last_step_rejected := true } }
    else
      let x := tl2._process_solutions.getD process_id []
      let x_old := tl2._solutions_of_last_cpl_iteration.getD process_id []
      if 0 < global_coupling_iteration then
        let minus_dx := MathLib.LinAlg.axpy x_old (-1) x
        let tl3 := call E (Event.checkDeltaX process_id minus_dx x) tl2
        let converged1 := converged && E.isSatisfied tl3.world process_id
        couplingIterationLoop E t dt timestep_id global_coupling_iteration
          (i + 1) rest converged1 r.1
          { tl3 with _solutions_of_last_cpl_iteration :=
              tl3._solutions_of_last_cpl_iteration.set process_id x }
      else
        couplingIterationLoop E t dt timestep_id global_coupling_iteration
          (i + 1) rest converged r.1
          { tl2 with _solutions_of_last_cpl_iteration :=
              tl2._solutions_of_last_cpl_iteration.set process_id x }

/-- The coupling loop (lines 773-846) with `n` iterations left before
`global_coupling_iteration` reaches `_global_coupling_max_iterations`. -/
def couplingLoop (E : Env σ ω) (t dt : ℚ) (timestep_id : Nat) :
    Nat → Nat → Bool → NonlinearSolverStatus → TimeLoop σ ω → Coupling σ ω
  | 0, _, converged, status, tl =>
    { returned := false, coupling_iteration_converged := converged,
      nonlinear_solver_status := status, time_loop := tl }
  | n + 1, global_coupling_iteration, _, status, tl =>
    let r := couplingIterationLoop E t dt timestep_id global_coupling_iteration
      0 tl._per_process_data true status tl
    if r.returned then r
    else if r.coupling_iteration_converged ∧ 0 < global_coupling_iteration then
      r
    else if !r.nonlinear_solver_status.error_norms_met then
      { r with returned := true }
    else
      couplingLoop E t dt timestep_id n (global_coupling_iteration + 1)
        r.coupling_iteration_converged r.nonlinear_solver_status
        (resetCouplingConvergenceCriteria E r.time_loop)

/-- The loop that calls `solveReactionEquation` for every process (lines
857-865). -/
def solveReactionEquations (E : Env σ ω) (t dt : ℚ) :
    List (ProcessData σ) → TimeLoop σ ω → TimeLoop σ ω
  | [], tl => tl
  | process_data :: rest, tl =>
    solveReactionEquations E t dt rest
      (call E (Event.solveReactionEquation process_data.process_id
        tl._process_solutions tl._process_solutions_prev t dt)
        { tl with _process_solutions :=
            (E.solveReactionEquation tl.world process_data.process_id
              tl._process_solutions tl._process_solutions_prev t dt) })

/-- The member function `TimeLoop::solveCoupledEquationSystemsByStaggeredScheme`
(lines 750-869). -/
def solveCoupledEquationSystemsByStaggeredScheme (E : Env σ ω)
    (tl : TimeLoop σ ω) (t dt : ℚ) (timestep_id : Nat) :
    NonlinearSolverStatus × TimeLoop σ ω :=
  let tl1 :=
    if tl._global_coupling_max_iterations ≠ 0 then
      forAllCriteria E Event.preFirstIteration 0 tl._global_coupling_conv_crit tl
    else tl
  let r := couplingLoop E t dt timestep_id
    tl._global_coupling_max_iterations.toNat 0 true
    { error_norms_met := false, number_iterations := -1 } tl1
  if r.returned then (r.nonlinear_solver_status, r.time_loop)
  else
    (r.nonlinear_solver_status,
      solveReactionEquations E t dt r.time_loop._per_process_data r.time_loop)

/-- The function `preTimestepForAllProcesses` (lines 45-56). -/
def preTimestepForAllProcesses (E : Env σ ω) (t dt : ℚ) :
    List (ProcessData σ) → TimeLoop σ ω → TimeLoop σ ω
  | [], tl => tl
  | process_data :: rest, tl =>
    preTimestepForAllProcesses E t dt rest
      (call E (Event.preTimestep process_data.process_id tl._process_solutions
        t dt) tl)

/-- The first loop of `postTimestepForAllProcesses` (lines 70-83): a vector
is appended to `x_dots` and the time derivative of the process is written to
`x_dots[process_id]`. -/
def collectXdots (E : Env σ ω) (tl : TimeLoop σ ω) :
    List (ProcessData σ) → List GlobalVector → List GlobalVector
  | [], x_dots => x_dots
  | process_data :: rest, x_dots =>
    let process_id := process_data.process_id
    collectXdots E tl rest
      ((x_dots ++ [[]]).set process_id
        (E.getXdot tl.world process_id
          (tl._process_solutions.getD process_id [])
          (tl._process_solutions_prev.getD process_id [])))

/-- The second loop of `postTimestepForAllProcesses` (lines 89-104). -/
def postTimestepLoop (E : Env σ ω) (t dt : ℚ) (is_staggered_coupling : Bool)
    (x_dots : List GlobalVector) :
    List (ProcessData σ) → TimeLoop σ ω → TimeLoop σ ω
  | [], tl => tl
  | process_data :: rest, tl =>
    let process_id := process_data.process_id
    let tl1 :=
      if is_staggered_coupling then
        call E (Event.setCoupledSolutionsForStaggeredScheme process_id
          tl._process_solutions) tl
      else tl
    let tl2 := call E (Event.computeSecondaryVariable process_id t dt
      tl1._process_solutions (x_dots.getD process_id [])) tl1
    let tl3 := call E (Event.postTimestep process_id tl2._process_solutions
      x_dots t dt) tl2
    postTimestepLoop E t dt is_staggered_coupling x_dots rest tl3

/-- The test `!isMonolithicProcess(*_per_process_data[0])`; the list of
processes is not empty when it is made. -/
def isStaggeredCoupling (E : Env σ ω) (tl : TimeLoop σ ω) : Bool :=
  match tl._per_process_data with
  | [] => false
  | process_data :: _ => !E.isMonolithicSchemeUsed tl.world process_data.process_id

/-- The function `postTimestepForAllProcesses` (lines 58-109). -/
def postTimestepForAllProcesses (E : Env σ ω) (t dt : ℚ)
    (tl : TimeLoop σ ω) : TimeLoop σ ω :=
  let x_dots := collectXdots E tl tl._per_process_data []
  postTimestepLoop E t dt (isStaggeredCoupling E tl) x_dots
    tl._per_process_data tl

/-- The member function `TimeLoop::doNonlinearIteration` (lines 651-682). -/
def doNonlinearIteration (E : Env σ ω) (tl : TimeLoop σ ω) (t dt : ℚ)
    (timesteps : Nat) : Except (Fatal σ ω) (Bool × TimeLoop σ ω) :=
  let tl1 := preTimestepForAllProcesses E t dt tl._per_process_data tl
  let solved : Except (Fatal σ ω) (NonlinearSolverStatus × TimeLoop σ ω) :=
    if isStaggeredCoupling E tl1 then
      Except.ok (solveCoupledEquationSystemsByStaggeredScheme E tl1 t dt timesteps)
    else solveUncoupledEquationSystems E tl1 t dt timesteps
  match solved with
  | Except.error f => Except.error f
  | Except.ok (nonlinear_solver_status, tl2) =>
    if nonlinear_solver_status.error_norms_met then
      Except.ok (true, postTimestepForAllProcesses E t dt tl2)
    else Except.ok (false, tl2)

/-! ### Set-up, output and the steps of the loop -/

/-- The message of the abort for a Newton solver on an ODE system that is
not Newton-ready (lines 154-156). -/
def non_newton_ready_ode : String :=
  "You are trying to solve a non-Newton-ready ODE with the Newton-Raphson method. Aborting"

/-- The message of the abort for an unknown solver type (line 161). -/
def unknown_nonlinear_solver : String :=
  "Encountered unknown nonlinear solver type. Aborting"

/-- The function template `setTimeDiscretizedODESystem(process_data, ode_sys)`
(lines 111-163): the process data with the time discretized ODE system
installed, or the message of the abort. `use_petsc` is the build option
`USE_PETSC`, `ode_sys_is_newton` tells whether `ode_sys` casts to the
Newton ODE system. -/
def setTimeDiscretizedODESystem (use_petsc : Bool)
    (process_data : ProcessData σ) (ode_sys_is_newton : Bool) :
    Except String (ProcessData σ) :=
  if process_data.nonlinear_solver = NonlinearSolverKind.Picard then
    Except.ok { process_data with tdisc_ode_sys := some NonlinearSolverTag.Picard }
  else if process_data.nonlinear_solver = NonlinearSolverKind.Newton ∨
      (use_petsc = true ∧
        process_data.nonlinear_solver = NonlinearSolverKind.PETScNonlinearSolver) then
    if ode_sys_is_newton then
      Except.ok { process_data with tdisc_ode_sys := some NonlinearSolverTag.Newton }
    else Except.error non_newton_ready_ode
  else Except.error unknown_nonlinear_solver

/-- The overload `setTimeDiscretizedODESystem(process_data)` (lines
165-168), which passes the process as the ODE system. -/
def setTimeDiscretizedODESystemOfProcess (E : Env σ ω)
    (process_data : ProcessData σ) : Except String (ProcessData σ) :=
  setTimeDiscretizedODESystem E.USE_PETSC process_data
    process_data.process_is_newton_ode

/-- A loop over `_outputs` that makes the same call on each of them, from
output number `k` on. -/
def forAllOutputs (E : Env σ ω) (e : Nat → Event) :
    Nat → List Output → TimeLoop σ ω → TimeLoop σ ω
  | _, [], tl => tl
  | k, _ :: rest, tl => forAllOutputs E e (k + 1) rest (call E (e k) tl)

/-- The second loop of `setInitialConditions` (lines 192-201). -/
def setInitialConditionsLoop (E : Env σ ω) (t0 : ℚ) :
    List (ProcessData σ) → TimeLoop σ ω → TimeLoop σ ω
  | [], tl => tl
  | process_data :: rest, tl =>
    let process_id := process_data.process_id
    let r := E.setInitialConditions tl.world process_id tl._process_solutions
      tl._process_solutions_prev t0
    let tl1 := call E (Event.setInitialConditions process_id t0)
      { tl with _process_solutions := r.1, _process_solutions_prev := r.2 }
    setInitialConditionsLoop E t0 rest
      (call E (Event.setInitialState process_id t0) tl1)

/-- The function `setInitialConditions` (lines 170-204), with the pair it
returns stored in the solution lists of the time loop. A vector that comes
from the vector pool is empty here. -/
def setInitialConditions (E : Env σ ω) (t0 : ℚ) (tl : TimeLoop σ ω) :
    TimeLoop σ ω :=
  setInitialConditionsLoop E t0 tl._per_process_data
    { tl with
      _process_solutions := tl._per_process_data.map (fun _ => [])
      _process_solutions_prev := tl._per_process_data.map (fun _ => []) }

/-- The member function `TimeLoop::setCoupledSolutions` (lines 288-301), from
the given process on. -/
def setCoupledSolutions : List (ProcessData σ) → TimeLoop σ ω → TimeLoop σ ω
  | [], tl => tl
  | process_data :: rest, tl =>
    setCoupledSolutions rest
      { tl with _solutions_of_last_cpl_iteration :=
          tl._solutions_of_last_cpl_iteration ++
            [tl._process_solutions.getD process_data.process_id []] }

/-- The function `updateDeactivatedSubdomains` (lines 29-39). -/
def updateDeactivatedSubdomains (E : Env σ ω) (t : ℚ) :
    List (ProcessData σ) → TimeLoop σ ω → TimeLoop σ ω
  | [], tl => tl
  | process_data :: rest, tl =>
    updateDeactivatedSubdomains E t rest
      (call E (Event.updateDeactivatedSubdomains process_data.process_id t) tl)

/-- The function `calculateNonEquilibriumInitialResiduum` (lines 206-221). -/
def calculateNonEquilibriumInitialResiduum (E : Env σ ω) :
    List (ProcessData σ) → TimeLoop σ ω → TimeLoop σ ω
  | [], tl => tl
  | process_data :: rest, tl =>
    let tl1 := call E (Event.setEquationSystem process_data.process_id) tl
    calculateNonEquilibriumInitialResiduum E rest
      (call E (Event.calculateNonEquilibriumInitialResiduum
        process_data.process_id tl1._process_solutions
        tl1._process_solutions_prev) tl1)

/-- The body of the loop of `outputSolutions` (lines 887-955) for one
process; `output_class_member` is the output method that is called. The
zero vector `x_dot` has the size of the solution of the process. -/
def outputSolutionsBody (E : Env σ ω) (output_initial_condition : Bool)
    (timestep : Nat) (t : ℚ)
    (output_class_member : Nat → Nat → Nat → ℚ → Int → List GlobalVector → Event)
    (is_staggered_coupling : Bool) (process_data : ProcessData σ)
    (tl : TimeLoop σ ω) : TimeLoop σ ω :=
  if !process_data.nonlinear_solver_status.error_norms_met then tl
  else
    let process_id := process_data.process_id
    let x_dot : GlobalVector :=
      List.replicate (tl._process_solutions.getD process_id []).length 0
    let tl1 :=
      if !is_staggered_coupling ∧ output_initial_condition then
        let a := call E (Event.nextTimestep process_id t 1) tl
        let b := call E (Event.preTimestep process_id a._process_solutions
          a._start_time 1) a
        call E (Event.computeSecondaryVariable process_id b._start_time 1
          b._process_solutions x_dot) b
      else tl
    let tl2 :=
      if is_staggered_coupling ∧ output_initial_condition then
        let a := call E (Event.setCoupledSolutionsForStaggeredScheme process_id
          tl1._process_solutions) tl1
        let b := call E
          (Event.setCoupledTermForTheStaggeredSchemeToLocalAssemblers process_id) a
        let c := call E (Event.nextTimestep process_id t 1) b
        let d := call E (Event.preTimestep process_id c._process_solutions
          c._start_time 1) c
        call E (Event.computeSecondaryVariable process_id d._start_time 1
          d._process_solutions x_dot) d
      else tl1
    forAllOutputs E
      (fun k => output_class_member k process_id timestep t
        process_data.nonlinear_solver_status.number_iterations
        tl2._process_solutions)
      0 tl2._outputs tl2

/-- The loop of `outputSolutions` over the processes. -/
def outputSolutionsLoop (E : Env σ ω) (output_initial_condition : Bool)
    (timestep : Nat) (t : ℚ)
    (output_class_member : Nat → Nat → Nat → ℚ → Int → List GlobalVector → Event)
    (is_staggered_coupling : Bool) :
    List (ProcessData σ) → TimeLoop σ ω → TimeLoop σ ω
  | [], tl => tl
  | process_data :: rest, tl =>
    outputSolutionsLoop E output_initial_condition timestep t
      output_class_member is_staggered_coupling rest
      (outputSolutionsBody E output_initial_condition timestep t
        output_class_member is_staggered_coupling process_data tl)

/-- The member function template `TimeLoop::outputSolutions` (lines
878-956). The parameter `timestep` is `unsigned` (line 880): the number that
the caller gives is taken modulo `2^32`. -/
def outputSolutions (E : Env σ ω) (output_initial_condition : Bool)
    (timestep : Nat) (t : ℚ)
    (output_class_member : Nat → Nat → Nat → ℚ → Int → List GlobalVector → Event)
    (tl : TimeLoop σ ω) : TimeLoop σ ω :=
  outputSolutionsLoop E output_initial_condition (timestep % 4294967296) t
    output_class_member (isStaggeredCoupling E tl) tl._per_process_data tl

/-- The call `std::unique` on a list: of each run of equal neighbours the
first is kept. -/
def unique : List ℚ → List ℚ
  | [] => []
  | [a] => [a]
  | a :: b :: rest => if a = b then unique (b :: rest) else a :: unique (b :: rest)

/-- The function `calculateUniqueFixedTimesForAllOutputs` (lines 481-495):
the fixed output times of all outputs, sorted, without repetitions. -/
def calculateUniqueFixedTimesForAllOutputs (outputs : List Output) : List ℚ :=
  unique
    ((outputs.foldl (fun fixed_times output =>
      fixed_times ++ output.fixed_output_times) []).insertionSort (· ≤ ·))

/-- The first loop of `TimeLoop::initialize` (lines 521-538), from position
`i` on. -/
def initializeLoop (E : Env σ ω) :
    Nat → List (ProcessData σ) → TimeLoop σ ω →
      Except (Fatal σ ω) (TimeLoop σ ω)
  | _, [], tl => Except.ok tl
  | i, process_data :: rest, tl =>
    let process_id := process_data.process_id
    let tl1 := forAllOutputs E (fun k => Event.addProcess k process_id) 0
      tl._outputs tl
    match setTimeDiscretizedODESystemOfProcess E process_data with
    | Except.error message =>
      Except.error { message := message, time_loop := tl1 }
    | Except.ok process_data1 =>
      let tl2 : TimeLoop σ ω :=
        { tl1 with _per_process_data := tl1._per_process_data.set i process_data1 }
      let tl3 :=
        if process_data.conv_crit_per_component then
          call E (Event.setDOFTable process_id) tl2
        else tl2
      initializeLoop E (i + 1) rest tl3

/-- The assignment of the pair that `computeTimeStepping` returns, and of
its reference parameters, to the members of the time loop (lines 565-567
and 604-606). -/
def storeTimeStepping (s : TimeStepping σ ω) : TimeLoop σ ω :=
  { s.time_loop with
    _dt := s.dt
    _last_step_rejected := s.last_step_rejected
    _current_time := s.t
    _accepted_steps := s.accepted_steps
    _rejected_steps := s.rejected_steps }

/-- The member function `TimeLoop::initialize` (lines 519-571). -/
def initializeTimeLoop (E : Env σ ω) (tl : TimeLoop σ ω) :
    Except (Fatal σ ω) (TimeLoop σ ω) :=
  match initializeLoop E 0 tl._per_process_data tl with
  | Except.error f => Except.error f
  | Except.ok tl1 =>
    let tl2 := setInitialConditions E tl1._start_time tl1
    let tl3 :=
      if isStaggeredCoupling E tl2 then
        setCoupledSolutions tl2._per_process_data tl2
      else tl2
    let tl4 := updateDeactivatedSubdomains E tl3._start_time
      tl3._per_process_data tl3
    let tl5 := outputSolutions E true 0 tl4._start_time Event.doOutput tl4
    let time_step_constraints := generateOutputTimeStepConstraints E tl5
      (calculateUniqueFixedTimesForAllOutputs tl5._outputs)
    match computeTimeStepping E tl5 0 tl5._current_time tl5._accepted_steps
        tl5._rejected_steps time_step_constraints with
    | Except.error f => Except.error f
    | Except.ok s =>
      let tl6 := storeTimeStepping s
      Except.ok
        (calculateNonEquilibriumInitialResiduum E tl6._per_process_data tl6)

/-- The member function `TimeLoop::executeTimeStep` (lines 573-591). -/
def executeTimeStep (E : Env σ ω) (tl : TimeLoop σ ω) :
    Except (Fatal σ ω) (Bool × TimeLoop σ ω) :=
  let tl1 : TimeLoop σ ω := { tl with _current_time := tl._current_time + tl._dt }
  let timesteps := tl1._accepted_steps + 1
  let tl2 := updateDeactivatedSubdomains E tl1._current_time
    tl1._per_process_data tl1
  match doNonlinearIteration E tl2 tl2._current_time tl2._dt timesteps with
  | Except.error f => Except.error f
  | Except.ok (successful, tl3) =>
    Except.ok (successful, { tl3 with successful_time_step := successful })

/-- The member function `TimeLoop::calculateNextTimeStep` (lines 593-632). -/
def calculateNextTimeStep (E : Env σ ω) (tl : TimeLoop σ ω) :
    Except (Fatal σ ω) (Bool × TimeLoop σ ω) :=
  let prev_dt := tl._dt
  let current_time := tl._current_time
  let timesteps := tl._accepted_steps + 1
  let time_step_constraints := generateOutputTimeStepConstraints E tl
    (calculateUniqueFixedTimesForAllOutputs tl._outputs)
  match computeTimeStepping E tl prev_dt tl._current_time tl._accepted_steps
      tl._rejected_steps time_step_constraints with
  | Except.error f => Except.error f
  | Except.ok s =>
    let tl1 := storeTimeStepping s
    let tl2 :=
      if !tl1._last_step_rejected then
        outputSolutions E false timesteps current_time Event.doOutput tl1
      else tl1
    if |tl2._current_time - tl2._end_time| < eps ∨
        tl2._current_time + tl2._dt > tl2._end_time then
      Except.ok (false, tl2)
    else if tl2._dt < eps then Except.ok (false, tl2)
    else Except.ok (true, tl2)

/-! ### The run of the time loop -/

/-- How a run of the time loop stands: whether `calculateNextTimeStep`
returned false, the message of the fatal termination if there was one, the
times at which steps
were accepted so far, and the time loop. -/
structure Run (σ ω : Type) where
  finished : Bool
  fatal : Option String
  accepted_times : List ℚ
  time_loop : TimeLoop σ ω

/-- The run of at most `n` passes of `executeTimeStep` followed by
`calculateNextTimeStep`, repeated for as long as the latter returns true. A
step is accepted in a pass when `_accepted_steps` is incremented in it; its
time is the `_current_time` at which it was solved. -/
def timeSteps (E : Env σ ω) :
    Nat → List ℚ → TimeLoop σ ω → Run σ ω
  | 0, accepted_times, tl =>
    { finished := false, fatal := none, accepted_times := accepted_times,
      time_loop := tl }
  | n + 1, accepted_times, tl =>
    match executeTimeStep E tl with
    | Except.error f =>
      { finished := false, fatal := some f.message,
        accepted_times := accepted_times, time_loop := f.time_loop }
    | Except.ok (_, tl1) =>
      match calculateNextTimeStep E tl1 with
      | Except.error f =>
        { finished := false, fatal := some f.message,
          accepted_times := accepted_times, time_loop := f.time_loop }
      | Except.ok (go_on, tl2) =>
        let accepted_times1 :=
          if tl2._accepted_steps = tl1._accepted_steps + 1 then
            accepted_times ++ [tl1._current_time]
          else accepted_times
        if go_on then timeSteps E n accepted_times1 tl2
        else
          { finished := true, fatal := none, accepted_times := accepted_times1,
            time_loop := tl2 }

/-- The run of the time loop: `TimeLoop::initialize` and then at most `n`
passes of `timeSteps`. -/
def run (E : Env σ ω) (n : Nat) (tl : TimeLoop σ ω) : Run σ ω :=
  match initializeTimeLoop E tl with
  | Except.error f =>
    { finished := false, fatal := some f.message, accepted_times := [],
      time_loop := f.time_loop }
  | Except.ok tl1 => timeSteps E n [] tl1

/-- An output call in a log: the output, the process, the time step and
the time. -/
structure OutputCall where
  output : Nat
  process_id : Nat
  timestep : Nat
  t : ℚ
deriving DecidableEq, Repr

/-- The `doOutput` calls in a log, in the order of the calls. -/
def doOutputEvents : List Event → List OutputCall
  | [] => []
  | Event.doOutput output process_id timestep t _ _ :: rest =>
    { output := output, process_id := process_id, timestep := timestep, t := t } ::
      doOutputEvents rest
  | _ :: rest => doOutputEvents rest

/-- The `doOutputAlways` calls in a log, in the order of the calls. -/
def doOutputAlwaysEvents : List Event → List OutputCall
  | [] => []
  | Event.doOutputAlways output process_id timestep t _ _ :: rest =>
    { output := output, process_id := process_id, timestep := timestep, t := t } ::
      doOutputAlwaysEvents rest
  | _ :: rest => doOutputAlwaysEvents rest

/-! ### What a stretch of the time loop changes -/

/-- The members of the time loop that hold the times and the counters. -/
structure Clock where
  start_time : ℚ
  end_time : ℚ
  current_time : ℚ
  dt : ℚ
  accepted_steps : Nat
  rejected_steps : Nat
deriving DecidableEq, Repr

/-- The times and the counters of a time loop. -/
def clock (tl : TimeLoop σ ω) : Clock :=
  { start_time := tl._start_time
    end_time := tl._end_time
    current_time := tl._current_time
    dt := tl._dt
    accepted_steps := tl._accepted_steps
    rejected_steps := tl._rejected_steps }

/-- The calls that are made between the begin of `doNonlinearIteration` and
the end of the scheme-specific solve when it returns: `preTimestep`, the
calls of `solveOneTimeStepOneProcess` and those of the coupling loop. -/
def isSolveStage : Event → Bool
  | Event.preTimestep _ _ _ _ => true
  | Event.setEquationSystem _ => true
  | Event.nextTimestep _ _ _ => true
  | Event.solve _ _ _ _ _ => true
  | Event.postNonLinearSolver _ _ _ _ _ => true
  | Event.setCoupledSolutionsForStaggeredScheme _ _ => true
  | Event.preFirstIteration _ => true
  | Event.reset _ => true
  | Event.checkDeltaX _ _ _ => true
  | Event.solveReactionEquation _ _ _ _ _ => true
  | _ => false

/-- The time loop `tl1` comes from `tl` by calls that all satisfy `P` and
by changes that leave the clock, the outputs and the ids of the processes
as they are. -/
def Advances (P : Event → Bool) (tl tl1 : TimeLoop σ ω) : Prop :=
  clock tl1 = clock tl ∧ tl1._outputs = tl._outputs ∧
    tl1._per_process_data.map (fun p => p.process_id) =
      tl._per_process_data.map (fun p => p.process_id) ∧
    ∃ added, tl1.log = tl.log ++ added ∧ ∀ e ∈ added, P e = true

/-- The `computeSecondaryVariable` and `postTimestep` calls in a log, in the
order of the calls: the process id, and `true` for `postTimestep`. -/
def hookEvents : List Event → List (Nat × Bool)
  | [] => []
  | Event.computeSecondaryVariable process_id _ _ _ _ :: rest =>
    (process_id, false) :: hookEvents rest
  | Event.postTimestep process_id _ _ _ _ :: rest =>
    (process_id, true) :: hookEvents rest
  | _ :: rest => hookEvents rest

/-! ### Values of `computeTimeStepping` that the properties name -/

/-- The flag `is_initial_step` of `computeTimeStepping` (lines 314-317). -/
def isInitialStep (tl : TimeLoop σ ω) : Bool :=
  tl._per_process_data.any (fun ppd => ppd.timestep_current.timeStepNumber == 0)

/-- The value of `all_process_steps_accepted` after the first loop of
`computeTimeStepping`. -/
def allProcessStepsAccepted (E : Env σ ω) (tl : TimeLoop σ ω) (t : ℚ) : Bool :=
  (firstLoop E tl._process_solutions tl._process_solutions_prev t 0
    tl._per_process_data
    { all_process_steps_accepted := true, dt := DBL_MAX }).2.all_process_steps_accepted

/-- The value of `dt` after the first loop of `computeTimeStepping`, before
the external constraints are applied. -/
def candidateDt (E : Env σ ω) (tl : TimeLoop σ ω) (t : ℚ) : ℚ :=
  (firstLoop E tl._process_solutions tl._process_solutions_prev t 0
    tl._per_process_data
    { all_process_steps_accepted := true, dt := DBL_MAX }).2.dt

/-- The value of `last_step_rejected` that `computeTimeStepping` computes in
lines 396-413. -/
def stepRejected (E : Env σ ω) (tl : TimeLoop σ ω) (t : ℚ) : Bool :=
  !isInitialStep tl && !allProcessStepsAccepted E tl t &&
    decide (t < tl._end_time ∨ |t - tl._end_time| < eps)

/-- The value of `dt` after the loop over the external constraints. -/
def constrainedDt (E : Env σ ω) (tl : TimeLoop σ ω) (prev_dt t : ℚ)
    (time_step_constraints : List (ℚ → ℚ → ℚ)) : ℚ :=
  applyTimeStepConstraints time_step_constraints
    (if stepRejected E tl t then t - prev_dt else t) (candidateDt E tl t)

/-- The answer of the time step algorithm of the process at position `i`
lets the step pass: `next` accepted it, or the time has reached the end time
of the algorithm (line 362-366). -/
def controllerPasses (E : Env σ ω) (tl : TimeLoop σ ω) (t : ℚ) (i : Nat)
    (ppd : ProcessData σ) : Prop :=
  (callNext E tl._process_solutions tl._process_solutions_prev t i ppd).accepted
      = true ∨
    ¬ t + eps < E.timestep_algorithm.end_
      (callNext E tl._process_solutions tl._process_solutions_prev t i ppd).algorithm

/-- The proposal of the process at position `i` enters the minimum (line
380-381). -/
def proposalCounts (E : Env σ ω) (tl : TimeLoop σ ω) (t : ℚ) (i : Nat)
    (ppd : ProcessData σ) : Prop :=
  (callNext E tl._process_solutions tl._process_solutions_prev t i ppd).dt > eps ∨
    |t - E.timestep_algorithm.end_
      (callNext E tl._process_solutions tl._process_solutions_prev t i ppd).algorithm|
        < eps

instance (E : Env σ ω) (tl : TimeLoop σ ω) (t : ℚ) (i : Nat)
    (ppd : ProcessData σ) : Decidable (controllerPasses E tl t i ppd) := by
  unfold controllerPasses
  infer_instance

instance (E : Env σ ω) (tl : TimeLoop σ ω) (t : ℚ) (i : Nat)
    (ppd : ProcessData σ) : Decidable (proposalCounts E tl t i ppd) := by
  unfold proposalCounts
  infer_instance

/-! ### Values of the solves that the properties name -/

/-- The process ids of the solver calls in a log, in the order of the
calls. -/
def solveEvents : List Event → List Nat
  | [] => []
  | Event.solve process_id _ _ _ _ :: rest => process_id :: solveEvents rest
  | _ :: rest => solveEvents rest

/-- The number of `checkDeltaX` calls in a log. -/
def checkEvents : List Event → Nat
  | [] => 0
  | Event.checkDeltaX _ _ _ :: rest => checkEvents rest + 1
  | _ :: rest => checkEvents rest

/-- The processes of the list, at the positions from `i` on, solved one
after the other with `solveMonolithicProcess`, each status stored in its
process data, whatever the outcome of the solves. -/
def solveInOrder (E : Env σ ω) (t dt : ℚ) (timestep_id : Nat) :
    Nat → List (ProcessData σ) → TimeLoop σ ω → TimeLoop σ ω
  | _, [], tl => tl
  | i, process_data :: rest, tl =>
    solveInOrder E t dt timestep_id (i + 1) rest
      (storeStatus i (solveMonolithicProcess E tl t dt timestep_id process_data).1
        (solveMonolithicProcess E tl t dt timestep_id process_data).2)

/-- The outcome of the coupling iteration with number
`global_coupling_iteration` (the loop body, lines 778-835) started on the
time loop `tl`. -/
def couplingIteration (E : Env σ ω) (t dt : ℚ) (timestep_id : Nat)
    (global_coupling_iteration : Nat) (tl : TimeLoop σ ω) : Coupling σ ω :=
  couplingIterationLoop E t dt timestep_id global_coupling_iteration 0
    tl._per_process_data true {} tl

/-- The time loop on which the coupling loop of
`solveCoupledEquationSystemsByStaggeredScheme` starts (after lines
755-762). -/
def beforeCoupling (E : Env σ ω) (tl : TimeLoop σ ω) : TimeLoop σ ω :=
  if tl._global_coupling_max_iterations ≠ 0 then
    forAllCriteria E Event.preFirstIteration 0 tl._global_coupling_conv_crit tl
  else tl

/-- A round of the staggered scheme, told in the words of the spec: the
solve of the process at position `i` of the list. The process is given the
solutions of all processes (`setCoupledSolutionsForStaggeredScheme`), its
nonlinear solver is called, and the status of the solve is stored in the
process data. The status and the time loop after it. -/
def solvedInRound (E : Env σ ω) (t dt : ℚ) (timestep_id i : Nat)
    (process_data : ProcessData σ) (tl : TimeLoop σ ω) :
    NonlinearSolverStatus × TimeLoop σ ω :=
  ((solveOneTimeStepOneProcess E
      (call E (Event.setCoupledSolutionsForStaggeredScheme process_data.process_id
        tl._process_solutions) tl) timestep_id t dt process_data).1,
    storeStatus i
      (solveOneTimeStepOneProcess E
        (call E (Event.setCoupledSolutionsForStaggeredScheme
          process_data.process_id tl._process_solutions) tl) timestep_id t dt
        process_data).1
      (solveOneTimeStepOneProcess E
        (call E (Event.setCoupledSolutionsForStaggeredScheme
          process_data.process_id tl._process_solutions) tl) timestep_id t dt
        process_data).2)

/-- A round of the staggered scheme, told in the words of the spec: the time
loop on which the global convergence criterion of the process at position
`i` is asked whether it is satisfied. In the first round (`round = 1`) no
criterion is given anything to check; in a later round the criterion of the
process has just been given the change of the solution since the round
before (`checkDeltaX`). -/
def checkedInRound (E : Env σ ω) (t dt : ℚ) (timestep_id round i : Nat)
    (process_data : ProcessData σ) (tl : TimeLoop σ ω) : TimeLoop σ ω :=
  if 1 < round then
    call E (Event.checkDeltaX process_data.process_id
      (MathLib.LinAlg.axpy
        ((solvedInRound E t dt timestep_id i process_data
          tl).2._solutions_of_last_cpl_iteration.getD process_data.process_id [])
        (-1)
        ((solvedInRound E t dt timestep_id i process_data
          tl).2._process_solutions.getD process_data.process_id []))
      ((solvedInRound E t dt timestep_id i process_data
        tl).2._process_solutions.getD process_data.process_id []))
      (solvedInRound E t dt timestep_id i process_data tl).2
  else (solvedInRound E t dt timestep_id i process_data tl).2

/-- A round of the staggered scheme, told in the words of the spec: the time
loop after the process at position `i` had its turn. The solution of the
process is kept as its solution of the last coupling iteration. -/
def turnInRound (E : Env σ ω) (t dt : ℚ) (timestep_id round i : Nat)
    (process_data : ProcessData σ) (tl : TimeLoop σ ω) : TimeLoop σ ω :=
  { checkedInRound E t dt timestep_id round i process_data tl with
    _solutions_of_last_cpl_iteration :=
      (checkedInRound E t dt timestep_id round i process_data
        tl)._solutions_of_last_cpl_iteration.set process_data.process_id
        ((checkedInRound E t dt timestep_id round i process_data
          tl)._process_solutions.getD process_data.process_id []) }

/-- A round of the staggered scheme, told in the words of the spec: the
processes of the list, which are at the positions from `i` on, have their
turns one after the other, whatever the outcome of the solves and of the
criteria. -/
def turnsInRound (E : Env σ ω) (t dt : ℚ) (timestep_id round : Nat) :
    Nat → List (ProcessData σ) → TimeLoop σ ω → TimeLoop σ ω
  | _, [], tl => tl
  | i, process_data :: rest, tl =>
    turnsInRound E t dt timestep_id round (i + 1) rest
      (turnInRound E t dt timestep_id round i process_data tl)

/-- The time loop at the begin of round `round + 1` of the staggered scheme on
`tl`, when the rounds before it were made in full: `tl` before round 1, and
before a later round the time loop that the round before leaves, with the
coupling criteria reset. -/
def afterRounds (E : Env σ ω) (t dt : ℚ) (timestep_id : Nat)
    (tl : TimeLoop σ ω) : Nat → TimeLoop σ ω
  | 0 => tl
  | round + 1 =>
    resetCouplingConvergenceCriteria E
      (turnsInRound E t dt timestep_id (round + 1) 0
        (afterRounds E t dt timestep_id tl round)._per_process_data
        (afterRounds E t dt timestep_id tl round))

/-- In a round that starts on `tl` every nonlinear solve converges: for the
process at each position `j`, the solve that is made after the turns of the
processes before it returns a status with `error_norms_met`. -/
def solvesConverge (E : Env σ ω) (t dt : ℚ) (timestep_id round : Nat)
    (tl : TimeLoop σ ω) : Prop :=
  ∀ (j : Nat) (process_data : ProcessData σ),
    tl._per_process_data[j]? = some process_data →
    (solvedInRound E t dt timestep_id j process_data
      (turnsInRound E t dt timestep_id round 0 (tl._per_process_data.take j)
        tl)).1.error_norms_met = true

/-- In a round that starts on `tl` the global convergence criterion of every
process is satisfied: for the process at each position `j`, `isSatisfied` of
its criterion answers true when it is asked in the turn of the process. -/
def criteriaSatisfied (E : Env σ ω) (t dt : ℚ) (timestep_id round : Nat)
    (tl : TimeLoop σ ω) : Prop :=
  ∀ (j : Nat) (process_data : ProcessData σ),
    tl._per_process_data[j]? = some process_data →
    E.isSatisfied
      (checkedInRound E t dt timestep_id round j process_data
        (turnsInRound E t dt timestep_id round 0 (tl._per_process_data.take j)
          tl)).world process_data.process_id = true

/-- In round `r` of `solveCoupledEquationSystemsByStaggeredScheme` on `tl`
(rounds are counted from 1) every nonlinear solve converges. -/
def solvesConvergeInRound (E : Env σ ω) (tl : TimeLoop σ ω) (t dt : ℚ)
    (timestep_id : Nat) (r : Nat) : Prop :=
  solvesConverge E t dt timestep_id r
    (afterRounds E t dt timestep_id (beforeCoupling E tl) (r - 1))

/-- In round `r` of `solveCoupledEquationSystemsByStaggeredScheme` on `tl`
(rounds are counted from 1) the global convergence criterion of every
process is satisfied. -/
def criteriaSatisfiedInRound (E : Env σ ω) (tl : TimeLoop σ ω) (t dt : ℚ)
    (timestep_id : Nat) (r : Nat) : Prop :=
  criteriaSatisfied E t dt timestep_id r
    (afterRounds E t dt timestep_id (beforeCoupling E tl) (r - 1))

/-- A statement about the process at every position of a list can be
decided position by position. -/
def decidePositions (l : List (ProcessData σ))
    (P : Nat → ProcessData σ → Prop) [∀ j p, Decidable (P j p)] :
    Decidable (∀ (j : Nat) (p : ProcessData σ), l[j]? = some p → P j p) :=
  decidable_of_iff (∀ j, j < l.length → ∀ p ∈ l[j]?, P j p)
    ⟨fun h j p hj => h j ((List.getElem?_eq_some_iff.mp hj).1) p hj,
     fun h j _ p hp => h j p hp⟩

instance (E : Env σ ω) (t dt : ℚ) (timestep_id round : Nat) (tl : TimeLoop σ ω) :
    Decidable (solvesConverge E t dt timestep_id round tl) :=
  decidePositions _ _

instance (E : Env σ ω) (t dt : ℚ) (timestep_id round : Nat) (tl : TimeLoop σ ω) :
    Decidable (criteriaSatisfied E t dt timestep_id round tl) :=
  decidePositions _ _

instance (E : Env σ ω) (tl : TimeLoop σ ω) (t dt : ℚ) (timestep_id r : Nat) :
    Decidable (solvesConvergeInRound E tl t dt timestep_id r) := by
  unfold solvesConvergeInRound
  infer_instance

instance (E : Env σ ω) (tl : TimeLoop σ ω) (t dt : ℚ) (timestep_id r : Nat) :
    Decidable (criteriaSatisfiedInRound E tl t dt timestep_id r) := by
  unfold criteriaSatisfiedInRound
  infer_instance

/-- The scheme-specific solve of `doNonlinearIteration` (lines 660-670),
made after `preTimestepForAllProcesses`. -/
def schemeSpecificSolve (E : Env σ ω) (tl : TimeLoop σ ω) (t dt : ℚ)
    (timesteps : Nat) : Except (Fatal σ ω) (NonlinearSolverStatus × TimeLoop σ ω) :=
  let tl1 := preTimestepForAllProcesses E t dt tl._per_process_data tl
  if isStaggeredCoupling E tl1 then
    Except.ok (solveCoupledEquationSystemsByStaggeredScheme E tl1 t dt timesteps)
  else solveUncoupledEquationSystems E tl1 t dt timesteps

/-- The hook calls for the processes of a list, in order: for each process
`computeSecondaryVariable` and then `postTimestep`. -/
def hooksInOrder (l : List (ProcessData σ)) : List (Nat × Bool) :=
  (l.map (fun p => [(p.process_id, false), (p.process_id, true)])).flatten

/-- A call of a nonlinear solver in a log: the process, the solution list
that the solver was given and the solution that it left for the process. -/
structure SolveCall where
  process_id : Nat
  x : List GlobalVector
  result : GlobalVector
deriving DecidableEq, Repr

/-- The calls of the nonlinear solvers in a log, in the order of the
calls. -/
def solveCalls : List Event → List SolveCall
  | [] => []
  | Event.solve process_id _ _ x result :: rest =>
    { process_id := process_id, x := x, result := result } :: solveCalls rest
  | _ :: rest => solveCalls rest

/-- The solution list `x` after the results of the calls were written to it,
in the order of the calls. -/
def applyResults (x : List GlobalVector) (calls : List SolveCall) :
    List GlobalVector :=
  calls.foldl (fun x c => x.set c.process_id c.result) x

/-- The calls follow one another on the solution list `x`: the first is given
`x`, and each later one the list that the call before it was given, with the
result of that call written to it. -/
def gaussSeidel (x : List GlobalVector) : List SolveCall → Prop
  | [] => True
  | c :: rest => c.x = x ∧ gaussSeidel (x.set c.process_id c.result) rest

/-- The calls come in rounds that follow one another on the solution list
`x`: the processes of a round are a prefix of the registration order `ids`,
only the last round may be cut short, and each round starts on the list that
the round before it left. -/
def gaussSeidelRounds (ids : List Nat) (x : List GlobalVector) :
    List (List SolveCall) → Prop
  | [] => True
  | calls :: rest =>
    calls.map (fun c => c.process_id) <+: ids ∧
      (rest ≠ [] → calls.map (fun c => c.process_id) = ids) ∧
      gaussSeidel x calls ∧ gaussSeidelRounds ids (applyResults x calls) rest

/-- The result of the solve of process `process_id` among the calls of a
round; the empty vector if the process was not solved in it. -/
def resultInRound (calls : List SolveCall) (process_id : Nat) : GlobalVector :=
  match calls.find? (fun c => c.process_id == process_id) with
  | some c => c.result
  | none => []

/-- The entry of process `process_id` that is left when round `r` begins
(rounds are counted from 0 here): its entry in `x` for the first round, and
for a later round the result of its solve in the round before. -/
def leftByPreviousRound (x : List GlobalVector) (rounds : List (List SolveCall))
    (r process_id : Nat) : GlobalVector :=
  match r with
  | 0 => x.getD process_id []
  | r + 1 => resultInRound (rounds.getD r []) process_id

/-- The `doOutput` calls that are due for a list of processes: for each
process whose stored solver status is converged, in the order of the list,
one call on each of the `outputs` output objects, in their order, with the
given time step and time. -/
def outputCalls (per_process_data : List (ProcessData σ)) (outputs : Nat)
    (timestep : Nat) (t : ℚ) : List OutputCall :=
  ((per_process_data.filter
      (fun p => p.nonlinear_solver_status.error_norms_met)).map
    (fun p => (List.range outputs).map (fun k =>
      { output := k, process_id := p.process_id, timestep := timestep,
        t := t }))).flatten

/-- The condition on which `calculateNextTimeStep` returns `false` (lines
615-630), for a time, a step size and an end time. -/
def stopCondition (current_time dt end_time : ℚ) : Prop :=
  |current_time - end_time| < eps ∨ current_time + dt > end_time ∨ dt < eps

instance (current_time dt end_time : ℚ) :
    Decidable (stopCondition current_time dt end_time) := by
  unfold stopCondition
  infer_instance

/-! ### Test doubles -/

/-- A time step algorithm for tests: `next` answers with the stored pair and
changes nothing. -/
structure ScriptedStepper where
  t_initial : ℚ
  t_end : ℚ
  accepted : Bool
  dt : ℚ
  can_reduce : Bool
deriving DecidableEq, Repr

/-- The methods of `ScriptedStepper`. -/
def scriptedStepper : TimeStepAlgorithm ScriptedStepper where
  begin s := s.t_initial
  end_ s := s.t_end
  isSolutionErrorComputationNeeded _ := false
  next s _ _ p c :=
    { accepted := s.accepted, dt := s.dt, algorithm := s, ts_previous := p,
      ts_current := c }
  resetCurrentTimeStep s _ p c := { algorithm := s, ts_previous := p, ts_current := c }
  canReduceTimestepSize s _ _ := s.can_reduce

/-- A world for tests. The solver of a process whose id is in `failing` does
not converge, every other solve converges in one iteration; a solve adds one
to every entry of the solution. The world counts the calls of `checkDeltaX`,
and a coupling criterion is satisfied once `threshold` of them were made. -/
def scriptedEnv (failing : List Nat) (threshold : Nat) :
    Env ScriptedStepper Nat where
  timestep_algorithm := scriptedStepper
  updateTimeSteps dt _ current :=
    (current, { current with time := current.time + dt,
                             timeStepNumber := current.timeStepNumber + 1 })
  computeRelativeChangeFromPreviousTimestep _ _ _ := 0
  possiblyClampDtToNextFixedTime _ dt _ := dt
  solve w process_id _ _ x _ :=
    { status := { error_norms_met := !failing.contains process_id,
                  number_iterations := 1 }
      x := (x.getD process_id []).map (fun v => v + 1)
      world := w }
  getXdot _ _ x x_prev := List.zipWith (fun a b => a - b) x x_prev
  solveReactionEquation _ _ x _ _ _ := x
  setInitialConditions _ _ x x_prev _ := (x, x_prev)
  USE_PETSC := false
  isSatisfied w _ := decide (threshold ≤ w)
  isMonolithicSchemeUsed _ _ := true
  effect e w :=
    match e with
    | Event.checkDeltaX _ _ _ => w + 1
    | _ => w

/-- The world of `scriptedEnv` with processes that use the staggered
scheme. -/
def staggeredEnv (failing : List Nat) (threshold : Nat) :
    Env ScriptedStepper Nat :=
  { scriptedEnv failing threshold with isMonolithicSchemeUsed := fun _ _ => false }

/-- A time loop for tests over the given processes and solution lists, with
start time 0 and the given end time. -/
def scriptedTimeLoop (per_process_data : List (ProcessData ScriptedStepper))
    (x x_prev : List GlobalVector) (end_time : ℚ) (max_iterations : Int) :
    TimeLoop ScriptedStepper Nat where
  _outputs := [{ fixed_output_times := [] }]
  _per_process_data := per_process_data
  _process_solutions := x
  _process_solutions_prev := x_prev
  _solutions_of_last_cpl_iteration := x_prev
  _start_time := 0
  _end_time := end_time
  _current_time := 0
  _accepted_steps := 0
  _rejected_steps := 0
  _dt := 0
  _repeating_times_of_rejected_step := 0
  _last_step_rejected := false
  _global_coupling_max_iterations := max_iterations
  _global_coupling_conv_crit := per_process_data.length
  successful_time_step := false
  world := 0
  log := []

/-- A process for tests: it has taken `steps` time steps, its last solve has
the given outcome and its time step algorithm is the given one. -/
def scriptedProcess (process_id steps : Nat) (error_norms_met : Bool)
    (stepper : ScriptedStepper) : ProcessData ScriptedStepper where
  process_id := process_id
  timestep_previous := { time := 0, timeStepNumber := steps - 1, isAccepted := true }
  timestep_current := { time := 0, timeStepNumber := steps, isAccepted := true }
  nonlinear_solver_status := { error_norms_met := error_norms_met, number_iterations := 1 }
  timestep_algorithm := stepper
  conv_crit := none
  nonlinear_solver := NonlinearSolverKind.Picard
  process_is_newton_ode := true
  conv_crit_per_component := false
  tdisc_ode_sys := some NonlinearSolverTag.Picard

/-- The part of the outcome of `computeTimeStepping` that the properties are
about. -/
structure Observation where
  dt : ℚ
  last_step_rejected : Bool
  t : ℚ
  accepted_steps : Nat
  rejected_steps : Nat
  x : List GlobalVector
  x_prev : List GlobalVector
deriving DecidableEq, Repr

/-- The observation of an outcome of `computeTimeStepping`: `none` for a
fatal termination. -/
def observe (r : Except (Fatal σ ω) (TimeStepping σ ω)) : Option Observation :=
  match r with
  | Except.error _ => none
  | Except.ok s =>
    some
      { dt := s.dt
        last_step_rejected := s.last_step_rejected
        t := s.t
        accepted_steps := s.accepted_steps
        rejected_steps := s.rejected_steps
        x := s.time_loop._process_solutions
        x_prev := s.time_loop._process_solutions_prev }

/-! ### Concrete time loops -/

/-- One process whose first step after the initialization (from `t0 = 0`,
the `begin()` of its algorithm, with step size `1/2`) failed: the solver did
not converge and left `[7]` in the solution, the accepted state is `[1]`;
the algorithm proposes `1/4`. -/
def firstStepFailed : TimeLoop ScriptedStepper Nat :=
  scriptedTimeLoop
    [scriptedProcess 0 1 false
      { t_initial := 0, t_end := 1, accepted := false, dt := 1 / 4, can_reduce := true }]
    [[7]] [[1]] 1 1

/-- One process that has reached the end time `1` with a converged solve;
its algorithm answers `accepted = false` there, as `FixedTimeStepping`
does. -/
def endReached : TimeLoop ScriptedStepper Nat :=
  scriptedTimeLoop
    [scriptedProcess 0 2 true
      { t_initial := 0, t_end := 1, accepted := false, dt := 1 / 2, can_reduce := true }]
    [[7]] [[1]] 1 1

/-- One process in the middle of the run whose algorithm accepts the step and
proposes the step size `0`. -/
def zeroProposal : TimeLoop ScriptedStepper Nat :=
  scriptedTimeLoop
    [scriptedProcess 0 1 true
      { t_initial := 0, t_end := 1, accepted := true, dt := 0, can_reduce := true }]
    [[7]] [[1]] 1 1

/-- Two processes with converged solves and accepting algorithms that
propose `1/2` and `1/4`. -/
def twoProposals : TimeLoop ScriptedStepper Nat :=
  scriptedTimeLoop
    [scriptedProcess 0 1 true
      { t_initial := 0, t_end := 2, accepted := true, dt := 1 / 2, can_reduce := true },
     scriptedProcess 1 1 true
      { t_initial := 0, t_end := 2, accepted := true, dt := 1 / 4, can_reduce := true }]
    [[5], [6]] [[1], [2]] 2 1

/-- Two processes with converged solves and accepting algorithms; the
algorithm of the second one begins at `1/2`, the time that the first step of
the loop reaches. -/
def laterBegin : TimeLoop ScriptedStepper Nat :=
  scriptedTimeLoop
    [scriptedProcess 0 1 true
      { t_initial := 0, t_end := 2, accepted := true, dt := 1 / 2, can_reduce := true },
     scriptedProcess 1 1 true
      { t_initial := 1 / 2, t_end := 2, accepted := true, dt := 1 / 2, can_reduce := true }]
    [[5], [6]] [[1], [2]] 2 1

/-- One process whose step failed and whose algorithm proposes the step size
`1/2` of the failed step again. -/
def stalled : TimeLoop ScriptedStepper Nat :=
  scriptedTimeLoop
    [scriptedProcess 0 3 false
      { t_initial := 0, t_end := 2, accepted := false, dt := 1 / 2, can_reduce := true }]
    [[7]] [[1]] 2 1

/-- The external constraints that `calculateNextTimeStep` passes on, for a
time loop of the tests (no fixed output times). -/
def scriptedConstraints (tl : TimeLoop ScriptedStepper Nat) : List (ℚ → ℚ → ℚ) :=
  generateOutputTimeStepConstraints (scriptedEnv [] 0) tl []

/-- A process under the monolithic scheme whose time step algorithm can
reduce the step size exactly when `can_reduce` is set. -/
def monolithicProcess (process_id : Nat) (can_reduce : Bool) :
    ProcessData ScriptedStepper :=
  scriptedProcess process_id 1 true
    { t_initial := 0, t_end := 2, accepted := true, dt := 1 / 2,
      can_reduce := can_reduce }

/-- Three processes under the monolithic scheme with solutions `[1]`, `[2]`
and `[3]`. -/
def threeProcesses (can_reduce : Bool) : TimeLoop ScriptedStepper Nat :=
  scriptedTimeLoop
    [monolithicProcess 0 can_reduce, monolithicProcess 1 can_reduce,
     monolithicProcess 2 can_reduce]
    [[1], [2], [3]] [[1], [2], [3]] 2 1

/-- The part of the outcome of a solve of all processes that the properties
are about. -/
structure SolveObservation where
  status : NonlinearSolverStatus
  solved : List Nat
  x : List GlobalVector
  stored : List NonlinearSolverStatus
deriving DecidableEq, Repr

/-- The observation of an outcome of `solveUncoupledEquationSystems`: `none`
for a fatal termination. -/
def observeSolve
    (r : Except (Fatal σ ω) (NonlinearSolverStatus × TimeLoop σ ω)) :
    Option SolveObservation :=
  match r with
  | Except.error _ => none
  | Except.ok s =>
    some
      { status := s.1
        solved := solveEvents s.2.log
        x := s.2._process_solutions
        stored := s.2._per_process_data.map (fun ppd => ppd.nonlinear_solver_status) }

/-- Two processes under the staggered scheme with solutions `[1]` and `[2]`
and at most `max_iterations` coupling iterations. -/
def twoStaggered (max_iterations : Int) : TimeLoop ScriptedStepper Nat :=
  scriptedTimeLoop [monolithicProcess 0 true, monolithicProcess 1 true]
    [[1], [2]] [[1], [2]] 2 max_iterations

/-- The part of the outcome of `solveCoupledEquationSystemsByStaggeredScheme`
that the properties are about. -/
structure CoupledObservation where
  status : NonlinearSolverStatus
  solved : List Nat
  checked : Nat
  x : List GlobalVector
deriving DecidableEq, Repr

/-- The observation of an outcome of
`solveCoupledEquationSystemsByStaggeredScheme`. -/
def observeCoupled (r : NonlinearSolverStatus × TimeLoop σ ω) :
    CoupledObservation :=
  { status := r.1
    solved := solveEvents r.2.log
    checked := checkEvents r.2.log
    x := r.2._process_solutions }

/-- One process in the middle of the run whose step from 1 to `3/2` failed
and whose algorithm proposes the larger step size 1 for the retry. -/
def growingProposal : TimeLoop ScriptedStepper Nat :=
  scriptedTimeLoop
    [scriptedProcess 0 3 false
      { t_initial := 0, t_end := 4, accepted := false, dt := 1, can_reduce := true }]
    [[7]] [[1]] 4 1

/-- An external constraint that answers with a larger step size than it is
given. -/
def enlargingConstraint : ℚ → ℚ → ℚ := fun _ dt => dt + 1

/-- A process with a `PETScNonlinearSolver` and a Newton-ready ODE system,
before a time discretized ODE system is installed. -/
def petscProcess : ProcessData ScriptedStepper :=
  { monolithicProcess 0 true with
    nonlinear_solver := NonlinearSolverKind.PETScNonlinearSolver
    tdisc_ode_sys := none }

/-- A process with a Newton solver, before a time discretized ODE system is
installed. -/
def newtonProcess : ProcessData ScriptedStepper :=
  { monolithicProcess 0 true with
    nonlinear_solver := NonlinearSolverKind.Newton
    tdisc_ode_sys := none }

/-- The tag of the system that `setTimeDiscretizedODESystem` installs: `none`
for a fatal termination. -/
def installedSystem (r : Except String (ProcessData σ)) :
    Option (Option NonlinearSolverTag) :=
  match r with
  | Except.error _ => none
  | Except.ok process_data => some process_data.tdisc_ode_sys

/-! ### The fixed time stepping scenario -/

/-- Modelled from the spec: the class `NumLib::FixedTimeStepping`, of which
only the header is part of the sources: the begin and end time and the
vector of step sizes. -/
structure FixedTimeStepping where
  _t_initial : ℚ
  _t_end : ℚ
  _dt_vector : List ℚ
deriving DecidableEq, Repr

/-- Modelled from the spec: the member function `FixedTimeStepping::next`,
which is not part of the sources. It ignores the error and the iteration
count and returns the step size of the predetermined sequence that belongs
to the current step, cut at the end time; it signals `accepted = false`, with
step size 0, once the end time is reached or the sequence is used up. -/
def FixedTimeStepping.next (s : FixedTimeStepping) (_solution_error : ℚ)
    (_number_iterations : Int) (ts_previous ts_current : TimeStep) :
    NextResult FixedTimeStepping :=
  if ts_current.timeStepNumber = s._dt_vector.length ∨
      |ts_current.time - s._t_end| < eps then
    { accepted := false, dt := 0, algorithm := s, ts_previous := ts_previous,
      ts_current := ts_current }
  else
    let dt := s._dt_vector.getD ts_current.timeStepNumber 0
    { accepted := true
      dt := if ts_current.time + dt > s._t_end then s._t_end - ts_current.time else dt
      algorithm := s, ts_previous := ts_previous, ts_current := ts_current }

/-- The methods of `FixedTimeStepping`: `resetCurrentTimeStep` is the one of
the header (`_dt_vector.push_back(dt)`), `next` is modelled from the spec,
and the other ones are those of the base class. -/
def fixedTimeStepping : TimeStepAlgorithm FixedTimeStepping where
  begin s := s._t_initial
  end_ s := s._t_end
  isSolutionErrorComputationNeeded _ := false
  next := FixedTimeStepping.next
  resetCurrentTimeStep s dt p c :=
    { algorithm := { s with _dt_vector := s._dt_vector ++ [dt] }, ts_previous := p,
      ts_current := c }
  canReduceTimestepSize _ _ _ := false

/-- Modelled from the spec: the function `NumLib::updateTimeSteps`, which is
not part of the sources: the current time step becomes the previous one and
is replaced by the step that follows it after `dt`. -/
def updateTimeSteps (dt : ℚ) (_previous current : TimeStep) :
    TimeStep × TimeStep :=
  (current, { current with time := current.time + dt,
                           timeStepNumber := current.timeStepNumber + 1 })

/-- The collaborators of the scenarios with `FixedTimeStepping`: processes
under the monolithic scheme whose solves converge in one iteration unless
the id of the process is in `failing`, initial conditions that set the
solution of process `i` to `[i]`, and no clamping to fixed output times. -/
def fixedEnv (failing : List Nat) : Env FixedTimeStepping Nat where
  timestep_algorithm := fixedTimeStepping
  updateTimeSteps := updateTimeSteps
  computeRelativeChangeFromPreviousTimestep _ _ _ := 0
  possiblyClampDtToNextFixedTime _ dt _ := dt
  solve w process_id _ _ x _ :=
    { status := { error_norms_met := !failing.contains process_id,
                  number_iterations := 1 }
      x := (x.getD process_id []).map (fun v => v + 1)
      world := w }
  getXdot _ _ x x_prev := List.zipWith (fun a b => a - b) x x_prev
  solveReactionEquation _ _ x _ _ _ := x
  setInitialConditions _ process_id x x_prev _ :=
    (x.set process_id [(process_id : ℚ)], x_prev.set process_id [(process_id : ℚ)])
  USE_PETSC := false
  isSatisfied _ _ := true
  isMonolithicSchemeUsed _ _ := true
  effect _ w := w

/-- A process as the constructor of `ProcessData` leaves it (the constructor
is not part of the sources): both time steps are the step number 0 at the
begin of the algorithm, accepted, and the solver status is converged with 0
iterations; the solver is a Picard solver. -/
def fixedProcess (process_id : Nat) (stepper : FixedTimeStepping) :
    ProcessData FixedTimeStepping where
  process_id := process_id
  timestep_previous :=
    { time := stepper._t_initial, timeStepNumber := 0, isAccepted := true }
  timestep_current :=
    { time := stepper._t_initial, timeStepNumber := 0, isAccepted := true }
  nonlinear_solver_status := { error_norms_met := true, number_iterations := 0 }
  timestep_algorithm := stepper
  conv_crit := none
  nonlinear_solver := NonlinearSolverKind.Picard
  process_is_newton_ode := true
  conv_crit_per_component := false
  tdisc_ode_sys := none

/-- The time loop of the scenario as its constructor leaves it: three
processes with the controller `FixedTimeStepping(0, 1, 0.5)`, whose vector
of step sizes has `(1 - 0) / 0.5 = 2` entries, one output without fixed
output times, start time 0, end time 1. -/
def fixedScenario : TimeLoop FixedTimeStepping Nat where
  _outputs := [{ fixed_output_times := [] }]
  _per_process_data :=
    [fixedProcess 0 { _t_initial := 0, _t_end := 1, _dt_vector := [1 / 2, 1 / 2] },
     fixedProcess 1 { _t_initial := 0, _t_end := 1, _dt_vector := [1 / 2, 1 / 2] },
     fixedProcess 2 { _t_initial := 0, _t_end := 1, _dt_vector := [1 / 2, 1 / 2] }]
  _process_solutions := []
  _process_solutions_prev := []
  _solutions_of_last_cpl_iteration := []
  _start_time := 0
  _end_time := 1
  _current_time := 0
  _accepted_steps := 0
  _rejected_steps := 0
  _dt := 0
  _repeating_times_of_rejected_step := 0
  _last_step_rejected := false
  _global_coupling_max_iterations := 1
  _global_coupling_conv_crit := 0
  successful_time_step := false
  world := 0
  log := []

/-- One process of the scripted kind before the run starts (time step number
0, converged status) whose solves never converge and whose algorithm
accepts every step and proposes `1/2` every time; it can reduce the step
size. -/
def stallScenario : TimeLoop ScriptedStepper Nat :=
  scriptedTimeLoop
    [scriptedProcess 0 0 true
      { t_initial := 0, t_end := 2, accepted := true, dt := 1 / 2, can_reduce := true }]
    [] [] 2 1

/-- The part of a run that the properties are about. -/
structure RunObservation where
  finished : Bool
  fatal : Option String
  accepted_times : List ℚ
  accepted_steps : Nat
  rejected_steps : Nat
  current_time : ℚ
  output_calls : List OutputCall
  output_always_calls : List OutputCall
deriving DecidableEq, Repr

/-- The observation of a run. -/
def observeRun (r : Run σ ω) : RunObservation :=
  { finished := r.finished
    fatal := r.fatal
    accepted_times := r.accepted_times
    accepted_steps := r.time_loop._accepted_steps
    rejected_steps := r.time_loop._rejected_steps
    current_time := r.time_loop._current_time
    output_calls := doOutputEvents r.time_loop.log
    output_always_calls := doOutputAlwaysEvents r.time_loop.log }

/-- Three processes under the monolithic scheme whose time step algorithms
cannot reduce the step size, with two outputs. -/
def twoOutputs : TimeLoop ScriptedStepper Nat :=
  { threeProcesses false with
    _outputs := [{ fixed_output_times := [] }, { fixed_output_times := [1] }] }

/-- The time loop of `twoProposals` with two outputs, after its first step
from the time 0 with the step size `1/2`. -/
def afterFirstStep : TimeLoop ScriptedStepper Nat :=
  { twoProposals with
    _outputs := [{ fixed_output_times := [] }, { fixed_output_times := [] }]
    _current_time := 1 / 2
    _dt := 1 / 2 }

/-- The time loop of `afterFirstStep` with `2^32 - 1` accepted steps behind
it. -/
def afterManySteps : TimeLoop ScriptedStepper Nat :=
  { afterFirstStep with _accepted_steps := 4294967295 }

/-- The part of the outcome of `calculateNextTimeStep` that the properties
are about. -/
structure NextStepObservation where
  go_on : Bool
  current_time : ℚ
  dt : ℚ
  accepted_steps : Nat
  output_calls : List OutputCall
deriving DecidableEq, Repr

/-- The observation of an outcome of `calculateNextTimeStep`: `none` for a
fatal termination. -/
def observeNextStep (r : Except (Fatal σ ω) (Bool × TimeLoop σ ω)) :
    Option NextStepObservation :=
  match r with
  | Except.error _ => none
  | Except.ok s =>
    some
      { go_on := s.1
        current_time := s.2._current_time
        dt := s.2._dt
        accepted_steps := s.2._accepted_steps
        output_calls := doOutputEvents s.2.log }

end ProcessLib

/-! ## Serial execution over a container

A shallow embedding of `src/NumLib/Assembler/SerialExecutor.h`. A call of the
method acts on a world `ω` (the object, the elements and what they refer
to); a container is the list of the elements that its pointers refer to.
An access outside the container is undefined behaviour in C++ and gives
`none` here.
-/

namespace NumLib.SerialExecutor

variable {α ω : Type}

/-- The loop of `executeMemberDereferenced` (lines 75-78) from index `i` on:
`(object.*method)(i, *container[i], args...)`. -/
def executeMemberDereferencedLoop (method : Nat → α → ω → ω) :
    Nat → List α → ω → ω
  | _, [], w => w
  | i, a :: rest, w =>
    executeMemberDereferencedLoop method (i + 1) rest (method i a w)

/-- The function `SerialExecutor::executeMemberDereferenced` (lines 69-79). -/
def executeMemberDereferenced (method : Nat → α → ω → ω) (container : List α)
    (w : ω) : ω :=
  executeMemberDereferencedLoop method 0 container w

/-- The loop of `executeSelectedMemberDereferenced` over the active ids
(lines 109-112): `(object.*method)(id, *container[id], args...)`. -/
def executeSelectedMemberDereferencedLoop (method : Nat → α → ω → ω)
    (container : List α) : List Nat → ω → Option ω
  | [], w => some w
  | id :: rest, w =>
    match container[id]? with
    | none => none
    | some a =>
      executeSelectedMemberDereferencedLoop method container rest (method id a w)

/-- The function `SerialExecutor::executeSelectedMemberDereferenced` (lines
96-113). -/
def executeSelectedMemberDereferenced (method : Nat → α → ω → ω)
    (container : List α) (active_container_ids : List Nat) (w : ω) : Option ω :=
  if active_container_ids.isEmpty then
    some (executeMemberDereferenced method container w)
  else
    executeSelectedMemberDereferencedLoop method container active_container_ids w

/-- The loop of `executeMemberOnDereferenced` (lines 131-134) from index `i`
on: `((*container[i]).*method)(i, args...)`. -/
def executeMemberOnDereferencedLoop (method : α → Nat → ω → ω) :
    Nat → List α → ω → ω
  | _, [], w => w
  | i, a :: rest, w =>
    executeMemberOnDereferencedLoop method (i + 1) rest (method a i w)

/-- The function `SerialExecutor::executeMemberOnDereferenced` (lines
126-135). -/
def executeMemberOnDereferenced (method : α → Nat → ω → ω) (container : List α)
    (w : ω) : ω :=
  executeMemberOnDereferencedLoop method 0 container w

/-- The loop of `executeSelectedMemberOnDereferenced` over the active ids
(lines 163-166): `((*container[id]).*method)(id, args...)`. -/
def executeSelectedMemberOnDereferencedLoop (method : α → Nat → ω → ω)
    (container : List α) : List Nat → ω → Option ω
  | [], w => some w
  | id :: rest, w =>
    match container[id]? with
    | none => none
    | some a =>
      executeSelectedMemberOnDereferencedLoop method container rest
        (method a id w)

/-- The function `SerialExecutor::executeSelectedMemberOnDereferenced` (lines
151-167). -/
def executeSelectedMemberOnDereferenced (method : α → Nat → ω → ω)
    (container : List α) (active_container_ids : List Nat) (w : ω) : Option ω :=
  if active_container_ids.isEmpty then
    some (executeMemberOnDereferenced method container w)
  else
    executeSelectedMemberOnDereferencedLoop method container active_container_ids
      w

/-- The calls `(id, element)` that are due for a list of ids: one for each id
of the list that is within the container, in the order of the list. -/
def selectedCalls (container : List α) (ids : List Nat) : List (Nat × α) :=
  ids.filterMap (fun id => (container[id]?).map (fun a => (id, a)))

/-- The calls `(index, element)` for every element of a container, in the
order of the container, from index `i` on. -/
def allCalls : Nat → List α → List (Nat × α)
  | _, [] => []
  | i, a :: rest => (i, a) :: allCalls (i + 1) rest

/-- A method for tests that records the index and the element it is called
with. -/
def record (id : Nat) (a : α) (calls : List (Nat × α)) : List (Nat × α) :=
  calls ++ [(id, a)]

/-- A method of the elements for tests that records the index and the
element it is called with. -/
def recordOn (a : α) (id : Nat) (calls : List (Nat × α)) : List (Nat × α) :=
  calls ++ [(id, a)]

end NumLib.SerialExecutor

/-! ## Meshes: element search and mesh revision

A shallow embedding of `src/MeshLib/MeshSearch/ElementSearch.cpp` and of
`src/MeshLib/MeshEditing/MeshRevision.cpp`. A node is its identity and its
id; an element is its type, its id, its content and its base nodes. What
depends on the coordinates of the nodes is a parameter. Algorithms of the
C++ standard library are embedded as the standard describes them.
-/

namespace BaseLib

/-- The call `std::unique` on a list of ids: of each run of equal neighbours
the first is kept. -/
def unique : List Nat → List Nat
  | [] => []
  | [a] => [a]
  | a :: b :: rest => if a = b then unique (b :: rest) else a :: unique (b :: rest)

/-- The function `BaseLib::makeVectorUnique` (`BaseLib/Algorithm.h`, which is
not part of the sources), as its name and its use say: `std::sort`, then
`std::unique`, then the tail is erased. -/
def makeVectorUnique (v : List Nat) : List Nat :=
  unique (v.insertionSort (· ≤ ·))

end BaseLib

namespace MeshLib

/-- The enumeration `MeshLib::MeshElemType`. -/
inductive MeshElemType where
  | INVALID
  | POINT
  | LINE
  | QUAD
  | HEXAHEDRON
  | TRIANGLE
  | TETRAHEDRON
  | PRISM
  | PYRAMID
deriving DecidableEq, Repr

/-- A node object: `ptr` tells the objects apart, `id` is what `getID()`
returns. -/
structure Node where
  ptr : Nat
  id : Nat
deriving DecidableEq, Repr

/-- An element: what `getGeomType()`, `getID()` and `getContent()` return,
and the base nodes `getNode(0)`, `getNode(1)`, ... -/
structure Element where
  geom_type : MeshElemType
  id : Nat
  content : ℚ
  nodes : List Node
deriving DecidableEq, Repr

/-- The members of `MeshLib::Mesh` that the searches read. -/
structure Mesh where
  _elements : List Element
  _elements_connected_to_nodes : List (List Element)

/-- The member function `Mesh::getElementsConnectedToNode(node_id)`
(`Mesh.cpp`, lines 247-251): `none` for an id outside the vector. -/
def Mesh.getElementsConnectedToNode (mesh : Mesh) (node_id : Nat) :
    Option (List Element) :=
  mesh._elements_connected_to_nodes[node_id]?

/-- An axis aligned bounding box `GeoLib::AABB`, of which the search uses
`containsPoint(node, eps)`. -/
structure AABB where
  containsPoint : Node → ℚ → Bool

/-- The members of `MeshLib::ElementSearch`. -/
structure ElementSearch where
  _mesh : Mesh
  _marked_elements : List Nat

/-- The constructor `ElementSearch::ElementSearch(mesh)` (line 19): no
element is marked. -/
def ElementSearch.new (mesh : Mesh) : ElementSearch :=
  { _mesh := mesh, _marked_elements := [] }

/-- The loop of `filter` (lines 26-33) from index `i` on, with the ids
matched so far. -/
def filterLoop {α : Type} (p : α → Bool) : Nat → List α → List Nat → List Nat
  | _, [], matchedIDs => matchedIDs
  | i, value :: rest, matchedIDs =>
    filterLoop p (i + 1) rest (if p value then matchedIDs ++ [i] else matchedIDs)

/-- The function template `filter` (lines 21-35). -/
def filter {α : Type} (container : List α) (p : α → Bool) : List Nat :=
  filterLoop p 0 container []

/-- The loop of `std::set_union` while the first range holds `a` at its
front; `rest1` continues with the first range after `a`. -/
def set_unionFront (a : Nat) (rest1 : List Nat → List Nat) : List Nat → List Nat
  | [] => a :: rest1 []
  | b :: l2 =>
    if b < a then b :: set_unionFront a rest1 l2
    else if a < b then a :: rest1 (b :: l2)
    else a :: rest1 l2

/-- The algorithm `std::set_union(first1, last1, first2, last2, out)`: while
the first range is not empty, the smaller of the two front values is
written and passed; a value at the front of both ranges is written once and
passed in both; then the rest of the second range is copied. -/
def set_union : List Nat → List Nat → List Nat
  | [], l2 => l2
  | a :: l1, l2 => set_unionFront a (set_union l1) l2

/-- The member function `ElementSearch::updateUnion` (lines 94-101). -/
def ElementSearch.updateUnion (s : ElementSearch) (vec : List Nat) :
    ElementSearch :=
  { s with _marked_elements := set_union vec s._marked_elements }

/-- The member function `ElementSearch::searchByElementType` (lines 37-44):
the value returned and the search object after the call. -/
def ElementSearch.searchByElementType (s : ElementSearch)
    (eleType : MeshElemType) : Nat × ElementSearch :=
  let matchedIDs := filter s._mesh._elements (fun e => e.geom_type == eleType)
  (matchedIDs.length, s.updateUnion matchedIDs)

/-- The member function `ElementSearch::searchByContent` (lines 46-53). -/
def ElementSearch.searchByContent (s : ElementSearch) (eps : ℚ) :
    Nat × ElementSearch :=
  let matchedIDs := filter s._mesh._elements (fun e => decide (e.content < eps))
  (matchedIDs.length, s.updateUnion matchedIDs)

/-- The member function `ElementSearch::searchByBoundingBox` (lines 55-74):
an element is matched when one of its base nodes is in the box. -/
def ElementSearch.searchByBoundingBox (s : ElementSearch) (aabb : AABB) :
    Nat × ElementSearch :=
  let matchedIDs := filter s._mesh._elements
    (fun e => e.nodes.any (fun node => aabb.containsPoint node 0))
  (matchedIDs.length, s.updateUnion matchedIDs)

/-- The loop of `searchByNodeIDs` (lines 80-86): the ids of the elements
connected to each node are appended to `connected_elements`. -/
def collectConnectedElements (mesh : Mesh) :
    List Nat → List Nat → Option (List Nat)
  | [], connected_elements => some connected_elements
  | node_id :: rest, connected_elements =>
    match mesh.getElementsConnectedToNode node_id with
    | none => none
    | some elements =>
      collectConnectedElements mesh rest
        (connected_elements ++ elements.map (fun e => e.id))

/-- The member function `ElementSearch::searchByNodeIDs` (lines 76-92). -/
def ElementSearch.searchByNodeIDs (s : ElementSearch) (nodes : List Nat) :
    Option (Nat × ElementSearch) :=
  match collectConnectedElements s._mesh nodes [] with
  | none => none
  | some collected =>
    let connected_elements := BaseLib.makeVectorUnique collected
    some (connected_elements.length, s.updateUnion connected_elements)

/-- A call of one of the four searches with its argument. -/
inductive Search where
  | byElementType (eleType : MeshElemType)
  | byContent (eps : ℚ)
  | byBoundingBox (aabb : AABB)
  | byNodeIDs (nodes : List Nat)

/-- The call of a search on a search object. -/
def ElementSearch.search (s : ElementSearch) : Search →
    Option (Nat × ElementSearch)
  | Search.byElementType eleType => some (s.searchByElementType eleType)
  | Search.byContent eps => some (s.searchByContent eps)
  | Search.byBoundingBox aabb => some (s.searchByBoundingBox aabb)
  | Search.byNodeIDs nodes => s.searchByNodeIDs nodes

/-- A sequence of calls on a search object: the values returned, in the
order of the calls, and the search object after the last call. -/
def ElementSearch.searches (s : ElementSearch) :
    List Search → Option (List Nat × ElementSearch)
  | [] => some ([], s)
  | q :: rest =>
    match s.search q with
    | none => none
    | some (n, s1) =>
      match s1.searches rest with
      | none => none
      | some (counts, s2) => some (n :: counts, s2)

/-- The element id `id` is matched by a search on a mesh: the element at
position `id` has the type, or a content below `eps`, or a base node in the
box; or an element with this id is connected to one of the nodes. -/
def Search.matched (mesh : Mesh) : Search → Nat → Prop
  | Search.byElementType eleType, id =>
    ∃ e, mesh._elements[id]? = some e ∧ e.geom_type = eleType
  | Search.byContent eps, id =>
    ∃ e, mesh._elements[id]? = some e ∧ e.content < eps
  | Search.byBoundingBox aabb, id =>
    ∃ e, mesh._elements[id]? = some e ∧
      ∃ node ∈ e.nodes, aabb.containsPoint node 0 = true
  | Search.byNodeIDs nodes, id =>
    ∃ node_id ∈ nodes, ∃ elements,
      mesh._elements_connected_to_nodes[node_id]? = some elements ∧
        ∃ e ∈ elements, e.id = id

/-- The node ids of a search are within the vector of the connected
elements. -/
def Search.valid (mesh : Mesh) : Search → Prop
  | Search.byNodeIDs nodes =>
    ∀ node_id ∈ nodes, node_id < mesh._elements_connected_to_nodes.length
  | _ => True

end MeshLib

namespace MeshLib

/-- A node for tests, whose identity is its id. -/
def testNode (id : Nat) : Node :=
  { ptr := id, id := id }

/-- A mesh for tests: a triangle, a quad and a second triangle in a row, with
the contents `1/2`, `2` and `1/10`, over the nodes 0 to 5. -/
def sampleMesh : Mesh :=
  let e0 : Element :=
    { geom_type := MeshElemType.TRIANGLE, id := 0, content := 1 / 2,
      nodes := [testNode 0, testNode 1, testNode 2] }
  let e1 : Element :=
    { geom_type := MeshElemType.QUAD, id := 1, content := 2,
      nodes := [testNode 1, testNode 2, testNode 4, testNode 3] }
  let e2 : Element :=
    { geom_type := MeshElemType.TRIANGLE, id := 2, content := 1 / 10,
      nodes := [testNode 3, testNode 4, testNode 5] }
  { _elements := [e0, e1, e2]
    _elements_connected_to_nodes :=
      [[e0], [e0, e1], [e0, e1], [e1, e2], [e1, e2], [e2]] }

/-- A sequence of searches for tests: the triangles, the elements at the
nodes 3 and 1, the elements with a content below `1/4`. -/
def sampleSearches : List Search :=
  [Search.byElementType MeshElemType.TRIANGLE, Search.byNodeIDs [3, 1],
   Search.byContent (1 / 4)]

/-- The values returned by a sequence of searches and the marked elements
after it. -/
def observeSearches (r : Option (List Nat × ElementSearch)) :
    Option (List Nat × List Nat) :=
  r.map (fun p => (p.1, p.2._marked_elements))

end MeshLib

namespace MeshLib

/-- The value `std::numeric_limits<unsigned>::max()`. -/
def UINT_MAX : Nat := 4294967295

/-- The null pointer to a node. Reading the id of what it points to is
undefined in C++; it is 0 here. -/
def Node.null : Node :=
  { ptr := 0, id := 0 }

/-- The call `element->getNode(i)`; outside the base nodes it is undefined
in C++ and the null pointer here. -/
def Element.getNode (element : Element) (i : Nat) : Node :=
  element.nodes.getD i Node.null

/-- The call `element->getNumberOfBaseNodes()`. -/
def Element.getNumberOfBaseNodes (element : Element) : Nat :=
  element.nodes.length

/-- What the mesh revision reads of the geometry and of classes that are not
part of the sources: `MathLib::isCoplanar` on four nodes, `isEdge(i, j)`,
`getFace(i)` and `getDimension()` of an element, the flag `NonCoplanar` of
`validate()`, the function `getNodeIDinElement(element, node)`, the function
`copyElement(element, nodes)`, and the content that the constructor of an
element computes from its nodes. -/
structure Geometry where
  isCoplanar : Node → Node → Node → Node → Bool
  isEdge : Element → Nat → Nat → Bool
  getFace : Element → Nat → Element
  getDimension : Element → Nat
  validateNonCoplanar : Element → Bool
  getNodeIDinElement : Element → Node → Nat
  copyElement : Element → (Nat → Node) → Element
  content : MeshElemType → List Node → ℚ

/-- The constructors `new MeshLib::Line(nodes)`, `new MeshLib::Tri(nodes)`,
... of the element classes: the id of a new element is the invalid id
`std::numeric_limits<std::size_t>::max()`. -/
def Geometry.construct (G : Geometry) (geom_type : MeshElemType)
    (nodes : List Node) : Element :=
  { geom_type := geom_type, id := 18446744073709551615,
    content := G.content geom_type nodes, nodes := nodes }

namespace MeshRevision

/-- The pairs `(i, j)` of the loops `for (i = first; i < last; ++i)
for (j = i + 1; j < last + 1; ++j)`, in the order of the loops. -/
def pairs (first last : Nat) : List (Nat × Nat) :=
  ((List.range' first (last - first)).map (fun i =>
    (List.range' (i + 1) (last - i)).map (fun j => (i, j)))).flatten

/-- The member function `MeshRevision::getNumberOfUniqueNodes` (lines
204-222), in arithmetic modulo `2^32` (`unsigned`). -/
def getNumberOfUniqueNodes (element : Element) : Nat :=
  let nNodes := element.getNumberOfBaseNodes % 4294967296
  (List.range ((nNodes + 4294967295) % 4294967296)).foldl
    (fun count i =>
      if (List.range' (i + 1) (nNodes - (i + 1))).any
          (fun j => (element.getNode i).id == (element.getNode j).id)
      then (count + 4294967295) % 4294967296
      else count)
    nNodes

/-- The member function `MeshRevision::lutPrismThirdNode` (lines
1241-1268). -/
def lutPrismThirdNode (id1 id2 : Nat) : Nat :=
  if (id1 = 0 ∧ id2 = 1) ∨ (id1 = 1 ∧ id2 = 2) then 2
  else if (id1 = 1 ∧ id2 = 2) ∨ (id1 = 2 ∧ id2 = 1) then 0
  else if (id1 = 0 ∧ id2 = 2) ∨ (id1 = 2 ∧ id2 = 0) then 1
  else if (id1 = 3 ∧ id2 = 4) ∨ (id1 = 4 ∧ id2 = 3) then 5
  else if (id1 = 4 ∧ id2 = 5) ∨ (id1 = 5 ∧ id2 = 4) then 3
  else if (id1 = 3 ∧ id2 = 5) ∨ (id1 = 5 ∧ id2 = 3) then 4
  else UINT_MAX

/-- The two local node indices are distinct and lie in the same triangle of
a prism: both in `{0, 1, 2}` or both in `{3, 4, 5}`. -/
def sameTriangle (id1 id2 : Nat) : Prop :=
  id1 ≠ id2 ∧ ((id1 < 3 ∧ id2 < 3) ∨ (3 ≤ id1 ∧ id1 < 6 ∧ 3 ≤ id2 ∧ id2 < 6))

instance (id1 id2 : Nat) : Decidable (sameTriangle id1 id2) := by
  unfold sameTriangle
  infer_instance

/-- The remaining node of the triangle of a prism that holds the two local
node indices: the sum of the indices of a triangle is 3 or 12. -/
def remainingNode (id1 id2 : Nat) : Nat :=
  if id1 < 3 then 3 - id1 - id2 else 12 - id1 - id2

end MeshRevision

end MeshLib

namespace MeshLib

namespace MeshRevision

/-- A quadrilateral whose four corners hold the node ids 4, 4, 7, 4. -/
def quadTwoIds : Element :=
  { geom_type := MeshElemType.QUAD, id := 0, content := 0,
    nodes := [⟨100, 4⟩, ⟨100, 4⟩, ⟨101, 7⟩, ⟨100, 4⟩] }

end MeshRevision

end MeshLib

namespace MeshLib

namespace MeshRevision

/-- The expression `nodes[element->getNode(i)->getID()]`: the new node that
stands for the node `i` of an element. The vector `nodes` is given by its
access function. -/
def newNode (nodes : Nat → Node) (element : Element) (i : Nat) : Node :=
  nodes (element.getNode i).id

/-- The table `_hex_diametral_nodes` read by
`MeshRevision::lutHexDiametralNode` (lines 1007-1011); an index outside the
table is undefined in C++ and gives 0 here. -/
def lutHexDiametralNode (id : Nat) : Nat :=
  [6, 7, 4, 5, 2, 3, 0, 1].getD id 0

/-- The member function `MeshRevision::lutHexCuttingQuadNodes` (lines
1013-1186); the array is zero-initialised. -/
def lutHexCuttingQuadNodes (id1 id2 : Nat) : Nat × Nat × Nat × Nat :=
  if id1 = 0 ∧ id2 = 1 then (3, 2, 5, 4)
  else if id1 = 1 ∧ id2 = 2 then (0, 3, 6, 5)
  else if id1 = 2 ∧ id2 = 3 then (1, 0, 7, 6)
  else if id1 = 3 ∧ id2 = 0 then (2, 1, 4, 7)
  else if id1 = 4 ∧ id2 = 5 then (0, 1, 6, 7)
  else if id1 = 5 ∧ id2 = 6 then (1, 2, 7, 4)
  else if id1 = 6 ∧ id2 = 7 then (2, 3, 4, 5)
  else if id1 = 7 ∧ id2 = 4 then (3, 0, 5, 6)
  else if id1 = 0 ∧ id2 = 4 then (3, 7, 5, 1)
  else if id1 = 1 ∧ id2 = 5 then (0, 4, 6, 2)
  else if id1 = 2 ∧ id2 = 6 then (1, 5, 7, 3)
  else if id1 = 3 ∧ id2 = 7 then (2, 6, 4, 0)
  else if id1 = 1 ∧ id2 = 0 then (2, 3, 4, 5)
  else if id1 = 2 ∧ id2 = 1 then (3, 0, 5, 6)
  else if id1 = 3 ∧ id2 = 2 then (0, 1, 6, 7)
  else if id1 = 0 ∧ id2 = 3 then (1, 2, 7, 4)
  else if id1 = 5 ∧ id2 = 4 then (1, 0, 7, 6)
  else if id1 = 6 ∧ id2 = 5 then (2, 1, 4, 7)
  else if id1 = 7 ∧ id2 = 6 then (3, 2, 5, 4)
  else if id1 = 4 ∧ id2 = 7 then (0, 3, 6, 5)
  else if id1 = 4 ∧ id2 = 0 then (7, 3, 1, 5)
  else if id1 = 5 ∧ id2 = 1 then (4, 0, 2, 6)
  else if id1 = 6 ∧ id2 = 2 then (5, 1, 3, 7)
  else if id1 = 7 ∧ id2 = 3 then (6, 2, 0, 4)
  else (0, 0, 0, 0)

/-- The member function `MeshRevision::lutHexBackNodes` (lines
1188-1239). -/
def lutHexBackNodes (i j k l : Nat) : Nat × Nat :=
  if lutHexDiametralNode i = k then (i, lutHexDiametralNode l)
  else if lutHexDiametralNode i = l then (i, lutHexDiametralNode k)
  else if lutHexDiametralNode j = k then (j, lutHexDiametralNode l)
  else if lutHexDiametralNode j = l then (j, lutHexDiametralNode k)
  else if i = k then (lutHexDiametralNode l, j)
  else if i = l then (lutHexDiametralNode k, j)
  else if j = k then (lutHexDiametralNode l, i)
  else if j = l then (lutHexDiametralNode k, i)
  else (UINT_MAX, UINT_MAX)

/-- The member function `MeshRevision::findPyramidTopNode` (lines
982-1005). -/
def findPyramidTopNode (element : Element)
    (base_node_ids : Nat × Nat × Nat × Nat) : Nat :=
  match (List.range element.getNumberOfBaseNodes).find? (fun i =>
      ¬ ((element.getNode i).id = base_node_ids.1 ∨
        (element.getNode i).id = base_node_ids.2.1 ∨
        (element.getNode i).id = base_node_ids.2.2.1 ∨
        (element.getNode i).id = base_node_ids.2.2.2)) with
  | some i => i % 4294967296
  | none => UINT_MAX

/-- The loop of `constructLine` (lines 879-886): the second node of the
line, the null pointer when no node differs from the first. -/
def constructLineLoop (element : Element) (nodes : Nat → Node) :
    List Nat → Node
  | [] => Node.null
  | i :: rest =>
    if (element.getNode i).id ≠ (element.getNode 0).id then
      newNode nodes element i
    else constructLineLoop element nodes rest

/-- The member function `MeshRevision::constructLine` (lines 873-890),
without the `assert` (a release build). -/
def constructLine (G : Geometry) (element : Element) (nodes : Nat → Node) :
    Element :=
  G.construct MeshElemType.LINE
    [newNode nodes element 0,
     constructLineLoop element nodes
       (List.range' 1 (element.getNumberOfBaseNodes - 1))]

/-- The inner loop of `constructTri` (lines 909-916): the third node, the
null pointer when none is found. -/
def constructTriInner (element : Element) (nodes : Nat → Node) (tri1 : Node) :
    List Nat → Node
  | [] => Node.null
  | j :: rest =>
    if (element.getNode j).id ≠ tri1.id then newNode nodes element j
    else constructTriInner element nodes tri1 rest

/-- The outer loop of `constructTri` (lines 904-922): the second and the
third node. -/
def constructTriLoop (element : Element) (nodes : Nat → Node) (tri0 : Node) :
    List Nat → Node → Node × Node
  | [], tri1 => (tri1, Node.null)
  | i :: rest, tri1 =>
    if (element.getNode i).id ≠ tri0.id then
      let tri2 := constructTriInner element nodes (newNode nodes element i)
        (List.range' (i + 1) (element.getNumberOfBaseNodes - (i + 1)))
      if tri2.ptr ≠ 0 then (newNode nodes element i, tri2)
      else constructTriLoop element nodes tri0 rest (newNode nodes element i)
    else constructTriLoop element nodes tri0 rest tri1

/-- The member function `MeshRevision::constructTri` (lines 892-923),
without the `assert`; the entry `tri_nodes[1]` is indeterminate before the
loop and the null pointer here. -/
def constructTri (G : Geometry) (element : Element) (nodes : Nat → Node) :
    Element :=
  let tri := constructTriLoop element nodes (newNode nodes element 0)
    (List.range' 1 (element.getNumberOfBaseNodes - 1)) Node.null
  G.construct MeshElemType.TRIANGLE [newNode nodes element 0, tri.1, tri.2]

/-- The loop of `constructFourNodeElement` (lines 933-952): the entries of
`new_nodes` written so far, `count` being their number. -/
def fourNodesLoop (element : Element) (nodes : Nat → Node) :
    List Nat → List Node → List Node
  | [], new_nodes => new_nodes
  | i :: rest, new_nodes =>
    if new_nodes.length > 3 then new_nodes
    else if (List.range i).any
        (fun j => (element.getNode i).id == (element.getNode j).id) then
      fourNodesLoop element nodes rest new_nodes
    else fourNodesLoop element nodes rest (new_nodes ++ [newNode nodes element i])

/-- The member function `MeshRevision::constructFourNodeElement` (lines
925-980); `none` is the null pointer. An entry of `new_nodes` that the loop
did not write is indeterminate in C++ and the null pointer here. The loop
over the node order (lines 960-971) returns `elem` at both of its returns,
and swaps entries of the local array only, of which the constructor of
`elem` has taken a copy. -/
def constructFourNodeElement (G : Geometry) (element : Element)
    (nodes : Nat → Node) (min_elem_dim : Nat) : Option Element :=
  let written := fourNodesLoop element nodes
    (List.range' 1 (element.getNumberOfBaseNodes - 1))
    [newNode nodes element 0]
  let new_nodes := [written.getD 0 Node.null, written.getD 1 Node.null,
    written.getD 2 Node.null, written.getD 3 Node.null]
  let isQuad := G.isCoplanar (written.getD 0 Node.null)
    (written.getD 1 Node.null) (written.getD 2 Node.null)
    (written.getD 3 Node.null)
  if isQuad ∧ min_elem_dim < 3 then
    some (G.construct MeshElemType.QUAD new_nodes)
  else if ¬ isQuad then
    some (G.construct MeshElemType.TETRAHEDRON new_nodes)
  else none

/-- The lambda `addTetrahedron` of `subdividePyramid`, `subdividePrism` and
`reducePrism`: the tetrahedron that is appended. -/
def addTetrahedron (G : Geometry) (element : Element) (nodes : Nat → Node)
    (id0 id1 id2 id3 : Nat) : Element :=
  G.construct MeshElemType.TETRAHEDRON
    [newNode nodes element id0, newNode nodes element id1,
     newNode nodes element id2, newNode nodes element id3]

/-- The member function `MeshRevision::subdivideQuad` (lines 392-408): the
returned number and the elements appended to `new_elements`. -/
def subdivideQuad (G : Geometry) (quad : Element) (nodes : Nat → Node) :
    Nat × List Element :=
  (2, [G.construct MeshElemType.TRIANGLE
        [newNode nodes quad 0, newNode nodes quad 1, newNode nodes quad 2],
       G.construct MeshElemType.TRIANGLE
        [newNode nodes quad 0, newNode nodes quad 2, newNode nodes quad 3]])

/-- The member function `MeshRevision::subdividePyramid` (lines
439-461). -/
def subdividePyramid (G : Geometry) (pyramid : Element) (nodes : Nat → Node) :
    Nat × List Element :=
  (2, [addTetrahedron G pyramid nodes 0 1 2 4,
       addTetrahedron G pyramid nodes 0 2 3 4])

/-- The member function `MeshRevision::subdividePrism` (lines 463-488). -/
def subdividePrism (G : Geometry) (prism : Element) (nodes : Nat → Node) :
    Nat × List Element :=
  (3, [addTetrahedron G prism nodes 0 1 2 3,
       addTetrahedron G prism nodes 3 2 4 5,
       addTetrahedron G prism nodes 2 1 3 4])

/-- The member function `MeshRevision::subdivideHex` (lines 410-437): the
value of `subdividePrism` is not read. -/
def subdivideHex (G : Geometry) (hex : Element) (nodes : Nat → Node) :
    Nat × List Element :=
  let prism1 := G.construct MeshElemType.PRISM
    [newNode nodes hex 0, newNode nodes hex 2, newNode nodes hex 1,
     newNode nodes hex 4, newNode nodes hex 6, newNode nodes hex 5]
  let prism2 := G.construct MeshElemType.PRISM
    [newNode nodes hex 4, newNode nodes hex 6, newNode nodes hex 7,
     newNode nodes hex 0, newNode nodes hex 2, newNode nodes hex 3]
  (6, (subdividePrism G prism1 nodes).2 ++ (subdividePrism G prism2 nodes).2)

/-- The member function `MeshRevision::subdivideElement` (lines
325-341). -/
def subdivideElement (G : Geometry) (element : Element) (nodes : Nat → Node) :
    Nat × List Element :=
  if element.geom_type = MeshElemType.QUAD then subdivideQuad G element nodes
  else if element.geom_type = MeshElemType.HEXAHEDRON then
    subdivideHex G element nodes
  else if element.geom_type = MeshElemType.PYRAMID then
    subdividePyramid G element nodes
  else if element.geom_type = MeshElemType.PRISM then
    subdividePrism G element nodes
  else (0, [])

/-- The member function `MeshRevision::reducePrism` (lines 782-871): the
returned number and the elements appended to `new_elements`. The pair
`(i, j)` is the first of the two loops with equal node ids. No subtraction
wraps: with `i > 2` the indices `j` and `l` are above 2 as well, and `k` is
3, 4 or 5 when it is not the maximum. -/
def reducePrism (G : Geometry) (org_elem : Element) (n_unique_nodes : Nat)
    (nodes : Nat → Node) (min_elem_dim : Nat) : Nat × List Element :=
  if n_unique_nodes = 5 then
    match (pairs 0 5).find? (fun p =>
        p.1 ≠ p.2 ∧ (org_elem.getNode p.1).id = (org_elem.getNode p.2).id) with
    | some (i, j) =>
      if i % 3 = j % 3 then
        (2, [addTetrahedron G org_elem nodes ((i + 1) % 3) ((i + 2) % 3) i
              ((i + 1) % 3 + 3),
             addTetrahedron G org_elem nodes ((i + 1) % 3 + 3) ((i + 2) % 3) i
              ((i + 2) % 3 + 3)])
      else
        let i_offset := if i > 2 then i - 3 else i + 3
        let j_offset := if i > 2 then j - 3 else j + 3
        let k := lutPrismThirdNode i j
        if k = UINT_MAX then (0, [])
        else
          let k_offset := if i > 2 then k - 3 else k + 3
          let l := if G.isCoplanar (org_elem.getNode i_offset)
            (org_elem.getNode k_offset) (org_elem.getNode i)
            (org_elem.getNode k) then j else i
          let l_offset := if i > 2 then l - 3 else l + 3
          (2, [addTetrahedron G org_elem nodes i_offset j_offset k_offset i,
               addTetrahedron G org_elem nodes l_offset k_offset i k])
    | none => (1, [])
  else if n_unique_nodes = 4 then
    match constructFourNodeElement G org_elem nodes min_elem_dim with
    | some elem => (1, [elem])
    | none => (1, [])
  else if n_unique_nodes = 3 ∧ min_elem_dim < 3 then
    (1, [constructTri G org_elem nodes])
  else if n_unique_nodes = 2 ∧ min_elem_dim = 1 then
    (1, [constructLine G org_elem nodes])
  else (1, [])

/-- The member function `MeshRevision::reducePyramid` (lines 758-780): the
elements appended to `new_elements`. -/
def reducePyramid (G : Geometry) (org_elem : Element) (n_unique_nodes : Nat)
    (nodes : Nat → Node) (min_elem_dim : Nat) : List Element :=
  if n_unique_nodes = 4 then
    match constructFourNodeElement G org_elem nodes min_elem_dim with
    | some elem => [elem]
    | none => []
  else if n_unique_nodes = 3 ∧ min_elem_dim < 3 then
    [constructTri G org_elem nodes]
  else if n_unique_nodes = 2 ∧ min_elem_dim = 1 then
    [constructLine G org_elem nodes]
  else []

/-- The prism that `reduceHex` builds from a face of the hexahedron with
two collapsed edges (lines 543-617), if the face has them. -/
def hexFacePrism (G : Geometry) (org_elem : Element) (nodes : Nat → Node)
    (face : Element) : Option Element :=
  let own := fun (i : Nat) => G.getNodeIDinElement org_elem (face.getNode i)
  let across := fun (i : Nat) => lutHexDiametralNode (own i)
  if (face.getNode 0).id = (face.getNode 1).id ∧
      (face.getNode 2).id = (face.getNode 3).id then
    some (G.construct MeshElemType.PRISM
      [newNode nodes org_elem (across 0), newNode nodes org_elem (across 1),
       newNode nodes org_elem (own 2), newNode nodes org_elem (across 2),
       newNode nodes org_elem (across 3), newNode nodes org_elem (own 0)])
  else if (face.getNode 0).id = (face.getNode 3).id ∧
      (face.getNode 1).id = (face.getNode 2).id then
    some (G.construct MeshElemType.PRISM
      [newNode nodes org_elem (across 0), newNode nodes org_elem (across 3),
       newNode nodes org_elem (own 2), newNode nodes org_elem (across 1),
       newNode nodes org_elem (across 2), newNode nodes org_elem (own 0)])
  else none

/-- The four loop indices `(i, j)`, `(k, l)` at which `reduceHex` leaves
the loops of lines 621-700: the first two collapsed edges. -/
def hexCollapsedEdges (G : Geometry) (org_elem : Element) :
    Option ((Nat × Nat) × (Nat × Nat)) :=
  (pairs 0 7).findSome? (fun p =>
    if (org_elem.getNode p.1).id = (org_elem.getNode p.2).id then
      ((pairs p.1 7).find? (fun q =>
        ¬ (p.1 = q.1 ∧ p.2 = q.2) ∧ G.isEdge org_elem p.1 p.2 ∧
          G.isEdge org_elem q.1 q.2 ∧
          (org_elem.getNode q.1).id = (org_elem.getNode q.2).id)).map
        (fun q => (p, q))
    else none)

/-- The member function `MeshRevision::reduceHex` (lines 490-756): the
returned number and the elements appended to `new_elements`. The call
`constructFourNodeElement(org_elem, nodes)` of line 703 has the default
`min_elem_dim = 1` of the header, with which it returns no null pointer. -/
def reduceHex (G : Geometry) (org_elem : Element) (n_unique_nodes : Nat)
    (nodes : Nat → Node) (min_elem_dim : Nat) : Nat × List Element :=
  if n_unique_nodes = 7 then
    match (pairs 0 7).find? (fun p =>
        (org_elem.getNode p.1).id = (org_elem.getNode p.2).id) with
    | some (i, j) =>
      let base_nodes := lutHexCuttingQuadNodes i j
      let swapped := if i < 4 ∧ j ≥ 4 then (j, i) else (i, j)
      (2, [G.construct MeshElemType.PYRAMID
            [newNode nodes org_elem base_nodes.1,
             newNode nodes org_elem base_nodes.2.1,
             newNode nodes org_elem base_nodes.2.2.1,
             newNode nodes org_elem base_nodes.2.2.2,
             newNode nodes org_elem i],
           G.construct MeshElemType.PRISM
            [newNode nodes org_elem base_nodes.1,
             newNode nodes org_elem base_nodes.2.2.2,
             newNode nodes org_elem (lutHexDiametralNode swapped.2),
             newNode nodes org_elem base_nodes.2.1,
             newNode nodes org_elem base_nodes.2.2.1,
             newNode nodes org_elem (lutHexDiametralNode swapped.1)]])
    | none => (0, [])
  else if n_unique_nodes = 6 then
    match (List.range 6).findSome? (fun i =>
        hexFacePrism G org_elem nodes (G.getFace org_elem i)) with
    | some prism => (1, [prism])
    | none =>
      match hexCollapsedEdges G org_elem with
      | some ((i, j), (k, l)) =>
        let back := lutHexBackNodes i j k l
        if back.1 = UINT_MAX ∨ back.2 = UINT_MAX then (0, [])
        else
          let cutting_plane := lutHexCuttingQuadNodes back.1 back.2
          let prism1 := G.construct MeshElemType.PRISM
            [org_elem.getNode back.1, org_elem.getNode cutting_plane.1,
             org_elem.getNode cutting_plane.2.2.2, org_elem.getNode back.2,
             org_elem.getNode cutting_plane.2.1,
             org_elem.getNode cutting_plane.2.2.1]
          let prism2 := G.construct MeshElemType.PRISM
            [org_elem.getNode (lutHexDiametralNode back.1),
             org_elem.getNode cutting_plane.1,
             org_elem.getNode cutting_plane.2.2.2,
             org_elem.getNode (lutHexDiametralNode back.2),
             org_elem.getNode cutting_plane.2.1,
             org_elem.getNode cutting_plane.2.2.1]
          let first := reducePrism G prism1 5 nodes min_elem_dim
          let second := reducePrism G prism2 5 nodes min_elem_dim
          ((first.1 + second.1) % 4294967296, first.2 ++ second.2)
      | none => (0, [])
  else if n_unique_nodes = 5 then
    match constructFourNodeElement G org_elem nodes 1 with
    | some tet1 =>
      let first_four_nodes := ((tet1.getNode 0).id, (tet1.getNode 1).id,
        (tet1.getNode 2).id, (tet1.getNode 3).id)
      let fifth_node := findPyramidTopNode org_elem first_four_nodes
      let tet_changed := decide (tet1.geom_type = MeshElemType.QUAD)
      let first := if tet_changed then
          G.construct MeshElemType.TETRAHEDRON
            [nodes first_four_nodes.1, nodes first_four_nodes.2.1,
             nodes first_four_nodes.2.2.1, newNode nodes org_elem fifth_node]
        else tet1
      (2, [first, G.construct MeshElemType.TETRAHEDRON
        [if tet_changed then nodes first_four_nodes.1
          else nodes first_four_nodes.2.1,
         nodes first_four_nodes.2.2.1, nodes first_four_nodes.2.2.2,
         newNode nodes org_elem fifth_node]])
    | none => (0, [])
  else if n_unique_nodes = 4 then
    match constructFourNodeElement G org_elem nodes min_elem_dim with
    | some elem => (1, [elem])
    | none => (0, [])
  else if n_unique_nodes = 3 ∧ min_elem_dim < 3 then
    (1, [constructTri G org_elem nodes])
  else if min_elem_dim = 1 then (1, [constructLine G org_elem nodes])
  else (0, [])

/-- The member function `MeshRevision::reduceElement` (lines 343-390): the
returned number and the elements appended to `elements`. -/
def reduceElement (G : Geometry) (element : Element) (n_unique_nodes : Nat)
    (nodes : Nat → Node) (min_elem_dim : Nat) : Nat × List Element :=
  if element.geom_type = MeshElemType.TRIANGLE ∧ min_elem_dim = 1 then
    (1, [constructLine G element nodes])
  else if element.geom_type = MeshElemType.QUAD ∨
      element.geom_type = MeshElemType.TETRAHEDRON then
    if n_unique_nodes = 3 ∧ min_elem_dim < 3 then
      (1, [constructTri G element nodes])
    else if min_elem_dim = 1 then (1, [constructLine G element nodes])
    else (1, [])
  else if element.geom_type = MeshElemType.HEXAHEDRON then
    reduceHex G element n_unique_nodes nodes min_elem_dim
  else if element.geom_type = MeshElemType.PYRAMID then
    (1, reducePyramid G element n_unique_nodes nodes min_elem_dim)
  else if element.geom_type = MeshElemType.PRISM then
    reducePrism G element n_unique_nodes nodes min_elem_dim
  else (0, [])

/-- The loop over the elements of `simplifyMesh` (lines 65-103), from the
element `k` on: the vectors `new_elements` and `element_ids` after the loop,
or `none` when the function returns the null pointer at line 80. The
elements carry the node ids that `constructNewNodesArray` has set. -/
def simplifyMeshLoop (G : Geometry) (new_nodes : Nat → Node)
    (min_elem_dim : Nat) :
    List Element → Nat → List Element → List Nat →
      Option (List Element × List Nat)
  | [], _, new_elements, element_ids => some (new_elements, element_ids)
  | elem :: rest, k, new_elements, element_ids =>
    if getNumberOfUniqueNodes elem = elem.getNumberOfBaseNodes ∧
        G.getDimension elem ≥ min_elem_dim then
      if G.validateNonCoplanar elem then
        if (subdivideElement G elem new_nodes).1 = 0 then none
        else
          simplifyMeshLoop G new_nodes min_elem_dim rest (k + 1)
            (new_elements ++ (subdivideElement G elem new_nodes).2)
            (element_ids ++
              List.replicate (subdivideElement G elem new_nodes).1 k)
      else
        simplifyMeshLoop G new_nodes min_elem_dim rest (k + 1)
          (new_elements ++ [G.copyElement elem new_nodes])
          (element_ids ++ [k])
    else if getNumberOfUniqueNodes elem < elem.getNumberOfBaseNodes ∧
        getNumberOfUniqueNodes elem > 1 then
      simplifyMeshLoop G new_nodes min_elem_dim rest (k + 1)
        (new_elements ++ (reduceElement G elem (getNumberOfUniqueNodes elem)
          new_nodes min_elem_dim).2)
        (element_ids ++ List.replicate (reduceElement G elem
          (getNumberOfUniqueNodes elem) new_nodes min_elem_dim).1 k)
    else
      simplifyMeshLoop G new_nodes min_elem_dim rest (k + 1) new_elements
        element_ids

/-- The function template `fillElemProperty` (lines 240-249): the entries
appended to `new_prop`; reading `old_prop` outside its range gives `none`. -/
def fillElemProperty {T : Type} (old_prop : List T) (elem_ids : List Nat) :
    Option (List T) :=
  elem_ids.mapM (fun i => old_prop[i]?)

/-! ### Concrete inputs of the mesh revision -/

/-- A geometry in which all nodes lie in one plane: four nodes are always
coplanar, no element has the flag `NonCoplanar`, the dimension is that of
the element type. -/
def planar : Geometry :=
  { isCoplanar := fun _ _ _ _ => true
    isEdge := fun _ _ _ => false
    getFace := fun element _ => element
    getDimension := fun element =>
      match element.geom_type with
      | MeshElemType.LINE => 1
      | MeshElemType.TRIANGLE => 2
      | MeshElemType.QUAD => 2
      | MeshElemType.INVALID => 0
      | MeshElemType.POINT => 0
      | _ => 3
    validateNonCoplanar := fun _ => false
    getNodeIDinElement := fun element node =>
      match (List.range element.nodes.length).find?
          (fun i => (element.getNode i).ptr = node.ptr) with
      | some i => i
      | none => UINT_MAX
    copyElement := fun element nodes =>
      { element with nodes := element.nodes.map (fun node => nodes node.id) }
    content := fun _ _ => 0 }

/-- The new nodes `0`, `1`, `2`, ...: the node of index `i` has the id `i`. -/
def newNodes (i : Nat) : Node :=
  { ptr := 200 + i, id := i }

/-- A quadrilateral of which two pairs of corners have collapsed: the node
ids are 0, 0, 1, 1. -/
def collapsedQuad : Element :=
  { geom_type := MeshElemType.QUAD, id := 1, content := 0,
    nodes := [⟨100, 0⟩, ⟨101, 0⟩, ⟨102, 1⟩, ⟨103, 1⟩] }

/-- A triangle with the three node ids 0, 1, 2. -/
def soundTriangle : Element :=
  { geom_type := MeshElemType.TRIANGLE, id := 0, content := 1,
    nodes := [⟨100, 0⟩, ⟨102, 1⟩, ⟨104, 2⟩] }

/-- What is observed of the loop of `simplifyMesh`: the node lists of the
new elements and the recorded source element ids. -/
def observeSimplify (r : Option (List Element × List Nat)) :
    Option (List (List Node) × List Nat) :=
  r.map (fun p => (p.1.map (fun element => element.nodes), p.2))

end MeshRevision

end MeshLib

/-! ## Properties -/

namespace ProcessLib

open NumLib

variable {σ ω : Type}

/-- The flag after the first loop is set exactly when it was set before and
every process of the list converged and lets the step pass. -/
theorem firstLoop_accepted_iff (E : Env σ ω) (tl : TimeLoop σ ω) (t : ℚ) :
    ∀ (l : List (ProcessData σ)) (i : Nat) (v : StepVars),
      (firstLoop E tl._process_solutions tl._process_solutions_prev t i l
          v).2.all_process_steps_accepted = true ↔
        (v.all_process_steps_accepted = true ∧
          ∀ (j : Nat) (ppd : ProcessData σ), l[j]? = some ppd →
            ppd.nonlinear_solver_status.error_norms_met = true ∧
              controllerPasses E tl t (i + j) ppd) := by
  intro l
  induction l with
  | nil => intro i v; simp [firstLoop]
  | cons p rest ih =>
    intro i v
    simp only [firstLoop]
    rw [ih]
    constructor
    · rintro ⟨hb, hrest⟩
      simp only [firstLoopBody] at hb
      split_ifs at hb with h1 h2
      refine ⟨hb, ?_⟩
      intro j ppd hj
      cases j with
      | zero =>
        simp only [List.getElem?_cons_zero, Option.some.injEq] at hj
        subst hj
        refine ⟨by simpa using h1, ?_⟩
        simp only [controllerPasses, Nat.add_zero]
        by_cases ha : (callNext E tl._process_solutions tl._process_solutions_prev
            t i p).accepted = true
        · exact Or.inl ha
        · right
          intro hlt
          exact h2 ⟨by simpa using ha, hlt⟩
      | succ j =>
        simp only [List.getElem?_cons_succ] at hj
        have := hrest j ppd hj
        simpa [Nat.add_assoc, Nat.add_comm 1 j] using this
    · rintro ⟨hv, hall⟩
      have h0 := hall 0 p (by simp)
      refine ⟨?_, ?_⟩
      · simp only [firstLoopBody]
        rw [if_neg (by simp [h0.1])]
        rw [if_neg]
        · exact hv
        · rintro ⟨ha, hlt⟩
          rcases h0.2 with h | h
          · simp only [Nat.add_zero] at h
            simp [h] at ha
          · exact h (by simpa using hlt)
      · intro j ppd hj
        have := hall (j + 1) ppd (by simpa using hj)
        simpa [Nat.add_assoc, Nat.add_comm 1 j] using this

/-- The step size after the first loop is the minimum of the step size
before it and of the proposals that enter the minimum. -/
theorem firstLoop_dt (E : Env σ ω) (tl : TimeLoop σ ω) (t : ℚ) :
    ∀ (l : List (ProcessData σ)) (i : Nat) (v : StepVars),
      (firstLoop E tl._process_solutions tl._process_solutions_prev t i l v).2.dt
          ≤ v.dt ∧
        (∀ (j : Nat) (ppd : ProcessData σ), l[j]? = some ppd →
          proposalCounts E tl t (i + j) ppd →
          (firstLoop E tl._process_solutions tl._process_solutions_prev t i l v).2.dt
            ≤ (callNext E tl._process_solutions tl._process_solutions_prev t
                (i + j) ppd).dt) ∧
        ((firstLoop E tl._process_solutions tl._process_solutions_prev t i l v).2.dt
            = v.dt ∨
          ∃ (j : Nat) (ppd : ProcessData σ), l[j]? = some ppd ∧
            proposalCounts E tl t (i + j) ppd ∧
            (firstLoop E tl._process_solutions tl._process_solutions_prev t i l v).2.dt
              = (callNext E tl._process_solutions tl._process_solutions_prev t
                  (i + j) ppd).dt) := by
  intro l
  induction l with
  | nil => intro i v; simp [firstLoop]
  | cons p rest ih =>
    intro i v
    simp only [firstLoop]
    obtain ⟨h1, h2, h3⟩ := ih (i + 1)
      (firstLoopBody E tl._process_solutions tl._process_solutions_prev t i p v).2
    have hbody : (firstLoopBody E tl._process_solutions tl._process_solutions_prev
        t i p v).2.dt =
        if proposalCounts E tl t i p then
          min (callNext E tl._process_solutions tl._process_solutions_prev t i p).dt
            v.dt
        else v.dt := by
      simp only [firstLoopBody, proposalCounts]
    refine ⟨?_, ?_, ?_⟩
    · refine le_trans h1 ?_
      rw [hbody]
      split_ifs
      · exact min_le_right _ _
      · exact le_refl _
    · intro j ppd hj hc
      cases j with
      | zero =>
        simp only [List.getElem?_cons_zero, Option.some.injEq] at hj
        subst hj
        simp only [Nat.add_zero] at hc ⊢
        refine le_trans h1 ?_
        rw [hbody, if_pos hc]
        exact min_le_left _ _
      | succ j =>
        simp only [List.getElem?_cons_succ] at hj
        have := h2 j ppd hj (by simpa [Nat.add_assoc, Nat.add_comm 1 j] using hc)
        simpa [Nat.add_assoc, Nat.add_comm 1 j] using this
    · rcases h3 with h | ⟨j, ppd, hj, hc, hd⟩
      · rw [h, hbody]
        split_ifs with hc
        · rcases min_choice (callNext E tl._process_solutions
              tl._process_solutions_prev t i p).dt v.dt with hm | hm
          · right
            exact ⟨0, p, by simp, by simpa using hc, by simpa using hm⟩
          · left
            exact hm
        · left
          rfl
      · right
        refine ⟨j + 1, ppd, by simpa using hj, ?_, ?_⟩
        · simpa [Nat.add_assoc, Nat.add_comm 1 j] using hc
        · simpa [Nat.add_assoc, Nat.add_comm 1 j] using hd

/-- The outcome of `computeTimeStepping` in terms of the named values. -/
theorem computeTimeStepping_eq (E : Env σ ω) (tl : TimeLoop σ ω) (prev_dt t : ℚ)
    (accepted_steps rejected_steps : Nat)
    (time_step_constraints : List (ℚ → ℚ → ℚ)) :
    computeTimeStepping E tl prev_dt t accepted_steps rejected_steps
        time_step_constraints =
      if |constrainedDt E tl prev_dt t time_step_constraints - prev_dt| < eps ∧
          stepRejected E tl t = true then
        Except.error
          { message := step_size_stalled
            time_loop :=
              { tl with
                _per_process_data :=
                  (firstLoop E tl._process_solutions tl._process_solutions_prev t 0
                    tl._per_process_data
                    { all_process_steps_accepted := true, dt := DBL_MAX }).1
                _repeating_times_of_rejected_step :=
                  if allProcessStepsAccepted E tl t then 0
                  else tl._repeating_times_of_rejected_step + 1
                _current_time := if stepRejected E tl t then t - prev_dt else t
                _accepted_steps :=
                  if !isInitialStep tl ∧ allProcessStepsAccepted E tl t then
                    accepted_steps + 1
                  else accepted_steps
                _rejected_steps :=
                  if stepRejected E tl t then rejected_steps + 1
                  else rejected_steps } }
      else
        Except.ok
          { dt := constrainedDt E tl prev_dt t time_step_constraints
            last_step_rejected := stepRejected E tl t
            t := if stepRejected E tl t then t - prev_dt else t
            accepted_steps :=
              if !isInitialStep tl ∧ allProcessStepsAccepted E tl t then
                accepted_steps + 1
              else accepted_steps
            rejected_steps :=
              if stepRejected E tl t then rejected_steps + 1 else rejected_steps
            time_loop :=
              { tl with
                _per_process_data :=
                  (secondLoop E (allProcessStepsAccepted E tl t)
                    (if stepRejected E tl t then t - prev_dt else t) tl._end_time
                    (constrainedDt E tl prev_dt t time_step_constraints) 0
                    (firstLoop E tl._process_solutions tl._process_solutions_prev t
                      0 tl._per_process_data
                      { all_process_steps_accepted := true, dt := DBL_MAX }).1
                    tl._process_solutions tl._process_solutions_prev).per_process_data
                _process_solutions :=
                  (secondLoop E (allProcessStepsAccepted E tl t)
                    (if stepRejected E tl t then t - prev_dt else t) tl._end_time
                    (constrainedDt E tl prev_dt t time_step_constraints) 0
                    (firstLoop E tl._process_solutions tl._process_solutions_prev t
                      0 tl._per_process_data
                      { all_process_steps_accepted := true, dt := DBL_MAX }).1
                    tl._process_solutions tl._process_solutions_prev).x
                _process_solutions_prev :=
                  (secondLoop E (allProcessStepsAccepted E tl t)
                    (if stepRejected E tl t then t - prev_dt else t) tl._end_time
                    (constrainedDt E tl prev_dt t time_step_constraints) 0
                    (firstLoop E tl._process_solutions tl._process_solutions_prev t
                      0 tl._per_process_data
                      { all_process_steps_accepted := true, dt := DBL_MAX }).1
                    tl._process_solutions tl._process_solutions_prev).x_prev
                _repeating_times_of_rejected_step :=
                  if allProcessStepsAccepted E tl t then 0
                  else tl._repeating_times_of_rejected_step + 1 } } := by
  rfl

/-- All processes converged and let the step pass exactly when the flag
`all_process_steps_accepted` is set after the first loop. -/
theorem allProcessStepsAccepted_iff (E : Env σ ω) (tl : TimeLoop σ ω) (t : ℚ) :
    allProcessStepsAccepted E tl t = true ↔
      ∀ (i : Nat) (ppd : ProcessData σ), tl._per_process_data[i]? = some ppd →
        ppd.nonlinear_solver_status.error_norms_met = true ∧
          controllerPasses E tl t i ppd := by
  unfold allProcessStepsAccepted
  rw [firstLoop_accepted_iff]
  simp

/-- C1: evaluation of `computeTimeStepping` on the rejected first step after
the initialization. The step from `t0 = 0`, the `begin()` of the algorithm,
with `prev_dt = 1/2` is rejected: `last_step_rejected` is true, the rejection
counter is 1 and the time is rolled back to 0; but the solution is still the
result `[7]` of the failed solve and differs from the previous solution
`[1]`, because the loop that restores it skips every process with
`t == begin()`. -/
theorem rollback_skipped_on_first_step :
    observe (computeTimeStepping (scriptedEnv [] 0) firstStepFailed (1 / 2)
        (0 + 1 / 2) 0 0 (scriptedConstraints firstStepFailed)) =
      some
        { dt := 1 / 4, last_step_rejected := true, t := 0, accepted_steps := 0,
          rejected_steps := 1, x := [[7]], x_prev := [[1]] } := by
  decide!

/-- C2 (counterexample): at the end time `t = 1` the algorithm of the only
process answers `accepted = false`, the call is not the initial one, and the
step is accepted all the same: `accepted_steps` goes from 1 to 2 and the time
is not rolled back. -/
theorem acceptance_rule_counterexample :
    isInitialStep endReached = false ∧
      observe (computeTimeStepping (scriptedEnv [] 0) endReached (1 / 2)
          (1 / 2 + 1 / 2) 1 0 (scriptedConstraints endReached)) =
        some
          { dt := 1 / 2, last_step_rejected := false, t := 1,
            accepted_steps := 2, rejected_steps := 0, x := [[7]],
            x_prev := [[7]] } ∧
      ∃ ppd, endReached._per_process_data[0]? = some ppd ∧
        (callNext (scriptedEnv [] 0) endReached._process_solutions
          endReached._process_solutions_prev (1 / 2 + 1 / 2) 0 ppd).accepted
            = false := by
  refine ⟨by decide!, by decide!, _, rfl, by decide!⟩

/-- C2 (amended): if `computeTimeStepping` returns with `accepted_steps`
incremented, then the call was not the initial one, the time was not rolled
back, and for every process the nonlinear solve converged
(`error_norms_met`) and its `TimeStepAlgorithm::next` either returned
`accepted = true` or returned at a time `t` with `t + eps >= end()`. -/
theorem acceptance_rule (E : Env σ ω) (tl : TimeLoop σ ω) (prev_dt t : ℚ)
    (accepted_steps rejected_steps : Nat)
    (time_step_constraints : List (ℚ → ℚ → ℚ)) (s : TimeStepping σ ω)
    (hreturn : computeTimeStepping E tl prev_dt t accepted_steps rejected_steps
      time_step_constraints = Except.ok s)
    (haccepted : s.accepted_steps = accepted_steps + 1) :
    isInitialStep tl = false ∧ s.last_step_rejected = false ∧ s.t = t ∧
      ∀ (i : Nat) (ppd : ProcessData σ), tl._per_process_data[i]? = some ppd →
        ppd.nonlinear_solver_status.error_norms_met = true ∧
          controllerPasses E tl t i ppd := by
  rw [computeTimeStepping_eq] at hreturn
  by_cases hfatal : |constrainedDt E tl prev_dt t time_step_constraints - prev_dt|
      < eps ∧ stepRejected E tl t = true
  · rw [if_pos hfatal] at hreturn
    cases hreturn
  · rw [if_neg hfatal] at hreturn
    injection hreturn with hs
    subst hs
    simp only at haccepted ⊢
    by_cases hacc : (!isInitialStep tl) = true ∧ allProcessStepsAccepted E tl t = true
    · have hinit : isInitialStep tl = false := by simpa using hacc.1
      refine ⟨hinit, ?_, ?_, (allProcessStepsAccepted_iff E tl t).1 hacc.2⟩
      · simp [stepRejected, hacc.2]
      · simp [stepRejected, hacc.2]
    · rw [if_neg hacc] at haccepted
      omega

/-- C2 (witness): the amended acceptance rule at the accepted second step of
`twoProposals`. -/
theorem acceptance_rule_witness :
    ∃ s, computeTimeStepping (scriptedEnv [] 0) twoProposals (1 / 2)
        (1 / 2 + 1 / 2) 1 0 (scriptedConstraints twoProposals) = Except.ok s ∧
      s.accepted_steps = 1 + 1 ∧
      (isInitialStep twoProposals = false ∧ s.last_step_rejected = false ∧
        s.t = 1 / 2 + 1 / 2 ∧
        ∀ (i : Nat) (ppd : ProcessData ScriptedStepper),
          twoProposals._per_process_data[i]? = some ppd →
            ppd.nonlinear_solver_status.error_norms_met = true ∧
              controllerPasses (scriptedEnv [] 0) twoProposals (1 / 2 + 1 / 2)
                i ppd) := by
  cases h : computeTimeStepping (scriptedEnv [] 0) twoProposals (1 / 2)
      (1 / 2 + 1 / 2) 1 0 (scriptedConstraints twoProposals) with
  | error f =>
    have : observe (computeTimeStepping (scriptedEnv [] 0) twoProposals (1 / 2)
      (1 / 2 + 1 / 2) 1 0 (scriptedConstraints twoProposals)) ≠ none := by decide!
    rw [h] at this
    exact absurd rfl this
  | ok s =>
    have hobs : (observe (computeTimeStepping (scriptedEnv [] 0) twoProposals
        (1 / 2) (1 / 2 + 1 / 2) 1 0 (scriptedConstraints twoProposals))).map
          (fun o => o.accepted_steps) = some 2 := by decide!
    rw [h] at hobs
    have hacc : s.accepted_steps = 1 + 1 := by simpa [observe] using hobs
    exact ⟨s, rfl, hacc,
      acceptance_rule (scriptedEnv [] 0) twoProposals (1 / 2) (1 / 2 + 1 / 2) 1 0
        (scriptedConstraints twoProposals) s h hacc⟩

/-- C3: `computeTimeStepping` terminates fatally exactly when the step just
taken was rejected (the time is rolled back) and the step size after the
external constraints differs from `prev_dt` by less than `eps`; in every
other case it returns that step size and the rejection flag, with the time
rolled back by `prev_dt` exactly when the step was rejected. -/
theorem stall_detection (E : Env σ ω) (tl : TimeLoop σ ω) (prev_dt t : ℚ)
    (accepted_steps rejected_steps : Nat)
    (time_step_constraints : List (ℚ → ℚ → ℚ)) :
    ((∃ f, computeTimeStepping E tl prev_dt t accepted_steps rejected_steps
          time_step_constraints = Except.error f) ↔
        (stepRejected E tl t = true ∧
          |constrainedDt E tl prev_dt t time_step_constraints - prev_dt| < eps)) ∧
      (¬ (stepRejected E tl t = true ∧
          |constrainedDt E tl prev_dt t time_step_constraints - prev_dt| < eps) →
        ∃ s, computeTimeStepping E tl prev_dt t accepted_steps rejected_steps
            time_step_constraints = Except.ok s ∧
          s.dt = constrainedDt E tl prev_dt t time_step_constraints ∧
          s.last_step_rejected = stepRejected E tl t ∧
          s.t = if stepRejected E tl t then t - prev_dt else t) := by
  rw [computeTimeStepping_eq]
  by_cases hfatal : |constrainedDt E tl prev_dt t time_step_constraints - prev_dt|
      < eps ∧ stepRejected E tl t = true
  · rw [if_pos hfatal]
    refine ⟨⟨fun _ => ⟨hfatal.2, hfatal.1⟩, fun _ => ⟨_, rfl⟩⟩, ?_⟩
    intro h
    exact absurd ⟨hfatal.2, hfatal.1⟩ h
  · rw [if_neg hfatal]
    refine ⟨⟨?_, fun h => absurd ⟨h.2, h.1⟩ hfatal⟩, fun _ => ⟨_, rfl, rfl, rfl, rfl⟩⟩
    rintro ⟨f, hf⟩
    cases hf

/-- C3 (witness): the rejected step of `stalled`, whose new step size is the
old one, ends fatally; the rejected first step of `firstStepFailed`, whose
new step size is smaller, returns. -/
theorem stall_detection_witness :
    (∃ f, computeTimeStepping (scriptedEnv [] 0) stalled (1 / 2) (1 + 1 / 2) 2 0
        (scriptedConstraints stalled) = Except.error f) ∧
      ∃ s, computeTimeStepping (scriptedEnv [] 0) firstStepFailed (1 / 2)
          (0 + 1 / 2) 0 0 (scriptedConstraints firstStepFailed) = Except.ok s ∧
        s.dt = constrainedDt (scriptedEnv [] 0) firstStepFailed (1 / 2)
          (0 + 1 / 2) (scriptedConstraints firstStepFailed) ∧
        s.last_step_rejected = stepRejected (scriptedEnv [] 0) firstStepFailed
          (0 + 1 / 2) ∧
        s.t = if stepRejected (scriptedEnv [] 0) firstStepFailed (0 + 1 / 2)
          then 0 + 1 / 2 - 1 / 2 else 0 + 1 / 2 :=
  ⟨(stall_detection (scriptedEnv [] 0) stalled (1 / 2) (1 + 1 / 2) 2 0
      (scriptedConstraints stalled)).1.2 (by decide!),
    (stall_detection (scriptedEnv [] 0) firstStepFailed (1 / 2) (0 + 1 / 2) 0 0
      (scriptedConstraints firstStepFailed)).2 (by decide!)⟩

/-- C4 (counterexample): the only process proposes the step size 0 at
`t = 1/2`, away from its end time 1; the candidate step size is
`numeric_limits<double>::max()`, which is neither the proposal nor below
it. -/
theorem candidate_dt_counterexample :
    candidateDt (scriptedEnv [] 0) zeroProposal (1 / 2) = DBL_MAX ∧
      ∃ ppd, zeroProposal._per_process_data[0]? = some ppd ∧
        (callNext (scriptedEnv [] 0) zeroProposal._process_solutions
          zeroProposal._process_solutions_prev (1 / 2) 0 ppd).dt = 0 ∧
        ¬ candidateDt (scriptedEnv [] 0) zeroProposal (1 / 2) ≤
          (callNext (scriptedEnv [] 0) zeroProposal._process_solutions
            zeroProposal._process_solutions_prev (1 / 2) 0 ppd).dt := by
  refine ⟨by decide!, _, rfl, by decide!, by decide!⟩

/-- C4 (amended): the candidate step size that `computeTimeStepping` holds
before the external constraints are applied is the minimum of
`numeric_limits<double>::max()` and the proposals of those processes whose
`next` returned `dt > eps` or returned at a time with `|t - end()| < eps`;
the other proposals are left out. So for a non-empty list of processes whose
proposals all pass that test and do not exceed the largest double, it is the
minimum of all proposals. -/
theorem candidate_dt_minimum (E : Env σ ω) (tl : TimeLoop σ ω) (t : ℚ) :
    candidateDt E tl t ≤ DBL_MAX ∧
      (∀ (i : Nat) (ppd : ProcessData σ), tl._per_process_data[i]? = some ppd →
        proposalCounts E tl t i ppd →
        candidateDt E tl t ≤
          (callNext E tl._process_solutions tl._process_solutions_prev t i ppd).dt) ∧
      (candidateDt E tl t = DBL_MAX ∨
        ∃ (i : Nat) (ppd : ProcessData σ), tl._per_process_data[i]? = some ppd ∧
          proposalCounts E tl t i ppd ∧
          candidateDt E tl t =
            (callNext E tl._process_solutions tl._process_solutions_prev t i ppd).dt) ∧
      (tl._per_process_data ≠ [] →
        (∀ (i : Nat) (ppd : ProcessData σ), tl._per_process_data[i]? = some ppd →
          proposalCounts E tl t i ppd ∧
            (callNext E tl._process_solutions tl._process_solutions_prev t i ppd).dt
              ≤ DBL_MAX) →
        (∀ (i : Nat) (ppd : ProcessData σ), tl._per_process_data[i]? = some ppd →
          candidateDt E tl t ≤
            (callNext E tl._process_solutions tl._process_solutions_prev t i ppd).dt) ∧
        ∃ (i : Nat) (ppd : ProcessData σ), tl._per_process_data[i]? = some ppd ∧
          candidateDt E tl t =
            (callNext E tl._process_solutions tl._process_solutions_prev t i ppd).dt) := by
  obtain ⟨h1, h2, h3⟩ := firstLoop_dt E tl t tl._per_process_data 0
    { all_process_steps_accepted := true, dt := DBL_MAX }
  simp only [Nat.zero_add] at h2 h3
  refine ⟨h1, h2, ?_, ?_⟩
  · rcases h3 with h | ⟨i, ppd, hi, hc, hd⟩
    · exact Or.inl h
    · exact Or.inr ⟨i, ppd, hi, hc, hd⟩
  · intro hne hall
    refine ⟨fun i ppd hi => h2 i ppd hi (hall i ppd hi).1, ?_⟩
    rcases h3 with h | ⟨i, ppd, hi, _, hd⟩
    · cases hl : tl._per_process_data with
      | nil => exact absurd hl hne
      | cons p rest =>
        have hp : tl._per_process_data[0]? = some p := by simp [hl]
        refine ⟨0, p, by simp, le_antisymm (h2 0 p hp (hall 0 p hp).1) ?_⟩
        have h' : candidateDt E tl t = DBL_MAX := h
        rw [h']
        exact (hall 0 p hp).2
    · exact ⟨i, ppd, hi, hd⟩

/-- C4 (witness): for the two proposals `1/2` and `1/4` of `twoProposals`,
which both pass the test, the candidate is below both and is one of them. -/
theorem candidate_dt_minimum_witness :
    (∀ (i : Nat) (ppd : ProcessData ScriptedStepper),
        twoProposals._per_process_data[i]? = some ppd →
        candidateDt (scriptedEnv [] 0) twoProposals 1 ≤
          (callNext (scriptedEnv [] 0) twoProposals._process_solutions
            twoProposals._process_solutions_prev 1 i ppd).dt) ∧
      ∃ (i : Nat) (ppd : ProcessData ScriptedStepper),
        twoProposals._per_process_data[i]? = some ppd ∧
        candidateDt (scriptedEnv [] 0) twoProposals 1 =
          (callNext (scriptedEnv [] 0) twoProposals._process_solutions
            twoProposals._process_solutions_prev 1 i ppd).dt :=
  (candidate_dt_minimum (scriptedEnv [] 0) twoProposals 1).2.2.2
    (by simp [twoProposals, scriptedTimeLoop])
    (by
      intro i ppd hi
      have hi' : i = 0 ∨ i = 1 := by
        rcases i with _ | _ | i
        · exact Or.inl rfl
        · exact Or.inr rfl
        · simp [twoProposals, scriptedTimeLoop] at hi
      rcases hi' with h | h
      · subst h
        simp only [twoProposals, scriptedTimeLoop, List.getElem?_cons_zero,
          Option.some.injEq] at hi
        subst hi
        exact ⟨by decide!, by decide!⟩
      · subst h
        simp only [twoProposals, scriptedTimeLoop, List.getElem?_cons_succ,
          List.getElem?_cons_zero, Option.some.injEq] at hi
        subst hi
        exact ⟨by decide!, by decide!⟩)

/-- C5: the second constraint built by `generateOutputTimeStepConstraints`
maps `(t, dt)` to `end_time - t` when `t < end_time` and `t + dt > end_time`
and to `dt` otherwise; so for `t < end_time` the constrained step does not
pass the end time, and a step with `t + dt <= end_time` is left unchanged. -/
theorem end_time_clamp (E : Env σ ω) (tl : TimeLoop σ ω) (fixed_times : List ℚ) :
    ∃ c, (generateOutputTimeStepConstraints E tl fixed_times)[1]? = some c ∧
      ∀ t dt : ℚ,
        (c t dt = if t < tl._end_time ∧ t + dt > tl._end_time
          then tl._end_time - t else dt) ∧
        (t < tl._end_time → t + c t dt ≤ tl._end_time) ∧
        (t + dt ≤ tl._end_time → c t dt = dt) := by
  refine ⟨endTimeConstraint tl._end_time, rfl, ?_⟩
  intro t dt
  refine ⟨rfl, ?_, ?_⟩
  · intro ht
    unfold endTimeConstraint
    by_cases h : t + dt > tl._end_time
    · rw [if_pos ⟨ht, h⟩]
      linarith
    · rw [if_neg (fun hc => h hc.2)]
      linarith
  · intro h
    unfold endTimeConstraint
    rw [if_neg (fun hc => absurd hc.2 (not_lt.mpr h))]

/-- C5 (witness): with end time 1, the step `3/4` from `t = 1/2` is cut to
`1/2` and the step `1/4` is kept. -/
theorem end_time_clamp_witness :
    ∃ c, (generateOutputTimeStepConstraints (scriptedEnv [] 0) firstStepFailed
        [])[1]? = some c ∧
      c (1 / 2) (3 / 4) = 1 / 2 ∧ (1 / 2 : ℚ) + c (1 / 2) (3 / 4) ≤ 1 ∧
      c (1 / 2) (1 / 4) = 1 / 4 := by
  obtain ⟨c, hc, h⟩ := end_time_clamp (scriptedEnv [] 0) firstStepFailed []
  refine ⟨c, hc, ?_, ?_, ?_⟩
  · rw [(h (1 / 2) (3 / 4)).1]
    decide!
  · exact (h (1 / 2) (3 / 4)).2.1 (by decide!)
  · exact (h (1 / 2) (1 / 4)).2.2 (by decide!)

/-- C6: evaluation of `computeTimeStepping` on `laterBegin`. The step from 0
to `t = 1/2` is not the initial one and is accepted (`accepted_steps` goes
from 0 to 1, no rollback), and the previous solution of the first process
becomes its solution `[5]`; the previous solution of the second process,
whose algorithm has `begin() = 1/2`, stays `[2]` and differs from its
solution `[6]`, because the loop that pushes the state skips every process
with `t == begin()`. -/
theorem state_push_skipped_at_begin :
    isInitialStep laterBegin = false ∧
      observe (computeTimeStepping (scriptedEnv [] 0) laterBegin (1 / 2)
          (0 + 1 / 2) 0 0 (scriptedConstraints laterBegin)) =
        some
          { dt := 1 / 2, last_step_rejected := false, t := 1 / 2,
            accepted_steps := 1, rejected_steps := 0, x := [[5], [6]],
            x_prev := [[5], [2]] } := by
  refine ⟨by decide!, by decide!⟩

/-! ### The monolithic solve -/

theorem solveEvents_append (a b : List Event) :
    solveEvents (a ++ b) = solveEvents a ++ solveEvents b := by
  induction a with
  | nil => rfl
  | cons e rest ih => cases e <;> simp [solveEvents, ih]

theorem checkEvents_append (a b : List Event) :
    checkEvents (a ++ b) = checkEvents a + checkEvents b := by
  induction a with
  | nil => simp [checkEvents]
  | cons e rest ih => cases e <;> simp [checkEvents, ih]; omega

/-- One call of `solveOneTimeStepOneProcess` makes one solver call, for the
process it is given. -/
theorem solveOneTimeStepOneProcess_solveEvents (E : Env σ ω) (tl : TimeLoop σ ω)
    (timestep : Nat) (t dt : ℚ) (p : ProcessData σ) :
    solveEvents (solveOneTimeStepOneProcess E tl timestep t dt p).2.log =
      solveEvents tl.log ++ [p.process_id] := by
  simp only [solveOneTimeStepOneProcess]
  split_ifs <;> simp [call, solveEvents_append, solveEvents]

/-- A call of `solveOneTimeStepOneProcess` makes no `checkDeltaX` call. -/
theorem solveOneTimeStepOneProcess_checkEvents (E : Env σ ω) (tl : TimeLoop σ ω)
    (timestep : Nat) (t dt : ℚ) (p : ProcessData σ) :
    checkEvents (solveOneTimeStepOneProcess E tl timestep t dt p).2.log =
      checkEvents tl.log := by
  simp only [solveOneTimeStepOneProcess]
  split_ifs <;> simp [call, checkEvents_append, checkEvents]

/-- A call of `solveOneTimeStepOneProcess` leaves the process data alone. -/
theorem solveOneTimeStepOneProcess_per_process_data (E : Env σ ω)
    (tl : TimeLoop σ ω) (timestep : Nat) (t dt : ℚ) (p : ProcessData σ) :
    (solveOneTimeStepOneProcess E tl timestep t dt p).2._per_process_data =
      tl._per_process_data := by
  unfold solveOneTimeStepOneProcess
  simp only [call]
  split_ifs <;> rfl

/-- A call of `solveOneTimeStepOneProcess` changes no solution but the one
of the process it is given. -/
theorem solveOneTimeStepOneProcess_solutions (E : Env σ ω)
    (tl : TimeLoop σ ω) (timestep : Nat) (t dt : ℚ) (p : ProcessData σ)
    (q : Nat) (hq : q ≠ p.process_id) :
    (solveOneTimeStepOneProcess E tl timestep t dt p).2._process_solutions[q]? =
      tl._process_solutions[q]? := by
  unfold solveOneTimeStepOneProcess
  simp only [call]
  split_ifs <;> simp [List.getElem?_set_ne (Ne.symm hq)]

/-- The solver calls of `solveInOrder`: one for each process of the list, in
the order of the list. -/
theorem solveInOrder_solveEvents (E : Env σ ω) (t dt : ℚ) (timestep_id : Nat) :
    ∀ (l : List (ProcessData σ)) (i : Nat) (tl : TimeLoop σ ω),
      solveEvents (solveInOrder E t dt timestep_id i l tl).log =
        solveEvents tl.log ++ l.map (fun p => p.process_id) := by
  intro l
  induction l with
  | nil => intro i tl; simp [solveInOrder]
  | cons p rest ih =>
    intro i tl
    simp only [solveInOrder]
    rw [ih]
    simp [storeStatus, solveMonolithicProcess,
      solveOneTimeStepOneProcess_solveEvents]

/-- The process data behind the solved positions are not touched by
`solveInOrder`. -/
theorem solveInOrder_drop (E : Env σ ω) (t dt : ℚ) (timestep_id : Nat) :
    ∀ (l : List (ProcessData σ)) (i : Nat) (tl : TimeLoop σ ω),
      (solveInOrder E t dt timestep_id i l tl)._per_process_data.drop
          (i + l.length) =
        tl._per_process_data.drop (i + l.length) := by
  intro l
  induction l with
  | nil => intro i tl; simp [solveInOrder]
  | cons p rest ih =>
    intro i tl
    simp only [solveInOrder, List.length_cons]
    have h := ih (i + 1)
      (storeStatus i (solveMonolithicProcess E tl t dt timestep_id p).1
        (solveMonolithicProcess E tl t dt timestep_id p).2)
    rw [show i + (rest.length + 1) = i + 1 + rest.length by omega, h]
    simp only [storeStatus, solveMonolithicProcess,
      solveOneTimeStepOneProcess_per_process_data]
    exact List.drop_modify_of_lt _ _ _ _ (by omega)

/-- A solution of a process that is not in the list is not touched by
`solveInOrder`. -/
theorem solveInOrder_solutions (E : Env σ ω) (t dt : ℚ) (timestep_id : Nat)
    (q : Nat) :
    ∀ (l : List (ProcessData σ)) (i : Nat) (tl : TimeLoop σ ω),
      q ∉ l.map (fun p => p.process_id) →
      (solveInOrder E t dt timestep_id i l tl)._process_solutions[q]? =
        tl._process_solutions[q]? := by
  intro l
  induction l with
  | nil => intro i tl _; simp [solveInOrder]
  | cons p rest ih =>
    intro i tl hq
    simp only [List.map_cons, List.mem_cons, not_or] at hq
    simp only [solveInOrder]
    rw [ih _ _ hq.2]
    simp only [storeStatus, solveMonolithicProcess]
    exact solveOneTimeStepOneProcess_solutions E tl timestep_id t dt p q hq.1

/-- The loop of `solveUncoupledEquationSystems` after a converged solve. -/
theorem solveUncoupledLoop_cons_converged (E : Env σ ω) (t dt : ℚ)
    (timestep_id i : Nat) (p : ProcessData σ) (rest : List (ProcessData σ))
    (status : NonlinearSolverStatus) (tl : TimeLoop σ ω)
    (h : (solveMonolithicProcess E tl t dt timestep_id p).1.error_norms_met = true) :
    solveUncoupledLoop E t dt timestep_id i (p :: rest) status tl =
      solveUncoupledLoop E t dt timestep_id (i + 1) rest
        (solveMonolithicProcess E tl t dt timestep_id p).1
        (storeStatus i (solveMonolithicProcess E tl t dt timestep_id p).1
          (solveMonolithicProcess E tl t dt timestep_id p).2) := by
  rw [solveUncoupledLoop]
  simp only [h, Bool.not_true, Bool.false_eq_true, if_false]

/-- The loop of `solveUncoupledEquationSystems` after a solve that did not
converge. -/
theorem solveUncoupledLoop_cons_failed (E : Env σ ω) (t dt : ℚ)
    (timestep_id i : Nat) (p : ProcessData σ) (rest : List (ProcessData σ))
    (status : NonlinearSolverStatus) (tl : TimeLoop σ ω)
    (h : (solveMonolithicProcess E tl t dt timestep_id p).1.error_norms_met = false) :
    solveUncoupledLoop E t dt timestep_id i (p :: rest) status tl =
      if !E.timestep_algorithm.canReduceTimestepSize p.timestep_algorithm
          p.timestep_current p.timestep_previous then
        Except.error
          { message := timestepper_cannot_reduce_dt
            time_loop := doOutputAlwaysForAll E p.process_id timestep_id t
              (solveMonolithicProcess E tl t dt timestep_id p).1.number_iterations 0
              (storeStatus i (solveMonolithicProcess E tl t dt timestep_id p).1
                (solveMonolithicProcess E tl t dt timestep_id p).2)._outputs
              (storeStatus i (solveMonolithicProcess E tl t dt timestep_id p).1
                (solveMonolithicProcess E tl t dt timestep_id p).2) }
      else
        Except.ok ((solveMonolithicProcess E tl t dt timestep_id p).1,
          storeStatus i (solveMonolithicProcess E tl t dt timestep_id p).1
            (solveMonolithicProcess E tl t dt timestep_id p).2) := by
  rw [solveUncoupledLoop]
  simp only [h, Bool.not_false, if_true]

/-- As long as the solves converge the loop of
`solveUncoupledEquationSystems` goes on to the next process. -/
theorem solveUncoupledLoop_prefix (E : Env σ ω) (t dt : ℚ) (timestep_id : Nat)
    (pk : ProcessData σ) (post : List (ProcessData σ)) :
    ∀ (pre : List (ProcessData σ)) (i : Nat) (tl : TimeLoop σ ω)
      (status : NonlinearSolverStatus),
      (∀ (j : Nat) (pj : ProcessData σ), pre[j]? = some pj →
        (solveMonolithicProcess E
          (solveInOrder E t dt timestep_id i (pre.take j) tl) t dt timestep_id
          pj).1.error_norms_met = true) →
      solveUncoupledLoop E t dt timestep_id i (pre ++ pk :: post) status tl =
        solveUncoupledLoop E t dt timestep_id (i + pre.length) (pk :: post)
          status (solveInOrder E t dt timestep_id i pre tl) := by
  intro pre
  induction pre with
  | nil => intro i tl status _; simp [solveInOrder]
  | cons p rest ih =>
    intro i tl status h
    have h0 := h 0 p (by simp)
    simp only [List.take_zero, solveInOrder] at h0
    rw [List.cons_append, solveUncoupledLoop_cons_converged E t dt timestep_id i p
      _ status tl h0]
    rw [ih (i + 1) _ _ (by
      intro j pj hj
      have := h (j + 1) pj (by simpa using hj)
      simpa [solveInOrder] using this)]
    rw [List.length_cons, show i + 1 + rest.length = i + (rest.length + 1) by omega]
    rfl

/-- When every solve converges the loop of `solveUncoupledEquationSystems`
solves every process of the list and returns a converged status. -/
theorem solveUncoupledLoop_all (E : Env σ ω) (t dt : ℚ) (timestep_id : Nat) :
    ∀ (l : List (ProcessData σ)) (i : Nat) (tl : TimeLoop σ ω)
      (status : NonlinearSolverStatus),
      (status.error_norms_met = true ∨ l ≠ []) →
      (∀ (j : Nat) (pj : ProcessData σ), l[j]? = some pj →
        (solveMonolithicProcess E
          (solveInOrder E t dt timestep_id i (l.take j) tl) t dt timestep_id
          pj).1.error_norms_met = true) →
      ∃ s, solveUncoupledLoop E t dt timestep_id i l status tl =
          Except.ok (s, solveInOrder E t dt timestep_id i l tl) ∧
        s.error_norms_met = true := by
  intro l
  induction l with
  | nil =>
    intro i tl status hs _
    rcases hs with hs | hs
    · exact ⟨status, rfl, hs⟩
    · exact absurd rfl hs
  | cons p rest ih =>
    intro i tl status _ h
    have h0 := h 0 p (by simp)
    simp only [List.take_zero, solveInOrder] at h0
    rw [solveUncoupledLoop_cons_converged E t dt timestep_id i p _ status tl h0]
    exact ih (i + 1) _ _ (Or.inl h0) (by
      intro j pj hj
      have := h (j + 1) pj (by simpa using hj)
      simpa [solveInOrder] using this)

/-- The first step of `solveInOrder`. -/
theorem solveInOrder_cons (E : Env σ ω) (t dt : ℚ) (timestep_id i : Nat)
    (p : ProcessData σ) (rest : List (ProcessData σ)) (tl : TimeLoop σ ω) :
    solveInOrder E t dt timestep_id i (p :: rest) tl =
      solveInOrder E t dt timestep_id (i + 1) rest
        (storeStatus i (solveMonolithicProcess E tl t dt timestep_id p).1
          (solveMonolithicProcess E tl t dt timestep_id p).2) := rfl

/-- The solves of a list followed by one more process. -/
theorem solveInOrder_concat (E : Env σ ω) (t dt : ℚ) (timestep_id : Nat)
    (pk : ProcessData σ) :
    ∀ (pre : List (ProcessData σ)) (i : Nat) (tl : TimeLoop σ ω),
      solveInOrder E t dt timestep_id i (pre ++ [pk]) tl =
        storeStatus (i + pre.length)
          (solveMonolithicProcess E (solveInOrder E t dt timestep_id i pre tl) t dt
            timestep_id pk).1
          (solveMonolithicProcess E (solveInOrder E t dt timestep_id i pre tl) t dt
            timestep_id pk).2 := by
  intro pre
  induction pre with
  | nil => intro i tl; simp [solveInOrder]
  | cons p rest ih =>
    intro i tl
    rw [List.cons_append, solveInOrder_cons, ih, solveInOrder_cons,
      List.length_cons, show i + 1 + rest.length = i + (rest.length + 1) by omega]

/-! ### The staggered scheme -/

/-- A loop over the coupling criteria makes no solver call when the call it
repeats is not one. -/
theorem forAllCriteria_solveEvents (E : Env σ ω) (e : Nat → Event)
    (he : ∀ k, solveEvents [e k] = []) :
    ∀ (n k : Nat) (tl : TimeLoop σ ω),
      solveEvents (forAllCriteria E e k n tl).log = solveEvents tl.log := by
  intro n
  induction n with
  | zero => intro k tl; rfl
  | succ n ih =>
    intro k tl
    rw [forAllCriteria, ih]
    simp [call, solveEvents_append, he]

/-- A loop over the coupling criteria makes no `checkDeltaX` call when the
call it repeats is not one. -/
theorem forAllCriteria_checkEvents (E : Env σ ω) (e : Nat → Event)
    (he : ∀ k, checkEvents [e k] = 0) :
    ∀ (n k : Nat) (tl : TimeLoop σ ω),
      checkEvents (forAllCriteria E e k n tl).log = checkEvents tl.log := by
  intro n
  induction n with
  | zero => intro k tl; rfl
  | succ n ih =>
    intro k tl
    rw [forAllCriteria, ih]
    simp [call, checkEvents_append, he]

/-- A loop over the coupling criteria leaves the process data alone. -/
theorem forAllCriteria_per_process_data (E : Env σ ω) (e : Nat → Event) :
    ∀ (n k : Nat) (tl : TimeLoop σ ω),
      (forAllCriteria E e k n tl)._per_process_data = tl._per_process_data := by
  intro n
  induction n with
  | zero => intro k tl; rfl
  | succ n ih =>
    intro k tl
    rw [forAllCriteria, ih]
    rfl

/-- The process ids are not changed by storing a status. -/
theorem storeStatus_process_ids (i : Nat) (status : NonlinearSolverStatus)
    (tl : TimeLoop σ ω) :
    (storeStatus i status tl)._per_process_data.map (fun p => p.process_id) =
      tl._per_process_data.map (fun p => p.process_id) := by
  simp only [storeStatus]
  apply List.ext_getElem?
  intro j
  simp only [List.getElem?_map, List.getElem?_modify]
  cases tl._per_process_data[j]? with
  | none => rfl
  | some p =>
    by_cases h : i = j
    · simp [h]
    · simp [h]

/-- The local status does not enter the loop of a coupling iteration over a
non-empty list of processes. -/
theorem couplingIterationLoop_status (E : Env σ ω) (t dt : ℚ)
    (timestep_id it i : Nat) (l : List (ProcessData σ)) (hl : l ≠ [])
    (converged : Bool) (status status1 : NonlinearSolverStatus)
    (tl : TimeLoop σ ω) :
    couplingIterationLoop E t dt timestep_id it i l converged status tl =
      couplingIterationLoop E t dt timestep_id it i l converged status1 tl := by
  cases l with
  | nil => exact absurd rfl hl
  | cons p rest => rw [couplingIterationLoop, couplingIterationLoop]

/-- The criteria reset makes no solver call, makes no `checkDeltaX` call and
leaves the process data alone. -/
theorem resetCouplingConvergenceCriteria_log (E : Env σ ω) (tl : TimeLoop σ ω) :
    solveEvents (resetCouplingConvergenceCriteria E tl).log = solveEvents tl.log ∧
      checkEvents (resetCouplingConvergenceCriteria E tl).log = checkEvents tl.log ∧
      (resetCouplingConvergenceCriteria E tl)._per_process_data =
        tl._per_process_data :=
  ⟨forAllCriteria_solveEvents E Event.reset (fun _ => rfl) _ _ _,
    forAllCriteria_checkEvents E Event.reset (fun _ => rfl) _ _ _,
    forAllCriteria_per_process_data E Event.reset _ _ _⟩

/-- The start of the coupling loop: no solver call, no `checkDeltaX` call and
the same process data as before. -/
theorem beforeCoupling_log (E : Env σ ω) (tl : TimeLoop σ ω) :
    solveEvents (beforeCoupling E tl).log = solveEvents tl.log ∧
      checkEvents (beforeCoupling E tl).log = checkEvents tl.log ∧
      (beforeCoupling E tl)._per_process_data = tl._per_process_data := by
  unfold beforeCoupling
  split_ifs
  · exact ⟨forAllCriteria_solveEvents E Event.preFirstIteration (fun _ => rfl) _ _ _,
      forAllCriteria_checkEvents E Event.preFirstIteration (fun _ => rfl) _ _ _,
      forAllCriteria_per_process_data E Event.preFirstIteration _ _ _⟩
  · exact ⟨rfl, rfl, rfl⟩

/-- The loop that calls `solveReactionEquation` makes no solver call and no
`checkDeltaX` call. -/
theorem solveReactionEquations_log (E : Env σ ω) (t dt : ℚ) :
    ∀ (l : List (ProcessData σ)) (tl : TimeLoop σ ω),
      solveEvents (solveReactionEquations E t dt l tl).log = solveEvents tl.log ∧
        checkEvents (solveReactionEquations E t dt l tl).log = checkEvents tl.log := by
  intro l
  induction l with
  | nil => intro tl; exact ⟨rfl, rfl⟩
  | cons p rest ih =>
    intro tl
    rw [solveReactionEquations, (ih _).1, (ih _).2]
    simp [call, solveEvents_append, checkEvents_append, solveEvents, checkEvents]

/-- A list of processes is empty exactly when its list of ids is. -/
theorem process_ids_ne_nil (l l1 : List (ProcessData σ))
    (h : l.map (fun q => q.process_id) = l1.map (fun q => q.process_id))
    (hne : l1 ≠ []) : l ≠ [] ∧ l.length = l1.length := by
  have hlen : l.length = l1.length := by
    simpa using congrArg List.length h
  refine ⟨?_, hlen⟩
  intro hl
  rw [hl] at hlen
  exact hne (List.length_eq_zero.mp hlen.symm)

/-- The body of the loop of a coupling iteration (lines 781-835) for a
process whose solve converges is the turn of the process in the round, and
the flag `coupling_iteration_converged` is joined with the answer of
`isSatisfied` of the criterion of the process, except in iteration 0. -/
theorem couplingIterationLoop_turn (E : Env σ ω) (t dt : ℚ)
    (timestep_id it i : Nat) (p : ProcessData σ) (rest : List (ProcessData σ))
    (converged : Bool) (status : NonlinearSolverStatus) (tl : TimeLoop σ ω)
    (h : (solvedInRound E t dt timestep_id i p tl).1.error_norms_met = true) :
    couplingIterationLoop E t dt timestep_id it i (p :: rest) converged status tl =
      couplingIterationLoop E t dt timestep_id it (i + 1) rest
        (if 0 < it then
          converged && E.isSatisfied
            (checkedInRound E t dt timestep_id (it + 1) i p tl).world p.process_id
         else converged)
        (solvedInRound E t dt timestep_id i p tl).1
        (turnInRound E t dt timestep_id (it + 1) i p tl) := by
  have h1 : (solveOneTimeStepOneProcess E
      (call E (Event.setCoupledSolutionsForStaggeredScheme p.process_id
        tl._process_solutions) tl) timestep_id t dt p).1.error_norms_met = true := h
  rw [couplingIterationLoop]
  simp only [h1, Bool.not_true, Bool.false_eq_true, if_false]
  by_cases hit : 0 < it
  · have hr : 1 < it + 1 := by omega
    simp only [hit, if_true, turnInRound, checkedInRound, solvedInRound, hr]
    rfl
  · have hr : ¬ 1 < it + 1 := by omega
    simp only [hit, if_false, turnInRound, checkedInRound, solvedInRound, hr]

/-- The turn of a process in a round: one solver call, one `checkDeltaX` call
except in round 1, and the same process ids as before. -/
theorem turnInRound_log (E : Env σ ω) (t dt : ℚ) (timestep_id round i : Nat)
    (p : ProcessData σ) (tl : TimeLoop σ ω) :
    solveEvents (turnInRound E t dt timestep_id round i p tl).log =
        solveEvents tl.log ++ [p.process_id] ∧
      checkEvents (turnInRound E t dt timestep_id round i p tl).log =
        checkEvents tl.log + (if 1 < round then 1 else 0) ∧
      (turnInRound E t dt timestep_id round i p tl)._per_process_data.map
          (fun q => q.process_id) =
        tl._per_process_data.map (fun q => q.process_id) := by
  by_cases hr : 1 < round
  · refine ⟨?_, ?_, ?_⟩
    · simp [turnInRound, checkedInRound, solvedInRound, hr, call, storeStatus,
        solveEvents_append, solveEvents, solveOneTimeStepOneProcess_solveEvents]
    · simp [turnInRound, checkedInRound, solvedInRound, hr, call, storeStatus,
        checkEvents_append, checkEvents, solveOneTimeStepOneProcess_checkEvents]
    · simp only [turnInRound, checkedInRound, solvedInRound, hr, if_true, call]
      rw [storeStatus_process_ids, solveOneTimeStepOneProcess_per_process_data]
  · refine ⟨?_, ?_, ?_⟩
    · simp [turnInRound, checkedInRound, solvedInRound, hr, call, storeStatus,
        solveEvents_append, solveEvents, solveOneTimeStepOneProcess_solveEvents]
    · simp [turnInRound, checkedInRound, solvedInRound, hr, call, storeStatus,
        checkEvents_append, checkEvents, solveOneTimeStepOneProcess_checkEvents]
    · simp only [turnInRound, checkedInRound, solvedInRound, hr, if_false]
      rw [storeStatus_process_ids, solveOneTimeStepOneProcess_per_process_data]
      rfl

/-- The turns of a list of processes in a round: each process is solved
once, in order, each criterion is checked once except in round 1, and the
process ids are as before. -/
theorem turnsInRound_log (E : Env σ ω) (t dt : ℚ) (timestep_id round : Nat) :
    ∀ (l : List (ProcessData σ)) (i : Nat) (tl : TimeLoop σ ω),
      solveEvents (turnsInRound E t dt timestep_id round i l tl).log =
          solveEvents tl.log ++ l.map (fun p => p.process_id) ∧
        checkEvents (turnsInRound E t dt timestep_id round i l tl).log =
          checkEvents tl.log + (if 1 < round then l.length else 0) ∧
        (turnsInRound E t dt timestep_id round i l tl)._per_process_data.map
            (fun q => q.process_id) =
          tl._per_process_data.map (fun q => q.process_id) := by
  intro l
  induction l with
  | nil => intro i tl; simp [turnsInRound]
  | cons p rest ih =>
    intro i tl
    obtain ⟨h1, h2, h3⟩ := turnInRound_log E t dt timestep_id round i p tl
    obtain ⟨g1, g2, g3⟩ := ih (i + 1) (turnInRound E t dt timestep_id round i p tl)
    rw [turnsInRound, g1, g2, g3, h1, h2, h3]
    refine ⟨by simp, ?_, rfl⟩
    by_cases hr : 1 < round
    · simp only [hr, if_true, List.length_cons]
      omega
    · simp [hr]

/-- The loop of a coupling iteration over a list of processes whose solves
converge when they are made one after the other: the loop is not left by a
`return`, it leaves the time loop that the turns of the processes give and
a converged status, and the flag `coupling_iteration_converged` is set at
its end exactly when it was set before and, except in iteration 0, the
criterion of every process answered that it is satisfied. -/
theorem couplingIterationLoop_turns (E : Env σ ω) (t dt : ℚ)
    (timestep_id it : Nat) :
    ∀ (l : List (ProcessData σ)) (i : Nat) (converged : Bool)
      (status : NonlinearSolverStatus) (tl : TimeLoop σ ω),
      (∀ (j : Nat) (pj : ProcessData σ), l[j]? = some pj →
        (solvedInRound E t dt timestep_id (i + j) pj
          (turnsInRound E t dt timestep_id (it + 1) i (l.take j)
            tl)).1.error_norms_met = true) →
      (couplingIterationLoop E t dt timestep_id it i l converged status
          tl).returned = false ∧
        (couplingIterationLoop E t dt timestep_id it i l converged status
            tl).time_loop =
          turnsInRound E t dt timestep_id (it + 1) i l tl ∧
        (status.error_norms_met = true ∨ l ≠ [] →
          (couplingIterationLoop E t dt timestep_id it i l converged status
            tl).nonlinear_solver_status.error_norms_met = true) ∧
        ((couplingIterationLoop E t dt timestep_id it i l converged status
            tl).coupling_iteration_converged = true ↔
          converged = true ∧
            (0 < it → ∀ (j : Nat) (pj : ProcessData σ), l[j]? = some pj →
              E.isSatisfied
                (checkedInRound E t dt timestep_id (it + 1) (i + j) pj
                  (turnsInRound E t dt timestep_id (it + 1) i (l.take j)
                    tl)).world pj.process_id = true)) := by
  intro l
  induction l with
  | nil =>
    intro i converged status tl _
    refine ⟨rfl, rfl, ?_, ?_⟩
    · rintro (h | h)
      · exact h
      · exact absurd rfl h
    · simp [couplingIterationLoop]
  | cons p rest ih =>
    intro i converged status tl h
    have h0 : (solvedInRound E t dt timestep_id i p tl).1.error_norms_met = true := by
      have := h 0 p (by simp)
      simpa [turnsInRound] using this
    rw [couplingIterationLoop_turn E t dt timestep_id it i p rest converged status
      tl h0]
    obtain ⟨r1, r2, r3, r4⟩ := ih (i + 1)
      (if 0 < it then
        converged && E.isSatisfied
          (checkedInRound E t dt timestep_id (it + 1) i p tl).world p.process_id
       else converged)
      (solvedInRound E t dt timestep_id i p tl).1
      (turnInRound E t dt timestep_id (it + 1) i p tl)
      (by
        intro j pj hj
        have := h (j + 1) pj (by simpa using hj)
        simpa [turnsInRound, Nat.add_assoc, Nat.add_comm 1 j] using this)
    refine ⟨r1, ?_, fun _ => r3 (Or.inl h0), ?_⟩
    · rw [r2]
      rfl
    · rw [r4]
      constructor
      · rintro ⟨hc, hall⟩
        by_cases hit : 0 < it
        · simp only [hit, if_true, Bool.and_eq_true] at hc
          refine ⟨hc.1, fun _ j pj hj => ?_⟩
          rcases j with _ | j
          · simp only [List.getElem?_cons_zero, Option.some.injEq] at hj
            subst hj
            simpa [turnsInRound] using hc.2
          · have := hall hit j pj (by simpa using hj)
            simpa [turnsInRound, Nat.add_assoc, Nat.add_comm 1 j] using this
        · simp only [hit, if_false] at hc
          exact ⟨hc, fun h0 => absurd h0 hit⟩
      · rintro ⟨hc, hall⟩
        by_cases hit : 0 < it
        · refine ⟨?_, fun _ j pj hj => ?_⟩
          · simp only [hit, if_true, Bool.and_eq_true]
            refine ⟨hc, ?_⟩
            have := hall hit 0 p (by simp)
            simpa [turnsInRound] using this
          · have := hall hit (j + 1) pj (by simpa using hj)
            simpa [turnsInRound, Nat.add_assoc, Nat.add_comm 1 j] using this
        · simp only [hit, if_false]
          exact ⟨hc, fun h0 => h0.elim⟩

/-- A coupling iteration over a non-empty list of processes, in a round in
which every solve converges: it is the round as the spec tells it, it ends
with a converged status, and the flag `coupling_iteration_converged` is set
at its end exactly when, in a round after the first, the global convergence
criterion of every process is satisfied. -/
theorem couplingIteration_turns (E : Env σ ω) (t dt : ℚ)
    (timestep_id it : Nat) (tl : TimeLoop σ ω)
    (hsolve : solvesConverge E t dt timestep_id (it + 1) tl)
    (hne : tl._per_process_data ≠ []) :
    (couplingIteration E t dt timestep_id it tl).returned = false ∧
      (couplingIteration E t dt timestep_id it tl).time_loop =
        turnsInRound E t dt timestep_id (it + 1) 0 tl._per_process_data tl ∧
      (couplingIteration E t dt timestep_id it
        tl).nonlinear_solver_status.error_norms_met = true ∧
      ((couplingIteration E t dt timestep_id it tl).coupling_iteration_converged
          = true ∧ 0 < it ↔
        0 < it ∧ criteriaSatisfied E t dt timestep_id (it + 1) tl) := by
  obtain ⟨h1, h2, h3, h4⟩ := couplingIterationLoop_turns E t dt timestep_id it
    tl._per_process_data 0 true {} tl (by
      intro j pj hj
      have := hsolve j pj hj
      simpa using this)
  refine ⟨h1, h2, h3 (Or.inr hne), ?_⟩
  unfold couplingIteration
  rw [h4]
  unfold criteriaSatisfied
  constructor
  · rintro ⟨⟨_, hall⟩, hit⟩
    refine ⟨hit, fun j pj hj => ?_⟩
    have := hall hit j pj hj
    simpa using this
  · rintro ⟨hit, hall⟩
    refine ⟨⟨rfl, fun _ j pj hj => ?_⟩, hit⟩
    have := hall j pj hj
    simpa using this

/-- The process ids at the begin of every round are those at the begin of
the first. -/
theorem afterRounds_process_ids (E : Env σ ω) (t dt : ℚ)
    (timestep_id : Nat) (tl : TimeLoop σ ω) :
    ∀ k : Nat,
      (afterRounds E t dt timestep_id tl k)._per_process_data.map
          (fun q => q.process_id) =
        tl._per_process_data.map (fun q => q.process_id) := by
  intro k
  induction k with
  | zero => rfl
  | succ k ih =>
    rw [afterRounds, (resetCouplingConvergenceCriteria_log E _).2.2,
      (turnsInRound_log E t dt timestep_id (k + 1) _ 0 _).2.2]
    exact ih

/-- The calls made until the end of round `k + 1`: `k + 1` rounds of solves
and `k` rounds of checks. -/
theorem rounds_log (E : Env σ ω) (t dt : ℚ) (timestep_id : Nat)
    (tl : TimeLoop σ ω) :
    ∀ k : Nat,
      solveEvents (turnsInRound E t dt timestep_id (k + 1) 0
          (afterRounds E t dt timestep_id tl k)._per_process_data
          (afterRounds E t dt timestep_id tl k)).log =
        solveEvents tl.log ++
          (List.replicate (k + 1)
            (tl._per_process_data.map (fun p => p.process_id))).flatten ∧
      checkEvents (turnsInRound E t dt timestep_id (k + 1) 0
          (afterRounds E t dt timestep_id tl k)._per_process_data
          (afterRounds E t dt timestep_id tl k)).log =
        checkEvents tl.log + k * tl._per_process_data.length := by
  intro k
  induction k with
  | zero =>
    obtain ⟨h1, h2, _⟩ := turnsInRound_log E t dt timestep_id 1
      tl._per_process_data 0 tl
    simp only [afterRounds]
    rw [h1, h2]
    simp
  | succ k ih =>
    have hids := afterRounds_process_ids E t dt timestep_id tl (k + 1)
    have hlen : (afterRounds E t dt timestep_id tl (k + 1))._per_process_data.length
        = tl._per_process_data.length := by
      simpa using congrArg List.length hids
    obtain ⟨h1, h2, _⟩ := turnsInRound_log E t dt timestep_id (k + 1 + 1)
      (afterRounds E t dt timestep_id tl (k + 1))._per_process_data 0
      (afterRounds E t dt timestep_id tl (k + 1))
    rw [h1, h2, hids, hlen]
    simp only [afterRounds]
    rw [(resetCouplingConvergenceCriteria_log E _).1,
      (resetCouplingConvergenceCriteria_log E _).2.1, ih.1, ih.2]
    constructor
    · rw [List.replicate_succ' (k + 1), List.flatten_append]
      simp
    · have hk : 1 < k + 1 + 1 := by omega
      simp only [hk, if_true]
      rw [Nat.add_assoc, Nat.succ_mul]

/-- The coupling loop when the solves of its rounds converge: it ends with
the round `k + 1` that is the first after round 1 in which the criterion of
every process is satisfied, or with the last round allowed, and returns a
converged status. -/
theorem couplingLoop_rounds (E : Env σ ω) (t dt : ℚ) (timestep_id : Nat)
    (tl : TimeLoop σ ω) (hne : tl._per_process_data ≠ []) :
    ∀ (n it k : Nat) (converged : Bool) (status : NonlinearSolverStatus),
      it ≤ k → k < it + n →
      (∀ j, it ≤ j → j ≤ k →
        solvesConverge E t dt timestep_id (j + 1)
          (afterRounds E t dt timestep_id tl j)) →
      (∀ j, it ≤ j → j < k →
        ¬ (0 < j ∧ criteriaSatisfied E t dt timestep_id (j + 1)
          (afterRounds E t dt timestep_id tl j))) →
      ((0 < k ∧ criteriaSatisfied E t dt timestep_id (k + 1)
          (afterRounds E t dt timestep_id tl k)) ∨ k + 1 = it + n) →
      ∃ (c : Bool) (st : NonlinearSolverStatus) (tlf : TimeLoop σ ω),
        couplingLoop E t dt timestep_id n it converged status
            (afterRounds E t dt timestep_id tl it) =
          { returned := false, coupling_iteration_converged := c,
            nonlinear_solver_status := st, time_loop := tlf } ∧
        st.error_norms_met = true ∧
        solveEvents tlf.log =
          solveEvents (turnsInRound E t dt timestep_id (k + 1) 0
            (afterRounds E t dt timestep_id tl k)._per_process_data
            (afterRounds E t dt timestep_id tl k)).log ∧
        checkEvents tlf.log =
          checkEvents (turnsInRound E t dt timestep_id (k + 1) 0
            (afterRounds E t dt timestep_id tl k)._per_process_data
            (afterRounds E t dt timestep_id tl k)).log := by
  intro n
  induction n with
  | zero =>
    intro it k _ _ h1 h2
    omega
  | succ n ih =>
    intro it k converged status hik hkn hsolve hfirst hstop
    have hids := afterRounds_process_ids E t dt timestep_id tl it
    obtain ⟨hne1, _⟩ := process_ids_ne_nil _ _ hids hne
    obtain ⟨hret, htl, hmet, hcic⟩ := couplingIteration_turns E t dt timestep_id it
      (afterRounds E t dt timestep_id tl it) (hsolve it (le_refl _) hik) hne1
    have hstep : couplingLoop E t dt timestep_id (n + 1) it converged status
        (afterRounds E t dt timestep_id tl it) =
        if (couplingIteration E t dt timestep_id it
            (afterRounds E t dt timestep_id tl it)).coupling_iteration_converged
              = true ∧ 0 < it then
          couplingIteration E t dt timestep_id it
            (afterRounds E t dt timestep_id tl it)
        else
          couplingLoop E t dt timestep_id n (it + 1)
            (couplingIteration E t dt timestep_id it
              (afterRounds E t dt timestep_id tl it)).coupling_iteration_converged
            (couplingIteration E t dt timestep_id it
              (afterRounds E t dt timestep_id tl it)).nonlinear_solver_status
            (afterRounds E t dt timestep_id tl (it + 1)) := by
      rw [couplingLoop,
        couplingIterationLoop_status E t dt timestep_id it 0 _ hne1 true status {}]
      rw [afterRounds, ← htl]
      unfold couplingIteration at hret hmet ⊢
      simp only [hret, hmet, Bool.false_eq_true, if_false, Bool.not_true]
    rw [hstep]
    by_cases hk : k = it
    · subst hk
      by_cases hb : (couplingIteration E t dt timestep_id k
          (afterRounds E t dt timestep_id tl k)).coupling_iteration_converged
            = true ∧ 0 < k
      · rw [if_pos hb]
        refine ⟨(couplingIteration E t dt timestep_id k
            (afterRounds E t dt timestep_id tl k)).coupling_iteration_converged,
          (couplingIteration E t dt timestep_id k
            (afterRounds E t dt timestep_id tl k)).nonlinear_solver_status,
          (couplingIteration E t dt timestep_id k
            (afterRounds E t dt timestep_id tl k)).time_loop, ?_, hmet, ?_, ?_⟩
        · rw [← hret]
        · rw [htl]
        · rw [htl]
      · rw [if_neg hb]
        have hn : n = 0 := by
          rcases hstop with h | h
          · exact absurd (hcic.mpr h) hb
          · omega
        subst hn
        rw [couplingLoop]
        refine ⟨_, _, _, rfl, hmet, ?_, ?_⟩
        · rw [afterRounds, (resetCouplingConvergenceCriteria_log E _).1]
        · rw [afterRounds, (resetCouplingConvergenceCriteria_log E _).2.1]
    · have hlt : it < k := by omega
      rw [if_neg (fun hb => hfirst it (le_refl _) hlt (hcic.mp hb))]
      exact ih (it + 1) k _ _ (by omega) (by omega)
        (fun j hj hjk => hsolve j (by omega) hjk)
        (fun j hj hjk => hfirst j (by omega) hjk)
        (by
          rcases hstop with h | h
          · exact Or.inl h
          · exact Or.inr (by omega))

/-- The staggered scheme when the solves of its rounds converge and the
coupling loop ends with round `r`: a converged status is returned, `r`
rounds of solves and `r - 1` rounds of checks were made. -/
theorem staggered_run (E : Env σ ω) (tl : TimeLoop σ ω) (t dt : ℚ)
    (timestep_id m r : Nat)
    (hm : tl._global_coupling_max_iterations = (m : Int))
    (hne : tl._per_process_data ≠ [])
    (hr1 : 1 ≤ r) (hrm : r ≤ m)
    (hsolve : ∀ k, 1 ≤ k → k ≤ r → solvesConvergeInRound E tl t dt timestep_id k)
    (hfirst : ∀ k, 2 ≤ k → k < r →
      ¬ criteriaSatisfiedInRound E tl t dt timestep_id k)
    (hstop : (2 ≤ r ∧ criteriaSatisfiedInRound E tl t dt timestep_id r) ∨ r = m) :
    (solveCoupledEquationSystemsByStaggeredScheme E tl t dt
        timestep_id).1.error_norms_met = true ∧
      solveEvents (solveCoupledEquationSystemsByStaggeredScheme E tl t dt
          timestep_id).2.log =
        solveEvents tl.log ++
          (List.replicate r (tl._per_process_data.map (fun p => p.process_id))).flatten ∧
      checkEvents (solveCoupledEquationSystemsByStaggeredScheme E tl t dt
          timestep_id).2.log =
        checkEvents tl.log + (r - 1) * tl._per_process_data.length := by
  obtain ⟨hb1, hb2, hb3⟩ := beforeCoupling_log E tl
  have hne0 : (beforeCoupling E tl)._per_process_data ≠ [] := by
    rw [hb3]
    exact hne
  obtain ⟨c, st, tlf, hrun, hmet, hs, hc⟩ := couplingLoop_rounds E t dt timestep_id
    (beforeCoupling E tl) hne0 m 0 (r - 1) true {} (Nat.zero_le _)
    (by omega)
    (by
      intro j _ hj
      have h := hsolve (j + 1) (by omega) (by omega)
      simpa [solvesConvergeInRound] using h)
    (by
      intro j _ hj hsat
      have h := hfirst (j + 1) (by omega) (by omega)
      exact h (by simpa [criteriaSatisfiedInRound] using hsat.2))
    (by
      rcases hstop with h | h
      · left
        refine ⟨by omega, ?_⟩
        have h2 := h.2
        unfold criteriaSatisfiedInRound at h2
        rw [Nat.sub_add_cancel hr1]
        exact h2
      · right
        omega)
  obtain ⟨hl1, hl2⟩ := rounds_log E t dt timestep_id (beforeCoupling E tl) (r - 1)
  have hdef : solveCoupledEquationSystemsByStaggeredScheme E tl t dt timestep_id =
      (st, solveReactionEquations E t dt tlf._per_process_data tlf) := by
    have hdef0 : solveCoupledEquationSystemsByStaggeredScheme E tl t dt
        timestep_id =
        if (couplingLoop E t dt timestep_id
            tl._global_coupling_max_iterations.toNat 0 true {}
            (beforeCoupling E tl)).returned = true then
          ((couplingLoop E t dt timestep_id
            tl._global_coupling_max_iterations.toNat 0 true {}
            (beforeCoupling E tl)).nonlinear_solver_status,
           (couplingLoop E t dt timestep_id
            tl._global_coupling_max_iterations.toNat 0 true {}
            (beforeCoupling E tl)).time_loop)
        else
          ((couplingLoop E t dt timestep_id
            tl._global_coupling_max_iterations.toNat 0 true {}
            (beforeCoupling E tl)).nonlinear_solver_status,
           solveReactionEquations E t dt
            (couplingLoop E t dt timestep_id
              tl._global_coupling_max_iterations.toNat 0 true {}
              (beforeCoupling E tl)).time_loop._per_process_data
            (couplingLoop E t dt timestep_id
              tl._global_coupling_max_iterations.toNat 0 true {}
              (beforeCoupling E tl)).time_loop) := rfl
    rw [hdef0, hm, Int.toNat_ofNat]
    have hrun0 : couplingLoop E t dt timestep_id m 0 true {}
        (beforeCoupling E tl) = _ := hrun
    rw [hrun0]
    simp
  rw [hdef]
  refine ⟨hmet, ?_, ?_⟩
  · show solveEvents (solveReactionEquations E t dt tlf._per_process_data tlf).log = _
    rw [(solveReactionEquations_log E t dt _ _).1, hs, hl1, hb1, hb3,
      Nat.sub_add_cancel hr1]
  · show checkEvents (solveReactionEquations E t dt tlf._per_process_data tlf).log = _
    rw [(solveReactionEquations_log E t dt _ _).2, hc, hl2, hb2, hb3]

/-- C8: with `global_coupling_max_iterations = m >= 1`, a non-empty list of
processes and all nonlinear solves of the rounds converging,
`solveCoupledEquationSystemsByStaggeredScheme` performs exactly `r` rounds,
where `r` is the first round number `>= 2` in which the global convergence
criterion of every process is satisfied (`isSatisfied` answers true for
every process), or `m` if there is no such round up to `m`: in each of the
`r` rounds every process is solved exactly once, in registration order, no
criterion is checked in round 1, and every criterion is checked once in each
later round; the returned status is converged. -/
theorem staggered_rounds (E : Env σ ω) (tl : TimeLoop σ ω) (t dt : ℚ)
    (timestep_id m r : Nat)
    (hm : tl._global_coupling_max_iterations = (m : Int)) (hm1 : 1 ≤ m)
    (hne : tl._per_process_data ≠ [])
    (hr1 : 1 ≤ r) (hrm : r ≤ m)
    (hsolve : ∀ k, 1 ≤ k → k ≤ r → solvesConvergeInRound E tl t dt timestep_id k)
    (hfirst : ∀ k, 2 ≤ k → k < r →
      ¬ criteriaSatisfiedInRound E tl t dt timestep_id k)
    (hstop : (2 ≤ r ∧ criteriaSatisfiedInRound E tl t dt timestep_id r) ∨ r = m) :
    (solveCoupledEquationSystemsByStaggeredScheme E tl t dt
        timestep_id).1.error_norms_met = true ∧
      solveEvents (solveCoupledEquationSystemsByStaggeredScheme E tl t dt
          timestep_id).2.log =
        solveEvents tl.log ++
          (List.replicate r (tl._per_process_data.map (fun p => p.process_id))).flatten ∧
      checkEvents (couplingIteration E t dt timestep_id 0
          (beforeCoupling E tl)).time_loop.log = checkEvents tl.log ∧
      checkEvents (solveCoupledEquationSystemsByStaggeredScheme E tl t dt
          timestep_id).2.log =
        checkEvents tl.log + (r - 1) * tl._per_process_data.length := by
  have _ := hm1
  obtain ⟨h1, h2, h3⟩ := staggered_run E tl t dt timestep_id m r hm hne hr1 hrm
    hsolve hfirst hstop
  refine ⟨h1, h2, ?_, h3⟩
  obtain ⟨_, hb2, hb3⟩ := beforeCoupling_log E tl
  have hne0 : (beforeCoupling E tl)._per_process_data ≠ [] := by
    rw [hb3]
    exact hne
  have hs1 : solvesConverge E t dt timestep_id (0 + 1) (beforeCoupling E tl) := by
    have h := hsolve 1 (le_refl _) hr1
    simpa [solvesConvergeInRound, afterRounds] using h
  obtain ⟨_, htl, _, _⟩ := couplingIteration_turns E t dt timestep_id 0
    (beforeCoupling E tl) hs1 hne0
  rw [htl, (turnsInRound_log E t dt timestep_id (0 + 1) _ 0 _).2.1, hb2]
  simp

/-- C8 (witness): two processes, at most 5 coupling iterations, criteria
that are satisfied from the second `checkDeltaX` call on: in round 2 the
criterion of the first process is not satisfied and that of the second is,
and round 3 is the first in which both are satisfied: 3 rounds are
performed. -/
theorem staggered_rounds_witness :
    (¬ criteriaSatisfiedInRound (scriptedEnv [] 2) (twoStaggered 5) (1 / 2)
        (1 / 2) 1 2 ∧
      criteriaSatisfiedInRound (scriptedEnv [] 2) (twoStaggered 5) (1 / 2)
        (1 / 2) 1 3) ∧
      (solveCoupledEquationSystemsByStaggeredScheme (scriptedEnv [] 2)
        (twoStaggered 5) (1 / 2) (1 / 2) 1).1.error_norms_met = true ∧
      solveEvents (solveCoupledEquationSystemsByStaggeredScheme (scriptedEnv [] 2)
          (twoStaggered 5) (1 / 2) (1 / 2) 1).2.log =
        solveEvents (twoStaggered 5).log ++
          (List.replicate 3
            ((twoStaggered 5)._per_process_data.map (fun p => p.process_id))).flatten ∧
      checkEvents (couplingIteration (scriptedEnv [] 2) (1 / 2) (1 / 2) 1 0
          (beforeCoupling (scriptedEnv [] 2) (twoStaggered 5))).time_loop.log =
        checkEvents (twoStaggered 5).log ∧
      checkEvents (solveCoupledEquationSystemsByStaggeredScheme (scriptedEnv [] 2)
          (twoStaggered 5) (1 / 2) (1 / 2) 1).2.log =
        checkEvents (twoStaggered 5).log +
          (3 - 1) * (twoStaggered 5)._per_process_data.length :=
  ⟨⟨by decide!, by decide!⟩,
    staggered_rounds (scriptedEnv [] 2) (twoStaggered 5) (1 / 2) (1 / 2) 1 5 3 rfl
      (by decide) (by simp [twoStaggered, scriptedTimeLoop]) (by decide) (by decide)
      (by
        intro k h1 h3
        have hk : k = 1 ∨ k = 2 ∨ k = 3 := by omega
        rcases hk with hk | hk | hk <;> subst hk <;> decide!)
      (by
        intro k h2 h3
        have hk : k = 2 := by omega
        subst hk
        decide!)
      (Or.inl ⟨by decide, by decide!⟩)⟩

/-- C9 (counterexample): with `global_coupling_max_iterations = 0` and two
processes whose solves would all converge,
`solveCoupledEquationSystemsByStaggeredScheme` solves no process and returns
the status `{false, -1}`; `doNonlinearIteration` reports the step as not
successful. -/
theorem zero_coupling_iterations_counterexample :
    observeCoupled (solveCoupledEquationSystemsByStaggeredScheme
        (staggeredEnv [] 0) (twoStaggered 0) (1 / 2) (1 / 2) 1) =
      { status := { error_norms_met := false, number_iterations := -1 },
        solved := [], checked := 0, x := [[1], [2]] } ∧
      (doNonlinearIteration (staggeredEnv [] 0) (twoStaggered 0) (1 / 2) (1 / 2)
        1).toOption.map (fun r => r.1) = some false := by
  refine ⟨by decide!, by decide!⟩

/-- C9 (amended): with `global_coupling_max_iterations = 0`,
`solveCoupledEquationSystemsByStaggeredScheme` performs no round: it solves
no process and checks no criterion, calls `solveReactionEquation` for every
process and returns the status `{false, -1}` of a step that is not solved;
so `doNonlinearIteration` returns false under the staggered scheme. -/
theorem zero_coupling_iterations (E : Env σ ω) (tl : TimeLoop σ ω) (t dt : ℚ)
    (timestep_id : Nat) (hzero : tl._global_coupling_max_iterations = 0) :
    solveCoupledEquationSystemsByStaggeredScheme E tl t dt timestep_id =
        ({ error_norms_met := false, number_iterations := -1 },
          solveReactionEquations E t dt tl._per_process_data tl) ∧
      solveEvents (solveCoupledEquationSystemsByStaggeredScheme E tl t dt
        timestep_id).2.log = solveEvents tl.log ∧
      checkEvents (solveCoupledEquationSystemsByStaggeredScheme E tl t dt
        timestep_id).2.log = checkEvents tl.log ∧
      ∀ tl0 : TimeLoop σ ω,
        preTimestepForAllProcesses E t dt tl0._per_process_data tl0 = tl →
        isStaggeredCoupling E tl = true →
        doNonlinearIteration E tl0 t dt timestep_id =
          Except.ok (false, solveReactionEquations E t dt tl._per_process_data tl) := by
  have hdef : solveCoupledEquationSystemsByStaggeredScheme E tl t dt timestep_id =
      ({ error_norms_met := false, number_iterations := -1 },
        solveReactionEquations E t dt tl._per_process_data tl) := by
    unfold solveCoupledEquationSystemsByStaggeredScheme
    simp only [hzero, ne_eq, not_true_eq_false, if_false, Int.toNat_zero,
      couplingLoop, Bool.false_eq_true]
  refine ⟨hdef, ?_, ?_, ?_⟩
  · rw [hdef]
    exact (solveReactionEquations_log E t dt _ _).1
  · rw [hdef]
    exact (solveReactionEquations_log E t dt _ _).2
  · intro tl0 h0 hstag
    unfold doNonlinearIteration
    simp only [h0, hstag, if_true, hdef, Bool.false_eq_true, if_false]

/-- C9 (witness): the amended statement on two staggered processes with
`global_coupling_max_iterations = 0`. -/
theorem zero_coupling_iterations_witness :
    solveCoupledEquationSystemsByStaggeredScheme (staggeredEnv [] 0)
        (twoStaggered 0) (1 / 2) (1 / 2) 1 =
      ({ error_norms_met := false, number_iterations := -1 },
        solveReactionEquations (staggeredEnv [] 0) (1 / 2) (1 / 2)
          (twoStaggered 0)._per_process_data (twoStaggered 0)) :=
  (zero_coupling_iterations (staggeredEnv [] 0) (twoStaggered 0) (1 / 2) (1 / 2)
    1 rfl).1

/-- C10: if `global_coupling_max_iterations = m >= 1`, every nonlinear solve
of the `m` rounds converges and in no round from 2 to `m` the global
convergence criteria of all processes are satisfied, then
`solveCoupledEquationSystemsByStaggeredScheme` returns a converged status
after exactly `m` rounds of solves, and `doNonlinearIteration`, which calls
it under the staggered scheme, returns true. -/
theorem coupling_nonconvergence_not_fatal (E : Env σ ω) (tl : TimeLoop σ ω)
    (t dt : ℚ) (timestep_id m : Nat)
    (hm : tl._global_coupling_max_iterations = (m : Int)) (hm1 : 1 ≤ m)
    (hne : tl._per_process_data ≠ [])
    (hsolve : ∀ k, 1 ≤ k → k ≤ m → solvesConvergeInRound E tl t dt timestep_id k)
    (hnever : ∀ k, 2 ≤ k → k ≤ m →
      ¬ criteriaSatisfiedInRound E tl t dt timestep_id k) :
    (solveCoupledEquationSystemsByStaggeredScheme E tl t dt
        timestep_id).1.error_norms_met = true ∧
      solveEvents (solveCoupledEquationSystemsByStaggeredScheme E tl t dt
          timestep_id).2.log =
        solveEvents tl.log ++
          (List.replicate m (tl._per_process_data.map (fun p => p.process_id))).flatten ∧
      ∀ tl0 : TimeLoop σ ω,
        preTimestepForAllProcesses E t dt tl0._per_process_data tl0 = tl →
        isStaggeredCoupling E tl = true →
        ∃ tl1, doNonlinearIteration E tl0 t dt timestep_id = Except.ok (true, tl1) := by
  obtain ⟨h1, h2, _⟩ := staggered_run E tl t dt timestep_id m m hm hne hm1
    (le_refl _) hsolve (fun k hk hkm => hnever k hk (le_of_lt hkm)) (Or.inr rfl)
  refine ⟨h1, h2, ?_⟩
  intro tl0 h0 hstag
  unfold doNonlinearIteration
  simp only [h0, hstag, if_true, h1]
  exact ⟨_, rfl⟩

/-- C10 (witness): two staggered processes, at most 3 coupling iterations
and criteria that are not satisfied before the 100th check: 3 rounds, a
converged status, and `doNonlinearIteration` returns true. -/
theorem coupling_nonconvergence_not_fatal_witness :
    (solveCoupledEquationSystemsByStaggeredScheme (staggeredEnv [] 100)
        (preTimestepForAllProcesses (staggeredEnv [] 100) (1 / 2) (1 / 2)
          (twoStaggered 3)._per_process_data (twoStaggered 3))
        (1 / 2) (1 / 2) 1).1.error_norms_met = true ∧
      ∃ tl1, doNonlinearIteration (staggeredEnv [] 100) (twoStaggered 3) (1 / 2)
        (1 / 2) 1 = Except.ok (true, tl1) :=
  ⟨(coupling_nonconvergence_not_fatal (staggeredEnv [] 100)
      (preTimestepForAllProcesses (staggeredEnv [] 100) (1 / 2) (1 / 2)
        (twoStaggered 3)._per_process_data (twoStaggered 3))
      (1 / 2) (1 / 2) 1 3 rfl (by decide)
      (fun h => absurd (congrArg List.length h) (by decide!))
      (by
        intro k h1 h3
        have hk : k = 1 ∨ k = 2 ∨ k = 3 := by omega
        rcases hk with hk | hk | hk <;> subst hk <;> decide!)
      (by
        intro k h2 h3
        have hk : k = 2 ∨ k = 3 := by omega
        rcases hk with hk | hk <;> subst hk <;> decide!)).1,
    (coupling_nonconvergence_not_fatal (staggeredEnv [] 100)
      (preTimestepForAllProcesses (staggeredEnv [] 100) (1 / 2) (1 / 2)
        (twoStaggered 3)._per_process_data (twoStaggered 3))
      (1 / 2) (1 / 2) 1 3 rfl (by decide)
      (fun h => absurd (congrArg List.length h) (by decide!))
      (by
        intro k h1 h3
        have hk : k = 1 ∨ k = 2 ∨ k = 3 := by omega
        rcases hk with hk | hk | hk <;> subst hk <;> decide!)
      (by
        intro k h2 h3
        have hk : k = 2 ∨ k = 3 := by omega
        rcases hk with hk | hk <;> subst hk <;> decide!)).2.2 (twoStaggered 3) rfl rfl⟩

/-! ### The state push and the rollback outside the `t == begin()` guard -/

/-- The second loop of `computeTimeStepping` on a rejected step that is
rolled back: the previous solutions are untouched, and the solution of every
process whose algorithm does not begin at `t` is restored from them. -/
theorem secondLoop_rejected (E : Env σ ω) (t end_time dt : ℚ)
    (hcond : t < end_time ∨ |t - end_time| < eps) :
    ∀ (l : List (ProcessData σ)) (i : Nat) (x x_prev : List GlobalVector),
      (secondLoop E false t end_time dt i l x x_prev).x_prev = x_prev ∧
        (secondLoop E false t end_time dt i l x x_prev).x.length = x.length ∧
        (∀ (j : Nat) (ppd : ProcessData σ), l[j]? = some ppd →
          t ≠ E.timestep_algorithm.begin ppd.timestep_algorithm →
          i + j < x.length →
          (secondLoop E false t end_time dt i l x x_prev).x[i + j]? =
            some (x_prev.getD (i + j) [])) ∧
        (∀ p : Nat, p < i →
          (secondLoop E false t end_time dt i l x x_prev).x[p]? = x[p]?) := by
  intro l
  induction l with
  | nil =>
    intro i x x_prev
    refine ⟨rfl, rfl, ?_, fun _ _ => rfl⟩
    intro j ppd hj
    simp at hj
  | cons q rest ih =>
    intro i x x_prev
    have hbody : secondLoopBody E false t end_time dt i q x x_prev =
        (q, (if t = E.timestep_algorithm.begin q.timestep_algorithm then x
          else x.set i (x_prev.getD i [])), x_prev) := by
      simp only [secondLoopBody, Bool.false_eq_true, if_false, hcond, if_true]
      split_ifs <;> rfl
    obtain ⟨h1, h2, h3, h4⟩ := ih (i + 1)
      (if t = E.timestep_algorithm.begin q.timestep_algorithm then x
        else x.set i (x_prev.getD i [])) x_prev
    have hlen : (if t = E.timestep_algorithm.begin q.timestep_algorithm then x
        else x.set i (x_prev.getD i [])).length = x.length := by
      split_ifs <;> simp
    rw [secondLoop, hbody]
    refine ⟨h1, h2.trans hlen, ?_, ?_⟩
    · intro j ppd hj hb hij
      cases j with
      | zero =>
        simp only [List.getElem?_cons_zero, Option.some.injEq] at hj
        subst hj
        have := h4 i (Nat.lt_succ_self i)
        simp only [Nat.add_zero] at hij ⊢
        rw [this, if_neg hb, List.getElem?_set_self hij]
      | succ j =>
        simp only [List.getElem?_cons_succ] at hj
        have := h3 j ppd hj hb (by rw [hlen]; omega)
        rw [show i + (j + 1) = i + 1 + j by omega]
        exact this
    · intro p hp
      have := h4 p (by omega)
      simp only [] at this ⊢
      rw [this]
      split_ifs
      · rfl
      · exact List.getElem?_set_ne (by omega)

/-- The second loop of `computeTimeStepping` on an accepted step: the
solutions are untouched, and the previous solution of every process whose
algorithm (after `resetCurrentTimeStep`) does not begin at `t` becomes its
solution. -/
theorem secondLoop_accepted (E : Env σ ω) (t end_time dt : ℚ) :
    ∀ (l : List (ProcessData σ)) (i : Nat) (x x_prev : List GlobalVector),
      (secondLoop E true t end_time dt i l x x_prev).x = x ∧
        (secondLoop E true t end_time dt i l x x_prev).x_prev.length =
          x_prev.length ∧
        (∀ (j : Nat) (ppd : ProcessData σ), l[j]? = some ppd →
          t ≠ E.timestep_algorithm.begin
            (E.timestep_algorithm.resetCurrentTimeStep ppd.timestep_algorithm dt
              (E.updateTimeSteps dt ppd.timestep_previous ppd.timestep_current).1
              (E.updateTimeSteps dt ppd.timestep_previous
                ppd.timestep_current).2).algorithm →
          i + j < x_prev.length →
          (secondLoop E true t end_time dt i l x x_prev).x_prev[i + j]? =
            some (x.getD (i + j) [])) ∧
        (∀ p : Nat, p < i →
          (secondLoop E true t end_time dt i l x x_prev).x_prev[p]? = x_prev[p]?) := by
  intro l
  induction l with
  | nil =>
    intro i x x_prev
    refine ⟨rfl, rfl, ?_, fun _ _ => rfl⟩
    intro j ppd hj
    simp at hj
  | cons q rest ih =>
    intro i x x_prev
    have hbody : (secondLoopBody E true t end_time dt i q x x_prev).2 =
        (x, (if t = E.timestep_algorithm.begin
            (E.timestep_algorithm.resetCurrentTimeStep q.timestep_algorithm dt
              (E.updateTimeSteps dt q.timestep_previous q.timestep_current).1
              (E.updateTimeSteps dt q.timestep_previous
                q.timestep_current).2).algorithm
          then x_prev else x_prev.set i (x.getD i []))) := by
      simp only [secondLoopBody, if_true]
      split_ifs <;> rfl
    obtain ⟨h1, h2, h3, h4⟩ := ih (i + 1) x
      (if t = E.timestep_algorithm.begin
          (E.timestep_algorithm.resetCurrentTimeStep q.timestep_algorithm dt
            (E.updateTimeSteps dt q.timestep_previous q.timestep_current).1
            (E.updateTimeSteps dt q.timestep_previous
              q.timestep_current).2).algorithm
        then x_prev else x_prev.set i (x.getD i []))
    have hlen : (if t = E.timestep_algorithm.begin
          (E.timestep_algorithm.resetCurrentTimeStep q.timestep_algorithm dt
            (E.updateTimeSteps dt q.timestep_previous q.timestep_current).1
            (E.updateTimeSteps dt q.timestep_previous
              q.timestep_current).2).algorithm
        then x_prev else x_prev.set i (x.getD i [])).length = x_prev.length := by
      split_ifs <;> simp
    rw [secondLoop]
    simp only [hbody]
    refine ⟨h1, h2.trans hlen, ?_, ?_⟩
    · intro j ppd hj hb hij
      cases j with
      | zero =>
        simp only [List.getElem?_cons_zero, Option.some.injEq] at hj
        subst hj
        have := h4 i (Nat.lt_succ_self i)
        simp only [Nat.add_zero] at hij ⊢
        rw [this, if_neg hb, List.getElem?_set_self hij]
      | succ j =>
        simp only [List.getElem?_cons_succ] at hj
        have := h3 j ppd hj hb (by rw [hlen]; omega)
        rw [show i + (j + 1) = i + 1 + j by omega]
        exact this
    · intro p hp
      have := h4 p (by omega)
      rw [this]
      split_ifs
      · rfl
      · exact List.getElem?_set_ne (by omega)

/-- The machine epsilon is positive. -/
theorem eps_pos : 0 < eps := by
  unfold eps
  positivity

/-- The rollback of `computeTimeStepping` outside the `t == begin()` guard:
when a step taken with `prev_dt >= 0` is rejected, the time is `t - prev_dt`,
the previous solutions are untouched and the solution of every process whose
algorithm does not begin at the rolled-back time is its previous solution. -/
theorem rollback_restores_solutions (E : Env σ ω) (tl : TimeLoop σ ω)
    (prev_dt t : ℚ) (accepted_steps rejected_steps : Nat)
    (time_step_constraints : List (ℚ → ℚ → ℚ)) (s : TimeStepping σ ω)
    (hreturn : computeTimeStepping E tl prev_dt t accepted_steps rejected_steps
      time_step_constraints = Except.ok s)
    (hrejected : s.last_step_rejected = true) (hdt : 0 ≤ prev_dt) :
    s.t = t - prev_dt ∧
      s.time_loop._process_solutions_prev = tl._process_solutions_prev ∧
      ∀ (i : Nat) (ppd : ProcessData σ),
        (firstLoop E tl._process_solutions tl._process_solutions_prev t 0
          tl._per_process_data
          { all_process_steps_accepted := true, dt := DBL_MAX }).1[i]? = some ppd →
        t - prev_dt ≠ E.timestep_algorithm.begin ppd.timestep_algorithm →
        i < tl._process_solutions.length →
        s.time_loop._process_solutions[i]? =
          some (tl._process_solutions_prev.getD i []) := by
  rw [computeTimeStepping_eq] at hreturn
  by_cases hfatal : |constrainedDt E tl prev_dt t time_step_constraints - prev_dt|
      < eps ∧ stepRejected E tl t = true
  · rw [if_pos hfatal] at hreturn
    cases hreturn
  · rw [if_neg hfatal] at hreturn
    injection hreturn with hs
    subst hs
    simp only at hrejected ⊢
    have hall : allProcessStepsAccepted E tl t = false := by
      simp only [stepRejected, Bool.and_eq_true, Bool.not_eq_true'] at hrejected
      exact hrejected.1.2
    have hcond : t < tl._end_time ∨ |t - tl._end_time| < eps := by
      simp only [stepRejected, Bool.and_eq_true, decide_eq_true_eq] at hrejected
      exact hrejected.2
    have hcond1 : t - prev_dt < tl._end_time ∨ |t - prev_dt - tl._end_time| < eps := by
      by_cases h : t - prev_dt < tl._end_time
      · exact Or.inl h
      · right
        have h1 : tl._end_time ≤ t - prev_dt := not_lt.mp h
        rcases hcond with hc | hc
        · linarith
        · rw [abs_lt] at hc ⊢
          have := eps_pos
          constructor <;> linarith
    rw [hrejected, hall]
    simp only [if_true]
    obtain ⟨h1, _, h3, _⟩ := secondLoop_rejected E (t - prev_dt) tl._end_time
      (constrainedDt E tl prev_dt t time_step_constraints) hcond1
      (firstLoop E tl._process_solutions tl._process_solutions_prev t 0
        tl._per_process_data
        { all_process_steps_accepted := true, dt := DBL_MAX }).1 0
      tl._process_solutions tl._process_solutions_prev
    refine ⟨trivial, h1, ?_⟩
    intro i ppd hi hb hlen
    have := h3 i ppd hi hb (by omega)
    simpa using this

/-- The state push of `computeTimeStepping` outside the `t == begin()`
guard: when a step is accepted, the solutions are untouched and the previous
solution of every process whose algorithm (after `resetCurrentTimeStep`)
does not begin at `t` is its solution. -/
theorem state_push_outside_begin (E : Env σ ω) (tl : TimeLoop σ ω)
    (prev_dt t : ℚ) (accepted_steps rejected_steps : Nat)
    (time_step_constraints : List (ℚ → ℚ → ℚ)) (s : TimeStepping σ ω)
    (hreturn : computeTimeStepping E tl prev_dt t accepted_steps rejected_steps
      time_step_constraints = Except.ok s)
    (haccepted : s.accepted_steps = accepted_steps + 1) :
    s.time_loop._process_solutions = tl._process_solutions ∧
      ∀ (i : Nat) (ppd : ProcessData σ),
        (firstLoop E tl._process_solutions tl._process_solutions_prev t 0
          tl._per_process_data
          { all_process_steps_accepted := true, dt := DBL_MAX }).1[i]? = some ppd →
        t ≠ E.timestep_algorithm.begin
          (E.timestep_algorithm.resetCurrentTimeStep ppd.timestep_algorithm s.dt
            (E.updateTimeSteps s.dt ppd.timestep_previous ppd.timestep_current).1
            (E.updateTimeSteps s.dt ppd.timestep_previous
              ppd.timestep_current).2).algorithm →
        i < tl._process_solutions_prev.length →
        s.time_loop._process_solutions_prev[i]? =
          some (tl._process_solutions.getD i []) := by
  rw [computeTimeStepping_eq] at hreturn
  by_cases hfatal : |constrainedDt E tl prev_dt t time_step_constraints - prev_dt|
      < eps ∧ stepRejected E tl t = true
  · rw [if_pos hfatal] at hreturn
    cases hreturn
  · rw [if_neg hfatal] at hreturn
    injection hreturn with hs
    subst hs
    simp only at haccepted ⊢
    by_cases hacc : (!isInitialStep tl) = true ∧ allProcessStepsAccepted E tl t = true
    · have hrej : stepRejected E tl t = false := by
        simp [stepRejected, hacc.2]
      rw [hrej, hacc.2]
      simp only [Bool.false_eq_true, if_false]
      obtain ⟨h1, _, h3, _⟩ := secondLoop_accepted E t tl._end_time
        (constrainedDt E tl prev_dt t time_step_constraints)
        (firstLoop E tl._process_solutions tl._process_solutions_prev t 0
          tl._per_process_data
          { all_process_steps_accepted := true, dt := DBL_MAX }).1 0
        tl._process_solutions tl._process_solutions_prev
      refine ⟨h1, ?_⟩
      intro i ppd hi hb hlen
      have := h3 i ppd hi hb (by omega)
      simpa using this
    · rw [if_neg hacc] at haccepted
      omega

/-! ### Further properties of `computeTimeStepping` -/

/-- An outcome of `computeTimeStepping` that has an observation is a normal
return. -/
theorem exists_ok_of_observe (r : Except (Fatal σ ω) (TimeStepping σ ω))
    (h : observe r ≠ none) : ∃ s, r = Except.ok s := by
  cases r with
  | error f => exact absurd rfl h
  | ok s => exact ⟨s, rfl⟩

/-- What `computeTimeStepping` returns when it returns. -/
theorem computeTimeStepping_ok (E : Env σ ω) (tl : TimeLoop σ ω) (prev_dt t : ℚ)
    (accepted_steps rejected_steps : Nat)
    (time_step_constraints : List (ℚ → ℚ → ℚ)) (s : TimeStepping σ ω)
    (hreturn : computeTimeStepping E tl prev_dt t accepted_steps rejected_steps
      time_step_constraints = Except.ok s) :
    ¬ (|constrainedDt E tl prev_dt t time_step_constraints - prev_dt| < eps ∧
        stepRejected E tl t = true) ∧
      s.dt = constrainedDt E tl prev_dt t time_step_constraints ∧
      s.last_step_rejected = stepRejected E tl t ∧
      s.t = (if stepRejected E tl t then t - prev_dt else t) ∧
      s.accepted_steps =
        (if !isInitialStep tl ∧ allProcessStepsAccepted E tl t then
          accepted_steps + 1 else accepted_steps) ∧
      s.rejected_steps =
        (if stepRejected E tl t then rejected_steps + 1 else rejected_steps) := by
  rw [computeTimeStepping_eq] at hreturn
  by_cases hfatal : |constrainedDt E tl prev_dt t time_step_constraints - prev_dt|
      < eps ∧ stepRejected E tl t = true
  · rw [if_pos hfatal] at hreturn
    cases hreturn
  · rw [if_neg hfatal] at hreturn
    injection hreturn with hs
    subst hs
    exact ⟨hfatal, rfl, rfl, rfl, rfl, rfl⟩

/-- The loop over the external constraints never enlarges the step size. -/
theorem applyTimeStepConstraints_le (t : ℚ) :
    ∀ (time_step_constraints : List (ℚ → ℚ → ℚ)) (dt : ℚ),
      applyTimeStepConstraints time_step_constraints t dt ≤ dt := by
  intro cs
  induction cs with
  | nil => intro dt; exact le_refl _
  | cons c rest ih =>
    intro dt
    simp only [applyTimeStepConstraints, List.foldl_cons] at ih ⊢
    exact le_trans (ih _) (min_le_left _ _)

/-- C20: the step size that `computeTimeStepping` returns is the fold of the
external constraints, in list order, over the candidate step size with
`dt := min(dt, c(t, dt))`, where `t` is the time after a possible rollback;
so it never exceeds the candidate step size, whatever the constraints
return. -/
theorem constraints_only_reduce (E : Env σ ω) (tl : TimeLoop σ ω) (prev_dt t : ℚ)
    (accepted_steps rejected_steps : Nat)
    (time_step_constraints : List (ℚ → ℚ → ℚ)) (s : TimeStepping σ ω)
    (hreturn : computeTimeStepping E tl prev_dt t accepted_steps rejected_steps
      time_step_constraints = Except.ok s) :
    s.dt = time_step_constraints.foldl (fun dt c => min dt (c s.t dt))
        (candidateDt E tl t) ∧
      s.dt ≤ candidateDt E tl t := by
  obtain ⟨_, hdt, _, ht, _, _⟩ := computeTimeStepping_ok E tl prev_dt t
    accepted_steps rejected_steps time_step_constraints s hreturn
  rw [hdt, ht]
  exact ⟨rfl, applyTimeStepConstraints_le _ _ _⟩

/-- C20 (witness): with a first constraint that answers `dt + 1`, the step
size returned for `twoProposals` is still at most the candidate. -/
theorem constraints_only_reduce_witness :
    ∃ s, computeTimeStepping (scriptedEnv [] 0) twoProposals (1 / 2)
        (1 / 2 + 1 / 2) 1 0
        (enlargingConstraint :: scriptedConstraints twoProposals) = Except.ok s ∧
      s.dt = (enlargingConstraint :: scriptedConstraints twoProposals).foldl
        (fun dt c => min dt (c s.t dt))
        (candidateDt (scriptedEnv [] 0) twoProposals (1 / 2 + 1 / 2)) ∧
      s.dt ≤ candidateDt (scriptedEnv [] 0) twoProposals (1 / 2 + 1 / 2) := by
  obtain ⟨s, hs⟩ := exists_ok_of_observe
    (computeTimeStepping (scriptedEnv [] 0) twoProposals (1 / 2) (1 / 2 + 1 / 2)
      1 0 (enlargingConstraint :: scriptedConstraints twoProposals)) (by decide!)
  exact ⟨s, hs, constraints_only_reduce (scriptedEnv [] 0) twoProposals (1 / 2)
    (1 / 2 + 1 / 2) 1 0 (enlargingConstraint :: scriptedConstraints twoProposals)
    s hs⟩

/-- C17: in a call of `computeTimeStepping` that is not the initial one, in
which the nonlinear solve of every process converged and every time step
algorithm that answers `accepted = false` does so at a time `t` with
`t + eps >= end()`, the step is accepted: the function returns, the time is
not rolled back, `rejected_steps` is unchanged, `accepted_steps` is
incremented and `last_step_rejected` is false. -/
theorem terminal_signal_not_rejection (E : Env σ ω) (tl : TimeLoop σ ω)
    (prev_dt t : ℚ) (accepted_steps rejected_steps : Nat)
    (time_step_constraints : List (ℚ → ℚ → ℚ))
    (hinitial : isInitialStep tl = false)
    (hconverged : ∀ (i : Nat) (ppd : ProcessData σ),
      tl._per_process_data[i]? = some ppd →
      ppd.nonlinear_solver_status.error_norms_met = true)
    (hterminal : ∀ (i : Nat) (ppd : ProcessData σ),
      tl._per_process_data[i]? = some ppd →
      (callNext E tl._process_solutions tl._process_solutions_prev t i
        ppd).accepted = false →
      E.timestep_algorithm.end_
        (callNext E tl._process_solutions tl._process_solutions_prev t i
          ppd).algorithm ≤ t + eps) :
    ∃ s, computeTimeStepping E tl prev_dt t accepted_steps rejected_steps
        time_step_constraints = Except.ok s ∧
      s.t = t ∧ s.rejected_steps = rejected_steps ∧
      s.accepted_steps = accepted_steps + 1 ∧ s.last_step_rejected = false := by
  have hall : allProcessStepsAccepted E tl t = true := by
    rw [allProcessStepsAccepted_iff]
    intro i ppd hi
    refine ⟨hconverged i ppd hi, ?_⟩
    unfold controllerPasses
    by_cases ha : (callNext E tl._process_solutions tl._process_solutions_prev t i
        ppd).accepted = true
    · exact Or.inl ha
    · right
      have := hterminal i ppd hi (by simpa using ha)
      exact not_lt.mpr this
  have hrej : stepRejected E tl t = false := by
    simp [stepRejected, hall]
  rw [computeTimeStepping_eq, if_neg (by simp [hrej])]
  refine ⟨_, rfl, ?_, ?_, ?_, ?_⟩
  · simp [hrej]
  · simp [hrej]
  · simp [hinitial, hall]
  · exact hrej

/-- C17 (witness): at the end time 1 the algorithm of `endReached` answers
`accepted = false`, and the step is accepted. -/
theorem terminal_signal_not_rejection_witness :
    ∃ s, computeTimeStepping (scriptedEnv [] 0) endReached (1 / 2) 1 1 0
        (scriptedConstraints endReached) = Except.ok s ∧
      s.t = 1 ∧ s.rejected_steps = 0 ∧ s.accepted_steps = 1 + 1 ∧
      s.last_step_rejected = false :=
  terminal_signal_not_rejection (scriptedEnv [] 0) endReached (1 / 2) 1 1 0
    (scriptedConstraints endReached) (by decide!)
    (by
      intro i ppd hi
      rcases i with _ | i
      · simp only [endReached, scriptedTimeLoop, List.getElem?_cons_zero,
          Option.some.injEq] at hi
        subst hi
        rfl
      · simp [endReached, scriptedTimeLoop] at hi)
    (by
      intro i ppd hi _
      rcases i with _ | i
      · simp only [endReached, scriptedTimeLoop, List.getElem?_cons_zero,
          Option.some.injEq] at hi
        subst hi
        decide!
      · simp [endReached, scriptedTimeLoop] at hi)

/-- C15 (counterexample): the step of `growingProposal` from 1 to `3/2`,
taken with `prev_dt = 1/2`, is rejected, and `computeTimeStepping` returns
the step size 1 for the retry, which is larger than `prev_dt`. -/
theorem step_shrinks_counterexample :
    observe (computeTimeStepping (scriptedEnv [] 0) growingProposal (1 / 2)
        (1 + 1 / 2) 2 0 (scriptedConstraints growingProposal)) =
      some
        { dt := 1, last_step_rejected := true, t := 1, accepted_steps := 2,
          rejected_steps := 1, x := [[1]], x_prev := [[1]] } ∧
      ¬ (1 : ℚ) < 1 / 2 := by
  refine ⟨by decide!, by decide!⟩

/-- C15 (amended): whenever `computeTimeStepping` rejects a step that was
taken with step size `prev_dt` and returns, the step size it returns for the
retry differs from `prev_dt` by at least `eps`; it is not compared with
`prev_dt` otherwise and may be larger. -/
theorem step_changes_on_rejection (E : Env σ ω) (tl : TimeLoop σ ω)
    (prev_dt t : ℚ) (accepted_steps rejected_steps : Nat)
    (time_step_constraints : List (ℚ → ℚ → ℚ)) (s : TimeStepping σ ω)
    (hreturn : computeTimeStepping E tl prev_dt t accepted_steps rejected_steps
      time_step_constraints = Except.ok s)
    (hrejected : s.last_step_rejected = true) :
    eps ≤ |s.dt - prev_dt| := by
  obtain ⟨hfatal, hdt, hrej, _⟩ := computeTimeStepping_ok E tl prev_dt t
    accepted_steps rejected_steps time_step_constraints s hreturn
  rw [hdt]
  rw [hrej] at hrejected
  by_contra h
  exact hfatal ⟨not_le.mp h, hrejected⟩

/-- C15 (witness): the rejected first step of `firstStepFailed`, taken with
`prev_dt = 1/2`, is retried with a step size at least `eps` away from it. -/
theorem step_changes_on_rejection_witness :
    ∃ s, computeTimeStepping (scriptedEnv [] 0) firstStepFailed (1 / 2)
        (0 + 1 / 2) 0 0 (scriptedConstraints firstStepFailed) = Except.ok s ∧
      s.last_step_rejected = true ∧ eps ≤ |s.dt - 1 / 2| := by
  obtain ⟨s, hs⟩ := exists_ok_of_observe
    (computeTimeStepping (scriptedEnv [] 0) firstStepFailed (1 / 2) (0 + 1 / 2)
      0 0 (scriptedConstraints firstStepFailed)) (by decide!)
  have hrej : s.last_step_rejected = true := by
    have h : (observe (computeTimeStepping (scriptedEnv [] 0) firstStepFailed
        (1 / 2) (0 + 1 / 2) 0 0 (scriptedConstraints firstStepFailed))).map
          (fun o => o.last_step_rejected) = some true := by decide!
    rw [hs] at h
    simpa [observe] using h
  exact ⟨s, hs, hrej, step_changes_on_rejection (scriptedEnv [] 0) firstStepFailed
    (1 / 2) (0 + 1 / 2) 0 0 (scriptedConstraints firstStepFailed) s hs hrej⟩

/-! ### Solver divergence and the set-up of the ODE systems -/

/-- C11 (counterexample): the solve of the first of three processes does not
converge and its time step algorithm cannot reduce the step size;
`solveUncoupledEquationSystems` returns no status, the run terminates
fatally with the message `timestepper_cannot_reduce_dt`. -/
theorem divergence_terminates_counterexample :
    (solveMonolithicProcess (scriptedEnv [0] 0) (threeProcesses false) (1 / 2)
        (1 / 2) 1 (monolithicProcess 0 false)).1.error_norms_met = false ∧
      observeSolve (solveUncoupledEquationSystems (scriptedEnv [0] 0)
        (threeProcesses false) (1 / 2) (1 / 2) 1) = none ∧
      ∃ f, solveUncoupledEquationSystems (scriptedEnv [0] 0)
          (threeProcesses false) (1 / 2) (1 / 2) 1 = Except.error f ∧
        f.message = timestepper_cannot_reduce_dt := by
  refine ⟨by decide!, by decide!, ?_⟩
  have h := solveUncoupledLoop_cons_failed (scriptedEnv [0] 0) (1 / 2) (1 / 2) 1 0
    (monolithicProcess 0 false) [monolithicProcess 1 false, monolithicProcess 2 false]
    {} (threeProcesses false) (by decide!)
  rw [if_pos (by decide!)] at h
  exact ⟨_, h, rfl⟩

/-- C11 (amended): in a monolithic step attempt in which process `k` is the
first whose nonlinear solver does not converge,
`solveUncoupledEquationSystems` returns a non-converged status to its caller
when the time step algorithm of `k` reports that it can reduce the time
step size; when it reports that it cannot, the run terminates fatally with
the message `timestepper_cannot_reduce_dt`. -/
theorem divergence_returns_when_reducible (E : Env σ ω) (tl : TimeLoop σ ω)
    (t dt : ℚ) (timestep_id : Nat) (pre : List (ProcessData σ))
    (pk : ProcessData σ) (post : List (ProcessData σ))
    (hsplit : tl._per_process_data = pre ++ pk :: post)
    (hpre : ∀ (j : Nat) (pj : ProcessData σ), pre[j]? = some pj →
      (solveMonolithicProcess E
        (solveInOrder E t dt timestep_id 0 (pre.take j) tl) t dt timestep_id
        pj).1.error_norms_met = true)
    (hk : (solveMonolithicProcess E (solveInOrder E t dt timestep_id 0 pre tl) t dt
      timestep_id pk).1.error_norms_met = false) :
    (E.timestep_algorithm.canReduceTimestepSize pk.timestep_algorithm
        pk.timestep_current pk.timestep_previous = true →
      ∃ status tl1, solveUncoupledEquationSystems E tl t dt timestep_id =
          Except.ok (status, tl1) ∧
        status.error_norms_met = false) ∧
      (E.timestep_algorithm.canReduceTimestepSize pk.timestep_algorithm
          pk.timestep_current pk.timestep_previous = false →
        ∃ f, solveUncoupledEquationSystems E tl t dt timestep_id =
            Except.error f ∧
          f.message = timestepper_cannot_reduce_dt) := by
  have hloop : solveUncoupledEquationSystems E tl t dt timestep_id =
      solveUncoupledLoop E t dt timestep_id (0 + pre.length) (pk :: post) {}
        (solveInOrder E t dt timestep_id 0 pre tl) := by
    unfold solveUncoupledEquationSystems
    rw [hsplit]
    exact solveUncoupledLoop_prefix E t dt timestep_id pk post pre 0 tl {} hpre
  rw [solveUncoupledLoop_cons_failed E t dt timestep_id _ pk post {} _ hk] at hloop
  constructor
  · intro hcan
    rw [hcan] at hloop
    exact ⟨_, _, hloop, hk⟩
  · intro hcan
    rw [hcan] at hloop
    exact ⟨_, hloop, rfl⟩

/-- C11 (witness): the third of three processes is the first whose solve does
not converge; its time step algorithm can reduce the step size, and a
non-converged status is returned. -/
theorem divergence_returns_when_reducible_witness :
    ∃ status tl1, solveUncoupledEquationSystems (scriptedEnv [2] 0)
        (threeProcesses true) (1 / 2) (1 / 2) 1 = Except.ok (status, tl1) ∧
      status.error_norms_met = false :=
  (divergence_returns_when_reducible (scriptedEnv [2] 0) (threeProcesses true)
    (1 / 2) (1 / 2) 1 [monolithicProcess 0 true, monolithicProcess 1 true]
    (monolithicProcess 2 true) [] rfl
    (by
      intro j pj hj
      rcases j with _ | _ | j
      · simp only [List.getElem?_cons_zero, Option.some.injEq] at hj
        subst hj
        decide!
      · simp only [List.getElem?_cons_succ, List.getElem?_cons_zero,
          Option.some.injEq] at hj
        subst hj
        decide!
      · simp at hj)
    (by decide!)).1 rfl

/-- C13 (counterexample): in a build with `USE_PETSC`, a
`PETScNonlinearSolver`, which is neither a Picard nor a Newton solver, on a
Newton-ready ODE system does not end fatally: the Newton time discretized
system is installed. -/
theorem solver_mismatch_counterexample :
    petscProcess.nonlinear_solver ≠ NonlinearSolverKind.Picard ∧
      petscProcess.nonlinear_solver ≠ NonlinearSolverKind.Newton ∧
      installedSystem (setTimeDiscretizedODESystem true petscProcess true) =
        some (some NonlinearSolverTag.Newton) := by
  refine ⟨by decide, by decide, by decide!⟩

/-- C13 (amended): `setTimeDiscretizedODESystem` terminates fatally if and
only if the solver is a Newton solver (or, in a build with `USE_PETSC`, a
`PETScNonlinearSolver`) and the ODE system is not Newton-ready, or the
solver is none of these and not a Picard solver. With a Picard solver it
succeeds for every ODE system and installs a Picard time discretized
system; with a Newton solver (or, with `USE_PETSC`, a
`PETScNonlinearSolver`) and a Newton-ready ODE system it installs a Newton
time discretized system. -/
theorem solver_mismatch_at_setup (use_petsc : Bool)
    (process_data : ProcessData σ) (ode_sys_is_newton : Bool) :
    ((∃ message, setTimeDiscretizedODESystem use_petsc process_data
          ode_sys_is_newton = Except.error message) ↔
        (((process_data.nonlinear_solver = NonlinearSolverKind.Newton ∨
            (use_petsc = true ∧ process_data.nonlinear_solver =
              NonlinearSolverKind.PETScNonlinearSolver)) ∧
          ode_sys_is_newton = false) ∨
        (process_data.nonlinear_solver ≠ NonlinearSolverKind.Picard ∧
          process_data.nonlinear_solver ≠ NonlinearSolverKind.Newton ∧
          ¬ (use_petsc = true ∧ process_data.nonlinear_solver =
            NonlinearSolverKind.PETScNonlinearSolver)))) ∧
      (process_data.nonlinear_solver = NonlinearSolverKind.Picard →
        setTimeDiscretizedODESystem use_petsc process_data ode_sys_is_newton =
          Except.ok
            { process_data with tdisc_ode_sys := some NonlinearSolverTag.Picard }) ∧
      ((process_data.nonlinear_solver = NonlinearSolverKind.Newton ∨
          (use_petsc = true ∧ process_data.nonlinear_solver =
            NonlinearSolverKind.PETScNonlinearSolver)) →
        ode_sys_is_newton = true →
        setTimeDiscretizedODESystem use_petsc process_data ode_sys_is_newton =
          Except.ok
            { process_data with tdisc_ode_sys := some NonlinearSolverTag.Newton }) := by
  unfold setTimeDiscretizedODESystem
  by_cases hp : process_data.nonlinear_solver = NonlinearSolverKind.Picard
  · rw [if_pos hp]
    refine ⟨⟨?_, ?_⟩, fun _ => rfl, ?_⟩
    · rintro ⟨m, hm⟩
      cases hm
    · rintro (⟨h | h, _⟩ | ⟨h, _⟩)
      · rw [hp] at h
        cases h
      · rw [hp] at h
        cases h.2
      · exact absurd hp h
    · rintro (h | h) _
      · rw [hp] at h
        cases h
      · rw [hp] at h
        cases h.2
  · rw [if_neg hp]
    by_cases hn : process_data.nonlinear_solver = NonlinearSolverKind.Newton ∨
        (use_petsc = true ∧ process_data.nonlinear_solver =
          NonlinearSolverKind.PETScNonlinearSolver)
    · rw [if_pos hn]
      cases ode_sys_is_newton with
      | false =>
        refine ⟨⟨fun _ => Or.inl ⟨hn, rfl⟩, fun _ => ⟨_, rfl⟩⟩,
          fun h => absurd h hp, ?_⟩
        intro _ h
        cases h
      | true =>
        refine ⟨⟨?_, ?_⟩, fun h => absurd h hp, fun _ _ => rfl⟩
        · rintro ⟨m, hm⟩
          cases hm
        · rintro (⟨_, h⟩ | ⟨_, h1, h2⟩)
          · cases h
          · rcases hn with h | h
            · exact absurd h h1
            · exact absurd h h2
    · rw [if_neg hn]
      refine ⟨⟨?_, fun _ => ⟨_, rfl⟩⟩, fun h => absurd h hp,
        fun h => absurd h hn⟩
      intro _
      right
      exact ⟨hp, fun h => hn (Or.inl h), fun h => hn (Or.inr h)⟩

/-- C13 (witness): a Newton solver on an ODE system that is not Newton-ready
ends fatally, and on a Newton-ready one the Newton system is installed. -/
theorem solver_mismatch_at_setup_witness :
    (∃ message, setTimeDiscretizedODESystem false newtonProcess false =
        Except.error message) ∧
      setTimeDiscretizedODESystem false newtonProcess true =
        Except.ok
          { newtonProcess with tdisc_ode_sys := some NonlinearSolverTag.Newton } :=
  ⟨(solver_mismatch_at_setup false newtonProcess false).1.2
      (Or.inl ⟨Or.inl rfl, rfl⟩),
    (solver_mismatch_at_setup false newtonProcess true).2.2 (Or.inl rfl) rfl⟩

/-! ### Runs of the time loop -/

/-- C16 (counterexample): in the scenario (three processes under the
monolithic scheme, one output, `FixedTimeStepping(0, 1, 0.5)`, converging
solves) `doOutput` is invoked 9 times, not 3 times: at each of the three
output times once for each process. -/
theorem fixed_scenario_counterexample :
    (doOutputEvents (run (fixedEnv []) 3 fixedScenario).time_loop.log).length = 9 ∧
      (run (fixedEnv []) 3 fixedScenario).finished = true := by
  refine ⟨by decide!, by decide!⟩

/-- C16 (amended): the run of the scenario ends after 2 accepted steps, at
`t = 1/2` and `t = 1`, without a rejected step and without a fatal
termination, and `doOutput` is invoked exactly 9 times in total: for each of
the three processes once at `t = 0` (time step 0), once at `t = 1/2` (time
step 1) and once at `t = 1` (time step 2). -/
theorem fixed_scenario :
    observeRun (run (fixedEnv []) 3 fixedScenario) =
      { finished := true
        fatal := none
        accepted_times := [1 / 2, 1]
        accepted_steps := 2
        rejected_steps := 0
        current_time := 1
        output_calls :=
          [{ output := 0, process_id := 0, timestep := 0, t := 0 },
           { output := 0, process_id := 1, timestep := 0, t := 0 },
           { output := 0, process_id := 2, timestep := 0, t := 0 },
           { output := 0, process_id := 0, timestep := 1, t := 1 / 2 },
           { output := 0, process_id := 1, timestep := 1, t := 1 / 2 },
           { output := 0, process_id := 2, timestep := 1, t := 1 / 2 },
           { output := 0, process_id := 0, timestep := 2, t := 1 },
           { output := 0, process_id := 1, timestep := 2, t := 1 },
           { output := 0, process_id := 2, timestep := 2, t := 1 }]
        output_always_calls := [] } := by
  decide!

/-- C12 (counterexample): in the run of `stallScenario` the first step fails,
is rejected (the time is set back from `1/2` to 0 and `_rejected_steps`
becomes 1) and gets the step size `1/2` again; the run terminates fatally
with the stalled step size message, and no `doOutputAlways` call was
made although there is an output. -/
theorem output_before_fatal_counterexample :
    observeRun (run (scriptedEnv [0] 0) 3 stallScenario) =
      { finished := false
        fatal := some step_size_stalled
        accepted_times := []
        accepted_steps := 0
        rejected_steps := 1
        current_time := 0
        output_calls := [{ output := 0, process_id := 0, timestep := 0, t := 0 }]
        output_always_calls := [] } ∧
      stallScenario._outputs.length = 1 := by
  refine ⟨by decide!, by decide!⟩

/-! ### What the solves change -/

theorem Advances.refl (P : Event → Bool) (tl : TimeLoop σ ω) : Advances P tl tl :=
  ⟨rfl, rfl, rfl, [], by simp, by simp⟩

theorem Advances.trans {P : Event → Bool} {a b c : TimeLoop σ ω}
    (h1 : Advances P a b) (h2 : Advances P b c) : Advances P a c := by
  obtain ⟨c1, o1, p1, l1, e1, a1⟩ := h1
  obtain ⟨c2, o2, p2, l2, e2, a2⟩ := h2
  refine ⟨c2.trans c1, o2.trans o1, p2.trans p1, l1 ++ l2, ?_, ?_⟩
  · rw [e2, e1, List.append_assoc]
  · intro e he
    rcases List.mem_append.mp he with h | h
    · exact a1 e h
    · exact a2 e h

theorem Advances.mono {P Q : Event → Bool} {a b : TimeLoop σ ω}
    (hPQ : ∀ e, P e = true → Q e = true) (h : Advances P a b) : Advances Q a b := by
  obtain ⟨c1, o1, p1, l1, e1, a1⟩ := h
  exact ⟨c1, o1, p1, l1, e1, fun e he => hPQ e (a1 e he)⟩

/-- A single call advances the time loop. -/
theorem advances_call (P : Event → Bool) (E : Env σ ω) (e : Event)
    (tl : TimeLoop σ ω) (he : P e = true) : Advances P tl (call E e tl) :=
  ⟨rfl, rfl, rfl, [e], rfl, by simpa using he⟩

/-- Storing a status advances the time loop. -/
theorem advances_storeStatus (P : Event → Bool) (i : Nat)
    (status : NonlinearSolverStatus) (tl : TimeLoop σ ω) :
    Advances P tl (storeStatus i status tl) :=
  ⟨rfl, rfl, storeStatus_process_ids i status tl, [], by simp [storeStatus],
    by simp⟩

/-- The calls of `solveOneTimeStepOneProcess` belong to the solve stage. -/
theorem advances_solveOneTimeStepOneProcess (E : Env σ ω) (tl : TimeLoop σ ω)
    (timestep : Nat) (t dt : ℚ) (p : ProcessData σ) :
    Advances isSolveStage tl (solveOneTimeStepOneProcess E tl timestep t dt p).2 := by
  simp only [solveOneTimeStepOneProcess]
  split_ifs
  · exact ⟨rfl, rfl, rfl, _, by simp [call]; rfl, by simp [isSolveStage]⟩
  · exact ⟨rfl, rfl, rfl, _, by simp [call]; rfl, by simp [isSolveStage]⟩

/-- The calls of `doOutputAlwaysForAll` are the `doOutputAlways` calls on the
outputs of the list, in order. -/
theorem doOutputAlwaysForAll_log (E : Env σ ω) (process_id timestep_id : Nat)
    (t : ℚ) (iterations : Int) :
    ∀ (outputs : List Output) (k : Nat) (tl : TimeLoop σ ω),
      ∃ added,
        (doOutputAlwaysForAll E process_id timestep_id t iterations k outputs
          tl).log = tl.log ++ added ∧
        doOutputAlwaysEvents added =
          (List.range outputs.length).map (fun j =>
            { output := k + j, process_id := process_id, timestep := timestep_id,
              t := t }) := by
  intro outputs
  induction outputs with
  | nil => intro k tl; exact ⟨[], by simp [doOutputAlwaysForAll], rfl⟩
  | cons o rest ih =>
    intro k tl
    obtain ⟨added, h1, h2⟩ := ih (k + 1)
      (call E (Event.doOutputAlways k process_id timestep_id t iterations
        tl._process_solutions) tl)
    refine ⟨Event.doOutputAlways k process_id timestep_id t iterations
      tl._process_solutions :: added, ?_, ?_⟩
    · rw [doOutputAlwaysForAll, h1]
      simp [call]
    · simp only [doOutputAlwaysEvents, h2, List.length_cons, List.range_succ_eq_map,
        List.map_cons, List.map_map, Nat.add_zero]
      congr 1
      apply List.map_congr_left
      intro j _
      simp only [Function.comp, Nat.succ_eq_add_one]
      congr 1
      omega

/-- The log of the solve stage has no `doOutputAlways` call and no
`computeSecondaryVariable` or `postTimestep` call. -/
theorem solveStage_events (added : List Event)
    (h : ∀ e ∈ added, isSolveStage e = true) :
    doOutputAlwaysEvents added = [] ∧ hookEvents added = [] := by
  induction added with
  | nil => exact ⟨rfl, rfl⟩
  | cons e rest ih =>
    have he := h e (List.mem_cons_self _ _)
    have hrest := ih (fun e he => h e (List.mem_cons_of_mem _ he))
    cases e <;> simp [isSolveStage] at he <;>
      simp [doOutputAlwaysEvents, hookEvents, hrest]

theorem doOutputAlwaysEvents_append (a b : List Event) :
    doOutputAlwaysEvents (a ++ b) = doOutputAlwaysEvents a ++ doOutputAlwaysEvents b := by
  induction a with
  | nil => rfl
  | cons e rest ih => cases e <;> simp [doOutputAlwaysEvents, ih]

theorem hookEvents_append (a b : List Event) :
    hookEvents (a ++ b) = hookEvents a ++ hookEvents b := by
  induction a with
  | nil => rfl
  | cons e rest ih => cases e <;> simp [hookEvents, ih]

/-- The loop of `solveUncoupledEquationSystems`: when it returns, the time
loop was advanced by calls of the solve stage; when it terminates fatally,
it was advanced by such calls and then `doOutputAlways` was called on every
output, in order, for the process whose solve failed. -/
theorem solveUncoupledLoop_advances (E : Env σ ω) (t dt : ℚ) (timestep_id : Nat) :
    ∀ (l : List (ProcessData σ)) (i : Nat) (status : NonlinearSolverStatus)
      (tl : TimeLoop σ ω),
      (∀ s tl1, solveUncoupledLoop E t dt timestep_id i l status tl =
          Except.ok (s, tl1) → Advances isSolveStage tl tl1) ∧
      (∀ f, solveUncoupledLoop E t dt timestep_id i l status tl = Except.error f →
        f.message = timestepper_cannot_reduce_dt ∧
        ∃ (tlm : TimeLoop σ ω) (process_data : ProcessData σ) (iterations : Int),
          process_data ∈ l ∧ Advances isSolveStage tl tlm ∧
          f.time_loop = doOutputAlwaysForAll E process_data.process_id timestep_id t
            iterations 0 tlm._outputs tlm) := by
  intro l
  induction l with
  | nil =>
    intro i status tl
    refine ⟨?_, ?_⟩
    · intro s tl1 h
      rw [solveUncoupledLoop] at h
      cases h
      exact Advances.refl _ _
    · intro f h
      rw [solveUncoupledLoop] at h
      cases h
  | cons p rest ih =>
    intro i status tl
    have hadv : Advances isSolveStage tl
        (storeStatus i (solveMonolithicProcess E tl t dt timestep_id p).1
          (solveMonolithicProcess E tl t dt timestep_id p).2) :=
      (advances_solveOneTimeStepOneProcess E tl timestep_id t dt p).trans
        (advances_storeStatus _ _ _ _)
    by_cases hmet : (solveMonolithicProcess E tl t dt timestep_id p).1.error_norms_met
        = true
    · rw [solveUncoupledLoop_cons_converged E t dt timestep_id i p rest status tl hmet]
      obtain ⟨h1, h2⟩ := ih (i + 1)
        (solveMonolithicProcess E tl t dt timestep_id p).1
        (storeStatus i (solveMonolithicProcess E tl t dt timestep_id p).1
          (solveMonolithicProcess E tl t dt timestep_id p).2)
      refine ⟨fun s tl1 h => hadv.trans (h1 s tl1 h), ?_⟩
      intro f h
      obtain ⟨hm, tlm, pd, it, hmem, ha, hf⟩ := h2 f h
      exact ⟨hm, tlm, pd, it, List.mem_cons_of_mem _ hmem, hadv.trans ha, hf⟩
    · have hmet1 : (solveMonolithicProcess E tl t dt timestep_id
          p).1.error_norms_met = false := by simpa using hmet
      rw [solveUncoupledLoop_cons_failed E t dt timestep_id i p rest status tl hmet1]
      by_cases hcan : E.timestep_algorithm.canReduceTimestepSize p.timestep_algorithm
          p.timestep_current p.timestep_previous = true
      · simp only [hcan, Bool.not_true, Bool.false_eq_true, if_false]
        refine ⟨?_, ?_⟩
        · intro s tl1 h
          cases h
          exact hadv
        · intro f h
          cases h
      · simp only [hcan, Bool.not_false, if_true]
        refine ⟨?_, ?_⟩
        · intro s tl1 h
          cases h
        · intro f h
          cases h
          exact ⟨rfl, _, p, _, List.mem_cons_self _ _, hadv, rfl⟩

/-- The outputs are as they were after `doOutputAlwaysForAll`. -/
theorem doOutputAlwaysForAll_outputs (E : Env σ ω) (process_id timestep_id : Nat)
    (t : ℚ) (iterations : Int) :
    ∀ (outputs : List Output) (k : Nat) (tl : TimeLoop σ ω),
      (doOutputAlwaysForAll E process_id timestep_id t iterations k outputs
        tl)._outputs = tl._outputs := by
  intro outputs
  induction outputs with
  | nil => intro k tl; rfl
  | cons o rest ih =>
    intro k tl
    rw [doOutputAlwaysForAll, ih]
    rfl

/-- The loop of `doOutputAlways` calls leaves the process data and the
solutions as they are. -/
theorem doOutputAlwaysForAll_keeps (E : Env σ ω) (process_id timestep_id : Nat)
    (t : ℚ) (iterations : Int) :
    ∀ (outputs : List Output) (k : Nat) (tl : TimeLoop σ ω),
      (doOutputAlwaysForAll E process_id timestep_id t iterations k outputs
          tl)._per_process_data = tl._per_process_data ∧
        (doOutputAlwaysForAll E process_id timestep_id t iterations k outputs
          tl)._process_solutions = tl._process_solutions := by
  intro outputs
  induction outputs with
  | nil => intro k tl; exact ⟨rfl, rfl⟩
  | cons o rest ih =>
    intro k tl
    rw [doOutputAlwaysForAll, (ih _ _).1, (ih _ _).2]
    exact ⟨rfl, rfl⟩

/-- The solves of `solveInOrder` advance the time loop by calls of the solve
stage. -/
theorem advances_solveInOrder (E : Env σ ω) (t dt : ℚ) (timestep_id : Nat) :
    ∀ (l : List (ProcessData σ)) (i : Nat) (tl : TimeLoop σ ω),
      Advances isSolveStage tl (solveInOrder E t dt timestep_id i l tl) := by
  intro l
  induction l with
  | nil => intro i tl; exact Advances.refl _ _
  | cons p rest ih =>
    intro i tl
    rw [solveInOrder_cons]
    exact ((advances_solveOneTimeStepOneProcess E tl timestep_id t dt p).trans
      (advances_storeStatus _ _ _ _)).trans (ih _ _)

/-- C7 (counterexample): of three processes whose time step algorithms
cannot reduce the step size, the first solve converges and the second does
not; `solveUncoupledEquationSystems` returns no status, it terminates
fatally. -/
theorem monolithic_abort_counterexample :
    ∃ p0 p1 p2, (threeProcesses false)._per_process_data = [p0, p1, p2] ∧
      (solveMonolithicProcess (scriptedEnv [1] 0) (threeProcesses false) (1 / 2)
        (1 / 2) 1 p0).1.error_norms_met = true ∧
      (solveMonolithicProcess (scriptedEnv [1] 0)
        (solveInOrder (scriptedEnv [1] 0) (1 / 2) (1 / 2) 1 0 [p0]
          (threeProcesses false)) (1 / 2) (1 / 2) 1 p1).1.error_norms_met = false ∧
      observeSolve (solveUncoupledEquationSystems (scriptedEnv [1] 0)
        (threeProcesses false) (1 / 2) (1 / 2) 1) = none := by
  refine ⟨_, _, _, rfl, by decide!, by decide!, by decide!⟩

/-- C7 (amended): `solveUncoupledEquationSystems` solves the processes in
registration order. If process `k` is the first whose nonlinear solve does
not converge, then exactly the processes up to `k` are solved, once each and
in order, the process data after `k` and the solutions of the processes
that were not solved are unchanged, and: when the time step algorithm of `k`
can reduce the step size, the status of `k` is returned; when it cannot,
`doOutputAlways` is called on every output, once each and in the order of
the outputs, for process `k` with the time step and the time of the solve,
and the run terminates fatally with the message that the time step size
cannot be reduced, the process data and the solutions being those after the
solve of `k`. If every solve converges, each process is solved exactly once
and the returned status is converged. -/
theorem monolithic_abort_at_first_failure (E : Env σ ω) (tl : TimeLoop σ ω)
    (t dt : ℚ) (timestep_id : Nat) :
    (∀ (pre : List (ProcessData σ)) (pk : ProcessData σ)
        (post : List (ProcessData σ)),
      tl._per_process_data = pre ++ pk :: post →
      (∀ (j : Nat) (pj : ProcessData σ), pre[j]? = some pj →
        (solveMonolithicProcess E
          (solveInOrder E t dt timestep_id 0 (pre.take j) tl) t dt timestep_id
          pj).1.error_norms_met = true) →
      (solveMonolithicProcess E (solveInOrder E t dt timestep_id 0 pre tl) t dt
        timestep_id pk).1.error_norms_met = false →
      (E.timestep_algorithm.canReduceTimestepSize pk.timestep_algorithm
          pk.timestep_current pk.timestep_previous = true →
        solveUncoupledEquationSystems E tl t dt timestep_id =
          Except.ok
            ((solveMonolithicProcess E (solveInOrder E t dt timestep_id 0 pre tl)
              t dt timestep_id pk).1,
             solveInOrder E t dt timestep_id 0 (pre ++ [pk]) tl)) ∧
      (E.timestep_algorithm.canReduceTimestepSize pk.timestep_algorithm
          pk.timestep_current pk.timestep_previous = false →
        ∃ f, solveUncoupledEquationSystems E tl t dt timestep_id =
            Except.error f ∧
          f.message = timestepper_cannot_reduce_dt ∧
          solveEvents f.time_loop.log =
            solveEvents (solveInOrder E t dt timestep_id 0 (pre ++ [pk]) tl).log ∧
          doOutputAlwaysEvents f.time_loop.log =
            doOutputAlwaysEvents tl.log ++
              (List.range tl._outputs.length).map (fun j =>
                { output := j, process_id := pk.process_id,
                  timestep := timestep_id, t := t }) ∧
          f.time_loop._per_process_data =
            (solveInOrder E t dt timestep_id 0 (pre ++ [pk]) tl)._per_process_data ∧
          f.time_loop._process_solutions =
            (solveInOrder E t dt timestep_id 0 (pre ++ [pk])
              tl)._process_solutions) ∧
      solveEvents (solveInOrder E t dt timestep_id 0 (pre ++ [pk]) tl).log =
        solveEvents tl.log ++ (pre ++ [pk]).map (fun p => p.process_id) ∧
      (solveInOrder E t dt timestep_id 0 (pre ++ [pk]) tl)._per_process_data.drop
        (pre.length + 1) = post ∧
      ∀ q : Nat, q ∉ (pre ++ [pk]).map (fun p => p.process_id) →
        (solveInOrder E t dt timestep_id 0 (pre ++ [pk]) tl)._process_solutions[q]?
          = tl._process_solutions[q]?) ∧
    (tl._per_process_data ≠ [] →
      (∀ (j : Nat) (pj : ProcessData σ), tl._per_process_data[j]? = some pj →
        (solveMonolithicProcess E
          (solveInOrder E t dt timestep_id 0 (tl._per_process_data.take j) tl) t dt
          timestep_id pj).1.error_norms_met = true) →
      ∃ s, solveUncoupledEquationSystems E tl t dt timestep_id =
          Except.ok (s, solveInOrder E t dt timestep_id 0 tl._per_process_data tl) ∧
        s.error_norms_met = true ∧
        solveEvents
            (solveInOrder E t dt timestep_id 0 tl._per_process_data tl).log =
          solveEvents tl.log ++ tl._per_process_data.map (fun p => p.process_id)) := by
  refine ⟨?_, ?_⟩
  · intro pre pk post hsplit hpre hk
    have hloop : solveUncoupledEquationSystems E tl t dt timestep_id =
        solveUncoupledLoop E t dt timestep_id (0 + pre.length) (pk :: post) {}
          (solveInOrder E t dt timestep_id 0 pre tl) := by
      unfold solveUncoupledEquationSystems
      rw [hsplit]
      exact solveUncoupledLoop_prefix E t dt timestep_id pk post pre 0 tl {} hpre
    rw [solveUncoupledLoop_cons_failed E t dt timestep_id _ pk post {} _ hk] at hloop
    refine ⟨?_, ?_, solveInOrder_solveEvents E t dt timestep_id _ 0 tl, ?_, ?_⟩
    · intro hcan
      rw [hloop, solveInOrder_concat]
      simp [hcan]
    · intro hcan
      rw [hloop]
      simp only [hcan, Bool.not_false, if_true]
      refine ⟨_, rfl, rfl, ?_, ?_, ?_, ?_⟩
      · rw [solveInOrder_concat]
        simp only []
        generalize (storeStatus (0 + pre.length)
          (solveMonolithicProcess E (solveInOrder E t dt timestep_id 0 pre tl) t dt
            timestep_id pk).1
          (solveMonolithicProcess E (solveInOrder E t dt timestep_id 0 pre tl) t dt
            timestep_id pk).2) = tl1
        generalize (solveMonolithicProcess E
          (solveInOrder E t dt timestep_id 0 pre tl)
          t dt timestep_id pk).1.number_iterations = n
        generalize tl1._outputs = outs
        generalize (0 : Nat) = k
        induction outs generalizing k tl1 with
        | nil => rfl
        | cons o rest ih =>
          simp only [doOutputAlwaysForAll]
          rw [ih]
          simp [call, solveEvents_append, solveEvents]
      · simp only []
        rw [← solveInOrder_concat]
        obtain ⟨_, ho, _, added, hlog, hadded⟩ :=
          advances_solveInOrder E t dt timestep_id (pre ++ [pk]) 0 tl
        obtain ⟨added1, hlog1, hev⟩ := doOutputAlwaysForAll_log E pk.process_id
          timestep_id t
          (solveMonolithicProcess E (solveInOrder E t dt timestep_id 0 pre tl)
            t dt timestep_id pk).1.number_iterations
          (solveInOrder E t dt timestep_id 0 (pre ++ [pk]) tl)._outputs 0
          (solveInOrder E t dt timestep_id 0 (pre ++ [pk]) tl)
        rw [hlog1, hlog, doOutputAlwaysEvents_append, doOutputAlwaysEvents_append,
          (solveStage_events added hadded).1, hev, ho]
        simp
      · simp only []
        rw [← solveInOrder_concat]
        exact (doOutputAlwaysForAll_keeps E _ _ _ _ _ _ _).1
      · simp only []
        rw [← solveInOrder_concat]
        exact (doOutputAlwaysForAll_keeps E _ _ _ _ _ _ _).2
    · have h := solveInOrder_drop E t dt timestep_id (pre ++ [pk]) 0 tl
      simp only [List.length_append, List.length_singleton, Nat.zero_add] at h
      rw [h, hsplit]
      simp
    · intro q hq
      exact solveInOrder_solutions E t dt timestep_id q _ 0 tl hq
  · intro hne hall
    obtain ⟨s, hs, hmet⟩ := solveUncoupledLoop_all E t dt timestep_id
      tl._per_process_data 0 tl {} (Or.inr hne) hall
    exact ⟨s, hs, hmet, solveInOrder_solveEvents E t dt timestep_id _ 0 tl⟩

/-- C7 (witness): with three processes whose time step algorithms can reduce
the step size and a second solve that does not converge, the status of the
second process is returned after the solves of the first two; when all
three solves converge, a converged status is returned after the solves of
all three; with time step algorithms that cannot reduce the step size, two
outputs and a second solve that does not converge, `doOutputAlways` is
called on the two outputs for the second process before the fatal
termination. -/
theorem monolithic_abort_witness :
    solveUncoupledEquationSystems (scriptedEnv [1] 0) (threeProcesses true)
        (1 / 2) (1 / 2) 1 =
      Except.ok
        ((solveMonolithicProcess (scriptedEnv [1] 0)
          (solveInOrder (scriptedEnv [1] 0) (1 / 2) (1 / 2) 1 0
            [monolithicProcess 0 true] (threeProcesses true))
          (1 / 2) (1 / 2) 1 (monolithicProcess 1 true)).1,
         solveInOrder (scriptedEnv [1] 0) (1 / 2) (1 / 2) 1 0
          ([monolithicProcess 0 true] ++ [monolithicProcess 1 true])
          (threeProcesses true)) ∧
      (∃ s, solveUncoupledEquationSystems (scriptedEnv [] 0) (threeProcesses true)
          (1 / 2) (1 / 2) 1 =
        Except.ok (s, solveInOrder (scriptedEnv [] 0) (1 / 2) (1 / 2) 1 0
          (threeProcesses true)._per_process_data (threeProcesses true)) ∧
        s.error_norms_met = true ∧
        solveEvents (solveInOrder (scriptedEnv [] 0) (1 / 2) (1 / 2) 1 0
            (threeProcesses true)._per_process_data (threeProcesses true)).log =
          solveEvents (threeProcesses true).log ++
            (threeProcesses true)._per_process_data.map (fun p => p.process_id)) ∧
      ∃ f, solveUncoupledEquationSystems (scriptedEnv [1] 0) twoOutputs
          (1 / 2) (1 / 2) 1 = Except.error f ∧
        f.message = timestepper_cannot_reduce_dt ∧
        solveEvents f.time_loop.log =
          solveEvents (solveInOrder (scriptedEnv [1] 0) (1 / 2) (1 / 2) 1 0
            ([monolithicProcess 0 false] ++ [monolithicProcess 1 false])
            twoOutputs).log ∧
        doOutputAlwaysEvents f.time_loop.log =
          doOutputAlwaysEvents twoOutputs.log ++
            (List.range twoOutputs._outputs.length).map (fun j =>
              { output := j, process_id := (monolithicProcess 1 false).process_id,
                timestep := 1, t := 1 / 2 }) ∧
        f.time_loop._per_process_data =
          (solveInOrder (scriptedEnv [1] 0) (1 / 2) (1 / 2) 1 0
            ([monolithicProcess 0 false] ++ [monolithicProcess 1 false])
            twoOutputs)._per_process_data ∧
        f.time_loop._process_solutions =
          (solveInOrder (scriptedEnv [1] 0) (1 / 2) (1 / 2) 1 0
            ([monolithicProcess 0 false] ++ [monolithicProcess 1 false])
            twoOutputs)._process_solutions :=
  ⟨((monolithic_abort_at_first_failure (scriptedEnv [1] 0) (threeProcesses true)
      (1 / 2) (1 / 2) 1).1 [monolithicProcess 0 true] (monolithicProcess 1 true)
      [monolithicProcess 2 true] rfl
      (by
        intro j pj hj
        rcases j with _ | j
        · simp only [List.getElem?_cons_zero, Option.some.injEq] at hj
          subst hj
          decide!
        · simp at hj)
      (by decide!)).1 rfl,
    (monolithic_abort_at_first_failure (scriptedEnv [] 0) (threeProcesses true)
      (1 / 2) (1 / 2) 1).2 (by simp [threeProcesses, scriptedTimeLoop])
      (by
        intro j pj hj
        rcases j with _ | _ | _ | j
        · simp only [threeProcesses, scriptedTimeLoop, List.getElem?_cons_zero,
            Option.some.injEq] at hj
          subst hj
          decide!
        · simp only [threeProcesses, scriptedTimeLoop, List.getElem?_cons_succ,
            List.getElem?_cons_zero, Option.some.injEq] at hj
          subst hj
          decide!
        · simp only [threeProcesses, scriptedTimeLoop, List.getElem?_cons_succ,
            List.getElem?_cons_zero, Option.some.injEq] at hj
          subst hj
          decide!
        · simp [threeProcesses, scriptedTimeLoop] at hj),
    ((monolithic_abort_at_first_failure (scriptedEnv [1] 0) twoOutputs
      (1 / 2) (1 / 2) 1).1 [monolithicProcess 0 false] (monolithicProcess 1 false)
      [monolithicProcess 2 false] rfl
      (by
        intro j pj hj
        rcases j with _ | j
        · simp only [List.getElem?_cons_zero, Option.some.injEq] at hj
          subst hj
          decide!
        · simp at hj)
      (by decide!)).2.1 rfl⟩

/-- C12 (amended): a fatal termination of `solveUncoupledEquationSystems` is
the cannot-reduce-time-step abort, and before it `doOutputAlways` has been
invoked on every output of the time loop, once each and in the order of the
outputs, for one of the processes, with the time step and the time of the
solve; no other `doOutputAlways` call was made by the function. -/
theorem output_before_cannot_reduce_abort (E : Env σ ω) (tl : TimeLoop σ ω)
    (t dt : ℚ) (timestep_id : Nat) (f : Fatal σ ω)
    (h : solveUncoupledEquationSystems E tl t dt timestep_id = Except.error f) :
    f.message = timestepper_cannot_reduce_dt ∧
      f.time_loop._outputs = tl._outputs ∧
      ∃ process_data ∈ tl._per_process_data,
        doOutputAlwaysEvents f.time_loop.log =
          doOutputAlwaysEvents tl.log ++
            (List.range tl._outputs.length).map (fun j =>
              { output := j, process_id := process_data.process_id,
                timestep := timestep_id, t := t }) := by
  obtain ⟨hm, tlm, pd, it, hmem, ⟨_, ho, _, added, hlog, hadded⟩, hf⟩ :=
    (solveUncoupledLoop_advances E t dt timestep_id tl._per_process_data 0 {} tl).2 f h
  obtain ⟨added1, hlog1, hev⟩ :=
    doOutputAlwaysForAll_log E pd.process_id timestep_id t it tlm._outputs 0 tlm
  refine ⟨hm, ?_, pd, hmem, ?_⟩
  · rw [hf, doOutputAlwaysForAll_outputs, ho]
  · rw [hf, hlog1, hlog, doOutputAlwaysEvents_append, doOutputAlwaysEvents_append,
      (solveStage_events added hadded).1, hev, ho]
    simp

/-- C12 (witness): three processes and two outputs; the solve of process 1
does not converge and its time step algorithm cannot reduce the step
size. -/
theorem output_before_cannot_reduce_abort_witness :
    ∃ f, solveUncoupledEquationSystems (scriptedEnv [1] 0) twoOutputs (1 / 2)
        (1 / 2) 1 = Except.error f ∧
      f.message = timestepper_cannot_reduce_dt ∧
      doOutputAlwaysEvents f.time_loop.log =
        [{ output := 0, process_id := 1, timestep := 1, t := 1 / 2 },
         { output := 1, process_id := 1, timestep := 1, t := 1 / 2 }] := by
  have hnone : observeSolve (solveUncoupledEquationSystems (scriptedEnv [1] 0)
      twoOutputs (1 / 2) (1 / 2) 1) = none := by decide!
  cases hr : solveUncoupledEquationSystems (scriptedEnv [1] 0) twoOutputs (1 / 2)
      (1 / 2) 1 with
  | ok s => rw [hr] at hnone; simp [observeSolve] at hnone
  | error f =>
    have hw := output_before_cannot_reduce_abort (scriptedEnv [1] 0) twoOutputs
      (1 / 2) (1 / 2) 1 f hr
    refine ⟨f, rfl, hw.1, ?_⟩
    have hlog : doOutputAlwaysEvents
        (match solveUncoupledEquationSystems (scriptedEnv [1] 0) twoOutputs (1 / 2)
            (1 / 2) 1 with
          | Except.error f => f.time_loop.log
          | Except.ok s => s.2.log) =
        [{ output := 0, process_id := 1, timestep := 1, t := 1 / 2 },
         { output := 1, process_id := 1, timestep := 1, t := 1 / 2 }] := by
      decide!
    rw [hr] at hlog
    exact hlog

/-! ### The hooks after the solve -/

/-- A record update that leaves the clock, the outputs, the process data and
the log alone advances the time loop. -/
theorem advances_of_eq (P : Event → Bool) (tl tl1 : TimeLoop σ ω)
    (hc : clock tl1 = clock tl) (ho : tl1._outputs = tl._outputs)
    (hp : tl1._per_process_data = tl._per_process_data) (hl : tl1.log = tl.log) :
    Advances P tl tl1 :=
  ⟨hc, ho, by rw [hp], [], by simp [hl], by simp⟩

/-- A loop over the coupling criteria advances the time loop by the calls
it repeats. -/
theorem advances_forAllCriteria (P : Event → Bool) (E : Env σ ω) (e : Nat → Event)
    (he : ∀ k, P (e k) = true) :
    ∀ (n k : Nat) (tl : TimeLoop σ ω), Advances P tl (forAllCriteria E e k n tl) := by
  intro n
  induction n with
  | zero => intro k tl; exact Advances.refl _ _
  | succ n ih =>
    intro k tl
    rw [forAllCriteria]
    exact (advances_call P E (e k) tl (he k)).trans (ih _ _)

/-- The calls of `preTimestepForAllProcesses` belong to the solve stage. -/
theorem advances_preTimestepForAllProcesses (E : Env σ ω) (t dt : ℚ) :
    ∀ (l : List (ProcessData σ)) (tl : TimeLoop σ ω),
      Advances isSolveStage tl (preTimestepForAllProcesses E t dt l tl) := by
  intro l
  induction l with
  | nil => intro tl; exact Advances.refl _ _
  | cons p rest ih =>
    intro tl
    rw [preTimestepForAllProcesses]
    exact (advances_call _ E _ tl rfl).trans (ih _)

/-- The calls of the loop of a coupling iteration belong to the solve
stage. -/
theorem advances_couplingIterationLoop (E : Env σ ω) (t dt : ℚ)
    (timestep_id it : Nat) :
    ∀ (l : List (ProcessData σ)) (i : Nat) (converged : Bool)
      (status : NonlinearSolverStatus) (tl : TimeLoop σ ω),
      Advances isSolveStage tl
        (couplingIterationLoop E t dt timestep_id it i l converged status
          tl).time_loop := by
  intro l
  induction l with
  | nil => intro i converged status tl; exact Advances.refl _ _
  | cons p rest ih =>
    intro i converged status tl
    have h1 : Advances isSolveStage tl
        (storeStatus i (solveOneTimeStepOneProcess E
          (call E (Event.setCoupledSolutionsForStaggeredScheme p.process_id
            tl._process_solutions) tl) timestep_id t dt p).1
          (solveOneTimeStepOneProcess E
          (call E (Event.setCoupledSolutionsForStaggeredScheme p.process_id
            tl._process_solutions) tl) timestep_id t dt p).2) :=
      ((advances_call _ E _ tl rfl).trans
        (advances_solveOneTimeStepOneProcess E _ timestep_id t dt p)).trans
        (advances_storeStatus _ _ _ _)
    rw [couplingIterationLoop]
    simp only []
    split_ifs
    · exact h1.trans (advances_of_eq _ _ _ rfl rfl rfl rfl)
    · refine (h1.trans ((advances_call _ E _ _ rfl).trans
        (advances_of_eq _ _ _ rfl rfl rfl rfl))).trans (ih _ _ _ _)
    · exact (h1.trans (advances_of_eq _ _ _ rfl rfl rfl rfl)).trans (ih _ _ _ _)

/-- The calls of the coupling loop belong to the solve stage. -/
theorem advances_couplingLoop (E : Env σ ω) (t dt : ℚ) (timestep_id : Nat) :
    ∀ (n it : Nat) (converged : Bool) (status : NonlinearSolverStatus)
      (tl : TimeLoop σ ω),
      Advances isSolveStage tl
        (couplingLoop E t dt timestep_id n it converged status tl).time_loop := by
  intro n
  induction n with
  | zero => intro it converged status tl; exact Advances.refl _ _
  | succ n ih =>
    intro it converged status tl
    have h1 := advances_couplingIterationLoop E t dt timestep_id it
      tl._per_process_data 0 true status tl
    rw [couplingLoop]
    split_ifs
    · exact h1
    · exact h1
    · exact h1
    · exact (h1.trans (advances_forAllCriteria _ E _ (fun _ => rfl) _ _ _)).trans
        (ih _ _ _ _)

/-- The calls of the loop over `solveReactionEquation` belong to the solve
stage. -/
theorem advances_solveReactionEquations (E : Env σ ω) (t dt : ℚ) :
    ∀ (l : List (ProcessData σ)) (tl : TimeLoop σ ω),
      Advances isSolveStage tl (solveReactionEquations E t dt l tl) := by
  intro l
  induction l with
  | nil => intro tl; exact Advances.refl _ _
  | cons p rest ih =>
    intro tl
    rw [solveReactionEquations]
    refine (Advances.trans ?_ (advances_call _ E _ _ rfl)).trans (ih _)
    exact advances_of_eq _ _ _ rfl rfl rfl rfl

/-- The calls of `solveCoupledEquationSystemsByStaggeredScheme` belong to the
solve stage. -/
theorem advances_solveCoupledEquationSystemsByStaggeredScheme (E : Env σ ω)
    (tl : TimeLoop σ ω) (t dt : ℚ) (timestep_id : Nat) :
    Advances isSolveStage tl
      (solveCoupledEquationSystemsByStaggeredScheme E tl t dt timestep_id).2 := by
  have h0 : Advances isSolveStage tl
      (if tl._global_coupling_max_iterations ≠ 0 then
        forAllCriteria E Event.preFirstIteration 0 tl._global_coupling_conv_crit tl
      else tl) := by
    split_ifs
    · exact advances_forAllCriteria _ E _ (fun _ => rfl) _ _ _
    · exact Advances.refl _ _
  have key : ∀ tl1 : TimeLoop σ ω, Advances isSolveStage tl tl1 →
      Advances isSolveStage tl
        (if (couplingLoop E t dt timestep_id
            tl._global_coupling_max_iterations.toNat 0 true
            { error_norms_met := false, number_iterations := -1 } tl1).returned then
          ((couplingLoop E t dt timestep_id
            tl._global_coupling_max_iterations.toNat 0 true
            { error_norms_met := false, number_iterations := -1 }
            tl1).nonlinear_solver_status,
           (couplingLoop E t dt timestep_id
            tl._global_coupling_max_iterations.toNat 0 true
            { error_norms_met := false, number_iterations := -1 } tl1).time_loop)
        else
          ((couplingLoop E t dt timestep_id
            tl._global_coupling_max_iterations.toNat 0 true
            { error_norms_met := false, number_iterations := -1 }
            tl1).nonlinear_solver_status,
           solveReactionEquations E t dt
            (couplingLoop E t dt timestep_id
              tl._global_coupling_max_iterations.toNat 0 true
              { error_norms_met := false, number_iterations := -1 }
              tl1).time_loop._per_process_data
            (couplingLoop E t dt timestep_id
              tl._global_coupling_max_iterations.toNat 0 true
              { error_norms_met := false, number_iterations := -1 }
              tl1).time_loop)).2 := by
    intro tl1 h
    have h1 := advances_couplingLoop E t dt timestep_id
      tl._global_coupling_max_iterations.toNat 0 true
      { error_norms_met := false, number_iterations := -1 } tl1
    split_ifs
    · exact h.trans h1
    · exact (h.trans h1).trans (advances_solveReactionEquations E t dt _ _)
  exact key _ h0

/-- The calls of the second loop of `postTimestepForAllProcesses`: for each
process of the list, in order, `computeSecondaryVariable` and then
`postTimestep`. -/
theorem postTimestepLoop_hookEvents (E : Env σ ω) (t dt : ℚ)
    (is_staggered_coupling : Bool) (x_dots : List GlobalVector) :
    ∀ (l : List (ProcessData σ)) (tl : TimeLoop σ ω),
      hookEvents (postTimestepLoop E t dt is_staggered_coupling x_dots l tl).log =
        hookEvents tl.log ++
          (l.map (fun p => [(p.process_id, false), (p.process_id, true)])).flatten := by
  intro l
  induction l with
  | nil => intro tl; simp [postTimestepLoop]
  | cons p rest ih =>
    intro tl
    rw [postTimestepLoop, ih]
    cases is_staggered_coupling <;>
      simp [call, hookEvents_append, hookEvents]

/-- The hook calls for the processes of a list depend on the ids of the
processes only. -/
theorem hooks_of_process_ids (l l1 : List (ProcessData σ))
    (h : l1.map (fun p => p.process_id) = l.map (fun p => p.process_id)) :
    (l1.map (fun p => [(p.process_id, false), (p.process_id, true)])).flatten =
      (l.map (fun p => [(p.process_id, false), (p.process_id, true)])).flatten := by
  have h1 : ∀ l2 : List (ProcessData σ),
      l2.map (fun p => [(p.process_id, false), (p.process_id, true)]) =
        (l2.map (fun p => p.process_id)).map (fun i => [(i, false), (i, true)]) := by
    intro l2
    simp
  rw [h1 l1, h1 l, h]

/-- No hook call is made by `doOutputAlwaysForAll`. -/
theorem doOutputAlwaysForAll_hookEvents (E : Env σ ω) (process_id timestep_id : Nat)
    (t : ℚ) (iterations : Int) :
    ∀ (outputs : List Output) (k : Nat) (tl : TimeLoop σ ω),
      hookEvents (doOutputAlwaysForAll E process_id timestep_id t iterations k
        outputs tl).log = hookEvents tl.log := by
  intro outputs
  induction outputs with
  | nil => intro k tl; rfl
  | cons o rest ih =>
    intro k tl
    rw [doOutputAlwaysForAll, ih]
    simp [call, hookEvents_append, hookEvents]

/-- No hook call is made in a stretch of the solve stage. -/
theorem advances_hookEvents (tl tl1 : TimeLoop σ ω)
    (h : Advances isSolveStage tl tl1) :
    hookEvents tl1.log = hookEvents tl.log := by
  obtain ⟨_, _, _, added, hlog, hadded⟩ := h
  rw [hlog, hookEvents_append, (solveStage_events added hadded).2]
  simp

/-- C18: `doNonlinearIteration` returns the converged flag of the status
that the scheme-specific solve returned; when the flag is set it has invoked
`computeSecondaryVariable` and then `postTimestep` for every process, in
registration order, and when it is not set, or the solve terminated fatally,
it has invoked them for no process. -/
theorem post_timestep_only_after_convergence (E : Env σ ω) (tl : TimeLoop σ ω)
    (t dt : ℚ) (timesteps : Nat) :
    (∀ status tl2,
      schemeSpecificSolve E tl t dt timesteps = Except.ok (status, tl2) →
      ∃ tl3, doNonlinearIteration E tl t dt timesteps =
          Except.ok (status.error_norms_met, tl3) ∧
        hookEvents tl3.log = hookEvents tl.log ++
          (if status.error_norms_met then hooksInOrder tl._per_process_data
           else [])) ∧
    (∀ f, schemeSpecificSolve E tl t dt timesteps = Except.error f →
      doNonlinearIteration E tl t dt timesteps = Except.error f ∧
        hookEvents f.time_loop.log = hookEvents tl.log) := by
  have hpre := advances_preTimestepForAllProcesses E t dt tl._per_process_data tl
  refine ⟨?_, ?_⟩
  · intro status tl2 h
    have h2 : Advances isSolveStage tl tl2 := by
      simp only [schemeSpecificSolve] at h
      by_cases hs : isStaggeredCoupling E
          (preTimestepForAllProcesses E t dt tl._per_process_data tl) = true
      · rw [if_pos hs] at h
        have h3 : tl2 = (solveCoupledEquationSystemsByStaggeredScheme E
            (preTimestepForAllProcesses E t dt tl._per_process_data tl) t dt
            timesteps).2 := by
          rw [Except.ok.inj h]
        rw [h3]
        exact hpre.trans
          (advances_solveCoupledEquationSystemsByStaggeredScheme E _ t dt timesteps)
      · rw [if_neg hs] at h
        exact hpre.trans
          ((solveUncoupledLoop_advances E t dt timesteps _ 0 {} _).1 status tl2 h)
    have hd : doNonlinearIteration E tl t dt timesteps =
        (if status.error_norms_met then
          Except.ok (true, postTimestepForAllProcesses E t dt tl2)
        else Except.ok (false, tl2)) := by
      simp only [schemeSpecificSolve] at h
      simp only [doNonlinearIteration, h]
    by_cases hmet : status.error_norms_met = true
    · rw [if_pos hmet] at hd
      refine ⟨_, by rw [hd, hmet], ?_⟩
      rw [if_pos hmet, postTimestepForAllProcesses, postTimestepLoop_hookEvents,
        advances_hookEvents tl tl2 h2]
      congr 1
      exact hooks_of_process_ids _ _ h2.2.2.1
    · rw [if_neg hmet] at hd
      have hmet1 : status.error_norms_met = false := by simpa using hmet
      refine ⟨_, by rw [hd, hmet1], ?_⟩
      rw [if_neg hmet, advances_hookEvents tl tl2 h2]
      simp
  · intro f h
    refine ⟨?_, ?_⟩
    · simp only [schemeSpecificSolve] at h
      simp only [doNonlinearIteration, h]
    · simp only [schemeSpecificSolve] at h
      by_cases hs : isStaggeredCoupling E
          (preTimestepForAllProcesses E t dt tl._per_process_data tl) = true
      · rw [if_pos hs] at h
        cases h
      · rw [if_neg hs] at h
        obtain ⟨_, tlm, pd, it, _, ha, hf⟩ :=
          (solveUncoupledLoop_advances E t dt timesteps _ 0 {} _).2 f h
        rw [hf, doOutputAlwaysForAll_hookEvents,
          advances_hookEvents tl tlm (hpre.trans ha)]

/-- C18 (witness): three processes under the monolithic scheme whose solves
all converge: the hooks are called for the processes 0, 1 and 2, in this
order. -/
theorem post_timestep_only_after_convergence_witness :
    ∃ status tl2 tl3,
      schemeSpecificSolve (scriptedEnv [] 0) (threeProcesses true) (1 / 2) (1 / 2) 1 =
        Except.ok (status, tl2) ∧
      status.error_norms_met = true ∧
      doNonlinearIteration (scriptedEnv [] 0) (threeProcesses true) (1 / 2) (1 / 2) 1 =
        Except.ok (true, tl3) ∧
      hookEvents tl3.log =
        [(0, false), (0, true), (1, false), (1, true), (2, false), (2, true)] := by
  have hobs : (observeSolve (schemeSpecificSolve (scriptedEnv [] 0)
      (threeProcesses true) (1 / 2) (1 / 2) 1)).map
        (fun o => o.status.error_norms_met) = some true := by decide!
  cases hr : schemeSpecificSolve (scriptedEnv [] 0) (threeProcesses true) (1 / 2)
      (1 / 2) 1 with
  | error f => rw [hr] at hobs; simp [observeSolve] at hobs
  | ok s =>
    rw [hr] at hobs
    have hmet : s.1.error_norms_met = true := by simpa [observeSolve] using hobs
    obtain ⟨tl3, hd, hh⟩ := (post_timestep_only_after_convergence (scriptedEnv [] 0)
      (threeProcesses true) (1 / 2) (1 / 2) 1).1 s.1 s.2 hr
    rw [hmet] at hd
    rw [if_pos hmet] at hh
    exact ⟨s.1, s.2, tl3, rfl, hmet, hd, hh⟩

/-! ### The clock of a run -/

/-- A loop over the outputs advances the time loop by the calls it
repeats. -/
theorem advances_forAllOutputs (P : Event → Bool) (E : Env σ ω) (e : Nat → Event)
    (he : ∀ k, P (e k) = true) :
    ∀ (outputs : List Output) (k : Nat) (tl : TimeLoop σ ω),
      Advances P tl (forAllOutputs E e k outputs tl) := by
  intro outputs
  induction outputs with
  | nil => intro k tl; exact Advances.refl _ _
  | cons o rest ih =>
    intro k tl
    rw [forAllOutputs]
    exact (advances_call P E (e k) tl (he k)).trans (ih _ _)

/-- The function `updateDeactivatedSubdomains` leaves the clock alone. -/
theorem advances_updateDeactivatedSubdomains (E : Env σ ω) (t : ℚ) :
    ∀ (l : List (ProcessData σ)) (tl : TimeLoop σ ω),
      Advances (fun _ => true) tl (updateDeactivatedSubdomains E t l tl) := by
  intro l
  induction l with
  | nil => intro tl; exact Advances.refl _ _
  | cons p rest ih =>
    intro tl
    rw [updateDeactivatedSubdomains]
    exact (advances_call _ E _ tl rfl).trans (ih _)

/-- The function `calculateNonEquilibriumInitialResiduum` leaves the clock
alone. -/
theorem advances_calculateNonEquilibriumInitialResiduum (E : Env σ ω) :
    ∀ (l : List (ProcessData σ)) (tl : TimeLoop σ ω),
      Advances (fun _ => true) tl
        (calculateNonEquilibriumInitialResiduum E l tl) := by
  intro l
  induction l with
  | nil => intro tl; exact Advances.refl _ _
  | cons p rest ih =>
    intro tl
    rw [calculateNonEquilibriumInitialResiduum]
    exact ((advances_call _ E _ tl rfl).trans (advances_call _ E _ _ rfl)).trans
      (ih _)

/-- The loop of `setInitialConditions` leaves the clock alone. -/
theorem advances_setInitialConditionsLoop (E : Env σ ω) (t0 : ℚ) :
    ∀ (l : List (ProcessData σ)) (tl : TimeLoop σ ω),
      Advances (fun _ => true) tl (setInitialConditionsLoop E t0 l tl) := by
  intro l
  induction l with
  | nil => intro tl; exact Advances.refl _ _
  | cons p rest ih =>
    intro tl
    rw [setInitialConditionsLoop]
    refine (Advances.trans ?_
      ((advances_call _ E _ _ rfl).trans (advances_call _ E _ _ rfl))).trans (ih _)
    exact advances_of_eq _ _ _ rfl rfl rfl rfl

/-- The function `setInitialConditions` leaves the clock alone. -/
theorem advances_setInitialConditions (E : Env σ ω) (t0 : ℚ) (tl : TimeLoop σ ω) :
    Advances (fun _ => true) tl (setInitialConditions E t0 tl) := by
  rw [setInitialConditions]
  exact Advances.trans (advances_of_eq _ _ _ rfl rfl rfl rfl)
    (advances_setInitialConditionsLoop E t0 _ _)

/-- The member function `setCoupledSolutions` leaves the clock alone. -/
theorem advances_setCoupledSolutions :
    ∀ (l : List (ProcessData σ)) (tl : TimeLoop σ ω),
      Advances (fun _ => true) tl (setCoupledSolutions l tl) := by
  intro l
  induction l with
  | nil => intro tl; exact Advances.refl _ _
  | cons p rest ih =>
    intro tl
    rw [setCoupledSolutions]
    exact Advances.trans (advances_of_eq _ _ _ rfl rfl rfl rfl) (ih _)

/-- A choice between two time loops that both come from `tl`. -/
theorem advances_ite (P : Event → Bool) (c : Prop) [Decidable c]
    (tl a b : TimeLoop σ ω) (ha : Advances P tl a) (hb : Advances P tl b) :
    Advances P tl (if c then a else b) := by
  split_ifs
  · exact ha
  · exact hb

/-- A call after a stretch. -/
theorem advances_call_of (P : Event → Bool) (E : Env σ ω) (e : Event)
    (tl tl1 : TimeLoop σ ω) (he : P e = true) (h : Advances P tl tl1) :
    Advances P tl (call E e tl1) :=
  h.trans (advances_call P E e tl1 he)

/-- The body of the loop of `outputSolutions` leaves the clock alone. -/
theorem advances_outputSolutionsBody (E : Env σ ω) (output_initial_condition : Bool)
    (timestep : Nat) (t : ℚ)
    (output_class_member : Nat → Nat → Nat → ℚ → Int → List GlobalVector → Event)
    (is_staggered_coupling : Bool) (process_data : ProcessData σ)
    (tl : TimeLoop σ ω) :
    Advances (fun _ => true) tl
      (outputSolutionsBody E output_initial_condition timestep t
        output_class_member is_staggered_coupling process_data tl) := by
  have key : ∀ (tl2 : TimeLoop σ ω), Advances (fun _ => true) tl tl2 →
      ∀ e : Nat → Event,
      Advances (fun _ => true) tl (forAllOutputs E e 0 tl2._outputs tl2) := by
    intro tl2 h2 e
    exact h2.trans (advances_forAllOutputs _ E e (fun _ => rfl) _ _ _)
  rw [outputSolutionsBody]
  by_cases hmet : (!process_data.nonlinear_solver_status.error_norms_met) = true
  · rw [if_pos hmet]
    exact Advances.refl _ _
  · rw [if_neg hmet]
    apply key
    apply advances_ite
    · repeat apply advances_call_of _ E _ _ _ rfl
      apply advances_ite
      · repeat apply advances_call_of _ E _ _ _ rfl
        exact Advances.refl _ _
      · exact Advances.refl _ _
    · apply advances_ite
      · repeat apply advances_call_of _ E _ _ _ rfl
        exact Advances.refl _ _
      · exact Advances.refl _ _

/-- The member function `outputSolutions` leaves the clock alone. -/
theorem advances_outputSolutions (E : Env σ ω) (output_initial_condition : Bool)
    (timestep : Nat) (t : ℚ)
    (output_class_member : Nat → Nat → Nat → ℚ → Int → List GlobalVector → Event)
    (tl : TimeLoop σ ω) :
    Advances (fun _ => true) tl
      (outputSolutions E output_initial_condition timestep t output_class_member
        tl) := by
  have key : ∀ (b : Bool) (l : List (ProcessData σ)) (tl1 : TimeLoop σ ω),
      Advances (fun _ => true) tl1
        (outputSolutionsLoop E output_initial_condition (timestep % 4294967296) t
          output_class_member b l tl1) := by
    intro b l
    induction l with
    | nil => intro tl1; exact Advances.refl _ _
    | cons p rest ih =>
      intro tl1
      rw [outputSolutionsLoop]
      exact (advances_outputSolutionsBody E _ _ _ _ _ _ _).trans (ih _)
  exact key _ _ _

/-- The function `postTimestepForAllProcesses` leaves the clock alone. -/
theorem advances_postTimestepForAllProcesses (E : Env σ ω) (t dt : ℚ)
    (tl : TimeLoop σ ω) :
    Advances (fun _ => true) tl (postTimestepForAllProcesses E t dt tl) := by
  have key : ∀ (b : Bool) (x_dots : List GlobalVector) (l : List (ProcessData σ))
      (tl1 : TimeLoop σ ω),
      Advances (fun _ => true) tl1 (postTimestepLoop E t dt b x_dots l tl1) := by
    intro b x_dots l
    induction l with
    | nil => intro tl1; exact Advances.refl _ _
    | cons p rest ih =>
      intro tl1
      rw [postTimestepLoop]
      refine Advances.trans ?_ (ih _)
      refine (Advances.trans ?_ (advances_call _ E _ _ rfl)).trans
        (advances_call _ E _ _ rfl)
      split_ifs
      · exact advances_call _ E _ _ rfl
      · exact Advances.refl _ _
  exact key _ _ _ _

/-- The first loop of `TimeLoop::initialize` leaves the clock alone. -/
theorem initializeLoop_clock (E : Env σ ω) :
    ∀ (l : List (ProcessData σ)) (i : Nat) (tl tl1 : TimeLoop σ ω),
      initializeLoop E i l tl = Except.ok tl1 → clock tl1 = clock tl := by
  intro l
  induction l with
  | nil =>
    intro i tl tl1 h
    rw [initializeLoop] at h
    cases h
    rfl
  | cons p rest ih =>
    intro i tl tl1 h
    rw [initializeLoop] at h
    have h0 := (advances_forAllOutputs (fun _ => true) E
      (fun k => Event.addProcess k p.process_id) (fun _ => rfl) tl._outputs 0 tl).1
    cases hs : setTimeDiscretizedODESystemOfProcess E p with
    | error m => simp only [hs] at h; cases h
    | ok p1 =>
      simp only [hs] at h
      rw [ih _ _ _ h]
      split_ifs
      · exact h0
      · exact h0

/-- What a normal return of `doNonlinearIteration` leaves of the clock. -/
theorem doNonlinearIteration_clock (E : Env σ ω) (tl : TimeLoop σ ω) (t dt : ℚ)
    (timesteps : Nat) (successful : Bool) (tl1 : TimeLoop σ ω)
    (h : doNonlinearIteration E tl t dt timesteps = Except.ok (successful, tl1)) :
    clock tl1 = clock tl := by
  cases hr : schemeSpecificSolve E tl t dt timesteps with
  | error f =>
    have hd : doNonlinearIteration E tl t dt timesteps = Except.error f := by
      simp only [schemeSpecificSolve] at hr
      simp only [doNonlinearIteration, hr]
    rw [hd] at h
    cases h
  | ok s =>
    have hpre := advances_preTimestepForAllProcesses E t dt tl._per_process_data tl
    have h2 : Advances isSolveStage tl s.2 := by
      simp only [schemeSpecificSolve] at hr
      by_cases hs : isStaggeredCoupling E
          (preTimestepForAllProcesses E t dt tl._per_process_data tl) = true
      · rw [if_pos hs] at hr
        have h3 : s.2 = (solveCoupledEquationSystemsByStaggeredScheme E
            (preTimestepForAllProcesses E t dt tl._per_process_data tl) t dt
            timesteps).2 := by
          rw [Except.ok.inj hr]
        rw [h3]
        exact hpre.trans
          (advances_solveCoupledEquationSystemsByStaggeredScheme E _ t dt timesteps)
      · rw [if_neg hs] at hr
        exact hpre.trans
          ((solveUncoupledLoop_advances E t dt timesteps _ 0 {} _).1 s.1 s.2 hr)
    have hd : doNonlinearIteration E tl t dt timesteps =
        (if s.1.error_norms_met then
          Except.ok (true, postTimestepForAllProcesses E t dt s.2)
        else Except.ok (false, s.2)) := by
      simp only [schemeSpecificSolve] at hr
      simp only [doNonlinearIteration, hr]
    rw [hd] at h
    by_cases hmet : s.1.error_norms_met = true
    · rw [if_pos hmet] at h
      have h4 : tl1 = postTimestepForAllProcesses E t dt s.2 := by
        injection h with h; injection h with _ h; exact h.symm
      rw [h4, (advances_postTimestepForAllProcesses E t dt s.2).1, h2.1]
    · rw [if_neg hmet] at h
      have h4 : tl1 = s.2 := by
        injection h with h; injection h with _ h; exact h.symm
      rw [h4, h2.1]

/-- What `executeTimeStep` does to the clock when it returns: the time is
advanced by the step size. -/
theorem executeTimeStep_clock (E : Env σ ω) (tl : TimeLoop σ ω) (successful : Bool)
    (tl1 : TimeLoop σ ω)
    (h : executeTimeStep E tl = Except.ok (successful, tl1)) :
    clock tl1 = { clock tl with current_time := tl._current_time + tl._dt } := by
  simp only [executeTimeStep] at h
  cases hr : doNonlinearIteration E
      (updateDeactivatedSubdomains E (tl._current_time + tl._dt) tl._per_process_data
        { tl with _current_time := tl._current_time + tl._dt })
      (updateDeactivatedSubdomains E (tl._current_time + tl._dt) tl._per_process_data
        { tl with _current_time := tl._current_time + tl._dt })._current_time
      (updateDeactivatedSubdomains E (tl._current_time + tl._dt) tl._per_process_data
        { tl with _current_time := tl._current_time + tl._dt })._dt
      (tl._accepted_steps + 1) with
  | error f => rw [hr] at h; cases h
  | ok s =>
    rw [hr] at h
    have h4 : tl1 = { s.2 with successful_time_step := s.1 } := by
      injection h with h; injection h with _ h; exact h.symm
    have h5 := doNonlinearIteration_clock E _ _ _ _ s.1 s.2 hr
    have h6 := (advances_updateDeactivatedSubdomains E (tl._current_time + tl._dt)
      tl._per_process_data { tl with _current_time := tl._current_time + tl._dt }).1
    rw [h4]
    exact h5.trans h6

/-- The members of the time loop that `computeTimeStepping` leaves alone
when it returns. -/
theorem computeTimeStepping_time_loop (E : Env σ ω) (tl : TimeLoop σ ω)
    (prev_dt t : ℚ) (accepted_steps rejected_steps : Nat)
    (time_step_constraints : List (ℚ → ℚ → ℚ)) (s : TimeStepping σ ω)
    (hreturn : computeTimeStepping E tl prev_dt t accepted_steps rejected_steps
      time_step_constraints = Except.ok s) :
    s.time_loop._start_time = tl._start_time ∧
      s.time_loop._end_time = tl._end_time ∧
      s.time_loop._outputs = tl._outputs := by
  rw [computeTimeStepping_eq] at hreturn
  by_cases hfatal : |constrainedDt E tl prev_dt t time_step_constraints - prev_dt|
      < eps ∧ stepRejected E tl t = true
  · rw [if_pos hfatal] at hreturn
    cases hreturn
  · rw [if_neg hfatal] at hreturn
    injection hreturn with hs
    subst hs
    exact ⟨rfl, rfl, rfl⟩

/-- The step size that comes out of the constraints of
`generateOutputTimeStepConstraints` does not lead over the end time, when
the time is before it. -/
theorem generateOutputTimeStepConstraints_end (E : Env σ ω) (tl : TimeLoop σ ω)
    (fixed_times : List ℚ) (t dt : ℚ) (ht : t < tl._end_time) :
    t + applyTimeStepConstraints
      (generateOutputTimeStepConstraints E tl fixed_times) t dt ≤ tl._end_time := by
  simp only [applyTimeStepConstraints, generateOutputTimeStepConstraints,
    List.foldl_cons, List.foldl_nil, endTimeConstraint]
  by_cases h : t < tl._end_time ∧
      t + min dt (E.possiblyClampDtToNextFixedTime t dt fixed_times) > tl._end_time
  · rw [if_pos h]
    have := min_le_right (min dt (E.possiblyClampDtToNextFixedTime t dt fixed_times))
      (tl._end_time - t)
    linarith
  · rw [if_neg h, min_self]
    have h1 : ¬ t + min dt (E.possiblyClampDtToNextFixedTime t dt fixed_times) >
        tl._end_time := fun h2 => h ⟨ht, h2⟩
    linarith [not_lt.mp h1]

/-- What `calculateNextTimeStep` does to the clock when it returns: the end
time is as it was; either the counter of accepted steps is incremented and
the time is as it was, or the counter is as it was and the time is as it was
or is set back by the step size; and when the answer is `true`, the new step
size is at least `eps` and does not lead over the end time. -/
theorem calculateNextTimeStep_clock (E : Env σ ω) (tl : TimeLoop σ ω)
    (go_on : Bool) (tl2 : TimeLoop σ ω)
    (h : calculateNextTimeStep E tl = Except.ok (go_on, tl2)) :
    tl2._end_time = tl._end_time ∧
      ((tl2._accepted_steps = tl._accepted_steps + 1 ∧
          tl2._current_time = tl._current_time) ∨
        (tl2._accepted_steps = tl._accepted_steps ∧
          (tl2._current_time = tl._current_time ∨
            tl2._current_time = tl._current_time - tl._dt))) ∧
      (go_on = true →
        eps ≤ tl2._dt ∧ tl2._current_time + tl2._dt ≤ tl2._end_time) := by
  unfold calculateNextTimeStep at h
  dsimp only at h
  cases hr : computeTimeStepping E tl tl._dt tl._current_time tl._accepted_steps
      tl._rejected_steps (generateOutputTimeStepConstraints E tl
        (calculateUniqueFixedTimesForAllOutputs tl._outputs)) with
  | error f => rw [hr] at h; cases h
  | ok s =>
    rw [hr] at h
    dsimp only at h
    obtain ⟨_, _, _, ht, hacc, _⟩ := computeTimeStepping_ok E tl _ _ _ _ _ s hr
    obtain ⟨_, hend, _⟩ := computeTimeStepping_time_loop E tl _ _ _ _ _ s hr
    have hclock : clock (if (!(storeTimeStepping s)._last_step_rejected) = true then
          outputSolutions E false (tl._accepted_steps + 1) tl._current_time
            Event.doOutput (storeTimeStepping s)
        else storeTimeStepping s) = clock (storeTimeStepping s) := by
      split_ifs
      · exact (advances_outputSolutions E _ _ _ _ _).1
      · rfl
    generalize hg : (if (!(storeTimeStepping s)._last_step_rejected) = true then
          outputSolutions E false (tl._accepted_steps + 1) tl._current_time
            Event.doOutput (storeTimeStepping s)
        else storeTimeStepping s) = tlo at h hclock
    have hc1 : tlo._current_time = s.t := congrArg Clock.current_time hclock
    have hc2 : tlo._end_time = tl._end_time :=
      (congrArg Clock.end_time hclock).trans hend
    have hc3 : tlo._accepted_steps = s.accepted_steps :=
      congrArg Clock.accepted_steps hclock
    have hmid : (tlo._accepted_steps = tl._accepted_steps + 1 ∧
          tlo._current_time = tl._current_time) ∨
        (tlo._accepted_steps = tl._accepted_steps ∧
          (tlo._current_time = tl._current_time ∨
            tlo._current_time = tl._current_time - tl._dt)) := by
      rw [hc1, hc3, ht, hacc]
      by_cases ha : (!isInitialStep tl) = true ∧ allProcessStepsAccepted E tl
          tl._current_time = true
      · have hrej : stepRejected E tl tl._current_time = false := by
          simp [stepRejected, ha.2]
        left
        rw [if_pos ha, hrej]
        exact ⟨rfl, by simp⟩
      · right
        rw [if_neg ha]
        refine ⟨rfl, ?_⟩
        split_ifs
        · right; rfl
        · left; rfl
    by_cases hstop : |tlo._current_time - tlo._end_time| < eps ∨
        tlo._current_time + tlo._dt > tlo._end_time
    · rw [if_pos hstop] at h
      have h4 : go_on = false ∧ tl2 = tlo := by
        injection h with h; injection h with h5 h6; exact ⟨h5.symm, h6.symm⟩
      rw [h4.2]
      exact ⟨hc2, hmid, fun hgo => by rw [h4.1] at hgo; cases hgo⟩
    · rw [if_neg hstop] at h
      by_cases hsmall : tlo._dt < eps
      · rw [if_pos hsmall] at h
        have h4 : go_on = false ∧ tl2 = tlo := by
          injection h with h; injection h with h5 h6; exact ⟨h5.symm, h6.symm⟩
        rw [h4.2]
        exact ⟨hc2, hmid, fun hgo => by rw [h4.1] at hgo; cases hgo⟩
      · rw [if_neg hsmall] at h
        have h4 : tl2 = tlo := by
          injection h with h; injection h with h5 h6; exact h6.symm
        rw [h4]
        refine ⟨hc2, hmid, fun _ => ⟨not_lt.mp hsmall, ?_⟩⟩
        exact not_lt.mp (fun h5 => hstop (Or.inr h5))

/-- What `TimeLoop::initialize` leaves of the clock when it returns: the end
time and the time are as they were, and the first step size does not lead
over the end time when the time is before it. -/
theorem initializeTimeLoop_clock (E : Env σ ω) (tl tl1 : TimeLoop σ ω)
    (h : initializeTimeLoop E tl = Except.ok tl1)
    (hbefore : tl._current_time < tl._end_time) :
    tl1._end_time = tl._end_time ∧ tl1._current_time = tl._current_time ∧
      tl1._current_time + tl1._dt ≤ tl1._end_time := by
  simp only [initializeTimeLoop] at h
  cases hl : initializeLoop E 0 tl._per_process_data tl with
  | error f => rw [hl] at h; cases h
  | ok tla =>
    rw [hl] at h
    simp only [] at h
    have h1 := initializeLoop_clock E _ _ _ _ hl
    have h2 := (advances_setInitialConditions E tla._start_time tla).1
    have h3 : clock (if isStaggeredCoupling E
          (setInitialConditions E tla._start_time tla) = true then
          setCoupledSolutions
            (setInitialConditions E tla._start_time tla)._per_process_data
            (setInitialConditions E tla._start_time tla)
        else setInitialConditions E tla._start_time tla) = clock tl := by
      split_ifs
      · exact ((advances_setCoupledSolutions _ _).1.trans h2).trans h1
      · exact h2.trans h1
    generalize hg : (if isStaggeredCoupling E
          (setInitialConditions E tla._start_time tla) = true then
          setCoupledSolutions
            (setInitialConditions E tla._start_time tla)._per_process_data
            (setInitialConditions E tla._start_time tla)
        else setInitialConditions E tla._start_time tla) = tlb at h h3
    have h4 : clock (outputSolutions E true 0
        (updateDeactivatedSubdomains E tlb._start_time tlb._per_process_data
          tlb)._start_time Event.doOutput
        (updateDeactivatedSubdomains E tlb._start_time tlb._per_process_data tlb)) =
        clock tl :=
      ((advances_outputSolutions E _ _ _ _ _).1.trans
        (advances_updateDeactivatedSubdomains E _ _ _).1).trans h3
    generalize hg5 : outputSolutions E true 0
        (updateDeactivatedSubdomains E tlb._start_time tlb._per_process_data
          tlb)._start_time Event.doOutput
        (updateDeactivatedSubdomains E tlb._start_time tlb._per_process_data tlb) =
        tle at h h4
    have he1 : tle._current_time = tl._current_time :=
      congrArg Clock.current_time h4
    have he2 : tle._end_time = tl._end_time := congrArg Clock.end_time h4
    cases hr : computeTimeStepping E tle 0 tle._current_time tle._accepted_steps
        tle._rejected_steps (generateOutputTimeStepConstraints E tle
          (calculateUniqueFixedTimesForAllOutputs tle._outputs)) with
    | error f => rw [hr] at h; cases h
    | ok s =>
      rw [hr] at h
      simp only [] at h
      obtain ⟨_, hdt, _, ht, _, _⟩ := computeTimeStepping_ok E tle _ _ _ _ _ s hr
      obtain ⟨_, hend, _⟩ := computeTimeStepping_time_loop E tle _ _ _ _ _ s hr
      have ht1 : s.t = tle._current_time := by
        rw [ht]
        split_ifs
        · simp
        · rfl
      have h6 : tl1 = calculateNonEquilibriumInitialResiduum E
          (storeTimeStepping s)._per_process_data (storeTimeStepping s) := by
        injection h with h; exact h.symm
      have h7 : clock tl1 = clock (storeTimeStepping s) := by
        rw [h6]
        exact (advances_calculateNonEquilibriumInitialResiduum E _ _).1
      have h8 : tl1._end_time = tl._end_time :=
        ((congrArg Clock.end_time h7).trans hend).trans he2
      have h9 : tl1._current_time = tl._current_time :=
        ((congrArg Clock.current_time h7).trans ht1).trans he1
      have h10 : tl1._dt = s.dt := congrArg Clock.dt h7
      refine ⟨h8, h9, ?_⟩
      rw [h8, h9, h10, hdt, constrainedDt, ← ht, ht1, he1, ← he2]
      apply generateOutputTimeStepConstraints_end
      rw [he2]
      exact hbefore

/-- One pass of the loop keeps what the run relies on: the times of the
accepted steps are strictly increasing, at most the end time and at most the
current time, the next step leads beyond them, and it does not lead over the
end time. -/
theorem pass_accepted_times (E : Env σ ω) (accepted_times : List ℚ)
    (tl tl1 tl2 : TimeLoop σ ω) (successful go_on : Bool)
    (h1 : executeTimeStep E tl = Except.ok (successful, tl1))
    (h2 : calculateNextTimeStep E tl1 = Except.ok (go_on, tl2))
    (hp : List.Pairwise (· < ·) accepted_times)
    (ha : ∀ a ∈ accepted_times, a ≤ tl._current_time ∧
      a < tl._current_time + tl._dt ∧ a ≤ tl._end_time)
    (hd : tl._current_time + tl._dt ≤ tl._end_time) :
    tl2._end_time = tl._end_time ∧
      List.Pairwise (· < ·)
        (if tl2._accepted_steps = tl1._accepted_steps + 1 then
          accepted_times ++ [tl1._current_time] else accepted_times) ∧
      (∀ a ∈ (if tl2._accepted_steps = tl1._accepted_steps + 1 then
          accepted_times ++ [tl1._current_time] else accepted_times),
        a ≤ tl._end_time) ∧
      (go_on = true →
        (∀ a ∈ (if tl2._accepted_steps = tl1._accepted_steps + 1 then
            accepted_times ++ [tl1._current_time] else accepted_times),
          a ≤ tl2._current_time ∧ a < tl2._current_time + tl2._dt ∧
            a ≤ tl2._end_time) ∧
        tl2._current_time + tl2._dt ≤ tl2._end_time) := by
  have hc := executeTimeStep_clock E tl successful tl1 h1
  have hcur : tl1._current_time = tl._current_time + tl._dt :=
    congrArg Clock.current_time hc
  have hdt : tl1._dt = tl._dt := congrArg Clock.dt hc
  have hend : tl1._end_time = tl._end_time := congrArg Clock.end_time hc
  obtain ⟨hend2, hmid, hgo⟩ := calculateNextTimeStep_clock E tl1 go_on tl2 h2
  have hpos := eps_pos
  rcases hmid with ⟨hacc, ht⟩ | ⟨hacc, ht⟩
  · rw [if_pos hacc]
    refine ⟨hend2.trans hend, ?_, ?_, ?_⟩
    · rw [List.pairwise_append]
      refine ⟨hp, List.pairwise_singleton _ _, ?_⟩
      intro a ha1 b hb
      rw [List.mem_singleton] at hb
      rw [hb, hcur]
      exact (ha a ha1).2.1
    · intro a ha1
      rcases List.mem_append.mp ha1 with h | h
      · exact (ha a h).2.2
      · rw [List.mem_singleton] at h
        rw [h, hcur]
        exact hd
    · intro hg
      obtain ⟨hdt2, hle⟩ := hgo hg
      refine ⟨?_, hle⟩
      intro a ha1
      have hacur : a ≤ tl2._current_time := by
        rcases List.mem_append.mp ha1 with h | h
        · rw [ht, hcur]
          exact le_of_lt (ha a h).2.1
        · rw [List.mem_singleton] at h
          rw [h, ht]
      refine ⟨hacur, by linarith, by linarith⟩
  · have hne : ¬ tl2._accepted_steps = tl1._accepted_steps + 1 := by omega
    rw [if_neg hne]
    refine ⟨hend2.trans hend, hp, fun a ha1 => (ha a ha1).2.2, ?_⟩
    intro hg
    obtain ⟨hdt2, hle⟩ := hgo hg
    refine ⟨?_, hle⟩
    intro a ha1
    have hacur : a ≤ tl2._current_time := by
      rcases ht with h | h
      · rw [h, hcur]
        exact le_of_lt (ha a ha1).2.1
      · rw [h, hcur, hdt]
        have := (ha a ha1).1
        linarith
    refine ⟨hacur, by linarith, by linarith⟩

/-- A pass of the loop: `executeTimeStep`, then `calculateNextTimeStep`. -/
theorem timeSteps_succ (E : Env σ ω) (n : Nat) (accepted_times : List ℚ)
    (tl : TimeLoop σ ω) :
    timeSteps E (n + 1) accepted_times tl =
      match executeTimeStep E tl with
      | Except.error f =>
        { finished := false, fatal := some f.message,
          accepted_times := accepted_times, time_loop := f.time_loop }
      | Except.ok (_, tl1) =>
        match calculateNextTimeStep E tl1 with
        | Except.error f =>
          { finished := false, fatal := some f.message,
            accepted_times := accepted_times, time_loop := f.time_loop }
        | Except.ok (go_on, tl2) =>
          if go_on then
            timeSteps E n
              (if tl2._accepted_steps = tl1._accepted_steps + 1 then
                accepted_times ++ [tl1._current_time]
              else accepted_times) tl2
          else
            { finished := true, fatal := none,
              accepted_times :=
                (if tl2._accepted_steps = tl1._accepted_steps + 1 then
                  accepted_times ++ [tl1._current_time]
                else accepted_times),
              time_loop := tl2 } :=
  rfl

/-- The times of the accepted steps of the passes of the loop are strictly
increasing and at most the end time, when they are so at the begin and
the first step does not lead over the end time. -/
theorem timeSteps_accepted_times (E : Env σ ω) :
    ∀ (n : Nat) (accepted_times : List ℚ) (tl : TimeLoop σ ω),
      List.Pairwise (· < ·) accepted_times →
      (∀ a ∈ accepted_times, a ≤ tl._current_time ∧
        a < tl._current_time + tl._dt ∧ a ≤ tl._end_time) →
      tl._current_time + tl._dt ≤ tl._end_time →
      List.Pairwise (· < ·) (timeSteps E n accepted_times tl).accepted_times ∧
        ∀ a ∈ (timeSteps E n accepted_times tl).accepted_times,
          a ≤ tl._end_time := by
  intro n
  induction n with
  | zero =>
    intro accepted_times tl hp ha _
    exact ⟨hp, fun a h => (ha a h).2.2⟩
  | succ n ih =>
    intro accepted_times tl hp ha hd
    rw [timeSteps_succ]
    cases h1 : executeTimeStep E tl with
    | error f => exact ⟨hp, fun a h => (ha a h).2.2⟩
    | ok r1 =>
      obtain ⟨successful, tl1⟩ := r1
      dsimp only
      cases h2 : calculateNextTimeStep E tl1 with
      | error f => exact ⟨hp, fun a h => (ha a h).2.2⟩
      | ok r2 =>
        obtain ⟨go_on, tl2⟩ := r2
        obtain ⟨hend, hp1, hle1, hgo⟩ := pass_accepted_times E accepted_times tl
          tl1 tl2 successful go_on h1 h2 hp ha hd
        dsimp only
        by_cases hg : go_on = true
        · rw [if_pos hg]
          obtain ⟨ha2, hd2⟩ := hgo hg
          have := ih _ tl2 hp1 ha2 hd2
          rw [hend] at this
          exact this
        · rw [if_neg hg]
          exact ⟨hp1, hle1⟩

/-- C14: in every run that starts with `TimeLoop::initialize` on a time loop
with `_start_time < _end_time` whose `_current_time` is the start time, and
goes on with `executeTimeStep` and `calculateNextTimeStep` for as long as the
latter returns `true` (here: at most `n` passes, for every `n`), the times
at which steps are accepted are strictly increasing and each of them is at
most `_end_time + eps`. -/
theorem monotonic_accepted_time (E : Env σ ω) (tl : TimeLoop σ ω) (n : Nat)
    (hstart : tl._start_time < tl._end_time)
    (hcurrent : tl._current_time = tl._start_time) :
    List.Pairwise (· < ·) (run E n tl).accepted_times ∧
      ∀ a ∈ (run E n tl).accepted_times, a ≤ tl._end_time + eps := by
  rw [run]
  cases h : initializeTimeLoop E tl with
  | error f => exact ⟨List.Pairwise.nil, fun a ha => by cases ha⟩
  | ok tl1 =>
    obtain ⟨hend, _, hd⟩ := initializeTimeLoop_clock E tl tl1 h
      (by rw [hcurrent]; exact hstart)
    have hrun := timeSteps_accepted_times E n [] tl1 List.Pairwise.nil
      (fun a ha => by cases ha) hd
    refine ⟨hrun.1, fun a ha => ?_⟩
    have h1 := hrun.2 a ha
    rw [hend] at h1
    have hpos := eps_pos
    linarith

/-- C14 (witness): the run of the fixed time stepping scenario, whose steps
are accepted at the times 1/2 and 1. -/
theorem monotonic_accepted_time_witness :
    (run (fixedEnv []) 3 fixedScenario).accepted_times = [1 / 2, 1] ∧
      List.Pairwise (· < ·) (run (fixedEnv []) 3 fixedScenario).accepted_times ∧
      ∀ a ∈ (run (fixedEnv []) 3 fixedScenario).accepted_times,
        a ≤ fixedScenario._end_time + eps :=
  ⟨by decide!,
    monotonic_accepted_time (fixedEnv []) fixedScenario 3 (by decide!) (by decide!)⟩

/-! ### The order of the solves in the staggered scheme -/

theorem solveCalls_append (a b : List Event) :
    solveCalls (a ++ b) = solveCalls a ++ solveCalls b := by
  induction a with
  | nil => rfl
  | cons e rest ih => cases e <;> simp [solveCalls, ih]

/-- A call of `solveOneTimeStepOneProcess` makes one solver call, on the
solution list of the time loop, and writes the result to the entry of the
process. -/
theorem solveOneTimeStepOneProcess_solveCalls (E : Env σ ω) (tl : TimeLoop σ ω)
    (timestep : Nat) (t dt : ℚ) (p : ProcessData σ) :
    ∃ result,
      solveCalls (solveOneTimeStepOneProcess E tl timestep t dt p).2.log =
        solveCalls tl.log ++
          [{ process_id := p.process_id, x := tl._process_solutions,
             result := result }] ∧
      (solveOneTimeStepOneProcess E tl timestep t dt p).2._process_solutions =
        tl._process_solutions.set p.process_id result := by
  refine ⟨(E.solve (call E (Event.nextTimestep p.process_id t dt)
      (call E (Event.setEquationSystem p.process_id) tl)).world p.process_id
      timestep t tl._process_solutions tl._process_solutions_prev).x, ?_, ?_⟩
  · simp only [solveOneTimeStepOneProcess]
    split_ifs <;> simp [call, solveCalls_append, solveCalls]
  · simp only [solveOneTimeStepOneProcess]
    split_ifs <;> simp [call]

/-- A loop over the coupling criteria makes no solver call and leaves the
solutions alone. -/
theorem forAllCriteria_solveCalls (E : Env σ ω) (e : Nat → Event)
    (he : ∀ k, solveCalls [e k] = []) :
    ∀ (n k : Nat) (tl : TimeLoop σ ω),
      solveCalls (forAllCriteria E e k n tl).log = solveCalls tl.log ∧
        (forAllCriteria E e k n tl)._process_solutions = tl._process_solutions := by
  intro n
  induction n with
  | zero => intro k tl; exact ⟨rfl, rfl⟩
  | succ n ih =>
    intro k tl
    rw [forAllCriteria, (ih _ _).1, (ih _ _).2]
    simp [call, solveCalls_append, he]

/-- The loop over `solveReactionEquation` makes no solver call. -/
theorem solveReactionEquations_solveCalls (E : Env σ ω) (t dt : ℚ) :
    ∀ (l : List (ProcessData σ)) (tl : TimeLoop σ ω),
      solveCalls (solveReactionEquations E t dt l tl).log = solveCalls tl.log := by
  intro l
  induction l with
  | nil => intro tl; rfl
  | cons p rest ih =>
    intro tl
    rw [solveReactionEquations, ih]
    simp [call, solveCalls_append, solveCalls]

/-- The step of the loop of a coupling iteration when the solve of the
process converges: one solver call on the solution list of the time loop,
whose result is written to the entry of the process. -/
theorem couplingIterationLoop_cons_calls (E : Env σ ω) (t dt : ℚ)
    (timestep_id it i : Nat) (p : ProcessData σ) (rest : List (ProcessData σ))
    (converged : Bool) (status : NonlinearSolverStatus) (tl : TimeLoop σ ω)
    (h : (solveOneTimeStepOneProcess E
      (call E (Event.setCoupledSolutionsForStaggeredScheme p.process_id
        tl._process_solutions) tl) timestep_id t dt p).1.error_norms_met = true) :
    ∃ (converged1 : Bool) (status1 : NonlinearSolverStatus) (tl1 : TimeLoop σ ω)
      (result : GlobalVector),
      couplingIterationLoop E t dt timestep_id it i (p :: rest) converged status tl =
        couplingIterationLoop E t dt timestep_id it (i + 1) rest converged1
          status1 tl1 ∧
      solveCalls tl1.log = solveCalls tl.log ++
        [SolveCall.mk p.process_id tl._process_solutions result] ∧
      tl1._process_solutions = tl._process_solutions.set p.process_id result := by
  obtain ⟨result, hlog, hsol⟩ := solveOneTimeStepOneProcess_solveCalls E
    (call E (Event.setCoupledSolutionsForStaggeredScheme p.process_id
      tl._process_solutions) tl) timestep_id t dt p
  have hlog1 : solveCalls (solveOneTimeStepOneProcess E
      (call E (Event.setCoupledSolutionsForStaggeredScheme p.process_id
        tl._process_solutions) tl) timestep_id t dt p).2.log =
      solveCalls tl.log ++
        [SolveCall.mk p.process_id tl._process_solutions result] := by
    rw [hlog]
    simp [call, solveCalls_append, solveCalls]
  rw [couplingIterationLoop]
  simp only [h, Bool.not_true, Bool.false_eq_true, if_false]
  by_cases hit : 0 < it
  · simp only [hit, if_true]
    refine ⟨_, _, _, result, rfl, ?_, ?_⟩
    · have hlog2 : solveCalls ((storeStatus i (solveOneTimeStepOneProcess E
          (call E (Event.setCoupledSolutionsForStaggeredScheme p.process_id
            tl._process_solutions) tl) timestep_id t dt p).1
          (solveOneTimeStepOneProcess E
          (call E (Event.setCoupledSolutionsForStaggeredScheme p.process_id
            tl._process_solutions) tl) timestep_id t dt p).2).log) =
          solveCalls tl.log ++
            [SolveCall.mk p.process_id tl._process_solutions result] := hlog1
      show solveCalls (_ ++ [_]) = _
      rw [solveCalls_append, hlog2]
      simp [solveCalls]
    · exact hsol
  · simp only [hit, if_false]
    exact ⟨_, _, _, result, rfl, hlog1, hsol⟩

/-- The step of the loop of a coupling iteration when the solve of the
process fails: one solver call, and the function returns. -/
theorem couplingIterationLoop_cons_failed_calls (E : Env σ ω) (t dt : ℚ)
    (timestep_id it i : Nat) (p : ProcessData σ) (rest : List (ProcessData σ))
    (converged : Bool) (status : NonlinearSolverStatus) (tl : TimeLoop σ ω)
    (h : (solveOneTimeStepOneProcess E
      (call E (Event.setCoupledSolutionsForStaggeredScheme p.process_id
        tl._process_solutions) tl) timestep_id t dt p).1.error_norms_met = false) :
    ∃ result : GlobalVector,
      (couplingIterationLoop E t dt timestep_id it i (p :: rest) converged status
        tl).returned = true ∧
      solveCalls (couplingIterationLoop E t dt timestep_id it i (p :: rest)
        converged status tl).time_loop.log = solveCalls tl.log ++
          [SolveCall.mk p.process_id tl._process_solutions result] ∧
      (couplingIterationLoop E t dt timestep_id it i (p :: rest) converged status
        tl).time_loop._process_solutions =
          tl._process_solutions.set p.process_id result := by
  obtain ⟨result, hlog, hsol⟩ := solveOneTimeStepOneProcess_solveCalls E
    (call E (Event.setCoupledSolutionsForStaggeredScheme p.process_id
      tl._process_solutions) tl) timestep_id t dt p
  have hlog1 : solveCalls (solveOneTimeStepOneProcess E
      (call E (Event.setCoupledSolutionsForStaggeredScheme p.process_id
        tl._process_solutions) tl) timestep_id t dt p).2.log =
      solveCalls tl.log ++
        [SolveCall.mk p.process_id tl._process_solutions result] := by
    rw [hlog]
    simp [call, solveCalls_append, solveCalls]
  rw [couplingIterationLoop]
  rw [if_pos (by rw [h]; rfl)]
  exact ⟨result, rfl, hlog1, hsol⟩

/-- The solver calls of the loop of a coupling iteration: they are made for
the processes of the list in order, up to the first whose solve fails, and
they follow one another on the solution list of the time loop. -/
theorem couplingIterationLoop_solveCalls (E : Env σ ω) (t dt : ℚ)
    (timestep_id it : Nat) :
    ∀ (l : List (ProcessData σ)) (i : Nat) (converged : Bool)
      (status : NonlinearSolverStatus) (tl : TimeLoop σ ω),
      ∃ calls,
        solveCalls (couplingIterationLoop E t dt timestep_id it i l converged
          status tl).time_loop.log = solveCalls tl.log ++ calls ∧
        calls.map (fun c => c.process_id) <+: l.map (fun p => p.process_id) ∧
        ((couplingIterationLoop E t dt timestep_id it i l converged status
            tl).returned = false →
          calls.map (fun c => c.process_id) = l.map (fun p => p.process_id)) ∧
        gaussSeidel tl._process_solutions calls ∧
        (couplingIterationLoop E t dt timestep_id it i l converged status
          tl).time_loop._process_solutions =
            applyResults tl._process_solutions calls := by
  intro l
  induction l with
  | nil =>
    intro i converged status tl
    exact ⟨[], by simp [couplingIterationLoop], List.prefix_rfl, fun _ => rfl,
      trivial, rfl⟩
  | cons p rest ih =>
    intro i converged status tl
    by_cases hmet : (solveOneTimeStepOneProcess E
        (call E (Event.setCoupledSolutionsForStaggeredScheme p.process_id
          tl._process_solutions) tl) timestep_id t dt p).1.error_norms_met = true
    · obtain ⟨converged1, status1, tl1, result, heq, hlog, hsol⟩ :=
        couplingIterationLoop_cons_calls E t dt timestep_id it i p rest converged
          status tl hmet
      obtain ⟨calls, h1, h2, h3, h4, h5⟩ := ih (i + 1) converged1 status1 tl1
      rw [heq]
      refine ⟨SolveCall.mk p.process_id tl._process_solutions result :: calls,
        ?_, ?_, ?_, ?_, ?_⟩
      · rw [h1, hlog]
        simp
      · simp only [List.map_cons]
        exact (List.prefix_cons_inj _).mpr h2
      · intro h
        simp only [List.map_cons]
        rw [h3 h]
      · refine ⟨rfl, ?_⟩
        rw [← hsol]
        exact h4
      · rw [h5, hsol]
        rfl
    · have hmet1 : (solveOneTimeStepOneProcess E
          (call E (Event.setCoupledSolutionsForStaggeredScheme p.process_id
            tl._process_solutions) tl) timestep_id t dt p).1.error_norms_met =
          false := by simpa using hmet
      obtain ⟨result, hret, hlog, hsol⟩ :=
        couplingIterationLoop_cons_failed_calls E t dt timestep_id it i p rest
          converged status tl hmet1
      refine ⟨[SolveCall.mk p.process_id tl._process_solutions result],
        hlog, ?_, ?_, ⟨rfl, trivial⟩, ?_⟩
      · simp only [List.map_cons, List.map_nil]
        exact List.prefix_iff_eq_append.mpr (by simp)
      · intro h
        rw [hret] at h
        cases h
      · rw [hsol]
        rfl

/-- The solver calls of the coupling loop come in at most `n` rounds that
follow one another on the solution list of the time loop. -/
theorem couplingLoop_solveCalls (E : Env σ ω) (t dt : ℚ) (timestep_id : Nat) :
    ∀ (n it : Nat) (converged : Bool) (status : NonlinearSolverStatus)
      (tl : TimeLoop σ ω),
      ∃ rounds : List (List SolveCall),
        rounds.length ≤ n ∧
        solveCalls (couplingLoop E t dt timestep_id n it converged status
          tl).time_loop.log = solveCalls tl.log ++ rounds.flatten ∧
        gaussSeidelRounds (tl._per_process_data.map (fun p => p.process_id))
          tl._process_solutions rounds := by
  intro n
  induction n with
  | zero =>
    intro it converged status tl
    exact ⟨[], le_refl _, by simp [couplingLoop], trivial⟩
  | succ n ih =>
    intro it converged status tl
    obtain ⟨calls, h1, h2, h3, h4, h5⟩ := couplingIterationLoop_solveCalls E t dt
      timestep_id it tl._per_process_data 0 true status tl
    have hone : gaussSeidelRounds (tl._per_process_data.map (fun p => p.process_id))
        tl._process_solutions [calls] :=
      ⟨h2, fun h => absurd rfl h, h4, trivial⟩
    have hlen : [calls].length ≤ n + 1 := by simp
    have hflat : [calls].flatten = calls := by simp
    rw [couplingLoop]
    by_cases hret : (couplingIterationLoop E t dt timestep_id it 0
        tl._per_process_data true status tl).returned = true
    · rw [if_pos hret]
      exact ⟨[calls], hlen, by rw [h1, hflat], hone⟩
    · rw [if_neg hret]
      by_cases hconv : (couplingIterationLoop E t dt timestep_id it 0
          tl._per_process_data true status tl).coupling_iteration_converged = true ∧
          0 < it
      · rw [if_pos hconv]
        exact ⟨[calls], hlen, by rw [h1, hflat], hone⟩
      · rw [if_neg hconv]
        by_cases hmet : (!(couplingIterationLoop E t dt timestep_id it 0
            tl._per_process_data true status
            tl).nonlinear_solver_status.error_norms_met) = true
        · rw [if_pos hmet]
          exact ⟨[calls], hlen, by rw [← hflat] at h1; exact h1, hone⟩
        · rw [if_neg hmet]
          have hret1 : (couplingIterationLoop E t dt timestep_id it 0
              tl._per_process_data true status tl).returned = false := by
            simpa using hret
          obtain ⟨rounds, g1, g2, g3⟩ := ih (it + 1)
            (couplingIterationLoop E t dt timestep_id it 0
              tl._per_process_data true status tl).coupling_iteration_converged
            (couplingIterationLoop E t dt timestep_id it 0
              tl._per_process_data true status tl).nonlinear_solver_status
            (resetCouplingConvergenceCriteria E
              (couplingIterationLoop E t dt timestep_id it 0
                tl._per_process_data true status tl).time_loop)
          have hreset := forAllCriteria_solveCalls E Event.reset (fun _ => rfl)
            (couplingIterationLoop E t dt timestep_id it 0
              tl._per_process_data true status tl).time_loop._global_coupling_conv_crit
            0 (couplingIterationLoop E t dt timestep_id it 0
              tl._per_process_data true status tl).time_loop
          have hids : (resetCouplingConvergenceCriteria E
              (couplingIterationLoop E t dt timestep_id it 0
                tl._per_process_data true status
                tl).time_loop)._per_process_data.map (fun p => p.process_id) =
              tl._per_process_data.map (fun p => p.process_id) :=
            ((advances_couplingIterationLoop E t dt timestep_id it _ 0 true status
              tl).trans (advances_forAllCriteria isSolveStage E Event.reset
                (fun _ => rfl) _ _ _)).2.2.1
          rw [hids] at g3
          unfold resetCouplingConvergenceCriteria at g2 g3
          rw [hreset.1, h1] at g2
          rw [hreset.2, h5] at g3
          refine ⟨calls :: rounds, by simp; omega, ?_, ?_⟩
          · exact g2.trans (by simp)
          · exact ⟨h2, fun _ => h3 hret1, h4, g3⟩

/-- The solver calls of `solveCoupledEquationSystemsByStaggeredScheme` come
in at most `_global_coupling_max_iterations` rounds that follow one another
on the solution list of the time loop. -/
theorem staggered_solveCalls (E : Env σ ω) (tl : TimeLoop σ ω) (t dt : ℚ)
    (timestep_id : Nat) :
    ∃ rounds : List (List SolveCall),
      rounds.length ≤ tl._global_coupling_max_iterations.toNat ∧
      solveCalls (solveCoupledEquationSystemsByStaggeredScheme E tl t dt
        timestep_id).2.log = solveCalls tl.log ++ rounds.flatten ∧
      gaussSeidelRounds (tl._per_process_data.map (fun p => p.process_id))
        tl._process_solutions rounds := by
  have key : ∀ tl1 : TimeLoop σ ω, solveCalls tl1.log = solveCalls tl.log →
      tl1._process_solutions = tl._process_solutions →
      tl1._per_process_data = tl._per_process_data →
      ∃ rounds : List (List SolveCall),
        rounds.length ≤ tl._global_coupling_max_iterations.toNat ∧
        solveCalls
          (if (couplingLoop E t dt timestep_id
              tl._global_coupling_max_iterations.toNat 0 true
              { error_norms_met := false, number_iterations := -1 }
              tl1).returned then
            ((couplingLoop E t dt timestep_id
              tl._global_coupling_max_iterations.toNat 0 true
              { error_norms_met := false, number_iterations := -1 }
              tl1).nonlinear_solver_status,
             (couplingLoop E t dt timestep_id
              tl._global_coupling_max_iterations.toNat 0 true
              { error_norms_met := false, number_iterations := -1 } tl1).time_loop)
          else
            ((couplingLoop E t dt timestep_id
              tl._global_coupling_max_iterations.toNat 0 true
              { error_norms_met := false, number_iterations := -1 }
              tl1).nonlinear_solver_status,
             solveReactionEquations E t dt
              (couplingLoop E t dt timestep_id
                tl._global_coupling_max_iterations.toNat 0 true
                { error_norms_met := false, number_iterations := -1 }
                tl1).time_loop._per_process_data
              (couplingLoop E t dt timestep_id
                tl._global_coupling_max_iterations.toNat 0 true
                { error_norms_met := false, number_iterations := -1 }
                tl1).time_loop)).2.log = solveCalls tl.log ++ rounds.flatten ∧
        gaussSeidelRounds (tl._per_process_data.map (fun p => p.process_id))
          tl._process_solutions rounds := by
    intro tl1 hlog hsol hppd
    obtain ⟨rounds, g1, g2, g3⟩ := couplingLoop_solveCalls E t dt timestep_id
      tl._global_coupling_max_iterations.toNat 0 true
      { error_norms_met := false, number_iterations := -1 } tl1
    rw [hlog] at g2
    rw [hsol, hppd] at g3
    refine ⟨rounds, g1, ?_, g3⟩
    split_ifs
    · exact g2
    · show solveCalls (solveReactionEquations E t dt _ _).log = _
      rw [solveReactionEquations_solveCalls, g2]
  by_cases h0 : tl._global_coupling_max_iterations ≠ 0
  · have hpre := forAllCriteria_solveCalls E Event.preFirstIteration (fun _ => rfl)
      tl._global_coupling_conv_crit 0 tl
    have := key (forAllCriteria E Event.preFirstIteration 0
      tl._global_coupling_conv_crit tl) hpre.1 hpre.2
      (forAllCriteria_per_process_data E _ _ _ _)
    simp only [solveCoupledEquationSystemsByStaggeredScheme, if_pos h0]
    exact this
  · have := key tl rfl rfl rfl
    simp only [solveCoupledEquationSystemsByStaggeredScheme, if_neg h0]
    exact this

theorem applyResults_cons (x : List GlobalVector) (c : SolveCall)
    (calls : List SolveCall) :
    applyResults x (c :: calls) =
      applyResults (x.set c.process_id c.result) calls :=
  rfl

theorem applyResults_length (calls : List SolveCall) :
    ∀ x : List GlobalVector, (applyResults x calls).length = x.length := by
  induction calls with
  | nil => intro x; rfl
  | cons c rest ih =>
    intro x
    rw [applyResults_cons, ih, List.length_set]

/-- The entry of a process that is not solved by the calls is left alone. -/
theorem applyResults_of_not_mem (calls : List SolveCall) (process_id : Nat) :
    ∀ x : List GlobalVector,
      process_id ∉ calls.map (fun c => c.process_id) →
      (applyResults x calls)[process_id]? = x[process_id]? := by
  induction calls with
  | nil => intro x _; rfl
  | cons c rest ih =>
    intro x h
    simp only [List.map_cons, List.mem_cons, not_or] at h
    rw [applyResults_cons, ih _ h.2, List.getElem?_set_ne (Ne.symm h.1)]

/-- The entry of a process that is solved by one of the calls, and by no
other of them, is the result of that call. -/
theorem applyResults_of_mem (calls : List SolveCall) (c : SolveCall) :
    ∀ x : List GlobalVector,
      (calls.map (fun c => c.process_id)).Nodup → c ∈ calls →
      c.process_id < x.length →
      (applyResults x calls)[c.process_id]? = some c.result := by
  induction calls with
  | nil => intro x _ h; cases h
  | cons c0 rest ih =>
    intro x hnodup hmem hlt
    simp only [List.map_cons, List.nodup_cons] at hnodup
    rw [applyResults_cons]
    rcases List.mem_cons.mp hmem with h | h
    · subst h
      rw [applyResults_of_not_mem rest c.process_id _ hnodup.1,
        List.getElem?_set_self hlt]
    · exact ih _ hnodup.2 h (by rw [List.length_set]; exact hlt)

/-- The result of the solve of a process in a round, when the process is
solved once in it. -/
theorem resultInRound_of_mem (calls : List SolveCall) (c : SolveCall) :
    (calls.map (fun c => c.process_id)).Nodup → c ∈ calls →
      resultInRound calls c.process_id = c.result := by
  induction calls with
  | nil => intro _ h; cases h
  | cons c0 rest ih =>
    intro hnodup hmem
    simp only [List.map_cons, List.nodup_cons] at hnodup
    rcases List.mem_cons.mp hmem with h | h
    · subst h
      simp [resultInRound]
    · have hne : c0.process_id ≠ c.process_id := by
        intro heq
        exact hnodup.1 (heq ▸ List.mem_map_of_mem (fun c => c.process_id) h)
      have := ih hnodup.2 h
      simp only [resultInRound, List.find?_cons] at this ⊢
      have hb : (c0.process_id == c.process_id) = false := by simpa using hne
      rw [hb]
      exact this

/-- The solution list that a call is given, when the calls follow one
another on `x`. -/
theorem gaussSeidel_getElem? (calls : List SolveCall) :
    ∀ (x : List GlobalVector) (k : Nat) (c : SolveCall),
      gaussSeidel x calls → calls[k]? = some c →
      c.x = applyResults x (calls.take k) := by
  induction calls with
  | nil => intro x k c _ h; simp at h
  | cons c0 rest ih =>
    intro x k c hg hk
    cases k with
    | zero =>
      simp only [List.getElem?_cons_zero, Option.some.injEq] at hk
      subst hk
      exact hg.1
    | succ k =>
      simp only [List.getElem?_cons_succ] at hk
      rw [List.take_succ_cons, applyResults_cons]
      exact ih _ k c hg.2 hk

/-- An id at a position from `k` on is not among the first `k` ids, when no
id is repeated. -/
theorem not_mem_take_of_nodup (ids : List Nat) (hnodup : ids.Nodup) (j k : Nat)
    (id : Nat) (hj : ids[j]? = some id) (hkj : k ≤ j) : id ∉ ids.take k := by
  intro hmem
  obtain ⟨i, hi⟩ := List.mem_iff_getElem?.mp hmem
  rw [List.getElem?_take] at hi
  by_cases hik : i < k
  · rw [if_pos hik] at hi
    have hjlt : j < ids.length := by
      obtain ⟨h, _⟩ := List.getElem?_eq_some.mp hj
      exact h
    exact (List.nodup_iff_getElem?_ne_getElem?.mp hnodup i j (by omega) hjlt)
      (hi.trans hj.symm)
  · rw [if_neg hik] at hi
    cases hi

/-- The entries of the solution list that a call of a round is given: for a
process at a position before that of the call, the result of its solve in
this round, and for the other processes the entries on which the round
started. -/
theorem gaussSeidel_entries (ids : List Nat) (hnodup : ids.Nodup)
    (x : List GlobalVector) (hrange : ∀ id ∈ ids, id < x.length)
    (calls : List SolveCall)
    (hpfx : calls.map (fun c => c.process_id) <+: ids)
    (hg : gaussSeidel x calls) (k : Nat) (c : SolveCall) (hk : calls[k]? = some c)
    (j id : Nat) (hj : ids[j]? = some id) :
    c.x.getD id [] =
      if j < k then resultInRound calls id else x.getD id [] := by
  have hcx := gaussSeidel_getElem? calls x k c hg hk
  have hklt : k < calls.length := by
    obtain ⟨h, _⟩ := List.getElem?_eq_some.mp hk
    exact h
  have hcalls_nodup : (calls.map (fun c => c.process_id)).Nodup :=
    List.Nodup.sublist hpfx.sublist hnodup
  have htake : (calls.take k).map (fun c => c.process_id) = ids.take k := by
    rw [List.map_take]
    obtain ⟨rest, hrest⟩ := hpfx
    rw [← hrest, List.take_append_of_le_length (by rw [List.length_map]; omega)]
  rw [hcx, List.getD_eq_getElem?_getD, List.getD_eq_getElem?_getD]
  by_cases hjk : j < k
  · rw [if_pos hjk]
    have hjlt : j < calls.length := by omega
    have hcj : calls[j]? = some (calls.get ⟨j, hjlt⟩) := by
      rw [List.getElem?_eq_getElem hjlt]
      rfl
    have hid : (calls.get ⟨j, hjlt⟩).process_id = id := by
      obtain ⟨rest, hrest⟩ := hpfx
      have h1 : (calls.map (fun c => c.process_id) ++ rest)[j]? = some id := by
        rw [hrest]
        exact hj
      rw [List.getElem?_append_left (by rw [List.length_map]; exact hjlt),
        List.getElem?_map, hcj] at h1
      simpa using h1
    have hmem : calls.get ⟨j, hjlt⟩ ∈ calls := List.get_mem _ _ _
    have hmemk : calls.get ⟨j, hjlt⟩ ∈ calls.take k := by
      rw [List.mem_iff_getElem?]
      exact ⟨j, by rw [List.getElem?_take, if_pos hjk]; exact hcj⟩
    have hidlt : (calls.get ⟨j, hjlt⟩).process_id < x.length := by
      rw [hid]
      exact hrange id (List.mem_iff_getElem?.mpr ⟨j, hj⟩)
    rw [← hid, applyResults_of_mem (calls.take k) _ x
      (by rw [htake]; exact List.Nodup.sublist (List.take_sublist _ _) hnodup)
      hmemk hidlt, resultInRound_of_mem calls _ hcalls_nodup hmem]
    rfl
  · rw [if_neg hjk, applyResults_of_not_mem (calls.take k) id x
      (by rw [htake]; exact not_mem_take_of_nodup ids hnodup j k id hj (by omega))]

/-- The entries of the solution lists that the calls of the rounds are
given. -/
theorem gaussSeidelRounds_entries (ids : List Nat) (hnodup : ids.Nodup) :
    ∀ (rounds : List (List SolveCall)) (x : List GlobalVector),
      (∀ id ∈ ids, id < x.length) → gaussSeidelRounds ids x rounds →
      ∀ (r : Nat) (calls : List SolveCall), rounds[r]? = some calls →
        calls.map (fun c => c.process_id) <+: ids ∧
        (r + 1 < rounds.length → calls.map (fun c => c.process_id) = ids) ∧
        ∀ (k : Nat) (c : SolveCall), calls[k]? = some c →
          ∀ (j id : Nat), ids[j]? = some id →
            c.x.getD id [] =
              if j < k then resultInRound calls id
              else leftByPreviousRound x rounds r id := by
  intro rounds
  induction rounds with
  | nil => intro x _ _ r calls h; simp at h
  | cons calls0 rest ih =>
    intro x hrange hG r calls hr
    obtain ⟨hpfx, hfull, hg, hrest⟩ := hG
    cases r with
    | zero =>
      simp only [List.getElem?_cons_zero, Option.some.injEq] at hr
      subst hr
      refine ⟨hpfx, ?_, ?_⟩
      · intro hlen
        apply hfull
        intro hnil
        rw [hnil] at hlen
        simp at hlen
      · intro k c hk j id hj
        exact gaussSeidel_entries ids hnodup x hrange calls0 hpfx hg k c hk j id hj
    | succ r =>
      simp only [List.getElem?_cons_succ] at hr
      have hne : rest ≠ [] := by
        intro hnil
        rw [hnil] at hr
        simp at hr
      have hids := hfull hne
      obtain ⟨h1, h2, h3⟩ := ih (applyResults x calls0)
        (by intro id hid; rw [applyResults_length]; exact hrange id hid) hrest r
        calls hr
      refine ⟨h1, ?_, ?_⟩
      · intro hlen
        apply h2
        simp only [List.length_cons] at hlen
        omega
      · intro k c hk j id hj
        rw [h3 k c hk j id hj]
        by_cases hjk : j < k
        · rw [if_pos hjk, if_pos hjk]
        · rw [if_neg hjk, if_neg hjk]
          cases r with
          | zero =>
            have hmem : id ∈ calls0.map (fun c => c.process_id) := by
              rw [hids]
              exact List.mem_iff_getElem?.mpr ⟨j, hj⟩
            obtain ⟨c0, hc0, hc0id⟩ := List.mem_map.mp hmem
            show (applyResults x calls0).getD id [] = resultInRound calls0 id
            rw [List.getD_eq_getElem?_getD, ← hc0id,
              applyResults_of_mem calls0 c0 x (by rw [hids]; exact hnodup) hc0
                (by rw [hc0id]; exact hrange id (List.mem_iff_getElem?.mpr ⟨j, hj⟩)),
              resultInRound_of_mem calls0 c0 (by rw [hids]; exact hnodup) hc0]
            rfl
          | succ r => rfl

/-- C19: the solver calls of `solveCoupledEquationSystemsByStaggeredScheme`
come in rounds, at most `_global_coupling_max_iterations` of them. In every
round the processes are solved in registration order (the processes of a
round are a prefix of the registration order, and only the last round may be
cut short). The solve at position `k` of a round is given the solution list
in which the entry of the process at a position `j < k` is the result of its
solve in this same round, and the entry of a process at a position `j ≥ k`
is the one left by the previous round: the result of its solve in that
round, or its entry at the start of the step for the first round. The ids of
the processes are the indices of their solutions: no id is repeated and each
is within the solution list. -/
theorem gauss_seidel_order (E : Env σ ω) (tl : TimeLoop σ ω) (t dt : ℚ)
    (timestep_id : Nat)
    (hnodup : (tl._per_process_data.map (fun p => p.process_id)).Nodup)
    (hrange : ∀ p ∈ tl._per_process_data,
      p.process_id < tl._process_solutions.length) :
    ∃ rounds : List (List SolveCall),
      rounds.length ≤ tl._global_coupling_max_iterations.toNat ∧
      solveCalls (solveCoupledEquationSystemsByStaggeredScheme E tl t dt
        timestep_id).2.log = solveCalls tl.log ++ rounds.flatten ∧
      ∀ (r : Nat) (calls : List SolveCall), rounds[r]? = some calls →
        calls.map (fun c => c.process_id) <+:
          tl._per_process_data.map (fun p => p.process_id) ∧
        (r + 1 < rounds.length →
          calls.map (fun c => c.process_id) =
            tl._per_process_data.map (fun p => p.process_id)) ∧
        ∀ (k : Nat) (c : SolveCall), calls[k]? = some c →
          ∀ (j id : Nat),
            (tl._per_process_data.map (fun p => p.process_id))[j]? = some id →
            c.x.getD id [] =
              if j < k then resultInRound calls id
              else leftByPreviousRound tl._process_solutions rounds r id := by
  obtain ⟨rounds, h1, h2, h3⟩ := staggered_solveCalls E tl t dt timestep_id
  refine ⟨rounds, h1, h2, ?_⟩
  apply gaussSeidelRounds_entries _ hnodup rounds tl._process_solutions _ h3
  intro id hid
  obtain ⟨p, hp, hpid⟩ := List.mem_map.mp hid
  rw [← hpid]
  exact hrange p hp

/-- C19 (witness): two processes under the staggered scheme with the
solutions `[1]` and `[2]`, whose solves converge and add one to the entry of
the process; the criteria are satisfied in the second round. The solve of
process 1 is given the result of process 0 of the same round. -/
theorem gauss_seidel_order_witness :
    solveCalls (solveCoupledEquationSystemsByStaggeredScheme (staggeredEnv [] 0)
        (twoStaggered 3) (1 / 2) (1 / 2) 1).2.log =
      [{ process_id := 0, x := [[1], [2]], result := [2] },
       { process_id := 1, x := [[2], [2]], result := [3] },
       { process_id := 0, x := [[2], [3]], result := [3] },
       { process_id := 1, x := [[3], [3]], result := [4] }] ∧
    ∃ rounds : List (List SolveCall),
      rounds.length ≤ (twoStaggered 3)._global_coupling_max_iterations.toNat ∧
      solveCalls (solveCoupledEquationSystemsByStaggeredScheme (staggeredEnv [] 0)
        (twoStaggered 3) (1 / 2) (1 / 2) 1).2.log =
          solveCalls (twoStaggered 3).log ++ rounds.flatten ∧
      ∀ (r : Nat) (calls : List SolveCall), rounds[r]? = some calls →
        calls.map (fun c => c.process_id) <+:
          (twoStaggered 3)._per_process_data.map (fun p => p.process_id) ∧
        (r + 1 < rounds.length →
          calls.map (fun c => c.process_id) =
            (twoStaggered 3)._per_process_data.map (fun p => p.process_id)) ∧
        ∀ (k : Nat) (c : SolveCall), calls[k]? = some c →
          ∀ (j id : Nat),
            ((twoStaggered 3)._per_process_data.map
              (fun p => p.process_id))[j]? = some id →
            c.x.getD id [] =
              if j < k then resultInRound calls id
              else leftByPreviousRound (twoStaggered 3)._process_solutions rounds
                r id :=
  ⟨by decide!,
    gauss_seidel_order (staggeredEnv [] 0) (twoStaggered 3) (1 / 2) (1 / 2) 1
      (by decide!) (by decide!)⟩

/-! ### The frame of the state push and the step counters -/

/-- The second loop of `computeTimeStepping` leaves the previous solutions
alone when the step is not accepted. -/
theorem secondLoop_not_accepted (E : Env σ ω) (t end_time dt : ℚ) :
    ∀ (l : List (ProcessData σ)) (i : Nat) (x x_prev : List GlobalVector),
      (secondLoop E false t end_time dt i l x x_prev).x_prev = x_prev := by
  intro l
  induction l with
  | nil => intro i x x_prev; rfl
  | cons q rest ih =>
    intro i x x_prev
    have hbody : (secondLoopBody E false t end_time dt i q x x_prev).2.2 =
        x_prev := by
      simp only [secondLoopBody, Bool.false_eq_true, if_false]
      split_ifs <;> rfl
    rw [secondLoop]
    simp only []
    rw [ih, hbody]

/-- What `computeTimeStepping` leaves of the two solution lists: those that
the second loop leaves when it returns, and the lists as they were when it
terminates fatally. -/
theorem computeTimeStepping_solutions (E : Env σ ω) (tl : TimeLoop σ ω)
    (prev_dt t : ℚ) (accepted_steps rejected_steps : Nat)
    (time_step_constraints : List (ℚ → ℚ → ℚ)) :
    (∀ s, computeTimeStepping E tl prev_dt t accepted_steps rejected_steps
        time_step_constraints = Except.ok s →
      ∃ (t1 dt : ℚ) (l : List (ProcessData σ)),
        s.time_loop._process_solutions =
          (secondLoop E (allProcessStepsAccepted E tl t) t1 tl._end_time dt 0 l
            tl._process_solutions tl._process_solutions_prev).x ∧
        s.time_loop._process_solutions_prev =
          (secondLoop E (allProcessStepsAccepted E tl t) t1 tl._end_time dt 0 l
            tl._process_solutions tl._process_solutions_prev).x_prev) ∧
    (∀ f, computeTimeStepping E tl prev_dt t accepted_steps rejected_steps
        time_step_constraints = Except.error f →
      f.time_loop._process_solutions = tl._process_solutions ∧
        f.time_loop._process_solutions_prev = tl._process_solutions_prev) := by
  rw [computeTimeStepping_eq]
  by_cases hfatal : |constrainedDt E tl prev_dt t time_step_constraints - prev_dt|
      < eps ∧ stepRejected E tl t = true
  · rw [if_pos hfatal]
    refine ⟨fun s h => (by cases h), fun f h => ?_⟩
    injection h with hf
    subst hf
    exact ⟨rfl, rfl⟩
  · rw [if_neg hfatal]
    refine ⟨fun s h => ?_, fun f h => by cases h⟩
    injection h with hs
    subst hs
    exact ⟨_, _, _, rfl, rfl⟩

/-- C21: in every call of `computeTimeStepping`, if the step is not accepted
(the flag `all_process_steps_accepted` is not set after the first loop) the
previous solutions `x_prev` are left as they were, and if the step is
accepted the solutions `x` are left as they were; a call that terminates
fatally leaves both as they were. -/
theorem previous_state_changed_by_acceptance (E : Env σ ω) (tl : TimeLoop σ ω)
    (prev_dt t : ℚ) (accepted_steps rejected_steps : Nat)
    (time_step_constraints : List (ℚ → ℚ → ℚ)) :
    (∀ s, computeTimeStepping E tl prev_dt t accepted_steps rejected_steps
        time_step_constraints = Except.ok s →
      (allProcessStepsAccepted E tl t = false →
        s.time_loop._process_solutions_prev = tl._process_solutions_prev) ∧
      (allProcessStepsAccepted E tl t = true →
        s.time_loop._process_solutions = tl._process_solutions)) ∧
    (∀ f, computeTimeStepping E tl prev_dt t accepted_steps rejected_steps
        time_step_constraints = Except.error f →
      f.time_loop._process_solutions = tl._process_solutions ∧
        f.time_loop._process_solutions_prev = tl._process_solutions_prev) := by
  obtain ⟨hok, hfatal⟩ := computeTimeStepping_solutions E tl prev_dt t
    accepted_steps rejected_steps time_step_constraints
  refine ⟨fun s h => ?_, hfatal⟩
  obtain ⟨t1, dt, l, hx, hprev⟩ := hok s h
  refine ⟨fun hacc => ?_, fun hacc => ?_⟩
  · rw [hprev, hacc]
    exact secondLoop_not_accepted E t1 tl._end_time dt l 0 _ _
  · rw [hx, hacc]
    exact (secondLoop_accepted E t1 tl._end_time dt l 0 _ _).1

/-- C21 (witness): the rejected first step of `firstStepFailed` leaves the
accepted state `[1]` in the previous solution, and the accepted step of
`twoProposals` leaves the solutions `[5]` and `[6]`. -/
theorem previous_state_changed_by_acceptance_witness :
    (∃ s, computeTimeStepping (scriptedEnv [] 0) firstStepFailed (1 / 2)
        (0 + 1 / 2) 0 0 (scriptedConstraints firstStepFailed) = Except.ok s ∧
      s.time_loop._process_solutions_prev = [[1]]) ∧
    (∃ s, computeTimeStepping (scriptedEnv [] 0) twoProposals (1 / 2)
        (0 + 1 / 2) 0 0 (scriptedConstraints twoProposals) = Except.ok s ∧
      s.time_loop._process_solutions = [[5], [6]]) := by
  refine ⟨?_, ?_⟩
  · obtain ⟨s, hs⟩ := exists_ok_of_observe
      (computeTimeStepping (scriptedEnv [] 0) firstStepFailed (1 / 2) (0 + 1 / 2)
        0 0 (scriptedConstraints firstStepFailed)) (by decide!)
    exact ⟨s, hs, ((previous_state_changed_by_acceptance (scriptedEnv [] 0)
      firstStepFailed (1 / 2) (0 + 1 / 2) 0 0
      (scriptedConstraints firstStepFailed)).1 s hs).1 (by decide!)⟩
  · obtain ⟨s, hs⟩ := exists_ok_of_observe
      (computeTimeStepping (scriptedEnv [] 0) twoProposals (1 / 2) (0 + 1 / 2)
        0 0 (scriptedConstraints twoProposals)) (by decide!)
    exact ⟨s, hs, ((previous_state_changed_by_acceptance (scriptedEnv [] 0)
      twoProposals (1 / 2) (0 + 1 / 2) 0 0
      (scriptedConstraints twoProposals)).1 s hs).2 (by decide!)⟩

/-- C22 (counterexample): a call of `computeTimeStepping` that is not the
initial one, at the time `t = _end_time + eps`, in which the solve did not
converge: the step is not accepted, and neither counter changes and the time
is not rolled back. -/
theorem step_counters_counterexample :
    isInitialStep firstStepFailed = false ∧
      (1 + eps : ℚ) ≤ firstStepFailed._end_time + eps ∧
      allProcessStepsAccepted (scriptedEnv [] 0) firstStepFailed (1 + eps) = false ∧
      observe (computeTimeStepping (scriptedEnv [] 0) firstStepFailed (1 / 2)
          (1 + eps) 0 0 (scriptedConstraints firstStepFailed)) =
        some
          { dt := 1 / 4, last_step_rejected := false, t := 1 + eps,
            accepted_steps := 0, rejected_steps := 0, x := [[7]],
            x_prev := [[1]] } := by
  refine ⟨by decide!, by decide!, by decide!, by decide!⟩

/-- C22 (amended): in a call of `computeTimeStepping` that is not the initial
one and returns, with `t < _end_time + eps`, exactly one of the counters is
incremented, by one: `accepted_steps` if the step is accepted, with the time
as it was, and `rejected_steps` otherwise, with the time set back by
`prev_dt`. With `t >= _end_time + eps` a step that is not accepted changes
neither counter nor the time. In the initial call (some process at time step
number 0) neither counter changes and the time is not set back. -/
theorem step_counters (E : Env σ ω) (tl : TimeLoop σ ω) (prev_dt t : ℚ)
    (accepted_steps rejected_steps : Nat)
    (time_step_constraints : List (ℚ → ℚ → ℚ)) (s : TimeStepping σ ω)
    (hreturn : computeTimeStepping E tl prev_dt t accepted_steps rejected_steps
      time_step_constraints = Except.ok s) :
    (isInitialStep tl = false → allProcessStepsAccepted E tl t = true →
      s.accepted_steps = accepted_steps + 1 ∧
        s.rejected_steps = rejected_steps ∧ s.t = t) ∧
    (isInitialStep tl = false → allProcessStepsAccepted E tl t = false →
      t < tl._end_time + eps →
      s.accepted_steps = accepted_steps ∧
        s.rejected_steps = rejected_steps + 1 ∧ s.t = t - prev_dt) ∧
    (isInitialStep tl = false → allProcessStepsAccepted E tl t = false →
      tl._end_time + eps ≤ t →
      s.accepted_steps = accepted_steps ∧
        s.rejected_steps = rejected_steps ∧ s.t = t) ∧
    (isInitialStep tl = true →
      s.accepted_steps = accepted_steps ∧
        s.rejected_steps = rejected_steps ∧ s.t = t) := by
  obtain ⟨_, _, _, ht, hacc, hrej⟩ := computeTimeStepping_ok E tl prev_dt t
    accepted_steps rejected_steps time_step_constraints s hreturn
  have hcond : (t < tl._end_time ∨ |t - tl._end_time| < eps) ↔
      t < tl._end_time + eps := by
    have hpos := eps_pos
    constructor
    · rintro (h | h)
      · linarith
      · have := (abs_lt.mp h).2
        linarith
    · intro h
      by_cases h1 : t < tl._end_time
      · exact Or.inl h1
      · right
        rw [abs_lt]
        constructor <;> linarith [not_lt.mp h1]
  rw [ht, hacc, hrej]
  refine ⟨?_, ?_, ?_, ?_⟩
  · intro hi ha
    simp [stepRejected, hi, ha]
  · intro hi ha hlt
    have hr : stepRejected E tl t = true := by
      simp only [stepRejected, hi, ha, Bool.not_false, Bool.true_and,
        decide_eq_true_eq]
      exact hcond.mpr hlt
    simp [hr, hi, ha]
  · intro hi ha hge
    have hr : stepRejected E tl t = false := by
      simp only [stepRejected, hi, ha, Bool.not_false, Bool.true_and,
        decide_eq_false_iff_not]
      intro h
      exact absurd (hcond.mp h) (not_lt.mpr hge)
    simp [hr, hi, ha]
  · intro hi
    simp [stepRejected, hi]

/-- C22 (witness): the rejected first step of `firstStepFailed` at
`t = 1/2 < 1 + eps` increments `rejected_steps` and sets the time back. -/
theorem step_counters_witness :
    ∃ s, computeTimeStepping (scriptedEnv [] 0) firstStepFailed (1 / 2)
        (0 + 1 / 2) 0 0 (scriptedConstraints firstStepFailed) = Except.ok s ∧
      s.accepted_steps = 0 ∧ s.rejected_steps = 0 + 1 ∧
      s.t = 0 + 1 / 2 - 1 / 2 := by
  obtain ⟨s, hs⟩ := exists_ok_of_observe
    (computeTimeStepping (scriptedEnv [] 0) firstStepFailed (1 / 2) (0 + 1 / 2)
      0 0 (scriptedConstraints firstStepFailed)) (by decide!)
  exact ⟨s, hs, (step_counters (scriptedEnv [] 0) firstStepFailed (1 / 2)
    (0 + 1 / 2) 0 0 (scriptedConstraints firstStepFailed) s hs).2.1
    (by decide!) (by decide!) (by decide!)⟩

/-! ### The end of a pass: the stop condition and the output -/

theorem doOutputEvents_append (a b : List Event) :
    doOutputEvents (a ++ b) = doOutputEvents a ++ doOutputEvents b := by
  induction a with
  | nil => rfl
  | cons e rest ih => cases e <;> simp [doOutputEvents, ih]

/-- The `doOutput` calls of a loop over the outputs that calls `doOutput`. -/
theorem forAllOutputs_doOutputEvents (E : Env σ ω) (process_id timestep : Nat)
    (t : ℚ) (iterations : Int) (x : List GlobalVector) :
    ∀ (outputs : List Output) (k : Nat) (tl : TimeLoop σ ω),
      doOutputEvents (forAllOutputs E
        (fun k => Event.doOutput k process_id timestep t iterations x) k outputs
        tl).log =
      doOutputEvents tl.log ++
        (List.range outputs.length).map (fun j =>
          { output := k + j, process_id := process_id, timestep := timestep,
            t := t }) := by
  intro outputs
  induction outputs with
  | nil => intro k tl; simp [forAllOutputs]
  | cons o rest ih =>
    intro k tl
    rw [forAllOutputs, ih]
    simp only [call, doOutputEvents_append, doOutputEvents, List.length_cons,
      List.range_succ_eq_map, List.map_cons, List.map_map, Nat.add_zero,
      List.append_assoc, List.singleton_append]
    congr 2
    apply List.map_congr_left
    intro j _
    simp only [Function.comp, Nat.succ_eq_add_one]
    congr 1
    omega

/-- No `doOutput` call is made in a stretch of calls that are not `doOutput`
calls. -/
theorem advances_doOutputEvents (P : Event → Bool) (tl tl1 : TimeLoop σ ω)
    (hP : ∀ e, P e = true → doOutputEvents [e] = [])
    (h : Advances P tl tl1) :
    doOutputEvents tl1.log = doOutputEvents tl.log := by
  obtain ⟨_, _, _, added, hlog, hadded⟩ := h
  rw [hlog, doOutputEvents_append]
  have : doOutputEvents added = [] := by
    clear hlog
    induction added with
    | nil => rfl
    | cons e rest ih =>
      have h1 := hP e (hadded e (List.mem_cons_self _ _))
      have h2 := ih (fun e he => hadded e (List.mem_cons_of_mem _ he))
      have h3 : doOutputEvents (e :: rest) = doOutputEvents ([e] ++ rest) := rfl
      rw [h3, doOutputEvents_append, h1, h2]
      rfl
  rw [this]
  simp

/-- The `doOutput` calls of the body of the loop of `outputSolutions`, when
the method that is called is `doOutput`: none for a process whose stored
status is not converged, and else one call on every output, in order. -/
theorem outputSolutionsBody_doOutputEvents (E : Env σ ω)
    (output_initial_condition : Bool) (timestep : Nat) (t : ℚ)
    (is_staggered_coupling : Bool) (process_data : ProcessData σ)
    (tl : TimeLoop σ ω) :
    doOutputEvents (outputSolutionsBody E output_initial_condition timestep t
        Event.doOutput is_staggered_coupling process_data tl).log =
      doOutputEvents tl.log ++
        (if process_data.nonlinear_solver_status.error_norms_met then
          (List.range tl._outputs.length).map (fun k =>
            { output := k, process_id := process_data.process_id,
              timestep := timestep, t := t })
        else []) ∧
    (outputSolutionsBody E output_initial_condition timestep t
        Event.doOutput is_staggered_coupling process_data tl)._outputs =
      tl._outputs := by
  have key : ∀ (tl2 : TimeLoop σ ω),
      Advances (fun e => decide (doOutputEvents [e] = [])) tl tl2 →
      ∀ (iterations : Int) (x : List GlobalVector),
      doOutputEvents (forAllOutputs E
        (fun k => Event.doOutput k process_data.process_id timestep t iterations x)
        0 tl2._outputs tl2).log =
      doOutputEvents tl.log ++
        (List.range tl._outputs.length).map (fun k =>
          { output := k, process_id := process_data.process_id,
            timestep := timestep, t := t }) := by
    intro tl2 h2 iterations x
    rw [forAllOutputs_doOutputEvents,
      advances_doOutputEvents _ tl tl2 (fun e he => by simpa using he) h2, h2.2.1]
    simp
  refine ⟨?_, (advances_outputSolutionsBody E _ _ _ _ _ _ _).2.1⟩
  rw [outputSolutionsBody]
  by_cases hmet : (!process_data.nonlinear_solver_status.error_norms_met) = true
  · rw [if_pos hmet]
    have hmet1 : process_data.nonlinear_solver_status.error_norms_met = false := by
      simpa using hmet
    rw [hmet1]
    simp
  · rw [if_neg hmet]
    have hmet1 : process_data.nonlinear_solver_status.error_norms_met = true := by
      simpa using hmet
    rw [if_pos hmet1]
    apply key
    apply advances_ite
    · repeat apply advances_call_of _ E _ _ _ rfl
      apply advances_ite
      · repeat apply advances_call_of _ E _ _ _ rfl
        exact Advances.refl _ _
      · exact Advances.refl _ _
    · apply advances_ite
      · repeat apply advances_call_of _ E _ _ _ rfl
        exact Advances.refl _ _
      · exact Advances.refl _ _

/-- The `doOutput` calls of `outputSolutions`, when the method that is called
is `doOutput`: one for each pair of a process whose stored status is
converged and an output, with the time step number modulo `2^32`. -/
theorem outputSolutions_doOutputEvents (E : Env σ ω)
    (output_initial_condition : Bool) (timestep : Nat) (t : ℚ)
    (tl : TimeLoop σ ω) :
    doOutputEvents (outputSolutions E output_initial_condition timestep t
        Event.doOutput tl).log =
      doOutputEvents tl.log ++
        outputCalls tl._per_process_data tl._outputs.length
          (timestep % 4294967296) t := by
  have key : ∀ (n : Nat) (b : Bool) (l : List (ProcessData σ))
      (tl1 : TimeLoop σ ω),
      doOutputEvents (outputSolutionsLoop E output_initial_condition n t
        Event.doOutput b l tl1).log =
      doOutputEvents tl1.log ++ outputCalls l tl1._outputs.length n t := by
    intro timestep
    intro b l
    induction l with
    | nil => intro tl1; simp [outputSolutionsLoop, outputCalls]
    | cons p rest ih =>
      intro tl1
      obtain ⟨h1, h2⟩ := outputSolutionsBody_doOutputEvents E
        output_initial_condition timestep t b p tl1
      rw [outputSolutionsLoop, ih, h1, h2]
      by_cases hmet : p.nonlinear_solver_status.error_norms_met = true
      · simp [outputCalls, List.filter_cons, hmet]
      · simp [outputCalls, List.filter_cons, hmet]
  exact key _ _ _ _

/-- The first loop of `computeTimeStepping` keeps the id and the stored
solver status of every process. -/
theorem firstLoop_keeps_status (E : Env σ ω) (x x_prev : List GlobalVector)
    (t : ℚ) :
    ∀ (l : List (ProcessData σ)) (i : Nat) (v : StepVars),
      (firstLoop E x x_prev t i l v).1.map
          (fun p => (p.process_id, p.nonlinear_solver_status)) =
        l.map (fun p => (p.process_id, p.nonlinear_solver_status)) := by
  intro l
  induction l with
  | nil => intro i v; rfl
  | cons q rest ih =>
    intro i v
    rw [firstLoop]
    simp only [List.map_cons, ih]
    rfl

/-- The second loop of `computeTimeStepping` keeps the id and the stored
solver status of every process. -/
theorem secondLoop_keeps_status (E : Env σ ω) (accepted : Bool)
    (t end_time dt : ℚ) :
    ∀ (l : List (ProcessData σ)) (i : Nat) (x x_prev : List GlobalVector),
      (secondLoop E accepted t end_time dt i l x x_prev).per_process_data.map
          (fun p => (p.process_id, p.nonlinear_solver_status)) =
        l.map (fun p => (p.process_id, p.nonlinear_solver_status)) := by
  intro l
  induction l with
  | nil => intro i x x_prev; rfl
  | cons q rest ih =>
    intro i x x_prev
    have hbody : ((secondLoopBody E accepted t end_time dt i q x x_prev).1.process_id,
        (secondLoopBody E accepted t end_time dt i q x
          x_prev).1.nonlinear_solver_status) =
        (q.process_id, q.nonlinear_solver_status) := by
      simp only [secondLoopBody]
      split_ifs <;> rfl
    rw [secondLoop]
    simp only [List.map_cons, ih, hbody]

/-- The `doOutput` calls that are due depend on the ids and the stored
statuses of the processes only. -/
theorem outputCalls_congr (outputs timestep : Nat) (t : ℚ) :
    ∀ (l1 l2 : List (ProcessData σ)),
      l1.map (fun p => (p.process_id, p.nonlinear_solver_status)) =
        l2.map (fun p => (p.process_id, p.nonlinear_solver_status)) →
      outputCalls l1 outputs timestep t = outputCalls l2 outputs timestep t := by
  intro l1
  induction l1 with
  | nil =>
    intro l2 h
    cases l2 with
    | nil => rfl
    | cons q rest => simp at h
  | cons p rest ih =>
    intro l2 h
    cases l2 with
    | nil => simp at h
    | cons q rest2 =>
      simp only [List.map_cons, List.cons.injEq, Prod.mk.injEq] at h
      obtain ⟨⟨hid, hst⟩, hrest⟩ := h
      have := ih rest2 hrest
      simp only [outputCalls, List.filter_cons, hst] at this ⊢
      by_cases hmet : q.nonlinear_solver_status.error_norms_met = true
      · simp only [hmet, if_true, List.map_cons, List.flatten_cons, this, hid]
      · have hmet1 : q.nonlinear_solver_status.error_norms_met = false := by
          simpa using hmet
        simp only [hmet1, Bool.false_eq_true, if_false, this]

/-- What a normal return of `computeTimeStepping` leaves of the outputs, the
log and the processes. -/
theorem computeTimeStepping_keeps (E : Env σ ω) (tl : TimeLoop σ ω)
    (prev_dt t : ℚ) (accepted_steps rejected_steps : Nat)
    (time_step_constraints : List (ℚ → ℚ → ℚ)) (s : TimeStepping σ ω)
    (hreturn : computeTimeStepping E tl prev_dt t accepted_steps rejected_steps
      time_step_constraints = Except.ok s) :
    s.time_loop._outputs = tl._outputs ∧ s.time_loop.log = tl.log ∧
      s.time_loop._per_process_data.map
          (fun p => (p.process_id, p.nonlinear_solver_status)) =
        tl._per_process_data.map
          (fun p => (p.process_id, p.nonlinear_solver_status)) := by
  rw [computeTimeStepping_eq] at hreturn
  by_cases hfatal : |constrainedDt E tl prev_dt t time_step_constraints - prev_dt|
      < eps ∧ stepRejected E tl t = true
  · rw [if_pos hfatal] at hreturn
    cases hreturn
  · rw [if_neg hfatal] at hreturn
    injection hreturn with hs
    subst hs
    refine ⟨rfl, rfl, ?_⟩
    simp only []
    rw [secondLoop_keeps_status, firstLoop_keeps_status]

/-- What `calculateNextTimeStep` returns when `computeTimeStepping` returns:
the answer is `false` exactly on the stop condition for the time and the
step size that `computeTimeStepping` left, and the time loop is the one that
`outputSolutions` leaves, or the one that `computeTimeStepping` left when
the step was rejected. -/
theorem calculateNextTimeStep_ok (E : Env σ ω) (tl : TimeLoop σ ω)
    (s : TimeStepping σ ω)
    (hs : computeTimeStepping E tl tl._dt tl._current_time tl._accepted_steps
      tl._rejected_steps (generateOutputTimeStepConstraints E tl
        (calculateUniqueFixedTimesForAllOutputs tl._outputs)) = Except.ok s) :
    calculateNextTimeStep E tl =
      Except.ok
        (decide (¬ stopCondition s.t s.dt tl._end_time),
         if !s.last_step_rejected then
           outputSolutions E false (tl._accepted_steps + 1) tl._current_time
             Event.doOutput (storeTimeStepping s)
         else storeTimeStepping s) := by
  obtain ⟨_, hend, _⟩ := computeTimeStepping_time_loop E tl _ _ _ _ _ s hs
  have hclock : clock (if (!s.last_step_rejected) = true then
        outputSolutions E false (tl._accepted_steps + 1) tl._current_time
          Event.doOutput (storeTimeStepping s)
      else storeTimeStepping s) = clock (storeTimeStepping s) := by
    split_ifs
    · exact (advances_outputSolutions E _ _ _ _ _).1
    · rfl
  unfold calculateNextTimeStep
  dsimp only
  rw [hs]
  dsimp only
  have hrej : (storeTimeStepping s)._last_step_rejected = s.last_step_rejected :=
    rfl
  rw [hrej]
  generalize (if (!s.last_step_rejected) = true then
        outputSolutions E false (tl._accepted_steps + 1) tl._current_time
          Event.doOutput (storeTimeStepping s)
      else storeTimeStepping s) = tlo at hclock ⊢
  have hc1 : tlo._current_time = s.t := congrArg Clock.current_time hclock
  have hc2 : tlo._end_time = tl._end_time :=
    (congrArg Clock.end_time hclock).trans hend
  have hc3 : tlo._dt = s.dt := congrArg Clock.dt hclock
  rw [hc1, hc2, hc3]
  by_cases h1 : |s.t - tl._end_time| < eps ∨ s.t + s.dt > tl._end_time
  · rw [if_pos h1]
    have : stopCondition s.t s.dt tl._end_time := by
      rcases h1 with h | h
      · exact Or.inl h
      · exact Or.inr (Or.inl h)
    simp [this]
  · rw [if_neg h1]
    by_cases h2 : s.dt < eps
    · rw [if_pos h2]
      have : stopCondition s.t s.dt tl._end_time := Or.inr (Or.inr h2)
      simp [this]
    · rw [if_neg h2]
      have : ¬ stopCondition s.t s.dt tl._end_time := by
        rintro (h | h | h)
        · exact h1 (Or.inl h)
        · exact h1 (Or.inr h)
        · exact h2 h
      simp [this]

/-- C24: when `computeTimeStepping` returns in it, `calculateNextTimeStep`
returns, and it returns `false` if and only if, for the time and the step
size left by `computeTimeStepping`, `|_current_time - _end_time| < eps` or
`_current_time + _dt > _end_time` or `_dt < eps`; so it returns `false`
whenever the time is the end time, and whenever it returns `true` then
`_dt >= eps` and `_current_time + _dt <= _end_time`. -/
theorem stop_condition (E : Env σ ω) (tl : TimeLoop σ ω) (s : TimeStepping σ ω)
    (hs : computeTimeStepping E tl tl._dt tl._current_time tl._accepted_steps
      tl._rejected_steps (generateOutputTimeStepConstraints E tl
        (calculateUniqueFixedTimesForAllOutputs tl._outputs)) = Except.ok s) :
    ∃ go_on tl1, calculateNextTimeStep E tl = Except.ok (go_on, tl1) ∧
      tl1._current_time = s.t ∧ tl1._dt = s.dt ∧ tl1._end_time = tl._end_time ∧
      (go_on = false ↔
        (|tl1._current_time - tl1._end_time| < eps ∨
          tl1._current_time + tl1._dt > tl1._end_time ∨ tl1._dt < eps)) ∧
      (tl1._current_time = tl1._end_time → go_on = false) ∧
      (go_on = true →
        eps ≤ tl1._dt ∧ tl1._current_time + tl1._dt ≤ tl1._end_time) := by
  obtain ⟨_, hend, _⟩ := computeTimeStepping_time_loop E tl _ _ _ _ _ s hs
  have hclock : clock (if (!s.last_step_rejected) = true then
        outputSolutions E false (tl._accepted_steps + 1) tl._current_time
          Event.doOutput (storeTimeStepping s)
      else storeTimeStepping s) = clock (storeTimeStepping s) := by
    split_ifs
    · exact (advances_outputSolutions E _ _ _ _ _).1
    · rfl
  have hok := calculateNextTimeStep_ok E tl s hs
  generalize (if (!s.last_step_rejected) = true then
        outputSolutions E false (tl._accepted_steps + 1) tl._current_time
          Event.doOutput (storeTimeStepping s)
      else storeTimeStepping s) = tlo at hclock hok
  have hc1 : tlo._current_time = s.t := congrArg Clock.current_time hclock
  have hc2 : tlo._end_time = tl._end_time :=
    (congrArg Clock.end_time hclock).trans hend
  have hc3 : tlo._dt = s.dt := congrArg Clock.dt hclock
  refine ⟨_, tlo, hok, hc1, hc3, hc2, ?_⟩
  rw [hc1, hc2, hc3]
  have hpos := eps_pos
  refine ⟨?_, ?_, ?_⟩
  · show decide (¬ stopCondition s.t s.dt tl._end_time) = false ↔
      stopCondition s.t s.dt tl._end_time
    simp
  · intro h
    have : stopCondition s.t s.dt tl._end_time := by
      left
      rw [h]
      simpa using hpos
    simp [this]
  · intro h
    have h1 : ¬ stopCondition s.t s.dt tl._end_time := by simpa using h
    refine ⟨not_lt.mp (fun h2 => h1 (Or.inr (Or.inr h2))), ?_⟩
    exact not_lt.mp (fun h2 => h1 (Or.inr (Or.inl h2)))

/-- C25 (counterexample): with `2^32 - 1` accepted steps before the call,
the step of `afterManySteps` is accepted and `doOutput` is called with the
time step number 0, not with `_accepted_steps + 1 = 2^32`: the parameter
`timestep` of `outputSolutions` is `unsigned`. -/
theorem output_after_step_counterexample :
    afterManySteps._accepted_steps + 1 = 4294967296 ∧
      observeNextStep (calculateNextTimeStep (scriptedEnv [] 0) afterManySteps) =
        some
          { go_on := true, current_time := 1 / 2, dt := 1 / 4,
            accepted_steps := 4294967296,
            output_calls :=
              [{ output := 0, process_id := 0, timestep := 0, t := 1 / 2 },
               { output := 1, process_id := 0, timestep := 0, t := 1 / 2 },
               { output := 0, process_id := 1, timestep := 0, t := 1 / 2 },
               { output := 1, process_id := 1, timestep := 0, t := 1 / 2 }] } := by
  refine ⟨by decide, by decide!⟩

/-- C25 (amended): when `computeTimeStepping` returns in it,
`calculateNextTimeStep` invokes `doOutput` if and only if
`computeTimeStepping` did not reject the step, and then once for each pair
of a process whose stored solver status is converged and an output, with the
time step number `(_accepted_steps + 1) mod 2^32` and the time
`_current_time` of before the call; the calls are made process by process,
for each process on the outputs in order. As long as `_accepted_steps + 1`
is below `2^32` the time step number is `_accepted_steps + 1`. -/
theorem output_after_step (E : Env σ ω) (tl : TimeLoop σ ω)
    (s : TimeStepping σ ω)
    (hs : computeTimeStepping E tl tl._dt tl._current_time tl._accepted_steps
      tl._rejected_steps (generateOutputTimeStepConstraints E tl
        (calculateUniqueFixedTimesForAllOutputs tl._outputs)) = Except.ok s) :
    (∃ go_on tl1, calculateNextTimeStep E tl = Except.ok (go_on, tl1) ∧
      doOutputEvents tl1.log =
        doOutputEvents tl.log ++
          (if s.last_step_rejected then []
           else outputCalls tl._per_process_data tl._outputs.length
             ((tl._accepted_steps + 1) % 4294967296) tl._current_time)) ∧
    (tl._accepted_steps + 1 < 4294967296 →
      ∃ go_on tl1, calculateNextTimeStep E tl = Except.ok (go_on, tl1) ∧
        doOutputEvents tl1.log =
          doOutputEvents tl.log ++
            (if s.last_step_rejected then []
             else outputCalls tl._per_process_data tl._outputs.length
               (tl._accepted_steps + 1) tl._current_time)) := by
  obtain ⟨houtputs, hlog, hstatus⟩ := computeTimeStepping_keeps E tl _ _ _ _ _ s hs
  suffices hmain : ∃ go_on tl1, calculateNextTimeStep E tl = Except.ok (go_on, tl1) ∧
      doOutputEvents tl1.log =
        doOutputEvents tl.log ++
          (if s.last_step_rejected then []
           else outputCalls tl._per_process_data tl._outputs.length
             ((tl._accepted_steps + 1) % 4294967296) tl._current_time) by
    refine ⟨hmain, fun hlt => ?_⟩
    rw [Nat.mod_eq_of_lt hlt] at hmain
    exact hmain
  refine ⟨_, _, calculateNextTimeStep_ok E tl s hs, ?_⟩
  by_cases hrej : s.last_step_rejected = true
  · have h1 : (!s.last_step_rejected) = false := by simp [hrej]
    rw [h1, if_pos hrej]
    show doOutputEvents s.time_loop.log = _
    rw [hlog]
    simp
  · have hrej1 : s.last_step_rejected = false := by simpa using hrej
    have h1 : (!s.last_step_rejected) = true := by simp [hrej1]
    rw [h1, if_neg hrej]
    simp only [if_true]
    rw [outputSolutions_doOutputEvents]
    have h2 : (storeTimeStepping s).log = tl.log := hlog
    have h3 : (storeTimeStepping s)._outputs = tl._outputs := houtputs
    have h4 : (storeTimeStepping s)._per_process_data = s.time_loop._per_process_data :=
      rfl
    rw [h2, h3, h4, outputCalls_congr _ _ _ _ _ hstatus]

/-- C24 (witness): after the first step of `afterFirstStep` the time is
`1/2`, the new step size is `1/4` and the end time is 2: the answer is
`true`. -/
theorem stop_condition_witness :
    observeNextStep (calculateNextTimeStep (scriptedEnv [] 0) afterFirstStep) =
      some
        { go_on := true, current_time := 1 / 2, dt := 1 / 4, accepted_steps := 1,
          output_calls :=
            [{ output := 0, process_id := 0, timestep := 1, t := 1 / 2 },
             { output := 1, process_id := 0, timestep := 1, t := 1 / 2 },
             { output := 0, process_id := 1, timestep := 1, t := 1 / 2 },
             { output := 1, process_id := 1, timestep := 1, t := 1 / 2 }] } ∧
    ∃ s, computeTimeStepping (scriptedEnv [] 0) afterFirstStep afterFirstStep._dt
        afterFirstStep._current_time afterFirstStep._accepted_steps
        afterFirstStep._rejected_steps
        (generateOutputTimeStepConstraints (scriptedEnv [] 0) afterFirstStep
          (calculateUniqueFixedTimesForAllOutputs afterFirstStep._outputs)) =
        Except.ok s ∧
      ∃ go_on tl1, calculateNextTimeStep (scriptedEnv [] 0) afterFirstStep =
          Except.ok (go_on, tl1) ∧
        tl1._current_time = s.t ∧ tl1._dt = s.dt ∧
        tl1._end_time = afterFirstStep._end_time ∧
        (go_on = false ↔
          (|tl1._current_time - tl1._end_time| < eps ∨
            tl1._current_time + tl1._dt > tl1._end_time ∨ tl1._dt < eps)) ∧
        (tl1._current_time = tl1._end_time → go_on = false) ∧
        (go_on = true →
          eps ≤ tl1._dt ∧ tl1._current_time + tl1._dt ≤ tl1._end_time) := by
  refine ⟨by decide!, ?_⟩
  obtain ⟨s, hs⟩ := exists_ok_of_observe
    (computeTimeStepping (scriptedEnv [] 0) afterFirstStep afterFirstStep._dt
      afterFirstStep._current_time afterFirstStep._accepted_steps
      afterFirstStep._rejected_steps
      (generateOutputTimeStepConstraints (scriptedEnv [] 0) afterFirstStep
        (calculateUniqueFixedTimesForAllOutputs afterFirstStep._outputs)))
    (by decide!)
  exact ⟨s, hs, stop_condition (scriptedEnv [] 0) afterFirstStep s hs⟩

/-- C25 (witness): the step of `afterFirstStep` is not rejected, and
`doOutput` is called for the two processes on the two outputs with the time
step 1 and the time `1/2`. -/
theorem output_after_step_witness :
    ∃ s, computeTimeStepping (scriptedEnv [] 0) afterFirstStep afterFirstStep._dt
        afterFirstStep._current_time afterFirstStep._accepted_steps
        afterFirstStep._rejected_steps
        (generateOutputTimeStepConstraints (scriptedEnv [] 0) afterFirstStep
          (calculateUniqueFixedTimesForAllOutputs afterFirstStep._outputs)) =
        Except.ok s ∧
      s.last_step_rejected = false ∧
      outputCalls afterFirstStep._per_process_data afterFirstStep._outputs.length
          ((afterFirstStep._accepted_steps + 1) % 4294967296)
          afterFirstStep._current_time =
        [{ output := 0, process_id := 0, timestep := 1, t := 1 / 2 },
         { output := 1, process_id := 0, timestep := 1, t := 1 / 2 },
         { output := 0, process_id := 1, timestep := 1, t := 1 / 2 },
         { output := 1, process_id := 1, timestep := 1, t := 1 / 2 }] ∧
      ∃ go_on tl1, calculateNextTimeStep (scriptedEnv [] 0) afterFirstStep =
          Except.ok (go_on, tl1) ∧
        doOutputEvents tl1.log =
          doOutputEvents afterFirstStep.log ++
            (if s.last_step_rejected then []
             else outputCalls afterFirstStep._per_process_data
               afterFirstStep._outputs.length
               ((afterFirstStep._accepted_steps + 1) % 4294967296)
               afterFirstStep._current_time) := by
  have hobs : observe (computeTimeStepping (scriptedEnv [] 0) afterFirstStep
      afterFirstStep._dt afterFirstStep._current_time afterFirstStep._accepted_steps
      afterFirstStep._rejected_steps
      (generateOutputTimeStepConstraints (scriptedEnv [] 0) afterFirstStep
        (calculateUniqueFixedTimesForAllOutputs afterFirstStep._outputs))) =
      some
        { dt := 1 / 4, last_step_rejected := false, t := 1 / 2,
          accepted_steps := 1, rejected_steps := 0, x := [[5], [6]],
          x_prev := [[5], [6]] } := by decide!
  obtain ⟨s, hs⟩ := exists_ok_of_observe _ (by rw [hobs]; simp)
  rw [hs] at hobs
  have hrej : s.last_step_rejected = false := by
    simp only [observe, Option.some.injEq] at hobs
    exact congrArg Observation.last_step_rejected hobs
  exact ⟨s, hs, hrej, by decide!,
    (output_after_step (scriptedEnv [] 0) afterFirstStep s hs).1⟩

/-! ### The fixed output times -/

/-- The values that `std::unique` keeps are the values of the list. -/
theorem mem_unique : ∀ (l : List ℚ) (t : ℚ), t ∈ unique l ↔ t ∈ l := by
  intro l
  induction l with
  | nil => intro t; rfl
  | cons a rest ih =>
    intro t
    cases rest with
    | nil => rfl
    | cons b rest =>
      by_cases hab : a = b
      · rw [unique, if_pos hab, ih t, hab]
        simp
      · rw [unique, if_neg hab, List.mem_cons, ih t]
        simp

/-- On a sorted list `std::unique` leaves a strictly increasing list. -/
theorem unique_sorted : ∀ l : List ℚ, List.Pairwise (· ≤ ·) l →
    List.Pairwise (· < ·) (unique l) := by
  intro l
  induction l with
  | nil => intro _; exact List.Pairwise.nil
  | cons a rest ih =>
    intro h
    cases rest with
    | nil => exact List.pairwise_singleton _ _
    | cons b rest =>
      have hrest := ih (List.Pairwise.of_cons h)
      by_cases hab : a = b
      · rw [unique, if_pos hab]
        exact hrest
      · rw [unique, if_neg hab, List.pairwise_cons]
        refine ⟨?_, hrest⟩
        intro c hc
        have hc1 : c ∈ b :: rest := (mem_unique _ c).mp hc
        have hab1 : a ≤ b := List.rel_of_pairwise_cons h (List.mem_cons_self _ _)
        have hbc : b ≤ c := by
          rcases List.mem_cons.mp hc1 with h1 | h1
          · rw [h1]
          · exact List.rel_of_pairwise_cons (List.Pairwise.of_cons h) h1
        exact lt_of_lt_of_le (lt_of_le_of_ne hab1 hab) hbc

/-- The values collected by the loop over the outputs. -/
theorem mem_collected_fixed_times (t : ℚ) :
    ∀ (outputs : List Output) (fixed_times : List ℚ),
      t ∈ outputs.foldl (fun fixed_times output =>
          fixed_times ++ output.fixed_output_times) fixed_times ↔
        t ∈ fixed_times ∨ ∃ o ∈ outputs, t ∈ o.fixed_output_times := by
  intro outputs
  induction outputs with
  | nil => intro fixed_times; simp
  | cons o rest ih =>
    intro fixed_times
    rw [List.foldl_cons, ih, List.mem_append]
    constructor
    · rintro ((h | h) | ⟨o1, ho1, h⟩)
      · exact Or.inl h
      · exact Or.inr ⟨o, List.mem_cons_self _ _, h⟩
      · exact Or.inr ⟨o1, List.mem_cons_of_mem _ ho1, h⟩
    · rintro (h | ⟨o1, ho1, h⟩)
      · exact Or.inl (Or.inl h)
      · rcases List.mem_cons.mp ho1 with h1 | h1
        · rw [h1] at h
          exact Or.inl (Or.inr h)
        · exact Or.inr ⟨o1, h1, h⟩

/-- C26: for every list of outputs, `calculateUniqueFixedTimesForAllOutputs`
returns a strictly increasing list whose values are exactly the fixed output
times of the outputs. -/
theorem unique_fixed_times (outputs : List Output) :
    List.Pairwise (· < ·) (calculateUniqueFixedTimesForAllOutputs outputs) ∧
      ∀ t : ℚ, t ∈ calculateUniqueFixedTimesForAllOutputs outputs ↔
        ∃ o ∈ outputs, t ∈ o.fixed_output_times := by
  unfold calculateUniqueFixedTimesForAllOutputs
  refine ⟨unique_sorted _ (List.sorted_insertionSort (· ≤ ·) _), ?_⟩
  intro t
  rw [mem_unique, (List.perm_insertionSort (· ≤ ·) _).mem_iff,
    mem_collected_fixed_times]
  simp

end ProcessLib

namespace NumLib.SerialExecutor

variable {α ω : Type}

/-! ### Selected execution -/

/-- The loop over all elements makes the calls for all elements, in
order. -/
theorem executeMemberDereferencedLoop_eq (method : Nat → α → ω → ω) :
    ∀ (container : List α) (i : Nat) (w : ω),
      executeMemberDereferencedLoop method i container w =
        (allCalls i container).foldl (fun w c => method c.1 c.2 w) w := by
  intro container
  induction container with
  | nil => intro i w; rfl
  | cons a rest ih =>
    intro i w
    rw [executeMemberDereferencedLoop, ih]
    rfl

/-- The loop over all elements makes the calls for all elements, in
order. -/
theorem executeMemberOnDereferencedLoop_eq (method : α → Nat → ω → ω) :
    ∀ (container : List α) (i : Nat) (w : ω),
      executeMemberOnDereferencedLoop method i container w =
        (allCalls i container).foldl (fun w c => method c.2 c.1 w) w := by
  intro container
  induction container with
  | nil => intro i w; rfl
  | cons a rest ih =>
    intro i w
    rw [executeMemberOnDereferencedLoop, ih]
    rfl

/-- The loop over the active ids makes the calls for these ids, in order,
when they are within the container. -/
theorem executeSelectedMemberDereferencedLoop_eq (method : Nat → α → ω → ω)
    (container : List α) :
    ∀ (ids : List Nat) (w : ω), (∀ id ∈ ids, id < container.length) →
      executeSelectedMemberDereferencedLoop method container ids w =
        some ((selectedCalls container ids).foldl (fun w c => method c.1 c.2 w)
          w) := by
  intro ids
  induction ids with
  | nil => intro w _; rfl
  | cons id rest ih =>
    intro w h
    have hid : id < container.length := h id (List.mem_cons_self _ _)
    rw [executeSelectedMemberDereferencedLoop, List.getElem?_eq_getElem hid]
    simp only []
    rw [ih _ (fun j hj => h j (List.mem_cons_of_mem _ hj))]
    simp [selectedCalls, List.filterMap_cons, List.getElem?_eq_getElem hid]

/-- The loop over the active ids makes the calls for these ids, in order,
when they are within the container. -/
theorem executeSelectedMemberOnDereferencedLoop_eq (method : α → Nat → ω → ω)
    (container : List α) :
    ∀ (ids : List Nat) (w : ω), (∀ id ∈ ids, id < container.length) →
      executeSelectedMemberOnDereferencedLoop method container ids w =
        some ((selectedCalls container ids).foldl (fun w c => method c.2 c.1 w)
          w) := by
  intro ids
  induction ids with
  | nil => intro w _; rfl
  | cons id rest ih =>
    intro w h
    have hid : id < container.length := h id (List.mem_cons_self _ _)
    rw [executeSelectedMemberOnDereferencedLoop, List.getElem?_eq_getElem hid]
    simp only []
    rw [ih _ (fun j hj => h j (List.mem_cons_of_mem _ hj))]
    simp [selectedCalls, List.filterMap_cons, List.getElem?_eq_getElem hid]

/-- The calls that are due for ids within the container are the calls
`(id, container[id])` for the ids of the list, in its order. -/
theorem selectedCalls_spec (container : List α) :
    ∀ ids : List Nat, (∀ id ∈ ids, id < container.length) →
      (selectedCalls container ids).map Prod.fst = ids ∧
        ∀ c ∈ selectedCalls container ids, container[c.1]? = some c.2 := by
  intro ids
  induction ids with
  | nil => intro _; exact ⟨rfl, fun c hc => by cases hc⟩
  | cons id rest ih =>
    intro h
    have hid : id < container.length := h id (List.mem_cons_self _ _)
    obtain ⟨h1, h2⟩ := ih (fun j hj => h j (List.mem_cons_of_mem _ hj))
    have hcons : selectedCalls container (id :: rest) =
        (id, container[id]) :: selectedCalls container rest := by
      simp [selectedCalls, List.filterMap_cons, List.getElem?_eq_getElem hid]
    rw [hcons]
    refine ⟨by simp [h1], ?_⟩
    intro c hc
    rcases List.mem_cons.mp hc with h3 | h3
    · rw [h3]
      exact List.getElem?_eq_getElem hid
    · exact h2 c h3

/-- C23 (counterexample): with an empty list of active ids the method is
invoked on every element of the container, not on none: for the container
`[10, 20, 30]` the recorded calls are `(0, 10)`, `(1, 20)`, `(2, 30)`. -/
theorem selected_execution_counterexample :
    executeSelectedMemberDereferenced record [10, 20, 30] [] ([] : List (Nat × Nat)) =
        some [(0, 10), (1, 20), (2, 30)] ∧
      executeSelectedMemberOnDereferenced recordOn [10, 20, 30] []
          ([] : List (Nat × Nat)) =
        some [(0, 10), (1, 20), (2, 30)] ∧
      selectedCalls [10, 20, 30] [] = ([] : List (Nat × Nat)) := by
  refine ⟨by decide, by decide, by decide⟩

/-- C23 (amended): for every container, `executeSelectedMemberDereferenced`
with a non-empty list of active ids that are within the container invokes
the method once for each id of the list, in list order, with the arguments
`(id, *container[id])`, and on no other element; with an empty list it
invokes the method on every element of the container, in the order of the
container, with the arguments `(i, *container[i])`. The same holds for
`executeSelectedMemberOnDereferenced`, where the method is invoked on
`*container[id]` with the argument `id`. -/
theorem selected_execution (container : List α) (active_container_ids : List Nat)
    (hvalid : ∀ id ∈ active_container_ids, id < container.length) :
    (selectedCalls container active_container_ids).map Prod.fst =
        active_container_ids ∧
    (∀ c ∈ selectedCalls container active_container_ids,
      container[c.1]? = some c.2) ∧
    (∀ (method : Nat → α → ω → ω) (w : ω),
      executeSelectedMemberDereferenced method container active_container_ids w =
        some
          ((if active_container_ids = [] then allCalls 0 container
            else selectedCalls container active_container_ids).foldl
            (fun w c => method c.1 c.2 w) w)) ∧
    (∀ (method : α → Nat → ω → ω) (w : ω),
      executeSelectedMemberOnDereferenced method container active_container_ids w =
        some
          ((if active_container_ids = [] then allCalls 0 container
            else selectedCalls container active_container_ids).foldl
            (fun w c => method c.2 c.1 w) w)) := by
  obtain ⟨h1, h2⟩ := selectedCalls_spec container active_container_ids hvalid
  refine ⟨h1, h2, ?_, ?_⟩
  · intro method w
    unfold executeSelectedMemberDereferenced
    by_cases hnil : active_container_ids = []
    · rw [if_pos hnil, hnil]
      simp only [List.isEmpty_nil, if_true, executeMemberDereferenced,
        executeMemberDereferencedLoop_eq]
    · rw [if_neg hnil, if_neg (by simpa using hnil)]
      exact executeSelectedMemberDereferencedLoop_eq method container _ w hvalid
  · intro method w
    unfold executeSelectedMemberOnDereferenced
    by_cases hnil : active_container_ids = []
    · rw [if_pos hnil, hnil]
      simp only [List.isEmpty_nil, if_true, executeMemberOnDereferenced,
        executeMemberOnDereferencedLoop_eq]
    · rw [if_neg hnil, if_neg (by simpa using hnil)]
      exact executeSelectedMemberOnDereferencedLoop_eq method container _ w hvalid

/-- C23 (witness): on the container `[10, 20, 30]` with the active ids
`[2, 0, 2]` the recorded calls are `(2, 30)`, `(0, 10)`, `(2, 30)`. -/
theorem selected_execution_witness :
    executeSelectedMemberDereferenced record [10, 20, 30] [2, 0, 2]
        ([] : List (Nat × Nat)) = some [(2, 30), (0, 10), (2, 30)] ∧
      executeSelectedMemberOnDereferenced recordOn [10, 20, 30] [2, 0, 2]
        ([] : List (Nat × Nat)) = some [(2, 30), (0, 10), (2, 30)] ∧
      (selectedCalls [10, 20, 30] [2, 0, 2]).map Prod.fst = [2, 0, 2] := by
  have h := selected_execution (ω := List (Nat × Nat)) [10, 20, 30] [2, 0, 2]
    (by decide)
  refine ⟨?_, ?_, h.1⟩
  · rw [h.2.2.1 record []]
    decide
  · rw [h.2.2.2 recordOn []]
    decide

end NumLib.SerialExecutor

namespace BaseLib

/-- The values that `std::unique` keeps are the values of the list. -/
theorem mem_unique_ids : ∀ (l : List Nat) (t : Nat), t ∈ unique l ↔ t ∈ l := by
  intro l
  induction l with
  | nil => intro t; rfl
  | cons a rest ih =>
    intro t
    cases rest with
    | nil => rfl
    | cons b rest =>
      by_cases hab : a = b
      · rw [unique, if_pos hab, ih t, hab]
        simp
      · rw [unique, if_neg hab, List.mem_cons, ih t]
        simp

/-- On a sorted list `std::unique` leaves a strictly increasing list. -/
theorem unique_ids_sorted : ∀ l : List Nat, List.Pairwise (· ≤ ·) l →
    List.Pairwise (· < ·) (unique l) := by
  intro l
  induction l with
  | nil => intro _; exact List.Pairwise.nil
  | cons a rest ih =>
    intro h
    cases rest with
    | nil => exact List.pairwise_singleton _ _
    | cons b rest =>
      have hrest := ih (List.Pairwise.of_cons h)
      by_cases hab : a = b
      · rw [unique, if_pos hab]
        exact hrest
      · rw [unique, if_neg hab, List.pairwise_cons]
        refine ⟨?_, hrest⟩
        intro c hc
        have hc1 : c ∈ b :: rest := (mem_unique_ids _ c).mp hc
        have hab1 : a ≤ b := List.rel_of_pairwise_cons h (List.mem_cons_self _ _)
        have hbc : b ≤ c := by
          rcases List.mem_cons.mp hc1 with h1 | h1
          · rw [h1]
          · exact List.rel_of_pairwise_cons (List.Pairwise.of_cons h) h1
        exact lt_of_lt_of_le (lt_of_le_of_ne hab1 hab) hbc

/-- The function `makeVectorUnique` leaves a strictly increasing list with
the values of the vector. -/
theorem makeVectorUnique_spec (v : List Nat) :
    List.Pairwise (· < ·) (makeVectorUnique v) ∧
      ∀ t, t ∈ makeVectorUnique v ↔ t ∈ v := by
  unfold makeVectorUnique
  refine ⟨unique_ids_sorted _ (List.sorted_insertionSort (· ≤ ·) _), fun t => ?_⟩
  rw [mem_unique_ids, (List.perm_insertionSort (· ≤ ·) _).mem_iff]

end BaseLib

namespace MeshLib

/-! ### The marked elements of a search -/

/-- The ids that the loop of `filter` adds are the positions, from `i` on, of
the values that satisfy the predicate; the list stays strictly increasing. -/
theorem filterLoop_spec {α : Type} (p : α → Bool) :
    ∀ (l : List α) (i : Nat) (matchedIDs : List Nat),
      (∀ id, id ∈ filterLoop p i l matchedIDs ↔
        id ∈ matchedIDs ∨ ∃ j e, l[j]? = some e ∧ p e = true ∧ id = i + j) ∧
      (List.Pairwise (· < ·) matchedIDs → (∀ a ∈ matchedIDs, a < i) →
        List.Pairwise (· < ·) (filterLoop p i l matchedIDs)) := by
  intro l
  induction l with
  | nil =>
    intro i matchedIDs
    refine ⟨fun id => ?_, fun h _ => h⟩
    simp [filterLoop]
  | cons value rest ih =>
    intro i matchedIDs
    obtain ⟨h1, h2⟩ := ih (i + 1) (if p value then matchedIDs ++ [i] else matchedIDs)
    rw [filterLoop]
    refine ⟨fun id => ?_, fun hp hlt => ?_⟩
    · rw [h1 id]
      constructor
      · rintro (h | ⟨j, e, hj, hpe, hid⟩)
        · by_cases hv : p value = true
          · rw [if_pos hv] at h
            rcases List.mem_append.mp h with h3 | h3
            · exact Or.inl h3
            · rw [List.mem_singleton] at h3
              exact Or.inr ⟨0, value, List.getElem?_cons_zero, hv, by rw [h3]; rfl⟩
          · rw [if_neg hv] at h
            exact Or.inl h
        · exact Or.inr ⟨j + 1, e, by simpa using hj, hpe, by omega⟩
      · rintro (h | ⟨j, e, hj, hpe, hid⟩)
        · left
          split_ifs
          · exact List.mem_append_left _ h
          · exact h
        · cases j with
          | zero =>
            simp only [List.getElem?_cons_zero, Option.some.injEq] at hj
            subst hj
            left
            rw [if_pos hpe, hid]
            simp
          | succ j =>
            simp only [List.getElem?_cons_succ] at hj
            exact Or.inr ⟨j, e, hj, hpe, by omega⟩
    · apply h2
      · split_ifs
        · rw [List.pairwise_append]
          refine ⟨hp, List.pairwise_singleton _ _, ?_⟩
          intro a ha b hb
          rw [List.mem_singleton] at hb
          rw [hb]
          exact hlt a ha
        · exact hp
      · intro a ha
        split_ifs at ha
        · rcases List.mem_append.mp ha with h3 | h3
          · exact Nat.lt_succ_of_lt (hlt a h3)
          · rw [List.mem_singleton] at h3
            omega
        · exact Nat.lt_succ_of_lt (hlt a ha)

/-- The ids that `filter` returns: a strictly increasing list of the
positions of the values that satisfy the predicate. -/
theorem filter_spec {α : Type} (container : List α) (p : α → Bool) :
    List.Pairwise (· < ·) (filter container p) ∧
      ∀ id, id ∈ filter container p ↔
        ∃ e, container[id]? = some e ∧ p e = true := by
  obtain ⟨h1, h2⟩ := filterLoop_spec p container 0 []
  refine ⟨h2 List.Pairwise.nil (fun a ha => by cases ha), fun id => ?_⟩
  rw [filter, h1 id]
  constructor
  · rintro (h | ⟨j, e, hj, hpe, hid⟩)
    · cases h
    · exact ⟨e, by rw [hid, Nat.zero_add]; exact hj, hpe⟩
  · rintro ⟨e, he, hpe⟩
    exact Or.inr ⟨id, e, he, hpe, by omega⟩

/-- The values of `std::set_union` are the values of the two ranges, and
the result of two strictly increasing ranges is strictly increasing. -/
theorem set_union_spec :
    ∀ (l1 l2 : List Nat),
      (∀ x, x ∈ set_union l1 l2 ↔ x ∈ l1 ∨ x ∈ l2) ∧
      (List.Pairwise (· < ·) l1 → List.Pairwise (· < ·) l2 →
        List.Pairwise (· < ·) (set_union l1 l2)) := by
  intro l1
  induction l1 with
  | nil =>
    intro l2
    refine ⟨fun x => ?_, fun _ h => h⟩
    simp [set_union]
  | cons a l1 ih =>
    intro l2
    rw [set_union]
    induction l2 with
    | nil =>
      obtain ⟨h1, h2⟩ := ih []
      rw [set_unionFront]
      refine ⟨fun x => ?_, fun hp _ => ?_⟩
      · rw [List.mem_cons, h1 x]
        simp
      · rw [List.pairwise_cons]
        refine ⟨?_, h2 (List.Pairwise.of_cons hp) List.Pairwise.nil⟩
        intro c hc
        rcases (h1 c).mp hc with h3 | h3
        · exact List.rel_of_pairwise_cons hp h3
        · cases h3
    | cons b l2 ih2 =>
      rw [set_unionFront]
      by_cases hba : b < a
      · rw [if_pos hba]
        obtain ⟨g1, g2⟩ := ih2
        refine ⟨fun x => ?_, fun hp1 hp2 => ?_⟩
        · rw [List.mem_cons, g1 x, List.mem_cons (a := x) (b := b)]
          tauto
        · rw [List.pairwise_cons]
          refine ⟨?_, g2 hp1 (List.Pairwise.of_cons hp2)⟩
          intro c hc
          rcases (g1 c).mp hc with h3 | h3
          · rcases List.mem_cons.mp h3 with h4 | h4
            · rw [h4]
              exact hba
            · exact lt_trans hba (List.rel_of_pairwise_cons hp1 h4)
          · exact List.rel_of_pairwise_cons hp2 h3
      · rw [if_neg hba]
        by_cases hab : a < b
        · rw [if_pos hab]
          obtain ⟨h1, h2⟩ := ih (b :: l2)
          refine ⟨fun x => ?_, fun hp1 hp2 => ?_⟩
          · rw [List.mem_cons, h1 x, List.mem_cons (a := x) (b := a)]
            tauto
          · rw [List.pairwise_cons]
            refine ⟨?_, h2 (List.Pairwise.of_cons hp1) hp2⟩
            intro c hc
            rcases (h1 c).mp hc with h3 | h3
            · exact List.rel_of_pairwise_cons hp1 h3
            · rcases List.mem_cons.mp h3 with h4 | h4
              · rw [h4]
                exact hab
              · exact lt_trans hab (List.rel_of_pairwise_cons hp2 h4)
        · rw [if_neg hab]
          have heq : a = b := by omega
          obtain ⟨h1, h2⟩ := ih l2
          refine ⟨fun x => ?_, fun hp1 hp2 => ?_⟩
          · rw [List.mem_cons, h1 x, List.mem_cons (a := x) (b := a),
              List.mem_cons (a := x) (b := b), heq]
            tauto
          · rw [List.pairwise_cons]
            refine ⟨?_, h2 (List.Pairwise.of_cons hp1) (List.Pairwise.of_cons hp2)⟩
            intro c hc
            rcases (h1 c).mp hc with h3 | h3
            · exact List.rel_of_pairwise_cons hp1 h3
            · rw [heq]
              exact List.rel_of_pairwise_cons hp2 h3

/-- What a search leaves when it has matched the ids of a strictly
increasing list: the marked elements stay strictly increasing, they are
the matched ids and those marked before, and the length of the list is the
number of the matched ids. -/
theorem updateUnion_spec (s : ElementSearch) (matchedIDs : List Nat)
    (M : Nat → Prop) (hsorted : List.Pairwise (· < ·) matchedIDs)
    (hmem : ∀ id, id ∈ matchedIDs ↔ M id)
    (hp : List.Pairwise (· < ·) s._marked_elements) :
    (s.updateUnion matchedIDs)._mesh = s._mesh ∧
      List.Pairwise (· < ·) (s.updateUnion matchedIDs)._marked_elements ∧
      (∀ id, id ∈ (s.updateUnion matchedIDs)._marked_elements ↔
        M id ∨ id ∈ s._marked_elements) ∧
      ∃ ids : Finset Nat, (∀ id, id ∈ ids ↔ M id) ∧
        matchedIDs.length = ids.card := by
  obtain ⟨h1, h2⟩ := set_union_spec matchedIDs s._marked_elements
  refine ⟨rfl, h2 hsorted hp, fun id => ?_, matchedIDs.toFinset, fun id => ?_, ?_⟩
  · show id ∈ set_union matchedIDs s._marked_elements ↔ _
    rw [h1 id, hmem id]
  · rw [List.mem_toFinset, hmem id]
  · rw [List.toFinset_card_of_nodup]
    exact hsorted.imp (fun h => ne_of_lt h)

/-- The ids that the loop of `searchByNodeIDs` collects, when the node ids
are within the vector of the connected elements. -/
theorem collectConnectedElements_spec (mesh : Mesh) :
    ∀ (nodes : List Nat) (connected_elements : List Nat),
      (∀ node_id ∈ nodes, node_id < mesh._elements_connected_to_nodes.length) →
      ∃ collected,
        collectConnectedElements mesh nodes connected_elements = some collected ∧
        ∀ id, id ∈ collected ↔
          id ∈ connected_elements ∨
            ∃ node_id ∈ nodes, ∃ elements,
              mesh._elements_connected_to_nodes[node_id]? = some elements ∧
                ∃ e ∈ elements, e.id = id := by
  intro nodes
  induction nodes with
  | nil =>
    intro connected_elements _
    exact ⟨connected_elements, rfl, fun id => by simp⟩
  | cons node_id rest ih =>
    intro connected_elements hvalid
    have hlt := hvalid node_id (List.mem_cons_self _ _)
    obtain ⟨collected, h1, h2⟩ := ih
      (connected_elements ++
        (mesh._elements_connected_to_nodes[node_id]).map (fun e => e.id))
      (fun n hn => hvalid n (List.mem_cons_of_mem _ hn))
    refine ⟨collected, ?_, fun id => ?_⟩
    · rw [collectConnectedElements, Mesh.getElementsConnectedToNode,
        List.getElem?_eq_getElem hlt]
      exact h1
    · rw [h2 id, List.mem_append, List.mem_map]
      constructor
      · rintro ((h | ⟨e, he, hid⟩) | ⟨n, hn, elements, hel, e, he, hid⟩)
        · exact Or.inl h
        · exact Or.inr ⟨node_id, List.mem_cons_self _ _, _,
            List.getElem?_eq_getElem hlt, e, he, hid⟩
        · exact Or.inr ⟨n, List.mem_cons_of_mem _ hn, elements, hel, e, he, hid⟩
      · rintro (h | ⟨n, hn, elements, hel, e, he, hid⟩)
        · exact Or.inl (Or.inl h)
        · rcases List.mem_cons.mp hn with h3 | h3
          · subst h3
            rw [List.getElem?_eq_getElem hlt, Option.some.injEq] at hel
            subst hel
            exact Or.inl (Or.inr ⟨e, he, hid⟩)
          · exact Or.inr ⟨n, h3, elements, hel, e, he, hid⟩

/-- What one search does: it returns, the marked elements stay strictly
increasing, they are the ids matched by the search and those marked before,
and the value returned is the number of the ids matched by the search. -/
theorem search_spec (s : ElementSearch) (q : Search) (hvalid : q.valid s._mesh)
    (hp : List.Pairwise (· < ·) s._marked_elements) :
    ∃ n s1, s.search q = some (n, s1) ∧ s1._mesh = s._mesh ∧
      List.Pairwise (· < ·) s1._marked_elements ∧
      (∀ id, id ∈ s1._marked_elements ↔
        q.matched s._mesh id ∨ id ∈ s._marked_elements) ∧
      ∃ ids : Finset Nat, (∀ id, id ∈ ids ↔ q.matched s._mesh id) ∧
        n = ids.card := by
  cases q with
  | byElementType eleType =>
    obtain ⟨h1, h2⟩ := filter_spec s._mesh._elements (fun e => e.geom_type == eleType)
    exact ⟨_, _, rfl, updateUnion_spec s _ _ h1
      (fun id => by rw [h2 id]; simp [Search.matched]) hp⟩
  | byContent eps =>
    obtain ⟨h1, h2⟩ := filter_spec s._mesh._elements
      (fun e => decide (e.content < eps))
    exact ⟨_, _, rfl, updateUnion_spec s _ _ h1
      (fun id => by rw [h2 id]; simp [Search.matched]) hp⟩
  | byBoundingBox aabb =>
    obtain ⟨h1, h2⟩ := filter_spec s._mesh._elements
      (fun e => e.nodes.any (fun node => aabb.containsPoint node 0))
    exact ⟨_, _, rfl, updateUnion_spec s _ _ h1
      (fun id => by rw [h2 id]; simp [Search.matched]) hp⟩
  | byNodeIDs nodes =>
    obtain ⟨collected, h1, h2⟩ := collectConnectedElements_spec s._mesh nodes []
      hvalid
    obtain ⟨h3, h4⟩ := BaseLib.makeVectorUnique_spec collected
    refine ⟨_, _, ?_, updateUnion_spec s (BaseLib.makeVectorUnique collected)
      (Search.matched s._mesh (Search.byNodeIDs nodes)) h3 (fun id => ?_) hp⟩
    · simp only [ElementSearch.search, ElementSearch.searchByNodeIDs, h1]
    · rw [h4 id, h2 id]
      simp [Search.matched]

/-- What a sequence of searches does, from a search object whose marked
elements are strictly increasing. -/
theorem searches_spec :
    ∀ (qs : List Search) (s : ElementSearch),
      (∀ q ∈ qs, q.valid s._mesh) →
      List.Pairwise (· < ·) s._marked_elements →
      ∃ counts s1, s.searches qs = some (counts, s1) ∧
        List.Pairwise (· < ·) s1._marked_elements ∧
        (∀ id, id ∈ s1._marked_elements ↔
          id ∈ s._marked_elements ∨ ∃ q ∈ qs, q.matched s._mesh id) ∧
        counts.length = qs.length ∧
        ∀ (k : Nat) (q : Search), qs[k]? = some q →
          ∃ ids : Finset Nat, (∀ id, id ∈ ids ↔ q.matched s._mesh id) ∧
            counts[k]? = some ids.card := by
  intro qs
  induction qs with
  | nil =>
    intro s _ hp
    exact ⟨[], s, rfl, hp, fun id => by simp, rfl, fun k q h => by simp at h⟩
  | cons q rest ih =>
    intro s hvalid hp
    obtain ⟨n, s1, h1, hmesh, hp1, hmem1, ids, hids, hn⟩ := search_spec s q
      (hvalid q (List.mem_cons_self _ _)) hp
    obtain ⟨counts, s2, g1, gp, gmem, glen, gcounts⟩ := ih s1
      (fun q1 hq1 => by rw [hmesh]; exact hvalid q1 (List.mem_cons_of_mem _ hq1))
      hp1
    refine ⟨n :: counts, s2, ?_, gp, fun id => ?_, by simp [glen], ?_⟩
    · rw [ElementSearch.searches, h1]
      simp only [g1]
    · rw [gmem id, hmem1 id, hmesh]
      constructor
      · rintro ((h | h) | ⟨q1, hq1, h⟩)
        · exact Or.inr ⟨q, List.mem_cons_self _ _, h⟩
        · exact Or.inl h
        · exact Or.inr ⟨q1, List.mem_cons_of_mem _ hq1, h⟩
      · rintro (h | ⟨q1, hq1, h⟩)
        · exact Or.inl (Or.inr h)
        · rcases List.mem_cons.mp hq1 with h3 | h3
          · rw [h3] at h
            exact Or.inl (Or.inl h)
          · exact Or.inr ⟨q1, h3, h⟩
    · intro k q1 hk
      cases k with
      | zero =>
        simp only [List.getElem?_cons_zero, Option.some.injEq] at hk
        subst hk
        exact ⟨ids, hids, by rw [hn]; simp⟩
      | succ k =>
        simp only [List.getElem?_cons_succ] at hk
        obtain ⟨ids1, hids1, hc⟩ := gcounts k q1 hk
        rw [hmesh] at hids1
        exact ⟨ids1, hids1, by simpa using hc⟩

/-- C27: starting from a fresh `ElementSearch`, after any sequence of
`searchByElementType`, `searchByContent`, `searchByBoundingBox` and
`searchByNodeIDs` calls (with node ids of the mesh) the list of the marked
element ids is strictly increasing, its values are exactly the ids matched
by one of the searches, and each search has returned the number of the ids
matched by this search alone. -/
theorem marked_elements_invariant (mesh : Mesh) (qs : List Search)
    (hvalid : ∀ q ∈ qs, q.valid mesh) :
    ∃ counts s, (ElementSearch.new mesh).searches qs = some (counts, s) ∧
      List.Pairwise (· < ·) s._marked_elements ∧
      (∀ id, id ∈ s._marked_elements ↔ ∃ q ∈ qs, q.matched mesh id) ∧
      counts.length = qs.length ∧
      ∀ (k : Nat) (q : Search), qs[k]? = some q →
        ∃ ids : Finset Nat, (∀ id, id ∈ ids ↔ q.matched mesh id) ∧
          counts[k]? = some ids.card := by
  obtain ⟨counts, s, h1, h2, h3, h4, h5⟩ := searches_spec qs (ElementSearch.new mesh)
    hvalid List.Pairwise.nil
  refine ⟨counts, s, h1, h2, fun id => ?_, h4, h5⟩
  rw [h3 id]
  simp [ElementSearch.new]

/-- C27 (witness): on the mesh of three elements the search for the
triangles returns 2, the search at the nodes 3 and 1 returns 3 and the
search for the contents below `1/4` returns 1; the marked elements are
`[0, 1, 2]`. -/
theorem marked_elements_invariant_witness :
    observeSearches ((ElementSearch.new sampleMesh).searches sampleSearches) =
        some ([2, 3, 1], [0, 1, 2]) ∧
    ∃ counts s,
      (ElementSearch.new sampleMesh).searches sampleSearches = some (counts, s) ∧
      List.Pairwise (· < ·) s._marked_elements ∧
      (∀ id, id ∈ s._marked_elements ↔
        ∃ q ∈ sampleSearches, q.matched sampleMesh id) ∧
      counts.length = sampleSearches.length ∧
      ∀ (k : Nat) (q : Search), sampleSearches[k]? = some q →
        ∃ ids : Finset Nat, (∀ id, id ∈ ids ↔ q.matched sampleMesh id) ∧
          counts[k]? = some ids.card := by
  refine ⟨by decide!, marked_elements_invariant sampleMesh sampleSearches ?_⟩
  intro q hq
  simp only [sampleSearches, List.mem_cons, List.mem_singleton, List.not_mem_nil,
    or_false] at hq
  rcases hq with h | h | h
  · rw [h]; trivial
  · rw [h]
    intro node_id hn
    simp only [List.mem_cons, List.mem_singleton, List.not_mem_nil, or_false] at hn
    rcases hn with h1 | h1 <;> rw [h1] <;> decide
  · rw [h]; trivial

end MeshLib

namespace MeshLib

namespace MeshRevision

/-! ### The table of the prism -/

/-- C30: for the pair `(1, 2)` of local node indices of the bottom triangle
of a prism `lutPrismThirdNode` returns 2, which is `id2` and not the
remaining node 0, and for the pair `(1, 0)` it returns the maximum unsigned
value, not the remaining node 2. -/
theorem prism_third_node_table :
    sameTriangle 1 2 ∧ remainingNode 1 2 = 0 ∧ lutPrismThirdNode 1 2 = 2 ∧
      sameTriangle 1 0 ∧ remainingNode 1 0 = 2 ∧
      lutPrismThirdNode 1 0 = UINT_MAX := by
  decide

/-- For every pair of distinct local node indices in the same triangle of a
prism other than `(1, 2)` and `(1, 0)`, `lutPrismThirdNode` returns the
remaining node of the triangle, and for every pair that does not lie in one
triangle it returns the maximum unsigned value. -/
theorem lutPrismThirdNode_other_pairs (id1 id2 : Nat) :
    (sameTriangle id1 id2 → (id1, id2) ≠ (1, 2) → (id1, id2) ≠ (1, 0) →
      lutPrismThirdNode id1 id2 = remainingNode id1 id2 ∧
        lutPrismThirdNode id1 id2 ≠ id1 ∧ lutPrismThirdNode id1 id2 ≠ id2) ∧
    (¬ sameTriangle id1 id2 → lutPrismThirdNode id1 id2 = UINT_MAX) := by
  refine ⟨?_, ?_⟩
  · rintro ⟨hne, h | h⟩ h12 h10
    · obtain ⟨h1, h2⟩ := h
      interval_cases id1 <;> interval_cases id2 <;>
        simp_all [lutPrismThirdNode, remainingNode]
    · obtain ⟨h1, h2, h3, h4⟩ := h
      interval_cases id1 <;> interval_cases id2 <;>
        simp_all [lutPrismThirdNode, remainingNode]
  · intro h
    unfold sameTriangle at h
    unfold lutPrismThirdNode
    split_ifs <;> first | rfl | (exfalso; omega)

end MeshRevision

end MeshLib

namespace MeshLib

namespace MeshRevision

/-! ### The number of unique nodes -/

/-- The decrement of an `unsigned` counter that is not zero is the
decrement of the number. -/
theorem unsigned_decrement (count : Nat) (h0 : 0 < count)
    (h : count < 4294967296) :
    (count + 4294967295) % 4294967296 = count - 1 := by
  omega

/-- A loop that decrements an `unsigned` counter at the indices that satisfy
a test takes off the number of these indices, when the counter starts at
least as high. -/
theorem foldl_decrement (P : Nat → Bool) (l : List Nat) (count : Nat)
    (hl : (l.filter P).length ≤ count) (h : count < 4294967296) :
    l.foldl (fun c i => if P i then (c + 4294967295) % 4294967296 else c)
      count = count - (l.filter P).length := by
  induction l generalizing count with
  | nil => simp
  | cons a l ih =>
    simp only [List.foldl_cons]
    by_cases ha : P a = true
    · simp only [ha, if_true, List.filter_cons_of_pos, List.length_cons] at hl ⊢
      rw [unsigned_decrement count (by omega) h, ih (count - 1) (by omega)
        (by omega)]
      omega
    · have ha1 : P a = false := by simpa using ha
      simp only [ha1, Bool.false_eq_true, if_false] at hl ⊢
      rw [List.filter_cons_of_neg (by simp [ha1])] at hl ⊢
      exact ih count hl h

/-- The test of the inner loop: an id is found again at a later index. -/
theorem later_duplicate (ids : List Nat) (i : Nat) (hi : i < ids.length) :
    (List.range' (i + 1) (ids.length - (i + 1))).any
        (fun j => ids.getD i 0 == ids.getD j 0) = true ↔
      ids.getD i 0 ∈ ids.drop (i + 1) := by
  simp only [List.any_eq_true, List.mem_range', beq_iff_eq]
  constructor
  · rintro ⟨j, ⟨k, hk, rfl⟩, hj⟩
    rw [hj, List.mem_iff_getElem]
    refine ⟨k, by simpa using hk, ?_⟩
    rw [List.getElem_drop, List.getD_eq_getElem _ _ (by omega)]
    congr 1
    omega
  · intro h
    obtain ⟨k, hk, hk2⟩ := List.mem_iff_getElem.mp h
    rw [List.length_drop] at hk
    refine ⟨i + 1 + k, ⟨k, hk, by omega⟩, ?_⟩
    rw [← hk2, List.getElem_drop, List.getD_eq_getElem _ _ (by omega)]

/-- The indices with a later duplicate and the distinct values make up the
list. -/
theorem later_duplicates_count (ids : List Nat) :
    ((List.range ids.length).filter
        (fun i => decide (ids.getD i 0 ∈ ids.drop (i + 1)))).length +
      ids.toFinset.card = ids.length := by
  induction ids with
  | nil => simp
  | cons a l ih =>
    rw [List.length_cons, List.range_succ_eq_map, List.filter_cons,
      List.filter_map]
    have hf : (List.filter ((fun i => decide ((a :: l).getD i 0 ∈
        List.drop (i + 1) (a :: l))) ∘ Nat.succ) (List.range l.length)) =
        (List.range l.length).filter
          (fun i => decide (l.getD i 0 ∈ l.drop (i + 1))) := by
      apply List.filter_congr
      intro i _
      simp
    rw [hf]
    by_cases ha : a ∈ l
    · have h1 : l.toFinset.card = (a :: l).toFinset.card := by
        rw [List.toFinset_cons, Finset.insert_eq_of_mem (by simpa using ha)]
      simp only [List.getD_cons_zero, zero_add, List.drop_succ_cons,
        List.drop_zero, ha, decide_True, if_true, List.length_cons,
        List.length_map]
      omega
    · have h1 : (a :: l).toFinset.card = l.toFinset.card + 1 := by
        rw [List.toFinset_cons, Finset.card_insert_of_not_mem (by simpa using ha)]
      simp only [List.getD_cons_zero, zero_add, List.drop_succ_cons,
        List.drop_zero, ha, decide_False, Bool.false_eq_true, if_false,
        List.length_map]
      omega

/-- C29: for an element with at least one base node (and fewer than `2^32`,
the range of the counter), `getNumberOfUniqueNodes` returns the number of
distinct node ids among the base nodes of the element. -/
theorem unique_node_count (element : Element)
    (hnodes : 0 < element.getNumberOfBaseNodes)
    (hrange : element.getNumberOfBaseNodes < 4294967296) :
    getNumberOfUniqueNodes element =
      (element.nodes.map (fun node => node.id)).toFinset.card := by
  unfold Element.getNumberOfBaseNodes at hnodes hrange
  have hid : ∀ i, (element.getNode i).id =
      (element.nodes.map (fun node => node.id)).getD i 0 := by
    intro i
    unfold Element.getNode
    by_cases hi : i < element.nodes.length
    · rw [List.getD_eq_getElem _ _ hi,
        List.getD_eq_getElem _ _ (by simpa using hi), List.getElem_map]
    · rw [List.getD_eq_default _ _ (by omega),
        List.getD_eq_default _ _ (by simp; omega)]
      rfl
  generalize hids : element.nodes.map (fun node => node.id) = ids at hid
  have hlen : ids.length = element.nodes.length := by
    rw [← hids, List.length_map]
  unfold getNumberOfUniqueNodes Element.getNumberOfBaseNodes
  simp only [hid]
  rw [← hlen] at hnodes hrange ⊢
  rw [Nat.mod_eq_of_lt hrange, unsigned_decrement _ hnodes hrange]
  have hcount := later_duplicates_count ids
  have hlast : (List.range ids.length).filter
        (fun i => decide (ids.getD i 0 ∈ ids.drop (i + 1))) =
      (List.range (ids.length - 1)).filter
        (fun i => decide (ids.getD i 0 ∈ ids.drop (i + 1))) := by
    obtain ⟨n, hn⟩ : ∃ n, ids.length = n + 1 := ⟨ids.length - 1, by omega⟩
    rw [hn, List.range_succ, List.filter_append, Nat.add_sub_cancel]
    have hdrop : ids.drop (n + 1) = [] := List.drop_eq_nil_of_le (by omega)
    simp [hdrop]
  have hfilter : (List.range (ids.length - 1)).filter
        (fun i => (List.range' (i + 1) (ids.length - (i + 1))).any
          (fun j => ids.getD i 0 == ids.getD j 0)) =
      (List.range (ids.length - 1)).filter
        (fun i => decide (ids.getD i 0 ∈ ids.drop (i + 1))) := by
    apply List.filter_congr
    intro i hi
    rw [List.mem_range] at hi
    rw [Bool.eq_iff_iff, later_duplicate ids i (by omega)]
    simp
  rw [foldl_decrement (fun i => (List.range' (i + 1)
      (ids.length - (i + 1))).any (fun j => ids.getD i 0 == ids.getD j 0))
    _ _ (by rw [hfilter, ← hlast]; omega) hrange, hfilter, ← hlast]
  omega

/-- An element with the node ids 4, 4, 7, 4: two distinct ids. -/
theorem unique_node_count_witness :
    (0 < quadTwoIds.getNumberOfBaseNodes ∧
      quadTwoIds.getNumberOfBaseNodes < 4294967296) ∧
      getNumberOfUniqueNodes quadTwoIds = 2 :=
  ⟨by decide,
   (unique_node_count quadTwoIds (by decide) (by decide)).trans (by decide)⟩

end MeshRevision

end MeshLib

namespace MeshLib

namespace MeshRevision

/-! ### The number returned by the reduction of an element -/

/-- For a quadrilateral or a tetrahedron `reduceElement` returns 1 whatever
it appends, and it appends one element exactly when it builds the triangle
(`n_unique_nodes = 3` and `min_elem_dim < 3`) or the line
(`min_elem_dim = 1`); otherwise it appends none. -/
theorem reduceElement_quad_tet (G : Geometry) (element : Element)
    (n_unique_nodes : Nat) (nodes : Nat → Node) (min_elem_dim : Nat)
    (htype : element.geom_type = MeshElemType.QUAD ∨
      element.geom_type = MeshElemType.TETRAHEDRON) :
    (reduceElement G element n_unique_nodes nodes min_elem_dim).1 = 1 ∧
      ((n_unique_nodes = 3 ∧ min_elem_dim < 3) ∨ min_elem_dim = 1 →
        (reduceElement G element n_unique_nodes nodes min_elem_dim).2.length
          = 1) ∧
      (¬ ((n_unique_nodes = 3 ∧ min_elem_dim < 3) ∨ min_elem_dim = 1) →
        (reduceElement G element n_unique_nodes nodes min_elem_dim).2 = []) := by
  have hnot : ¬ (element.geom_type = MeshElemType.TRIANGLE ∧
      min_elem_dim = 1) := by
    rintro ⟨h, _⟩
    rcases htype with h1 | h1 <;> rw [h] at h1 <;> cases h1
  unfold reduceElement
  rw [if_neg hnot, if_pos htype]
  by_cases h3 : n_unique_nodes = 3 ∧ min_elem_dim < 3
  · rw [if_pos h3]
    exact ⟨rfl, fun _ => rfl, fun h => absurd (Or.inl h3) h⟩
  · rw [if_neg h3]
    by_cases h1 : min_elem_dim = 1
    · rw [if_pos h1]
      exact ⟨rfl, fun _ => rfl, fun h => absurd (Or.inr h1) h⟩
    · rw [if_neg h1]
      exact ⟨rfl, fun h => absurd h (by tauto), fun _ => rfl⟩

/-- For a triangle `reduceElement` returns the number of elements that it
appends: one line with `min_elem_dim = 1`, nothing otherwise. -/
theorem reduceElement_triangle (G : Geometry) (element : Element)
    (n_unique_nodes : Nat) (nodes : Nat → Node) (min_elem_dim : Nat)
    (htype : element.geom_type = MeshElemType.TRIANGLE) :
    (reduceElement G element n_unique_nodes nodes min_elem_dim).1 =
      (reduceElement G element n_unique_nodes nodes min_elem_dim).2.length := by
  unfold reduceElement
  by_cases h1 : min_elem_dim = 1
  · rw [if_pos ⟨htype, h1⟩]
    rfl
  · rw [if_neg (fun h => h1 h.2)]
    simp [htype]

/-- C28: for the quadrilateral `collapsedQuad` with two unique nodes and
`min_elem_dim = 2`, `reduceElement` returns 1 and appends no element; the
loop of `simplifyMesh` over the triangle `soundTriangle` and this
quadrilateral then makes one new element and records the two source element
ids 0 and 1, and `fillElemProperty` copies two entries of a cell property
for the one new element. -/
theorem reduced_element_count_mismatch :
    getNumberOfUniqueNodes collapsedQuad = 2 ∧
      (reduceElement planar collapsedQuad 2 newNodes 2).1 = 1 ∧
      (reduceElement planar collapsedQuad 2 newNodes 2).2 = [] ∧
      observeSimplify (simplifyMeshLoop planar newNodes 2
          [soundTriangle, collapsedQuad] 0 [] []) =
        some ([[⟨200, 0⟩, ⟨201, 1⟩, ⟨202, 2⟩]], [0, 1]) ∧
      fillElemProperty [10, 20] [0, 1] = some [10, 20] := by
  refine ⟨by decide, rfl, rfl, ?_, rfl⟩
  decide

end MeshRevision

end MeshLib
